import Mathlib

/-!
# Spring level sets: constellation maintenance and advection driver

A shallow embedding of `SpringLevelSet.cc` and `SpringLevelSetAdvection.h`.

Conventions of the embedding

* `std::vector<T>` is `List T`; `v[i]` is `v.getD i default`; `v[i] = x` is
  `v.set i x`; `push_back` is `++ [x]`; `erase(begin()+n, end())` is `take n`.
* `float`/`double` values are rationals.  Arithmetic on them is exact, except
  where the outcome of a test depends on the rounding: the quotient of the
  aspect test of `clean` is the field `fdiv` of `Env`, the quotient of the
  convergence test of `SpringLevelSetEvolve::process` is the field `ratio` of
  `EvolveOps`, and the loop of `advect1` is embedded a second time, as
  `Rounded.subStepLoop`, with the `double` sum, difference and quotient as
  parameters.  The constants these tests and the distance test of `fill`
  compare with (`MIN_AREA`, `MIN_ASPECT_RATIO`, `D2`, `Rounded.EPS`,
  `DOUBLE_0_05`) have the exact value of the `float` or `double` the compiler
  produces; every other decimal literal stands for the rational it writes.
  The square root and the other OpenVDB / utility primitives whose code is not
  part of the repository are fields of `Env`, and every theorem holds for
  every `Env`.
* `Index32` values are naturals; `INVALID_IDX` is `2^32 - 1`.  Theorems about
  index arithmetic carry the hypothesis that vertex counts stay below the
  sentinel, the range in which no 32-bit wrap-around occurs.
-/

namespace imagesci

/-! ## Vectors and constants -/

/-- The sentinel `openvdb::util::INVALID_IDX`, all 32 bits set. -/
def INVALID_IDX : Nat := 4294967295

/-- Single precision vector `openvdb::Vec3s`, with exact rational components. -/
structure Vec3s where
  x : ℚ
  y : ℚ
  z : ℚ
deriving DecidableEq, Repr

namespace Vec3s

/-- The vector `Vec3s(0.0f)`. -/
def zero : Vec3s := ⟨0, 0, 0⟩

instance : Inhabited Vec3s := ⟨zero⟩

/-- Component-wise sum. -/
def add (a b : Vec3s) : Vec3s := ⟨a.x + b.x, a.y + b.y, a.z + b.z⟩

/-- Component-wise difference. -/
def sub (a b : Vec3s) : Vec3s := ⟨a.x - b.x, a.y - b.y, a.z - b.z⟩

/-- Scalar multiple `s * a`. -/
def smul (s : ℚ) (a : Vec3s) : Vec3s := ⟨s * a.x, s * a.y, s * a.z⟩

/-- Cross product `a.cross(b)`. -/
def cross (a b : Vec3s) : Vec3s :=
  ⟨a.y * b.z - a.z * b.y, a.z * b.x - a.x * b.z, a.x * b.y - a.y * b.x⟩

/-- Squared length `a.lengthSqr()`. -/
def lengthSqr (a : Vec3s) : ℚ := a.x * a.x + a.y * a.y + a.z * a.z

end Vec3s

/-- Four unsigned indices, `openvdb::Vec4I`. -/
structure Vec4I where
  i0 : Nat
  i1 : Nat
  i2 : Nat
  i3 : Nat
deriving DecidableEq, Repr

instance : Inhabited Vec4I := ⟨⟨0, 0, 0, 0⟩⟩

/-- Component access `face[k]`. -/
def Vec4I.get (f : Vec4I) (k : Nat) : Nat :=
  match k with
  | 0 => f.i0
  | 1 => f.i1
  | 2 => f.i2
  | _ => f.i3

/-- Three unsigned indices, `openvdb::Vec3I`. -/
structure Vec3I where
  i0 : Nat
  i1 : Nat
  i2 : Nat
deriving DecidableEq, Repr

def NEAREST_NEIGHBOR_RANGE : ℚ := 3 / 2
def PARTICLE_RADIUS : ℚ := 1 / 20
def MAX_VEXT : ℚ := 1 / 2
def MAX_NEAREST_NEIGHBORS : Nat := 2
def CLEAN_DISTANCE : ℚ := 5 / 8
def MAX_AREA : ℚ := 2

/-- The constant `FILL_DISTANCE = 0.3f`: the value of the single-precision
literal, `5033165 / 2 ^ 24`. -/
def FILL_DISTANCE : ℚ := 5033165 / 16777216

/-- The constant `MIN_AREA = 0.05f`: the value of the single-precision literal,
`13421773 / 2 ^ 28`. -/
def MIN_AREA : ℚ := 13421773 / 268435456

/-- The constant `MIN_ASPECT_RATIO = 0.1f`: the value of the single-precision
literal, `13421773 / 2 ^ 27`. -/
def MIN_ASPECT_RATIO : ℚ := 13421773 / 134217728

/-- The local constant `const float D2 = FILL_DISTANCE * FILL_DISTANCE` of
`fill`: the single-precision product of `0.3f` with itself, `12079596 / 2 ^ 27`,
which is 0.0900000036 to ten places. -/
def D2 : ℚ := 3019899 / 33554432

/-- The value `std::numeric_limits<float>::max()`. -/
def FLT_MAX : ℚ := 340282346638528859811704183484516925440

/-! ## Primitives that live outside the repository -/

/-- One record of a neighbour list, `SpringlNeighbor`. -/
structure SpringlNeighbor where
  springlId : Nat
  edgeId : Int
  distance : ℚ
deriving DecidableEq

/-- The OpenVDB and utility primitives the code calls: `std::sqrt`, the
normalisation `Vec3s::normalize(eps)`, the trilinear `BoxStencil::interpolation`
of the signed level set, the values of a `DenseStencil` over the springl index
grid (given its half width and the point it is moved to, already converted to
`Index32`), and the point-to-primitive distance helpers; and `fdiv`, the
quotient `a / b` of two `float` values as single-precision division returns
it, which is what the aspect test of `clean` compares. -/
structure Env where
  fdiv : ℚ → ℚ → ℚ
  sqrt : ℚ → ℚ
  normalize : Vec3s → Vec3s
  interpolation : Vec3s → ℚ
  denseStencil : Nat → Vec3s → List Nat
  DistanceToTriangleSqr : Vec3s → Vec3s → Vec3s → Vec3s → ℚ
  DistanceToQuadSqr : Vec3s → Vec3s → Vec3s → Vec3s → Vec3s → Vec3s → ℚ
  DistanceToEdgeSqr : Vec3s → Vec3s → Vec3s → ℚ

/-- Length `a.length()`, the square root of the squared length. -/
def Env.length (env : Env) (a : Vec3s) : ℚ := env.sqrt a.lengthSqr

/-! ## The constellation -/

/-- The descriptor of one surface element: its id and the offset of its vertex
block.  The back pointer to the owning mesh is the `Constellation` argument of
the operations below. -/
structure Springl where
  id : Nat
  offset : Nat
deriving DecidableEq, Repr

instance : Inhabited Springl := ⟨⟨0, 0⟩⟩

/-- The input mesh of `Constellation::create`. -/
structure Mesh where
  mVertexes : List Vec3s
  mFaces : List Vec4I
  mQuadIndexes : List Nat
  mTriIndexes : List Nat
  mParticleVelocity : List Vec3s
  mVertexVelocity : List Vec3s

/-- The parallel arrays of the constellation and its springl descriptors. -/
structure Constellation where
  mVertexes : List Vec3s
  mVertexNormals : List Vec3s
  mParticles : List Vec3s
  mParticleNormals : List Vec3s
  mParticleVelocity : List Vec3s
  mVertexVelocity : List Vec3s
  mParticleLabel : List Nat
  mFaces : List Vec4I
  mQuadIndexes : List Nat
  mTriIndexes : List Nat
  springls : List Springl
deriving DecidableEq, Repr

namespace Constellation

/-- Accessor `getNumSpringls()`. -/
def getNumSpringls (c : Constellation) : Nat := c.springls.length

/-- Accessor `getNumVertexes()`. -/
def getNumVertexes (c : Constellation) : Nat := c.mVertexes.length

/-- Embeds `Springl::size()`: 3 when the fourth index of the face stored under the
springl id is the sentinel, 4 otherwise. -/
def size (c : Constellation) (s : Springl) : Nat :=
  if (c.mFaces.getD s.id default).i3 = INVALID_IDX then 3 else 4

/-- Embeds `Springl::operator[]`: local vertex `k` of the element. -/
def vertex (c : Constellation) (s : Springl) (k : Nat) : Vec3s :=
  c.mVertexes.getD (s.offset + k) default

/-- Embeds `Springl::particle()`. -/
def particle (c : Constellation) (s : Springl) : Vec3s :=
  c.mParticles.getD s.id default

/-- Embeds `Springl::normal()`. -/
def normal (c : Constellation) (s : Springl) : Vec3s :=
  c.mParticleNormals.getD s.id default

/-- Embeds `Springl::computeCentroid()`: the vertices are summed in order and the sum
is scaled by `1.0 / K`. -/
def computeCentroid (c : Constellation) (s : Springl) : Vec3s :=
  let K := c.size s
  Vec3s.smul (1 / (K : ℚ))
    ((List.range K).foldl (fun acc k => Vec3s.add acc (c.vertex s k)) Vec3s.zero)

/-- The cross product sum shared by `computeNormal` and `area`. -/
def crossSum (c : Constellation) (s : Springl) : Vec3s :=
  let K := c.size s
  let pt := c.particle s
  (List.range K).foldl
    (fun acc k =>
      Vec3s.add acc
        (Vec3s.cross (Vec3s.sub (c.vertex s k) pt) (Vec3s.sub (c.vertex s ((k + 1) % K)) pt)))
    Vec3s.zero

/-- Embeds `Springl::computeNormal()`. -/
def computeNormal (env : Env) (c : Constellation) (s : Springl) : Vec3s :=
  env.normalize (c.crossSum s)

/-- Embeds `Springl::area()`. -/
def area (env : Env) (c : Constellation) (s : Springl) : ℚ :=
  (1 / 2) * env.length (c.crossSum s)

/-- Embeds `Springl::distanceToFaceSqr(pt)`. -/
def distanceToFaceSqr (env : Env) (c : Constellation) (s : Springl) (pt : Vec3s) : ℚ :=
  if c.size s = 3 then
    env.DistanceToTriangleSqr pt (c.vertex s 0) (c.vertex s 1) (c.vertex s 2)
  else
    env.DistanceToQuadSqr pt (c.vertex s 0) (c.vertex s 1) (c.vertex s 2) (c.vertex s 3)
      (c.normal s)

/-- Embeds `Springl::distanceToEdgeSqr(pt, e)`. -/
def distanceToEdgeSqr (env : Env) (c : Constellation) (s : Springl) (pt : Vec3s) (e : Nat) : ℚ :=
  env.DistanceToEdgeSqr pt (c.vertex s e) (c.vertex s ((e + 1) % c.size s))

end Constellation

/-- Embeds `std::vector::resize(n)`: truncate, or pad with value-initialised entries. -/
def resize {α : Type} [Inhabited α] (l : List α) (n : Nat) : List α :=
  l.take n ++ List.replicate (n - l.length) default

/-! ## `Constellation::create` -/

/-- Loop state of `Constellation::create`: the constellation under
construction and the running vertex and particle counters. -/
structure CreateState where
  c : Constellation
  counter : Nat
  pcounter : Nat

/-- One iteration of the face loop of `Constellation::create`. -/
def createStep (env : Env) (mesh : Mesh) (st : CreateState) (face : Vec4I) : CreateState :=
  let counter := st.counter
  let pcounter := st.pcounter
  let springl : Springl := ⟨st.c.springls.length, counter⟩
  if face.i3 ≠ INVALID_IDX then
    let c1 : Constellation :=
      { st.c with
        mFaces := st.c.mFaces ++ [⟨counter, counter + 1, counter + 2, counter + 3⟩]
        mQuadIndexes := st.c.mQuadIndexes ++ [counter, counter + 1, counter + 2, counter + 3]
        mVertexes :=
          ((((st.c.mVertexes.set counter (mesh.mVertexes.getD face.i0 default)).set
            (counter + 1) (mesh.mVertexes.getD face.i1 default)).set
            (counter + 2) (mesh.mVertexes.getD face.i2 default)).set
            (counter + 3) (mesh.mVertexes.getD face.i3 default)) }
    let c2 : Constellation :=
      { c1 with mParticles := c1.mParticles.set pcounter (c1.computeCentroid springl) }
    let norm := c2.computeNormal env springl
    let c3 : Constellation :=
      { c2 with
        mParticleNormals := c2.mParticleNormals.set pcounter norm
        mVertexNormals :=
          (((c2.mVertexNormals.set (counter + 3) norm).set (counter + 2) norm).set
            (counter + 1) norm).set counter norm
        springls := c2.springls ++ [springl] }
    ⟨c3, counter + 4, pcounter + 1⟩
  else
    let c1 : Constellation :=
      { st.c with
        mFaces := st.c.mFaces ++ [⟨counter, counter + 1, counter + 2, INVALID_IDX⟩]
        mTriIndexes := st.c.mTriIndexes ++ [counter, counter + 1, counter + 2]
        mVertexes :=
          (((st.c.mVertexes.set counter (mesh.mVertexes.getD face.i0 default)).set
            (counter + 1) (mesh.mVertexes.getD face.i1 default)).set
            (counter + 2) (mesh.mVertexes.getD face.i2 default)) }
    let c2 : Constellation :=
      { c1 with mParticles := c1.mParticles.set pcounter (c1.computeCentroid springl) }
    let norm := c2.computeNormal env springl
    let c3 : Constellation :=
      { c2 with
        mParticleNormals := c2.mParticleNormals.set pcounter norm
        mVertexNormals :=
          ((c2.mVertexNormals.set (counter + 2) norm).set (counter + 1) norm).set counter norm
        springls := c2.springls ++ [springl] }
    ⟨c3, counter + 3, pcounter + 1⟩

/-- The constellation as `Constellation::create` leaves it before the face loop:
the containers are cleared or resized and the velocities copied from the mesh. -/
def createInit (c : Constellation) (mesh : Mesh) : Constellation :=
  let nv := mesh.mQuadIndexes.length + mesh.mTriIndexes.length
  { c with
    springls := []
    mFaces := []
    mQuadIndexes := []
    mTriIndexes := []
    mVertexes := resize [] nv
    mParticles := resize c.mParticles mesh.mFaces.length
    mParticleNormals := resize c.mParticleNormals mesh.mFaces.length
    mVertexNormals := resize c.mVertexNormals nv
    mParticleVelocity := mesh.mParticleVelocity
    mVertexVelocity := mesh.mVertexVelocity }

/-- Embeds `Constellation::create(mesh)`, applied to the constellation `c`. -/
def Constellation.create (env : Env) (c : Constellation) (mesh : Mesh) : Constellation :=
  (mesh.mFaces.foldl (createStep env mesh) ⟨createInit c mesh, 0, 0⟩).c

/-! ## The spring level set aggregate -/

/-- One entry of the polygon pool list of the iso-surface extractor. -/
structure PolygonPool where
  quads : List Vec4I
  triangles : List Vec3I

/-- The part of `SpringLevelSet` the maintenance operators read and write: the
constellation, the neighbour map, the pending fill list, the counters and the
point and polygon pools of `mVolToMesh`.  The signed level set and the springl
index grid are read through `Env`. -/
structure SpringLevelSet where
  mConstellation : Constellation
  mNearestNeighbors : List (List SpringlNeighbor)
  fillList : List Nat
  mFillCount : Nat
  mCleanCount : Nat
  pointList : List Vec3s
  polygonPoolList : List PolygonPool

/-! ## `SpringLevelSet::clean` -/

/-- The edge loop of `clean`: the running minimum and maximum edge length,
started at `1E30` and `-1E30`. -/
def edgeMinMax (env : Env) (c : Constellation) (s : Springl) : ℚ × ℚ :=
  let K := c.size s
  (List.range K).foldl
    (fun mm i =>
      let len := env.length (Vec3s.sub (c.vertex s i) (c.vertex s ((i + 1) % K)))
      (min mm.1 len, max mm.2 len))
    ((10 : ℚ) ^ 30, -(10 : ℚ) ^ 30)

/-- The test of the classification loop of `clean`: the element is pushed on
the keep list exactly when this holds. -/
def cleanKeeps (env : Env) (c : Constellation) (s : Springl) : Bool :=
  let levelSetValue := env.interpolation (c.particle s)
  let v := |levelSetValue|
  if v ≤ CLEAN_DISTANCE then
    let mm := edgeMinMax env c s
    let aspect := env.fdiv mm.1 mm.2
    let area := c.area env s
    decide (area ≥ MIN_AREA ∧ area < MAX_AREA ∧ aspect ≥ MIN_ASPECT_RATIO)
  else
    false

/-- The keep list built by the classification loop: the ids of the elements
that pass, in traversal order. -/
def keepList (env : Env) (c : Constellation) : List Nat :=
  (c.springls.filter (cleanKeeps env c)).map Springl.id

/-- The copy loop `for k < K: a[dst + k] = a[src + k]`, in increasing `k`. -/
def copyRange {α : Type} [Inhabited α] (a : List α) (dst src K : Nat) : List α :=
  (List.range K).foldl (fun l k => l.set (dst + k) (l.getD (src + k) default)) a

/-- The store loop `for k < K: a[dst + k] = base + k`. -/
def storeRange (a : List Nat) (dst base K : Nat) : List Nat :=
  (List.range K).foldl (fun l k => l.set (dst + k) (base + k)) a

/-- Component assignment `quad[k] = v`. -/
def Vec4I.set (f : Vec4I) (k v : Nat) : Vec4I :=
  match k with
  | 0 => { f with i0 := v }
  | 1 => { f with i1 := v }
  | 2 => { f with i2 := v }
  | _ => { f with i3 := v }

/-- Loop state of the compaction pass of `clean`. -/
structure CleanState where
  c : Constellation
  springlOffset : Nat
  vertexOffset : Nat
  quadIndex : Nat
  triIndex : Nat

/-- One iteration of the compaction loop of `clean`, for the kept id `n`. -/
def cleanStep (st : CleanState) (n : Nat) : CleanState :=
  let c := st.c
  let rspringl := c.springls.getD n default
  let springl := c.springls.getD st.springlOffset default
  let K := c.size rspringl
  let c1 : Constellation :=
    if st.springlOffset ≠ n then
      { c with
        mParticles := c.mParticles.set st.springlOffset (c.mParticles.getD n default)
        mParticleVelocity :=
          if c.mParticleVelocity.length > 0 then
            c.mParticleVelocity.set st.springlOffset (c.mParticleVelocity.getD n default)
          else c.mParticleVelocity
        mVertexVelocity :=
          if c.mVertexVelocity.length > 0 then
            copyRange c.mVertexVelocity springl.offset rspringl.offset (c.size springl)
          else c.mVertexVelocity
        mParticleLabel :=
          if c.mParticleLabel.length > 0 then
            c.mParticleLabel.set st.springlOffset (c.mParticleLabel.getD n default)
          else c.mParticleLabel
        mParticleNormals :=
          c.mParticleNormals.set st.springlOffset (c.mParticleNormals.getD n default)
        springls := c.springls.set st.springlOffset ⟨st.springlOffset, st.vertexOffset⟩
        mVertexes := copyRange c.mVertexes st.vertexOffset rspringl.offset K
        mVertexNormals := copyRange c.mVertexNormals st.vertexOffset rspringl.offset K
        mQuadIndexes :=
          if K = 4 then storeRange c.mQuadIndexes st.quadIndex st.vertexOffset K
          else c.mQuadIndexes
        mTriIndexes :=
          if K = 4 then c.mTriIndexes
          else if K = 3 then storeRange c.mTriIndexes st.triIndex st.vertexOffset K
          else c.mTriIndexes
        mFaces :=
          c.mFaces.set st.springlOffset
            ((List.range K).foldl (fun q k => q.set k (st.vertexOffset + k))
              ⟨0, 0, 0, INVALID_IDX⟩) }
    else c
  { c := c1
    springlOffset := st.springlOffset + 1
    vertexOffset := st.vertexOffset + K
    quadIndex := if K = 4 then st.quadIndex + K else st.quadIndex
    triIndex := if K = 4 then st.triIndex else if K = 3 then st.triIndex + K else st.triIndex }

/-- The tail erasures that end `clean`. -/
def cleanErase (st : CleanState) : Constellation :=
  let c := st.c
  { c with
    mTriIndexes := c.mTriIndexes.take st.triIndex
    mQuadIndexes := c.mQuadIndexes.take st.quadIndex
    springls := c.springls.take st.springlOffset
    mParticles := c.mParticles.take st.springlOffset
    mParticleVelocity :=
      if c.mParticleVelocity.length > 0 then c.mParticleVelocity.take st.springlOffset
      else c.mParticleVelocity
    mVertexVelocity :=
      if c.mVertexVelocity.length > 0 then c.mVertexVelocity.take st.vertexOffset
      else c.mVertexVelocity
    mParticleNormals := c.mParticleNormals.take st.springlOffset
    mFaces := c.mFaces.take st.springlOffset
    mVertexNormals := c.mVertexNormals.take st.vertexOffset
    mVertexes := c.mVertexes.take st.vertexOffset }

/-- The compaction of a constellation along a keep list: the loop followed by
the erasures. -/
def compact (c : Constellation) (keep : List Nat) : Constellation :=
  cleanErase (keep.foldl cleanStep ⟨c, 0, 0, 0, 0⟩)

/-- Embeds `SpringLevelSet::clean()`: the new state and the returned count. -/
def SpringLevelSet.clean (env : Env) (g : SpringLevelSet) : SpringLevelSet × Nat :=
  let N := g.mConstellation.getNumSpringls
  let keep := keepList env g.mConstellation
  let newSpringlCount := keep.length
  if newSpringlCount = N then (g, 0)
  else
    ({ g with
        mConstellation := compact g.mConstellation keep
        mCleanCount := g.mCleanCount + (N - newSpringlCount) },
      N - newSpringlCount)

/-! ## `SpringLevelSet::fill` -/

/-- The first loop over the stencil in `fill`: the ids below the element count
taken at the start of the call, in stencil order. -/
def stencilCopy (env : Env) (springlsCount : Nat) (refPoint : Vec3s) : List Nat :=
  (env.denseStencil 1 refPoint).filter (fun id => decide (id < springlsCount))

/-- The second loop over the sorted stencil copy in `fill`: the running minimum
`levelSetValue` of the squared face distances, skipping an id equal to the
previous one; `last` starts as `-1`, which compares as `INVALID_IDX`. -/
def nearestSqr (env : Env) (c : Constellation) (refPoint : Vec3s) (ids : List Nat) : ℚ :=
  ((ids.insertionSort (· ≤ ·)).foldl
    (fun (st : Nat × ℚ) id =>
      let lsv :=
        if st.1 ≠ id then
          let d := c.distanceToFaceSqr env (c.springls.getD id default) refPoint
          if d < st.2 then d else st.2
        else st.2
      (id, lsv))
    (INVALID_IDX, FLT_MAX)).2

/-- The test `levelSetValue > D2` that guards the instantiation of a polygon. -/
def fillAccepts (env : Env) (c : Constellation) (springlsCount : Nat) (refPoint : Vec3s) : Bool :=
  decide (nearestSqr env c refPoint (stencilCopy env springlsCount refPoint) > D2)

/-- Loop state of `fill`: the constellation, the vertex counter, the number of
elements added and the fill list. -/
structure FillState where
  c : Constellation
  counter : Nat
  pcounter : Nat
  added : Nat
  fillList : List Nat

/-- The critical section that appends a quad with corners `p0 .. p3`. -/
def appendQuad (env : Env) (st : FillState) (p0 p1 p2 p3 : Vec3s) : FillState :=
  let c := st.c
  let counter := st.counter
  let c1 : Constellation :=
    { c with
      mQuadIndexes := c.mQuadIndexes ++ [counter, counter + 1, counter + 2, counter + 3]
      mVertexes := c.mVertexes ++ [p0, p1, p2, p3] }
  let springl : Springl := ⟨c1.springls.length, counter⟩
  let c2 : Constellation :=
    { c1 with mFaces := c1.mFaces ++ [⟨counter, counter + 1, counter + 2, counter + 3⟩] }
  let c3 : Constellation :=
    { c2 with mParticles := c2.mParticles ++ [c2.computeCentroid springl] }
  let hasVel := decide (c3.mParticleVelocity.length > 0)
  let c4 : Constellation :=
    { c3 with
      mParticleVelocity :=
        if hasVel then c3.mParticleVelocity ++ [Vec3s.zero] else c3.mParticleVelocity
      mVertexVelocity :=
        if c3.mVertexVelocity.length > 0 then
          c3.mVertexVelocity ++ [Vec3s.zero, Vec3s.zero, Vec3s.zero, Vec3s.zero]
        else c3.mVertexVelocity
      mParticleLabel :=
        if c3.mParticleLabel.length > 0 then c3.mParticleLabel ++ [0] else c3.mParticleLabel }
  let norm := c4.computeNormal env springl
  let c5 : Constellation :=
    { c4 with
      mParticleNormals := c4.mParticleNormals ++ [norm]
      mVertexNormals := c4.mVertexNormals ++ [norm, norm, norm, norm]
      springls := c4.springls ++ [springl] }
  { c := c5
    counter := counter + 4
    pcounter := st.pcounter + 1
    added := st.added + 1
    fillList := if hasVel then st.fillList ++ [springl.id] else st.fillList }

/-- The critical section that appends a triangle with corners `p0 .. p2`. -/
def appendTri (env : Env) (st : FillState) (p0 p1 p2 : Vec3s) : FillState :=
  let c := st.c
  let counter := st.counter
  let c1 : Constellation :=
    { c with
      mTriIndexes := c.mTriIndexes ++ [counter, counter + 1, counter + 2]
      mVertexes := c.mVertexes ++ [p0, p1, p2] }
  let springl : Springl := ⟨c1.springls.length, counter⟩
  let c2 : Constellation :=
    { c1 with mFaces := c1.mFaces ++ [⟨counter, counter + 1, counter + 2, INVALID_IDX⟩] }
  let c3 : Constellation :=
    { c2 with mParticles := c2.mParticles ++ [c2.computeCentroid springl] }
  let hasVel := decide (c3.mParticleVelocity.length > 0)
  let c4 : Constellation :=
    { c3 with
      mParticleVelocity :=
        if hasVel then c3.mParticleVelocity ++ [Vec3s.zero] else c3.mParticleVelocity
      mVertexVelocity :=
        if c3.mVertexVelocity.length > 0 then
          c3.mVertexVelocity ++ [Vec3s.zero, Vec3s.zero, Vec3s.zero]
        else c3.mVertexVelocity
      mParticleLabel :=
        if c3.mParticleLabel.length > 0 then c3.mParticleLabel ++ [0] else c3.mParticleLabel }
  let norm := c4.computeNormal env springl
  let c5 : Constellation :=
    { c4 with
      mParticleNormals := c4.mParticleNormals ++ [norm]
      mVertexNormals := c4.mVertexNormals ++ [norm, norm, norm]
      springls := c4.springls ++ [springl] }
  { c := c5
    counter := counter + 3
    pcounter := st.pcounter + 1
    added := st.added + 1
    fillList := if hasVel then st.fillList ++ [springl.id] else st.fillList }

/-- The reference point `0.25f * (p[0] + p[1] + p[2] + p[3])` of a quad. -/
def quadRefPoint (p0 p1 p2 p3 : Vec3s) : Vec3s :=
  Vec3s.smul (1 / 4) (Vec3s.add (Vec3s.add (Vec3s.add p0 p1) p2) p3)

/-- The reference point `0.25f * (p[0] + p[1] + p[2])` of a triangle. -/
def triRefPoint (p0 p1 p2 : Vec3s) : Vec3s :=
  Vec3s.smul (1 / 4) (Vec3s.add (Vec3s.add p0 p1) p2)

/-- One iteration of the quad loop of `fill`. -/
def fillQuad (env : Env) (pointList : List Vec3s) (springlsCount : Nat) (st : FillState)
    (quad : Vec4I) : FillState :=
  let p0 := pointList.getD quad.i3 default
  let p1 := pointList.getD quad.i2 default
  let p2 := pointList.getD quad.i1 default
  let p3 := pointList.getD quad.i0 default
  if fillAccepts env st.c springlsCount (quadRefPoint p0 p1 p2 p3) then
    appendQuad env st p0 p1 p2 p3
  else st

/-- One iteration of the triangle loop of `fill`. -/
def fillTri (env : Env) (pointList : List Vec3s) (springlsCount : Nat) (st : FillState)
    (tri : Vec3I) : FillState :=
  let p0 := pointList.getD tri.i2 default
  let p1 := pointList.getD tri.i1 default
  let p2 := pointList.getD tri.i0 default
  if fillAccepts env st.c springlsCount (triRefPoint p0 p1 p2) then
    appendTri env st p0 p1 p2
  else st

/-- One iteration of the pool loop of `fill`: the quads of the pool, then its
triangles. -/
def fillPool (env : Env) (pointList : List Vec3s) (springlsCount : Nat) (st : FillState)
    (pool : PolygonPool) : FillState :=
  pool.triangles.foldl (fillTri env pointList springlsCount)
    (pool.quads.foldl (fillQuad env pointList springlsCount) st)

/-- The state of `fill` when its loops are done. -/
def fillLoop (env : Env) (g : SpringLevelSet) : FillState :=
  g.polygonPoolList.foldl
    (fillPool env g.pointList g.mConstellation.getNumSpringls)
    { c := g.mConstellation
      counter := g.mConstellation.getNumVertexes
      pcounter := g.mConstellation.getNumSpringls
      added := 0
      fillList := [] }

/-- Embeds `SpringLevelSet::fill()`: the new state and the returned count. -/
def SpringLevelSet.fill (env : Env) (g : SpringLevelSet) : SpringLevelSet × Nat :=
  let st := fillLoop env g
  ({ g with
      mConstellation := st.c
      fillList := st.fillList
      mFillCount := g.mFillCount + st.added },
    st.added)

/-! ## The structural invariant -/

/-- The face entry of an element with `k` vertices whose block starts at `off`:
`(off, off+1, off+2, off+3)` for a quad, the sentinel in slot 3 for a triangle. -/
def blockFace (off k : Nat) : Vec4I :=
  if k = 4 then ⟨off, off + 1, off + 2, off + 3⟩ else ⟨off, off + 1, off + 2, INVALID_IDX⟩

/-- The vertex indices an element contributes to the quad stream. -/
def quadEntries (off k : Nat) : List Nat :=
  if k = 4 then [off, off + 1, off + 2, off + 3] else []

/-- The vertex indices an element contributes to the triangle stream. -/
def triEntries (off k : Nat) : List Nat :=
  if k = 4 then [] else [off, off + 1, off + 2]

/-- The descriptors of consecutive elements with sizes `ks`, the first with id
`i` and offset `off`. -/
def layoutSpringls (i off : Nat) : List Nat → List Springl
  | [] => []
  | k :: ks => ⟨i, off⟩ :: layoutSpringls (i + 1) (off + k) ks

/-- The face entries of consecutive elements with sizes `ks`. -/
def layoutFaces (off : Nat) : List Nat → List Vec4I
  | [] => []
  | k :: ks => blockFace off k :: layoutFaces (off + k) ks

/-- The quad index stream of consecutive elements with sizes `ks`. -/
def layoutQuads (off : Nat) : List Nat → List Nat
  | [] => []
  | k :: ks => quadEntries off k ++ layoutQuads (off + k) ks

/-- The triangle index stream of consecutive elements with sizes `ks`. -/
def layoutTris (off : Nat) : List Nat → List Nat
  | [] => []
  | k :: ks => triEntries off k ++ layoutTris (off + k) ks

/-- The constellation is laid out as consecutive elements of sizes `ks`: ids
are positions, offsets are running sums of sizes, faces and index streams
enumerate the vertex blocks, and the arrays have matching lengths. -/
structure Constellation.Layout (c : Constellation) (ks : List Nat) : Prop where
  sizes : ∀ k ∈ ks, k = 3 ∨ k = 4
  springls_eq : c.springls = layoutSpringls 0 0 ks
  faces_eq : c.mFaces = layoutFaces 0 ks
  quads_eq : c.mQuadIndexes = layoutQuads 0 ks
  tris_eq : c.mTriIndexes = layoutTris 0 ks
  vertexes_len : c.mVertexes.length = ks.sum
  vnormals_len : c.mVertexNormals.length = ks.sum
  particles_len : c.mParticles.length = ks.length
  pnormals_len : c.mParticleNormals.length = ks.length
  bound : ks.sum ≤ INVALID_IDX

/-- The structural invariant of the constellation. -/
def Constellation.WF (c : Constellation) : Prop := ∃ ks, c.Layout ks

/-- The sizes of all elements, in element order. -/
def Constellation.sizes (c : Constellation) : List Nat := c.springls.map c.size

/-- Number of quad elements. -/
def Constellation.numQuads (c : Constellation) : Nat :=
  c.springls.countP (fun s => decide (c.size s = 4))

/-- Number of triangle elements. -/
def Constellation.numTris (c : Constellation) : Nat :=
  c.springls.countP (fun s => decide (c.size s = 3))

/-- The invariant in the words of the data model: ids are positions, sizes are
3 or 4 according to the sentinel, offsets are the sums of the preceding sizes,
every block fits in the vertex array, and the array lengths agree. -/
def Constellation.Aligned (c : Constellation) : Prop :=
  (∀ i, i < c.springls.length →
    (c.springls.getD i default).id = i ∧
    (c.size (c.springls.getD i default) = 3 ∨ c.size (c.springls.getD i default) = 4) ∧
    (c.size (c.springls.getD i default) = 3 ↔
      (c.mFaces.getD i default).i3 = INVALID_IDX) ∧
    (c.springls.getD i default).offset = ((c.springls.take i).map c.size).sum ∧
    (c.springls.getD i default).offset + c.size (c.springls.getD i default)
      ≤ c.mVertexes.length) ∧
  c.mVertexes.length = 4 * c.numQuads + 3 * c.numTris ∧
  c.mVertexNormals.length = c.mVertexes.length ∧
  c.mQuadIndexes.length = 4 * c.numQuads ∧
  c.mTriIndexes.length = 3 * c.numTris ∧
  c.mParticles.length = c.springls.length ∧
  c.mParticleNormals.length = c.springls.length ∧
  c.mFaces.length = c.springls.length

/-- The mesh handed to `create` is consistent: the quad and triangle index
streams hold 4 and 3 entries per quad and triangle face. -/
def Mesh.Consistent (m : Mesh) : Prop :=
  m.mQuadIndexes.length = 4 * m.mFaces.countP (fun f => decide (f.i3 ≠ INVALID_IDX)) ∧
  m.mTriIndexes.length = 3 * m.mFaces.countP (fun f => decide (f.i3 = INVALID_IDX))

/-- A maintenance call: `clean` against a signed field, or `fill` against an
index grid and a freshly extracted iso-surface. -/
inductive MaintOp where
  | clean (env : Env)
  | fill (env : Env) (pointList : List Vec3s) (polygonPoolList : List PolygonPool)

/-- The effect of one maintenance call on the aggregate. -/
def MaintOp.apply (g : SpringLevelSet) : MaintOp → SpringLevelSet
  | .clean env => (g.clean env).1
  | .fill env pts pools =>
      (SpringLevelSet.fill env { g with pointList := pts, polygonPoolList := pools }).1

/-- The aggregate after a sequence of maintenance calls. -/
def runOps (g : SpringLevelSet) (ops : List MaintOp) : SpringLevelSet :=
  ops.foldl MaintOp.apply g

/-- Offsets of a shape: the sum of the first `n` sizes. -/
def offs (ks : List Nat) (n : Nat) : Nat := (ks.take n).sum

/-- The `K` entries of `l` that start at `off`. -/
def block {α : Type} (l : List α) (off K : Nat) : List α := (l.drop off).take K

/-- The blocks of the elements `keep` of a per-vertex array, concatenated. -/
def gather {α : Type} (l : List α) (ks : List Nat) (keep : List Nat) : List α :=
  keep.flatMap (fun n => block l (offs ks n) (ks.getD n 0))

/-- The sizes of the elements `keep` of a shape. -/
def keptSizes (ks keep : List Nat) : List Nat := keep.map (fun n => ks.getD n 0)

/-- The loop invariant of the compaction pass of `clean`, after the kept ids
`pre` have been processed: the front of every array holds the compacted
elements and the rest is as in the constellation `c0` the pass started from. -/
structure CleanInv (c0 : Constellation) (ks pre : List Nat) (st : CleanState) : Prop where
  so : st.springlOffset = pre.length
  vo : st.vertexOffset = (keptSizes ks pre).sum
  qi : st.quadIndex = (layoutQuads 0 (keptSizes ks pre)).length
  ti : st.triIndex = (layoutTris 0 (keptSizes ks pre)).length
  springls : st.c.springls = layoutSpringls 0 0 (keptSizes ks pre) ++ c0.springls.drop pre.length
  faces : st.c.mFaces = layoutFaces 0 (keptSizes ks pre) ++ c0.mFaces.drop pre.length
  particles : st.c.mParticles
    = pre.map (fun n => c0.mParticles.getD n default) ++ c0.mParticles.drop pre.length
  pnormals : st.c.mParticleNormals
    = pre.map (fun n => c0.mParticleNormals.getD n default) ++ c0.mParticleNormals.drop pre.length
  vertexes : st.c.mVertexes
    = gather c0.mVertexes ks pre ++ c0.mVertexes.drop (keptSizes ks pre).sum
  vnormals : st.c.mVertexNormals
    = gather c0.mVertexNormals ks pre ++ c0.mVertexNormals.drop (keptSizes ks pre).sum
  quads : st.c.mQuadIndexes
    = layoutQuads 0 (keptSizes ks pre)
      ++ c0.mQuadIndexes.drop (layoutQuads 0 (keptSizes ks pre)).length
  tris : st.c.mTriIndexes
    = layoutTris 0 (keptSizes ks pre)
      ++ c0.mTriIndexes.drop (layoutTris 0 (keptSizes ks pre)).length

/-- The number of vertices of a mesh face: 3 when its fourth index is the
sentinel, 4 otherwise. -/
def faceSize (f : Vec4I) : Nat := if f.i3 = INVALID_IDX then 3 else 4

/-- The loop invariant of `Constellation::create` after the faces `fs`: the
descriptors, faces and index streams are laid out for the sizes of `fs`, the
counters are the vertex and element counts, and the pre-sized arrays keep the
lengths `nv` and `nf` they were given before the loop. -/
structure CreateInv (nv nf : Nat) (fs : List Vec4I) (st : CreateState) : Prop where
  counter_eq : st.counter = (fs.map faceSize).sum
  pcounter_eq : st.pcounter = fs.length
  springls_eq : st.c.springls = layoutSpringls 0 0 (fs.map faceSize)
  faces_eq : st.c.mFaces = layoutFaces 0 (fs.map faceSize)
  quads_eq : st.c.mQuadIndexes = layoutQuads 0 (fs.map faceSize)
  tris_eq : st.c.mTriIndexes = layoutTris 0 (fs.map faceSize)
  vertexes_len : st.c.mVertexes.length = nv
  vnormals_len : st.c.mVertexNormals.length = nv
  particles_len : st.c.mParticles.length = nf
  pnormals_len : st.c.mParticleNormals.length = nf

/-- The invariant of the loops of `fill`: the constellation is well laid out
and the vertex counter is the vertex count. -/
def FillInv (st : FillState) : Prop :=
  st.c.WF ∧ st.counter = st.c.mVertexes.length

/-- The relation between the constellation `c0` at the start of `fill` and the
loop state after elements of sizes `ks` have been appended: every array is the
old array followed by the entries of the new elements. -/
structure FillRel (c0 : Constellation) (ks : List Nat) (st : FillState) : Prop where
  sizes : ∀ k ∈ ks, k = 3 ∨ k = 4
  counter_eq : st.counter = c0.mVertexes.length + ks.sum
  added_eq : st.added = ks.length
  springls_eq : st.c.springls
    = c0.springls ++ layoutSpringls c0.springls.length c0.mVertexes.length ks
  faces_eq : st.c.mFaces = c0.mFaces ++ layoutFaces c0.mVertexes.length ks
  quads_eq : st.c.mQuadIndexes = c0.mQuadIndexes ++ layoutQuads c0.mVertexes.length ks
  tris_eq : st.c.mTriIndexes = c0.mTriIndexes ++ layoutTris c0.mVertexes.length ks
  vertexes_eq : ∃ vs, st.c.mVertexes = c0.mVertexes ++ vs ∧ vs.length = ks.sum
  vnormals_eq : ∃ ns, st.c.mVertexNormals = c0.mVertexNormals ++ ns ∧ ns.length = ks.sum
  particles_eq : ∃ ps, st.c.mParticles = c0.mParticles ++ ps ∧ ps.length = ks.length
  pnormals_eq : ∃ ns, st.c.mParticleNormals = c0.mParticleNormals ++ ns ∧ ns.length = ks.length
  pvelocity_eq : st.c.mParticleVelocity
    = c0.mParticleVelocity
      ++ (if c0.mParticleVelocity.length > 0 then List.replicate ks.length Vec3s.zero else [])
  vvelocity_eq : st.c.mVertexVelocity
    = c0.mVertexVelocity
      ++ (if c0.mVertexVelocity.length > 0 then List.replicate ks.sum Vec3s.zero else [])
  label_eq : st.c.mParticleLabel
    = c0.mParticleLabel
      ++ (if c0.mParticleLabel.length > 0 then List.replicate ks.length 0 else [])
  fillList_eq : st.fillList
    = if c0.mParticleVelocity.length > 0 then List.range' c0.springls.length ks.length else []

/-! ## Sample data -/

/-- A sample environment: the signed field is the height `z`, the index grid
stencil is empty, square roots and normalisation are the identity and the
quotient is exact. -/
def sampleEnv : Env where
  fdiv := fun a b => a / b
  sqrt := fun x => x
  normalize := fun v => v
  interpolation := fun p => p.z
  denseStencil := fun _ _ => []
  DistanceToTriangleSqr := fun _ _ _ _ => 0
  DistanceToQuadSqr := fun _ _ _ _ _ _ => 0
  DistanceToEdgeSqr := fun _ _ _ => 0

/-- A sample mesh: a small square on the plane `z = 0` and a triangle on the
plane `z = 5`. -/
def sampleMesh : Mesh where
  mVertexes :=
    [⟨0, 0, 0⟩, ⟨1 / 2, 0, 0⟩, ⟨1 / 2, 1 / 2, 0⟩, ⟨0, 1 / 2, 0⟩,
      ⟨0, 0, 5⟩, ⟨1 / 2, 0, 5⟩, ⟨0, 1 / 2, 5⟩]
  mFaces := [⟨4, 5, 6, INVALID_IDX⟩, ⟨0, 1, 2, 3⟩]
  mQuadIndexes := [0, 1, 2, 3]
  mTriIndexes := [4, 5, 6]
  mParticleVelocity := []
  mVertexVelocity := []

/-- The empty constellation. -/
def emptyConstellation : Constellation :=
  ⟨[], [], [], [], [], [], [], [], [], [], []⟩

/-- The constellation created from the sample mesh. -/
def sampleConstellation : Constellation :=
  Constellation.create sampleEnv emptyConstellation sampleMesh

/-- A sample aggregate around the sample constellation, with an iso-surface of
one triangle. -/
def sampleGrid : SpringLevelSet where
  mConstellation := sampleConstellation
  mNearestNeighbors := []
  fillList := []
  mFillCount := 0
  mCleanCount := 0
  pointList := [⟨0, 0, 0⟩, ⟨1 / 2, 0, 0⟩, ⟨0, 1 / 2, 0⟩]
  polygonPoolList := [⟨[], [⟨0, 1, 2⟩]⟩]

/-- The sample constellation after `clean`: the far triangle is gone and the
square has moved to the front. -/
def sampleCleaned : Constellation where
  mVertexes := [⟨0, 0, 0⟩, ⟨1 / 2, 0, 0⟩, ⟨1 / 2, 1 / 2, 0⟩, ⟨0, 1 / 2, 0⟩]
  mVertexNormals := [⟨0, 0, 1 / 2⟩, ⟨0, 0, 1 / 2⟩, ⟨0, 0, 1 / 2⟩, ⟨0, 0, 1 / 2⟩]
  mParticles := [⟨1 / 4, 1 / 4, 0⟩]
  mParticleNormals := [⟨0, 0, 1 / 2⟩]
  mParticleVelocity := []
  mVertexVelocity := []
  mParticleLabel := []
  mFaces := [⟨0, 1, 2, 3⟩]
  mQuadIndexes := [0, 1, 2, 3]
  mTriIndexes := []
  springls := [⟨0, 0⟩]

/-- The maintenance calls of the sample run: a `clean`, then a `fill` from the
sample iso-surface. -/
def sampleOps : List MaintOp :=
  [.clean sampleEnv, .fill sampleEnv sampleGrid.pointList sampleGrid.polygonPoolList]

/-- The sample constellation after `clean` and `fill`: the triangle of the
sample iso-surface has been appended. -/
def sampleFilled : Constellation where
  mVertexes := [⟨0, 0, 0⟩, ⟨1 / 2, 0, 0⟩, ⟨1 / 2, 1 / 2, 0⟩, ⟨0, 1 / 2, 0⟩,
    ⟨0, 1 / 2, 0⟩, ⟨1 / 2, 0, 0⟩, ⟨0, 0, 0⟩]
  mVertexNormals := [⟨0, 0, 1 / 2⟩, ⟨0, 0, 1 / 2⟩, ⟨0, 0, 1 / 2⟩, ⟨0, 0, 1 / 2⟩,
    ⟨0, 0, -1 / 4⟩, ⟨0, 0, -1 / 4⟩, ⟨0, 0, -1 / 4⟩]
  mParticles := [⟨1 / 4, 1 / 4, 0⟩, ⟨1 / 6, 1 / 6, 0⟩]
  mParticleNormals := [⟨0, 0, 1 / 2⟩, ⟨0, 0, -1 / 4⟩]
  mParticleVelocity := []
  mVertexVelocity := []
  mParticleLabel := []
  mFaces := [⟨0, 1, 2, 3⟩, ⟨4, 5, 6, INVALID_IDX⟩]
  mQuadIndexes := [0, 1, 2, 3]
  mTriIndexes := [4, 5, 6]
  springls := [⟨0, 0⟩, ⟨1, 4⟩]

/-- The sample aggregate after `clean`. -/
def sampleCleanedGrid : SpringLevelSet :=
  { sampleGrid with mConstellation := sampleCleaned, mCleanCount := 1 }

/-- The sample aggregate after `clean` and `fill`. -/
def sampleFilledGrid : SpringLevelSet :=
  { sampleCleanedGrid with mConstellation := sampleFilled, mFillCount := 1 }

/-! ## Notions used to state the properties of `clean` -/

/-- The edge lengths of an element, edge `i` joining local vertices `i` and
`(i + 1) mod K`. -/
def edgeLengths (env : Env) (c : Constellation) (s : Springl) : List ℚ :=
  (List.range (c.size s)).map
    (fun i => env.length (Vec3s.sub (c.vertex s i) (c.vertex s ((i + 1) % c.size s))))

/-- The least entry of a list of lengths (0 for the empty list). -/
def listMin : List ℚ → ℚ
  | [] => 0
  | x :: xs => xs.foldl min x

/-- The greatest entry of a list of lengths (0 for the empty list). -/
def listMax : List ℚ → ℚ
  | [] => 0
  | x :: xs => xs.foldl max x

/-- Shortest edge length of an element. -/
def shortestEdge (env : Env) (c : Constellation) (s : Springl) : ℚ :=
  listMin (edgeLengths env c s)

/-- Longest edge length of an element. -/
def longestEdge (env : Env) (c : Constellation) (s : Springl) : ℚ :=
  listMax (edgeLengths env c s)

/-- The acceptance condition of `clean` in the words of the specification: the
element is close to the surface, its area lies in the band and its aspect
ratio, the single-precision quotient of the shortest by the longest edge
length, is large enough. -/
def KeepCondition (env : Env) (c : Constellation) (s : Springl) : Prop :=
  |env.interpolation (c.particle s)| ≤ CLEAN_DISTANCE ∧
  MIN_AREA ≤ c.area env s ∧ c.area env s < MAX_AREA ∧
  env.fdiv (shortestEdge env c s) (longestEdge env c s) ≥ MIN_ASPECT_RATIO

/-- Edge lengths are non-negative and within the range of the `1E30` sentinels
the edge loop of `clean` starts from. -/
def EdgesInRange (env : Env) (c : Constellation) : Prop :=
  ∀ s ∈ c.springls, ∀ l ∈ edgeLengths env c s, 0 ≤ l ∧ l ≤ (10 : ℚ) ^ 30

/-- The arrays of `c'` are those of `c` restricted to the elements `keep`, in
that order, with vertex blocks made contiguous. -/
structure CompactedFrom (c : Constellation) (ks keep : List Nat) (c' : Constellation) : Prop where
  springls_eq : c'.springls = layoutSpringls 0 0 (keptSizes ks keep)
  faces_eq : c'.mFaces = layoutFaces 0 (keptSizes ks keep)
  particles_eq : c'.mParticles = keep.map (fun n => c.mParticles.getD n default)
  pnormals_eq : c'.mParticleNormals = keep.map (fun n => c.mParticleNormals.getD n default)
  vertexes_eq : c'.mVertexes = gather c.mVertexes ks keep
  vnormals_eq : c'.mVertexNormals = gather c.mVertexNormals ks keep
  quads_eq : c'.mQuadIndexes = layoutQuads 0 (keptSizes ks keep)
  tris_eq : c'.mTriIndexes = layoutTris 0 (keptSizes ks keep)

/-- Element `j` of `c'` is element `n` of `c`: same size, same vertex positions
and vertex normals over its block, same particle and particle normal, and a
face entry that enumerates its own block. -/
def SameElement (c : Constellation) (n : Nat) (c' : Constellation) (j : Nat) : Prop :=
  (c'.springls.getD j default).id = j ∧
  c'.size (c'.springls.getD j default) = c.size (c.springls.getD n default) ∧
  (∀ k, k < c.size (c.springls.getD n default) →
    c'.vertex (c'.springls.getD j default) k = c.vertex (c.springls.getD n default) k ∧
    c'.mVertexNormals.getD ((c'.springls.getD j default).offset + k) default
      = c.mVertexNormals.getD ((c.springls.getD n default).offset + k) default) ∧
  c'.particle (c'.springls.getD j default) = c.particle (c.springls.getD n default) ∧
  c'.normal (c'.springls.getD j default) = c.normal (c.springls.getD n default) ∧
  c'.mFaces.getD j default
    = blockFace (c'.springls.getD j default).offset (c.size (c.springls.getD n default))

/-- The reference point is farther than `FILL_DISTANCE` from every element the
stencil finds around it, counting only ids below `springlsCount`: the smallest
squared face distance exceeds `D2`, the squared fill distance as `fill`
computes it (vacuously so when the stencil yields no valid id). -/
def FarFromElements (env : Env) (c : Constellation) (springlsCount : Nat) (refPoint : Vec3s) :
    Prop :=
  ∀ id, id ∈ env.denseStencil 1 refPoint → id < springlsCount →
    c.distanceToFaceSqr env (c.springls.getD id default) refPoint > D2

/-! ## Nearest neighbours -/

/-- Modelled from the spec: the ordering `operator<` of `SpringlNeighbor` is
declared in `SpringLevelSet.h`, which is not part of the sources at hand; the
specification says neighbour lists are sorted ascending by distance, so records
are compared by their squared distance. -/
def SpringlNeighbor.le (a b : SpringlNeighbor) : Prop := a.distance ≤ b.distance

instance : DecidableRel SpringlNeighbor.le := fun a b =>
  inferInstanceAs (Decidable (a.distance ≤ b.distance))

instance : IsTotal SpringlNeighbor SpringlNeighbor.le :=
  ⟨fun a b => le_total a.distance b.distance⟩

instance : IsTrans SpringlNeighbor SpringlNeighbor.le :=
  ⟨fun _ _ _ h1 h2 => le_trans h1 h2⟩

/-- The edge loop of `NearestNeighborOperation::compute` for one candidate
`nbrId`: starting from `SpringlNeighbor(nbrId, -1, D2)`, an edge whose squared
distance to `refPoint` is at most the best so far replaces it. -/
def bestNeighbor (env : Env) (c : Constellation) (refPoint : Vec3s) (nbrId : Nat) :
    SpringlNeighbor :=
  let snbr := c.springls.getD nbrId default
  (List.range (c.size snbr)).foldl
    (fun (best : SpringlNeighbor) n =>
      let d := c.distanceToEdgeSqr env snbr refPoint n
      if d ≤ best.distance then { best with edgeId := (n : Int), distance := d } else best)
    ⟨nbrId, -1, NEAREST_NEIGHBOR_RANGE * NEAREST_NEIGHBOR_RANGE⟩

/-- The candidate loop of `compute` over the sorted stencil copy: an id equal
to the previous one is skipped, a candidate with an edge in range is pushed on
`tmpRange`; `last` starts as `-1`, that is `INVALID_IDX`. -/
def tmpRange (env : Env) (c : Constellation) (refPoint : Vec3s) (sortedIds : List Nat) :
    List SpringlNeighbor :=
  (sortedIds.foldl
    (fun (st : Nat × List SpringlNeighbor) nbrId =>
      if nbrId = st.1 then st
      else
        let bestNbr := bestNeighbor env c refPoint nbrId
        (nbrId, if bestNbr.edgeId ≥ 0 then st.2 ++ [bestNbr] else st.2))
    (INVALID_IDX, [])).2

/-- The first loop of `compute`: the stencil values that are element ids below
the element count and different from the id of the element itself. -/
def neighborCandidates (env : Env) (c : Constellation) (springl : Springl) : List Nat :=
  (env.denseStencil 2 (c.particle springl)).filter
    (fun id => decide (id < c.getNumSpringls) && decide (id ≠ springl.id))

/-- The entries `compute` pushes on the list of local vertex `k` of `springl`:
the closest `MAX_NEAREST_NEIGHBORS` candidates of `tmpRange` after sorting. -/
def neighborEntries (env : Env) (c : Constellation) (springl : Springl) (k : Nat) :
    List SpringlNeighbor :=
  let sorted := ((neighborCandidates env c springl).insertionSort (· ≤ ·))
  let tmp := (tmpRange env c (c.vertex springl k) sorted).insertionSort SpringlNeighbor.le
  tmp.take (min MAX_NEAREST_NEIGHBORS tmp.length)

/-- Embeds `NearestNeighborOperation::compute` for one element, on the neighbour map:
nothing is done when the stencil or the candidate list is empty; otherwise the
entries of every local vertex `k` are pushed on the list
`getNearestNeighbors(springl.id, k)`. -/
def nearestNeighborCompute (env : Env) (c : Constellation) (map : List (List SpringlNeighbor))
    (springl : Springl) : List (List SpringlNeighbor) :=
  if (env.denseStencil 2 (c.particle springl)).length = 0 then map
  else if (neighborCandidates env c springl).length = 0 then map
  else
    (List.range (c.size springl)).foldl
      (fun m k =>
        let idx := (c.springls.getD springl.id default).offset + k
        m.set idx (m.getD idx [] ++ neighborEntries env c springl k))
      map

/-- Embeds `NearestNeighborOperation::init`: the map is cleared and resized to one
empty list per vertex. -/
def nearestNeighborInit (c : Constellation) : List (List SpringlNeighbor) :=
  List.replicate c.getNumVertexes []

/-- Modelled from the spec: `NearestNeighbors::process`, declared in
`SpringLevelSetOperations.h`, which is not part of the sources at hand.  The
specification says the map is rebuilt wholesale: `init`, then `compute` for
every element (the entries of different elements are disjoint, so the order of
the elements does not matter). -/
def SpringLevelSet.updateNearestNeighbors (env : Env) (g : SpringLevelSet) : SpringLevelSet :=
  { g with
    mNearestNeighbors :=
      g.mConstellation.springls.foldl (nearestNeighborCompute env g.mConstellation)
        (nearestNeighborInit g.mConstellation) }

/-- Embeds `SpringLevelSet::getNearestNeighbors(id, e)`. -/
def SpringLevelSet.getNearestNeighbors (g : SpringLevelSet) (id e : Nat) :
    List SpringlNeighbor :=
  g.mNearestNeighbors.getD ((g.mConstellation.springls.getD id default).offset + e) []

/-- A neighbour list of element `id` is admissible: at most
`MAX_NEAREST_NEIGHBORS` entries, ascending squared distances, no entry for the
element itself and no neighbour element twice. -/
def GoodNeighborList (id : Nat) (l : List SpringlNeighbor) : Prop :=
  l.length ≤ MAX_NEAREST_NEIGHBORS ∧
  l.Sorted (fun a b => a.distance ≤ b.distance) ∧
  (∀ x ∈ l, x.springlId ≠ id) ∧
  (l.map SpringlNeighbor.springlId).Nodup

/-! ## The advection driver -/

/-- The motion schemes. -/
inductive MotionScheme where
  | UNDEFINED
  | IMPLICIT
  | SEMI_IMPLICIT
  | EXPLICIT
deriving DecidableEq, Repr

/-- The constant `EPS = 1E-30f` of `advect1`, read as the decimal it writes;
the loop in exact arithmetic uses this reading, the loop in double precision
uses `Rounded.EPS`, the value the compiler gives the literal. -/
def EPS : ℚ := 1 / 10 ^ 30

/-- Modelled from the spec: `clamp` is declared in a utility header that is not
part of the sources at hand; the specification uses it as the clamp of a value
into `[lo, hi]`. -/
def clamp (x lo hi : ℚ) : ℚ := min (max x lo) hi

/-- The operators `advect1` and `track` apply to the spring level set, whose
classes are declared in `SpringLevelSetOperations.h`: `maxSpeed s t` is
`std::sqrt(op2.process())` for the max-velocity reduction at time `t`,
`advectSpringls` and `advectVertexes` are the particle and mesh-vertex
integration operators for a sub-step `(time, dt)`, `track` is the maintenance
cycle. -/
structure AdvectOps (σ : Type) where
  maxSpeed : σ → ℚ → ℚ
  advectSpringls : σ → ℚ → ℚ → σ
  advectVertexes : σ → ℚ → ℚ → σ
  track : σ → ℚ → σ
  updateVertexNormals : σ → σ
  resetMetrics : σ → σ

/-- What the loop of `advect1` executes, in order. -/
inductive AdvectEvent where
  | advectSpringls (time dt : ℚ)
  | advectVertexes (time dt : ℚ)
  | track (time : ℚ)
deriving DecidableEq

/-- One executed sub-step: the time it starts at, the magnitude returned by the
max-velocity reduction, and the chosen step. -/
structure SubStep where
  time : ℚ
  maxVelocity : ℚ
  dt : ℚ
deriving DecidableEq

/-- The state of the loop of `advect1`: the spring level set, the loop
variables `time` and `dt`, and a record of the sub-steps and operations
executed so far. -/
structure LoopState (σ : Type) where
  s : σ
  time : ℚ
  dt : ℚ
  steps : List SubStep
  events : List AdvectEvent

/-- The step chosen in a sub-step of `advect1` from the voxel scale, the
magnitude `V = std::sqrt(op2.process())` and the end time:
`maxV = std::max(EPS, V)` and
`dt = clamp(MAX_TIME_STEP * scale / std::max(1E-30, maxV), 0.0, mEndTime - time)`. -/
def stepSize (scale V mEndTime time : ℚ) : ℚ :=
  clamp (MAX_VEXT * scale / max (1 / 10 ^ 30) (max EPS V)) 0 (mEndTime - time)

/-- The loop `for (time = mStartTime; time < mEndTime; time += dt)` of
`advect1` in exact arithmetic, run for at most `fuel` iterations; `none` when
the fuel does not suffice.  It settles which operations a sub-step executes,
in which order and with which step rule; `Rounded.subStepLoop` is the same
loop with the `double` operations as parameters. -/
def subStepLoop {σ : Type} (ops : AdvectOps σ) (scheme : MotionScheme) (scale mEndTime : ℚ) :
    Nat → LoopState σ → Option (LoopState σ)
  | 0, st => if st.time < mEndTime then none else some st
  | fuel + 1, st =>
    if st.time < mEndTime then
      let V := ops.maxSpeed st.s st.time
      let dt := stepSize scale V mEndTime st.time
      if dt < EPS then some { st with dt := dt }
      else
        let s1 := ops.advectSpringls st.s st.time dt
        let s2 := if scheme = MotionScheme.EXPLICIT then ops.advectVertexes s1 st.time dt else s1
        let s3 := if scheme = MotionScheme.SEMI_IMPLICIT then ops.track s2 st.time else s2
        subStepLoop ops scheme scale mEndTime fuel
          { s := s3
            time := st.time + dt
            dt := dt
            steps := st.steps ++ [⟨st.time, V, dt⟩]
            events :=
              st.events ++ [AdvectEvent.advectSpringls st.time dt]
                ++ (if scheme = MotionScheme.EXPLICIT then
                      [AdvectEvent.advectVertexes st.time dt] else [])
                ++ (if scheme = MotionScheme.SEMI_IMPLICIT then
                      [AdvectEvent.track st.time] else []) }
    else some st

/-- The loop state `advect1` starts from. -/
def loopInit {σ : Type} (s : σ) (mStartTime : ℚ) : LoopState σ :=
  { s := s, time := mStartTime, dt := 0, steps := [], events := [] }

/-- Embeds `advect1(mStartTime, mEndTime)`: the metrics are reset, the loop runs, an
`EXPLICIT` run tracks once at the end, and the vertex normals are refreshed. -/
def advect1 {σ : Type} (ops : AdvectOps σ) (scheme : MotionScheme) (scale : ℚ) (fuel : Nat)
    (s : σ) (mStartTime mEndTime : ℚ) : Option σ :=
  (subStepLoop ops scheme scale mEndTime fuel (loopInit (ops.resetMetrics s) mStartTime)).map
    (fun r =>
      ops.updateVertexNormals
        (if scheme = MotionScheme.EXPLICIT then ops.track r.s r.time else r.s))

/-- Sample operators on a counter of maintenance cycles: the velocity is zero
everywhere, integration leaves the state alone, `track` counts. -/
def stillOps : AdvectOps Nat where
  maxSpeed := fun _ _ => 0
  advectSpringls := fun s _ _ => s
  advectVertexes := fun s _ _ => s
  track := fun s _ => s + 1
  updateVertexNormals := fun s => s
  resetMetrics := fun s => s

/-- The four map classes `advect` instantiates `advect1` with. -/
inductive MapT where
  | UniformScaleMap
  | UniformScaleTranslateMap
  | UnitaryMap
  | TranslationMap
deriving DecidableEq

/-- How a call of `advect` ends: with `return n`, at the end of the function
body without a `return` statement (the `IMPLICIT` branch), or with
`OPENVDB_THROW(ValueError, msg)`. -/
inductive AdvectOutcome where
  | returned (n : Nat)
  | endOfBody
  | ValueError (msg : String)
deriving DecidableEq

/-- What `advect` calls besides the loop of `advect1`: the name
`MapT::mapType()` of each of the four map classes, the operators of
`advect1<MapT>` for each of them, and the operations of the `IMPLICIT` branch
(`setTransform` of the grid transform, `mImplicitAdvection->advect`,
`setTransform` of the unit transform, `updateIsoSurface`,
`mConstellation.updateVertexNormals`). -/
structure AdvectEnv (σ : Type) where
  mapType : MapT → String
  ops : MapT → AdvectOps σ
  setGridTransform : σ → σ
  implicitAdvect : σ → ℚ → ℚ → σ
  setUnitTransform : σ → σ
  updateIsoSurface : σ → σ
  updateVertexNormals : σ → σ

/-- The loop `for (time = startTime; time < endTime; time += dt)` of the
`IMPLICIT` branch, with `dt = endTime - startTime`: the body runs once when
`startTime < endTime`, after which `time` is `endTime`, and not at all
otherwise. -/
def implicitLoop {σ : Type} (a : AdvectEnv σ) (s : σ) (startTime endTime : ℚ) : σ :=
  let dt := endTime - startTime
  if startTime < endTime then
    a.setUnitTransform
      (a.implicitAdvect (a.setGridTransform s) startTime (min (startTime + dt) endTime))
  else s

/-- Embeds `advect(startTime, endTime)`: `trans` is the map type name of the transform
of the signed level set, `s` the spring level set; the result is the state the
call leaves and how the call ends, `none` when the fuel of the sub-step loop
does not suffice. -/
def advect {σ : Type} (a : AdvectEnv σ) (mMotionScheme : MotionScheme) (scale : ℚ) (fuel : Nat)
    (trans : String) (s : σ) (startTime endTime : ℚ) : Option (σ × AdvectOutcome) :=
  if mMotionScheme = MotionScheme.IMPLICIT then
    some (a.updateVertexNormals (a.updateIsoSurface (implicitLoop a s startTime endTime)),
      AdvectOutcome.endOfBody)
  else if trans = a.mapType MapT.UniformScaleMap then
    (advect1 (a.ops MapT.UniformScaleMap) mMotionScheme scale fuel s startTime endTime).map
      (fun s1 => (s1, AdvectOutcome.returned 0))
  else if trans = a.mapType MapT.UniformScaleTranslateMap then
    (advect1 (a.ops MapT.UniformScaleTranslateMap) mMotionScheme scale fuel s startTime
      endTime).map (fun s1 => (s1, AdvectOutcome.returned 0))
  else if trans = a.mapType MapT.UnitaryMap then
    (advect1 (a.ops MapT.UnitaryMap) mMotionScheme scale fuel s startTime endTime).map
      (fun s1 => (s1, AdvectOutcome.returned 0))
  else if trans = a.mapType MapT.TranslationMap then
    (advect1 (a.ops MapT.TranslationMap) mMotionScheme scale fuel s startTime endTime).map
      (fun s1 => (s1, AdvectOutcome.returned 0))
  else some (s, AdvectOutcome.ValueError "MapType not supported!")

/-- Sample operators in which every operation counts itself in the state. -/
def countingOps : AdvectOps Nat where
  maxSpeed := fun _ _ => 1
  advectSpringls := fun s _ _ => s + 1
  advectVertexes := fun s _ _ => s + 1
  track := fun s _ => s + 1
  updateVertexNormals := fun s => s + 1
  resetMetrics := fun s => s + 1

/-- A sample `advect` environment over a counter of executed operations, with
the map type names of OpenVDB. -/
def sampleAdvectEnv : AdvectEnv Nat where
  mapType := fun m =>
    match m with
    | MapT.UniformScaleMap => "UniformScaleMap"
    | MapT.UniformScaleTranslateMap => "UniformScaleTranslateMap"
    | MapT.UnitaryMap => "UnitaryMap"
    | MapT.TranslationMap => "TranslationMap"
  ops := fun _ => countingOps
  setGridTransform := fun s => s + 1
  implicitAdvect := fun s _ _ => s + 1
  setUnitTransform := fun s => s + 1
  updateIsoSurface := fun s => s + 1
  updateVertexNormals := fun s => s + 1

/-! ## Notions used to state the properties of `create` -/

/-- The vertices of a mesh face, in face order. -/
def faceVertexes (mesh : Mesh) (f : Vec4I) : List Vec3s :=
  (List.range (faceSize f)).map (fun k => mesh.mVertexes.getD (f.get k) default)

/-- The arithmetic mean of a list of points. -/
def mean (vs : List Vec3s) : Vec3s :=
  Vec3s.smul (1 / (vs.length : ℚ)) (vs.foldl Vec3s.add Vec3s.zero)

/-- The content of the arrays of `Constellation::create` after the faces `fs`:
the vertex block of element `i` holds the mesh vertices of face `i`, its
particle is their mean, and its vertex normals are its particle normal. -/
structure CreateContent (mesh : Mesh) (fs : List Vec4I) (st : CreateState) : Prop where
  vertexes : ∀ i, i < fs.length → ∀ k, k < faceSize (fs.getD i default) →
    st.c.mVertexes.getD (offs (fs.map faceSize) i + k) default
      = mesh.mVertexes.getD ((fs.getD i default).get k) default
  particles : ∀ i, i < fs.length →
    st.c.mParticles.getD i default = mean (faceVertexes mesh (fs.getD i default))
  vnormals : ∀ i, i < fs.length → ∀ k, k < faceSize (fs.getD i default) →
    st.c.mVertexNormals.getD (offs (fs.map faceSize) i + k) default
      = st.c.mParticleNormals.getD i default

/-! ## Sample data with the optional arrays in use -/

/-- The sample constellation with the optional arrays in use: a velocity per
particle, a velocity per vertex and a label per particle. -/
def sampleTagged : Constellation :=
  { sampleConstellation with
    mParticleVelocity := [⟨1, 0, 0⟩, ⟨2, 0, 0⟩]
    mVertexVelocity :=
      [⟨10, 0, 0⟩, ⟨11, 0, 0⟩, ⟨12, 0, 0⟩, ⟨13, 0, 0⟩, ⟨14, 0, 0⟩, ⟨15, 0, 0⟩, ⟨16, 0, 0⟩]
    mParticleLabel := [7, 8] }

/-- The sample aggregate around the constellation with optional arrays. -/
def sampleTaggedGrid : SpringLevelSet :=
  { sampleGrid with mConstellation := sampleTagged }

/-- A sample mesh of two triangles that share an edge, with one velocity per
mesh vertex. -/
def sharedMesh : Mesh where
  mVertexes := [⟨0, 0, 0⟩, ⟨1 / 2, 0, 0⟩, ⟨1 / 2, 1 / 2, 0⟩, ⟨0, 1 / 2, 0⟩]
  mFaces := [⟨0, 1, 2, INVALID_IDX⟩, ⟨0, 2, 3, INVALID_IDX⟩]
  mQuadIndexes := []
  mTriIndexes := [0, 1, 2, 0, 2, 3]
  mParticleVelocity := []
  mVertexVelocity := [⟨10, 0, 0⟩, ⟨11, 0, 0⟩, ⟨12, 0, 0⟩, ⟨13, 0, 0⟩]

/-- The cleaned sample aggregate with particle velocities in use. -/
def sampleVelocityGrid : SpringLevelSet :=
  { sampleCleanedGrid with
    mConstellation := { sampleCleaned with mParticleVelocity := [⟨2, 0, 0⟩] }
    fillList := [5] }

/-! ## Motion scheme names -/

/-- Embeds `DecodeMotionScheme(name)`. -/
def DecodeMotionScheme (name : String) : MotionScheme :=
  if name = "implicit" ∨ name = "IMPLICIT" then MotionScheme.IMPLICIT
  else if name = "semi-implicit" ∨ name = "SEMI_IMPLICIT" ∨ name = "semi_implicit" then
    MotionScheme.SEMI_IMPLICIT
  else if name = "explicit" ∨ name = "EXPLICIT" then MotionScheme.EXPLICIT
  else MotionScheme.UNDEFINED

/-- Embeds `EncodeMotionScheme(scheme)`. -/
def EncodeMotionScheme (scheme : MotionScheme) : String :=
  match scheme with
  | MotionScheme.IMPLICIT => "implicit"
  | MotionScheme.SEMI_IMPLICIT => "semi-implicit"
  | MotionScheme.EXPLICIT => "explicit"
  | MotionScheme.UNDEFINED => "undefined"

/-- The scheme names of the usage text of `main`:
`<implicit|semi-implicit|explicit>`. -/
def usageSchemeNames : List String := ["implicit", "semi-implicit", "explicit"]

/-- The spellings `DecodeMotionScheme` accepts. -/
def acceptedSchemeNames : List String :=
  ["implicit", "IMPLICIT", "semi-implicit", "SEMI_IMPLICIT", "semi_implicit", "explicit",
    "EXPLICIT"]

/-- A sample environment whose index grid stencil returns the ids `1, 0, 1`
around every point and whose edge distance is the squared difference of the
`x` coordinates of the point and the first end of the edge. -/
def stencilEnv : Env :=
  { sampleEnv with
    denseStencil := fun _ _ => [1, 0, 1]
    DistanceToEdgeSqr := fun p a _ => (p.x - a.x) * (p.x - a.x) }

/-! ## Vector area and bounding box of an element -/

/-- The sum `Σ_k (v_k − p) × (v_{(k+1) mod K} − p)` over the vertices of an
element, about an arbitrary point `p`; `crossSum` is this sum about the stored
particle. -/
def Constellation.crossSumAbout (c : Constellation) (s : Springl) (p : Vec3s) : Vec3s :=
  let K := c.size s
  (List.range K).foldl
    (fun acc k =>
      Vec3s.add acc
        (Vec3s.cross (Vec3s.sub (c.vertex s k) p) (Vec3s.sub (c.vertex s ((k + 1) % K)) p)))
    Vec3s.zero

/-- The sum `Σ_k v_k × v_{(k+1) mod K}` over the vertices of an element. -/
def Constellation.cyclicCross (c : Constellation) (s : Springl) : Vec3s :=
  let K := c.size s
  (List.range K).foldl
    (fun acc k => Vec3s.add acc (Vec3s.cross (c.vertex s k) (c.vertex s ((k + 1) % K))))
    Vec3s.zero

/-- The constant `std::numeric_limits<float>::min()`, the least positive
normalised single precision value `2^-126`. -/
def FLT_MIN : ℚ := 1 / 2 ^ 126

/-- Component-wise minimum `openvdb::math::Min`. -/
def Vec3s.Min (a b : Vec3s) : Vec3s := ⟨min a.x b.x, min a.y b.y, min a.z b.z⟩

/-- Component-wise maximum `openvdb::math::Max`. -/
def Vec3s.Max (a b : Vec3s) : Vec3s := ⟨max a.x b.x, max a.y b.y, max a.z b.z⟩

/-- An axis-aligned box `openvdb::math::BBox<Vec3s>`. -/
structure BBox where
  min : Vec3s
  max : Vec3s
deriving DecidableEq

/-- Embeds `Springl::getBoundingBox()`: the corners start at
`Vec3s(numeric_limits<float>::max())` and `Vec3s(numeric_limits<float>::min())`
and take in the vertices one by one. -/
def Constellation.getBoundingBox (c : Constellation) (s : Springl) : BBox :=
  (List.range (c.size s)).foldl
    (fun (bbox : BBox) n =>
      let pt := c.vertex s n
      { min := Vec3s.Min bbox.min pt, max := Vec3s.Max bbox.max pt })
    { min := ⟨FLT_MAX, FLT_MAX, FLT_MAX⟩, max := ⟨FLT_MIN, FLT_MIN, FLT_MIN⟩ }

/-- A sample constellation of one triangle whose coordinates are all
negative. -/
def negativeConstellation : Constellation where
  mVertexes := [⟨-3, -1, -1⟩, ⟨-2, -1, -1⟩, ⟨-3, -2, -1⟩]
  mVertexNormals := [⟨0, 0, -1⟩, ⟨0, 0, -1⟩, ⟨0, 0, -1⟩]
  mParticles := [⟨-8 / 3, -4 / 3, -1⟩]
  mParticleNormals := [⟨0, 0, -1⟩]
  mParticleVelocity := []
  mVertexVelocity := []
  mParticleLabel := []
  mFaces := [⟨0, 1, 2, INVALID_IDX⟩]
  mQuadIndexes := []
  mTriIndexes := [0, 1, 2]
  springls := [⟨0, 0⟩]

/-! ## The schedule of one `advect1` call -/

/-- What one executed sub-step of the loop of `advect1` runs, in order: the
particle integration, in `EXPLICIT` mode the mesh vertex integration, in
`SEMI_IMPLICIT` mode the maintenance cycle. -/
def stepEvents (scheme : MotionScheme) (x : SubStep) : List AdvectEvent :=
  [AdvectEvent.advectSpringls x.time x.dt]
    ++ (if scheme = MotionScheme.EXPLICIT then [AdvectEvent.advectVertexes x.time x.dt] else [])
    ++ (if scheme = MotionScheme.SEMI_IMPLICIT then [AdvectEvent.track x.time] else [])

/-- The effect of one recorded operation on the spring level set. -/
def AdvectOps.run {σ : Type} (ops : AdvectOps σ) (s : σ) : AdvectEvent → σ
  | AdvectEvent.advectSpringls time dt => ops.advectSpringls s time dt
  | AdvectEvent.advectVertexes time dt => ops.advectVertexes s time dt
  | AdvectEvent.track time => ops.track s time

/-- The recorded operation is an invocation of `track`. -/
def AdvectEvent.isTrack : AdvectEvent → Bool
  | AdvectEvent.track _ => true
  | _ => false

/-- The recorded operation is a run of the mesh vertex operator. -/
def AdvectEvent.isVertexStep : AdvectEvent → Bool
  | AdvectEvent.advectVertexes _ _ => true
  | _ => false

/-! ## The maintenance cycle `track` -/

/-- The calls `track` makes on the spring level set and its iso-surface:
`updateUnSignedLevelSet()` (`widened = false`) or
`updateUnSignedLevelSet(2.5 * LEVEL_SET_HALF_WIDTH)` (`widened = true`),
`updateNearestNeighbors()`, `relax(iters)`, `mIsoSurface.updateVertexNormals(0)`,
`mIsoSurface.dilate(distance)`, `updateSignedLevelSet()`, `updateGradient()`, the
construction and `process()` of a `SpringLevelSetEvolve(time, dt, iterations,
tolerance)` on a fresh tracker, `clean()`, `updateIsoSurface()` and `fill()`. -/
inductive TrackCall where
  | updateUnSignedLevelSet (widened : Bool)
  | updateNearestNeighbors
  | relax (iters : Nat)
  | isoUpdateVertexNormals
  | isoDilate (distance : ℚ)
  | updateSignedLevelSet
  | updateGradient
  | evolve (time dt : ℚ) (iterations : Nat) (tolerance : ℚ)
  | clean
  | updateIsoSurface
  | fill
deriving DecidableEq

/-- The constant `RELAX_OUTER_ITERS` of `track`. -/
def RELAX_OUTER_ITERS : Nat := 1

/-- The constant `RELAX_INNER_ITERS` of `track`. -/
def RELAX_INNER_ITERS : Nat := 5

/-- Embeds `track(time, resample)`: the calls it makes, in execution order, for the
motion scheme `mMotionScheme` and the flag `mResample` of the advection
object. -/
def trackCalls (mMotionScheme : MotionScheme) (mResample : Bool) (time : ℚ) (resample : Bool) :
    List TrackCall :=
  [TrackCall.updateUnSignedLevelSet false]
    ++ (List.range RELAX_OUTER_ITERS).flatMap
        (fun _ => [TrackCall.updateNearestNeighbors, TrackCall.relax RELAX_INNER_ITERS])
    ++ (if mMotionScheme = MotionScheme.SEMI_IMPLICIT then
          [TrackCall.updateUnSignedLevelSet true, TrackCall.updateGradient,
            TrackCall.evolve time (3 / 4) 32 (1 / 100)]
        else if mMotionScheme = MotionScheme.EXPLICIT then
          (if resample then
            [TrackCall.isoUpdateVertexNormals, TrackCall.isoDilate (1 / 2),
              TrackCall.updateSignedLevelSet, TrackCall.updateUnSignedLevelSet true,
              TrackCall.updateGradient, TrackCall.evolve time (3 / 4) 128 (1 / 20)]
          else [])
        else [])
    ++ (if mResample then
          [TrackCall.clean, TrackCall.updateUnSignedLevelSet false, TrackCall.updateIsoSurface,
            TrackCall.fill]
        else if resample then [TrackCall.updateIsoSurface]
        else [])

/-- The state passing reading of `track`: the calls are applied to the spring
level set one after the other, `run` being the effect of one call. -/
def track {σ : Type} (run : σ → TrackCall → σ) (mMotionScheme : MotionScheme)
    (mResample : Bool) (s : σ) (time : ℚ) (resample : Bool) : σ :=
  (trackCalls mMotionScheme mResample time resample).foldl run s

/-- The order of a maintenance cycle as the specification lists it, for a
tracker run with the given step, iteration limit and tolerance. -/
def listedTrackOrder (time dt : ℚ) (iterations : Nat) (tolerance : ℚ) : List TrackCall :=
  [TrackCall.updateUnSignedLevelSet false, TrackCall.updateNearestNeighbors, TrackCall.relax 5,
    TrackCall.updateUnSignedLevelSet true, TrackCall.updateGradient,
    TrackCall.evolve time dt iterations tolerance, TrackCall.clean,
    TrackCall.updateUnSignedLevelSet false, TrackCall.updateIsoSurface, TrackCall.fill]

/-- The call runs the implicit tracker. -/
def TrackCall.isEvolve : TrackCall → Bool
  | TrackCall.evolve _ _ _ _ => true
  | _ => false

/-! ## The implicit tracker loop `SpringLevelSetEvolve::process` -/

/-- Embeds `operator()` on one range of leaves, as far as the sign change count goes:
every leaf is given by the pairs `(old, delta)` of its active voxels, and a
voxel with `old * (old - delta) < 0` counts. -/
def rangeSignChanges (range : List (List (ℚ × ℚ))) : Nat :=
  range.foldl
    (fun signChanges leaf =>
      leaf.foldl (fun n v => if v.1 * (v.1 - v.2) < 0 then n + 1 else n) signChanges)
    0

/-- The value of `mTotalSignChanges` after the `parallel_for` of one
iteration: it is reset to 0 and every range adds its count under the lock. -/
def totalSignChanges (ranges : List (List (List (ℚ × ℚ)))) : Nat :=
  ranges.foldl (fun total range => total + rangeSignChanges range) 0

/-- What one iteration of `process` does to the level set, whose classes live
in OpenVDB: `ranges s` is the split of the leaves into ranges for the state
`s`, each leaf with the `(old, delta)` pairs of its active voxels, and
`advance s` the state after the result buffers are written and swapped and the
tracker has run.  `ratio total mx` is the value of the single-precision
quotient `mTotalSignChanges/(float)maxSignChanges`, that is of `total / mx`
rounded to `float`. -/
structure EvolveOps (σ : Type) where
  ranges : σ → List (List (List (ℚ × ℚ)))
  advance : σ → σ
  ratio : Nat → Nat → ℚ

/-- The loop `for (iter = 0; iter < mIterations; iter++)` of `process`, with
`n` iterations left, the running `maxSignChanges` and the sign change counts of
the iterations executed so far.  The `float ratio` is compared with the
`double mTolerance`; both are rationals here, so the comparison is exact. -/
def evolveLoop {σ : Type} (ops : EvolveOps σ) (mTolerance : ℚ) :
    Nat → σ → Nat → List Nat → σ × List Nat
  | 0, s, _, counts => (s, counts)
  | n + 1, s, maxSignChanges, counts =>
    let mTotalSignChanges := totalSignChanges (ops.ranges s)
    let s1 := ops.advance s
    let maxSignChanges1 := max mTotalSignChanges maxSignChanges
    let ratio : ℚ := ops.ratio mTotalSignChanges maxSignChanges1
    if ratio ≤ mTolerance then (s1, counts ++ [mTotalSignChanges])
    else evolveLoop ops mTolerance n s1 maxSignChanges1 (counts ++ [mTotalSignChanges])

/-- Embeds `SpringLevelSetEvolve::process()`: the state it leaves and the sign change
counts of the iterations it executed. -/
def evolveProcess {σ : Type} (ops : EvolveOps σ) (mTolerance : ℚ) (mIterations : Nat) (s : σ) :
    σ × List Nat :=
  evolveLoop ops mTolerance mIterations s 32 []

/-- The stopping test after iteration `i` (counted from 0) of a run with sign
change counts `cs`: the single-precision quotient of `c_i` by
`max(32, c_0, ..., c_i)` is at most `tol`. -/
def StopsAfter (ratio : Nat → Nat → ℚ) (tol : ℚ) (cs : List Nat) (i : Nat) : Prop :=
  ratio (cs.getD i 0) ((cs.take (i + 1)).foldl max 32) ≤ tol

/-- Sample tracker operators on a counter: in state `s` there is one range
with one leaf of `3 - s` voxels that change sign.  The quotients are taken
exactly; those of the sample counts, `3/32`, `2/32`, `1/32` and `0`, are
single-precision numbers. -/
def sampleEvolveOps : EvolveOps Nat where
  ranges := fun s => [[List.replicate (3 - s) (1, 2)]]
  advance := fun s => s + 1
  ratio := fun total mx => (total : ℚ) / (mx : ℚ)

/-- The value of the `double` literal `0.05`, the tolerance `track` passes in
`EXPLICIT` mode: `3602879701896397 / 2^56`, a little above `1/20`. -/
def DOUBLE_0_05 : ℚ := 3602879701896397 / 2 ^ 56

/-- Sample tracker operators on a counter: 100 voxels change sign in the first
iteration and 5 in every later one.  The quotient `5/100` has its
single-precision value `13421773 / 2^28`, about `0.0500000007`; `100/100` is
exact. -/
def slowEvolveOps : EvolveOps Nat where
  ranges := fun s => [[List.replicate (if s = 0 then 100 else 5) (1, 2)]]
  advance := fun s => s + 1
  ratio := fun total mx =>
    if total = 5 ∧ mx = 100 then 13421773 / 2 ^ 28 else (total : ℚ) / (mx : ℚ)

/-! ## Relaxation -/

/-- The constant `SpringLevelSet::SHARPNESS`. -/
def SHARPNESS : ℚ := 5

/-- The constant `SpringLevelSet::SPRING_CONSTANT`. -/
def SPRING_CONSTANT : ℚ := 3 / 10

/-- The constant `SpringLevelSet::RELAX_TIMESTEP`. -/
def RELAX_TIMESTEP : ℚ := 1 / 10

/-- The constant `MAX_FORCE` of `RelaxOperation::compute`. -/
def MAX_FORCE : ℚ := 999 / 1000

/-- Dot product `a.dot(b)`. -/
def Vec3s.dot (a b : Vec3s) : ℚ := a.x * b.x + a.y * b.y + a.z * b.z

/-- The primitives `RelaxOperation::compute` calls besides those of `Env`:
`atanh`, the closest point that `DistanceToEdgeSqr(pt, a, b, &closest)` stores,
and the product `CreateAxisAngle(axis, angle) * v` of the rotation matrix with
a vector. -/
structure RelaxEnv where
  atanh : ℚ → ℚ
  closestPointOnEdge : Vec3s → Vec3s → Vec3s → Vec3s
  rotate : Vec3s → ℚ → Vec3s → Vec3s

/-- The spring level set together with the staging buffer
`mConstellation.mVertexAuxBuffer` of the relaxation. -/
structure RelaxState where
  g : SpringLevelSet
  mVertexAuxBuffer : List Vec3s

/-- The entry `tangetLengths[k]` of `compute`: the distance of local vertex `k`
from the particle. -/
def relaxTangentLength (env : Env) (g : SpringLevelSet) (springl : Springl) (k : Nat) : ℚ :=
  env.length (Vec3s.sub (g.mConstellation.vertex springl k) (g.mConstellation.particle springl))

/-- The entry `tangets[k]` of `compute`: the edge from the particle to local
vertex `k`, scaled to unit length when it is longer than `1E-6`. -/
def relaxTangent (env : Env) (g : SpringLevelSet) (springl : Springl) (k : Nat) : Vec3s :=
  let tanget := Vec3s.sub (g.mConstellation.vertex springl k) (g.mConstellation.particle springl)
  if relaxTangentLength env g springl k > 1 / 10 ^ 6 then
    Vec3s.smul (1 / relaxTangentLength env g springl k) tanget
  else tanget

/-- The vector `startVelocity` of `compute` for local vertex `k` once the
neighbour loop is done: the weighted sum of the directions to the closest
points on the neighbour edges, divided by the number of neighbours when there
is one. -/
def relaxStartVelocity (env : Env) (renv : RelaxEnv) (g : SpringLevelSet) (springl : Springl)
    (k : Nat) : Vec3s :=
  let c := g.mConstellation
  let map := g.getNearestNeighbors springl.id k
  let start := c.vertex springl k
  let sum :=
    map.foldl
      (fun startVelocity ci =>
        let nbr := c.springls.getD ci.springlId default
        let pt2 :=
          renv.closestPointOnEdge start (c.vertex nbr ci.edgeId.toNat)
            (c.vertex nbr ((ci.edgeId + 1) % (c.size nbr : Int)).toNat)
        let dir := Vec3s.sub pt2 start
        let len := env.length dir
        let w := (len - 2 * PARTICLE_RADIUS) / (MAX_VEXT + 2 * PARTICLE_RADIUS)
        let w1 := renv.atanh (MAX_FORCE * clamp w (-1) 1)
        Vec3s.add startVelocity (Vec3s.smul w1 dir))
      Vec3s.zero
  if map.length > 0 then Vec3s.smul (1 / (map.length : ℚ)) sum else sum

/-- The entry `vertexVelocity[k]` of `compute`. -/
def relaxVertexVelocity (env : Env) (renv : RelaxEnv) (g : SpringLevelSet) (springl : Springl)
    (k : Nat) : Vec3s :=
  let startVelocity := relaxStartVelocity env renv g springl k
  let len := max (1 / 10 ^ 6) (env.length startVelocity)
  let t := SHARPNESS * len
  Vec3s.smul (t / len) (Vec3s.smul RELAX_TIMESTEP startVelocity)

/-- The entry `springForce[k]` of `compute`. -/
def relaxSpringForce (env : Env) (g : SpringLevelSet) (springl : Springl) (k : Nat) : ℚ :=
  RELAX_TIMESTEP * SPRING_CONSTANT * (2 * PARTICLE_RADIUS - relaxTangentLength env g springl k)

/-- The vector `resultantMoment` of `compute` after its first loop. -/
def relaxMoment (env : Env) (renv : RelaxEnv) (g : SpringLevelSet) (springl : Springl) : Vec3s :=
  (List.range (g.mConstellation.size springl)).foldl
    (fun resultantMoment k =>
      Vec3s.add resultantMoment
        (Vec3s.cross (relaxVertexVelocity env renv g springl k) (relaxTangent env g springl k)))
    Vec3s.zero

/-- The position the second loop of `compute` stores for local vertex `k`. -/
def relaxTarget (env : Env) (renv : RelaxEnv) (g : SpringLevelSet) (springl : Springl) (k : Nat) :
    Vec3s :=
  let particlePt := g.mConstellation.particle springl
  let start := Vec3s.sub (g.mConstellation.vertex springl k) particlePt
  let dotProd :=
    max
      (env.length start
        + Vec3s.dot (relaxVertexVelocity env renv g springl k) (relaxTangent env g springl k)
        + relaxSpringForce env g springl k)
      (1 / 1000)
  let start1 := Vec3s.smul dotProd (relaxTangent env g springl k)
  let start2 :=
    renv.rotate (relaxMoment env renv g springl) (-(env.length (relaxMoment env renv g springl)))
      start1
  Vec3s.add start2 particlePt

/-- Embeds `RelaxOperation::init`. -/
def relaxInit (st : RelaxState) : RelaxState :=
  { st with mVertexAuxBuffer := resize st.mVertexAuxBuffer st.g.mConstellation.getNumVertexes }

/-- Embeds `RelaxOperation::compute` for one element. -/
def relaxCompute (env : Env) (renv : RelaxEnv) (st : RelaxState) (springl : Springl) :
    RelaxState :=
  { st with
    mVertexAuxBuffer :=
      (List.range (st.g.mConstellation.size springl)).foldl
        (fun aux k => aux.set (springl.offset + k) (relaxTarget env renv st.g springl k))
        st.mVertexAuxBuffer }

/-- Embeds `RelaxOperation::apply` for one element. -/
def relaxApply (st : RelaxState) (springl : Springl) : RelaxState :=
  { st with
    g :=
      { st.g with
        mConstellation :=
          { st.g.mConstellation with
            mVertexes :=
              (List.range (st.g.mConstellation.size springl)).foldl
                (fun vs k =>
                  vs.set (springl.offset + k)
                    (st.mVertexAuxBuffer.getD (springl.offset + k) default))
                st.g.mConstellation.mVertexes } } }

/-- Modelled from the spec: `Relax::process`, declared in
`SpringLevelSetOperations.h`, which is not part of the sources at hand.  The
specification describes a relax pass as two-phase: every element is computed
into the staging buffer, and a second pass copies the staging buffer back into
the live vertex array.  The elements are taken in the orders `computeOrder`
and `applyOrder`. -/
def relaxProcessIn (env : Env) (renv : RelaxEnv) (computeOrder applyOrder : List Springl)
    (st : RelaxState) : RelaxState :=
  applyOrder.foldl relaxApply (computeOrder.foldl (relaxCompute env renv) (relaxInit st))

/-- One relax pass with the elements taken in constellation order. -/
def relaxProcess (env : Env) (renv : RelaxEnv) (st : RelaxState) : RelaxState :=
  relaxProcessIn env renv st.g.mConstellation.springls st.g.mConstellation.springls st

/-- Embeds `SpringLevelSet::relax(iters)`. -/
def SpringLevelSet.relax (env : Env) (renv : RelaxEnv) (st : RelaxState) (iters : Nat) :
    RelaxState :=
  (List.range iters).foldl (fun s _ => relaxProcess env renv s) st

/-- A sample environment for the relaxation: `atanh` is the identity, the
closest point on an edge is its first end, and no rotation is applied. -/
def sampleRelaxEnv : RelaxEnv where
  atanh := fun x => x
  closestPointOnEdge := fun _ a _ => a
  rotate := fun _ _ v => v

/-- A sample environment whose square root is exact on the squared lengths
`1/400` and `4/625` and gives 0 elsewhere. -/
def unbalancedEnv : Env :=
  { sampleEnv with
    sqrt := fun x => if x = 1 / 400 then 1 / 20 else if x = 4 / 625 then 2 / 25 else 0 }

/-- A sample constellation of one triangle whose particle, the origin, is the
centroid of its vertices; two vertices are at distance `1/20` from it and the
third at distance `2/25`. -/
def unbalancedTriangle : Constellation where
  mVertexes := [⟨3 / 100, 4 / 100, 0⟩, ⟨-3 / 100, 4 / 100, 0⟩, ⟨0, -8 / 100, 0⟩]
  mVertexNormals := [⟨0, 0, 1⟩, ⟨0, 0, 1⟩, ⟨0, 0, 1⟩]
  mParticles := [⟨0, 0, 0⟩]
  mParticleNormals := [⟨0, 0, 1⟩]
  mParticleVelocity := []
  mVertexVelocity := []
  mParticleLabel := []
  mFaces := [⟨0, 1, 2, INVALID_IDX⟩]
  mQuadIndexes := []
  mTriIndexes := [0, 1, 2]
  springls := [⟨0, 0⟩]

/-- The sample triangle alone in space: the neighbour list of each of its
vertices is empty. -/
def unbalancedGrid : SpringLevelSet where
  mConstellation := unbalancedTriangle
  mNearestNeighbors := [[], [], []]
  fillList := []
  mFillCount := 0
  mCleanCount := 0
  pointList := []
  polygonPoolList := []

/-- A sample constellation of one rectangle whose vertices are all at distance
`1/20` from its particle, the origin, which is their centroid. -/
def balancedQuad : Constellation where
  mVertexes :=
    [⟨3 / 100, 4 / 100, 0⟩, ⟨-3 / 100, 4 / 100, 0⟩, ⟨-3 / 100, -4 / 100, 0⟩,
      ⟨3 / 100, -4 / 100, 0⟩]
  mVertexNormals := [⟨0, 0, 1⟩, ⟨0, 0, 1⟩, ⟨0, 0, 1⟩, ⟨0, 0, 1⟩]
  mParticles := [⟨0, 0, 0⟩]
  mParticleNormals := [⟨0, 0, 1⟩]
  mParticleVelocity := []
  mVertexVelocity := []
  mParticleLabel := []
  mFaces := [⟨0, 1, 2, 3⟩]
  mQuadIndexes := [0, 1, 2, 3]
  mTriIndexes := []
  springls := [⟨0, 0⟩]

/-- The sample rectangle alone in space. -/
def balancedGrid : SpringLevelSet :=
  { unbalancedGrid with
    mConstellation := balancedQuad
    mNearestNeighbors := [[], [], [], []] }

/-! ## `SpringLevelSet::fillWithNearestNeighbors` -/

/-- Modelled from the spec: the accessor `Springl::particleVelocity()` is
declared in `SpringLevelSet.h`, which is not part of the sources at hand; like
`particle()` it is the entry of the per-element array under the springl id.
The result is `none` when the id is not an index of the array. -/
def Constellation.particleVelocity (c : Constellation) (s : Springl) : Option Vec3s :=
  c.mParticleVelocity[s.id]?

/-- The assignment `v[i] = x` to an entry of a `std::vector`; the result is
`none` when `i` is not an index of `v`. -/
def assignAt {α : Type} (v : List α) (i : Nat) (x : α) : Option (List α) :=
  if i < v.length then some (v.set i x) else none

/-- The body of the innermost loop of `fillWithNearestNeighbors` for one
neighbour entry `ci`, on the running sum `vel` and count `wsum`. -/
def addNeighborVelocity (g : SpringLevelSet) (acc : Vec3s × ℚ) (ci : SpringlNeighbor) :
    Option (Vec3s × ℚ) :=
  let nbr := g.mConstellation.springls.getD ci.springlId default
  match g.mConstellation.particleVelocity nbr with
  | none => none
  | some v => if v.lengthSqr > 0 then some (Vec3s.add acc.1 v, acc.2 + 1) else some acc

/-- The two neighbour loops of `fillWithNearestNeighbors` for one element: the
sum `vel` and the count `wsum` over the entries of the neighbour lists of all
its local vertices. -/
def neighborVelocitySum (g : SpringLevelSet) (springl : Springl) : Option (Vec3s × ℚ) :=
  (List.range (g.mConstellation.size springl)).foldlM
    (fun acc k => (g.getNearestNeighbors springl.id k).foldlM (addNeighborVelocity g) acc)
    (Vec3s.zero, 0)

/-- The spring level set with the velocity arrays replaced. -/
def SpringLevelSet.withVelocities (g : SpringLevelSet) (pv vv : List Vec3s) : SpringLevelSet :=
  { g with
    mConstellation :=
      { g.mConstellation with
        mParticleVelocity := pv
        mVertexVelocity := vv } }

/-- The body of the loop over the fill list for one id `fid`, on the spring
level set and the running `unfilledCount`.  The result is `none` when an index
into one of the velocity arrays is out of range. -/
def fillElement (st : SpringLevelSet × Nat) (fid : Nat) : Option (SpringLevelSet × Nat) :=
  let g := st.1
  let springl := g.mConstellation.springls.getD fid default
  match neighborVelocitySum g springl with
  | none => none
  | some (vel, wsum) =>
    if wsum > 0 then
      let vel1 := Vec3s.smul (1 / wsum) vel
      match assignAt g.mConstellation.mParticleVelocity fid vel1 with
      | none => none
      | some pv =>
        match
          (List.range (g.mConstellation.size springl)).foldlM
            (fun vv n => assignAt vv (springl.offset + n) vel1) g.mConstellation.mVertexVelocity
        with
        | none => none
        | some vv => some (g.withVelocities pv vv, st.2)
    else some (g, st.2 + 1)

/-- One pass over the fill list: the spring level set after the pass and the
final `unfilledCount`. -/
def fillPass (g : SpringLevelSet) : Option (SpringLevelSet × Nat) :=
  g.fillList.foldlM fillElement (g, 0)

/-- The loop `for (cycle = 0; cycle < 16; cycle++)` of
`fillWithNearestNeighbors` with `cycles` iterations left: a pass, then `break`
when no element was left unfilled. -/
def fillCycles : Nat → SpringLevelSet → Option SpringLevelSet
  | 0, g => some g
  | cycles + 1, g =>
    match fillPass g with
    | none => none
    | some (g1, unfilledCount) => if unfilledCount = 0 then some g1 else fillCycles cycles g1

/-- Embeds `SpringLevelSet::fillWithNearestNeighbors`.  `env` is the environment
after `updateUnSignedLevelSet()`, which rebuilds the unsigned field and the
index grid and leaves the constellation alone.  The result is `none` when an
index into one of the velocity arrays is out of range. -/
def SpringLevelSet.fillWithNearestNeighbors (env : Env) (g : SpringLevelSet) :
    Option SpringLevelSet :=
  if g.fillList.length > 0 then
    match fillCycles 16 (g.updateNearestNeighbors env) with
    | none => none
    | some g1 => some { g1 with fillList := [] }
  else some g

/-- The neighbour entries of all local vertices of an element, in the order the
loops of `fillWithNearestNeighbors` visit them. -/
def fillNeighbors (g : SpringLevelSet) (springl : Springl) : List SpringlNeighbor :=
  (List.range (g.mConstellation.size springl)).flatMap
    (fun k => g.getNearestNeighbors springl.id k)

/-- The neighbour particle velocities of an element that are not zero, one for
every neighbour entry. -/
def nonZeroNeighborVelocities (g : SpringLevelSet) (springl : Springl) : List Vec3s :=
  ((fillNeighbors g springl).map
    (fun ci => g.mConstellation.mParticleVelocity.getD ci.springlId default)).filter
    (fun v => decide (v.lengthSqr > 0))

/-- One executed pass of `fillWithNearestNeighbors`: the spring level set before
and after it and the number of elements it left unfilled. -/
structure FillPassRun where
  before : SpringLevelSet
  after : SpringLevelSet
  unfilledCount : Nat

/-- The runs are consecutive passes that start from `g`. -/
def FillPasses : SpringLevelSet → List FillPassRun → Prop
  | _, [] => True
  | g, x :: xs =>
    x.before = g ∧ fillPass g = some (x.after, x.unfilledCount) ∧ FillPasses x.after xs

/-- The state a fill pass works on: the constellation is laid out with sizes
`ks`, the velocity arrays are aligned with it, and the fill list and the
neighbour lists name elements of the constellation. -/
structure FillReady (g : SpringLevelSet) (ks : List Nat) : Prop where
  layout : g.mConstellation.Layout ks
  pv_len : g.mConstellation.mParticleVelocity.length = ks.length
  vv_len : g.mConstellation.mVertexVelocity.length = ks.sum
  fill_lt : ∀ fid ∈ g.fillList, fid < ks.length
  nbr_lt : ∀ e, e < ks.length → ∀ k, k < ks.getD e 0 →
    ∀ ci ∈ g.getNearestNeighbors e k, ci.springlId < ks.length

/-- Element `e` is not filled by the pass that starts from `h`: whenever the
pass reaches `e` in the fill list, no neighbour entry of `e` has a non-zero
particle velocity in the state reached. -/
def UnfilledInPass (h : SpringLevelSet) (e : Nat) : Prop :=
  ∀ pre post st, h.fillList = pre ++ e :: post →
    pre.foldlM fillElement (h, 0) = some st →
    nonZeroNeighborVelocities st.1 (st.1.mConstellation.springls.getD e default) = []

/-- The sample aggregate with the optional arrays in use and element 0 on the
fill list. -/
def sampleFillGrid : SpringLevelSet :=
  { sampleTaggedGrid with fillList := [0] }

/-- A sample aggregate with a particle velocity array and no vertex velocity
array: element 0, at rest, is on the fill list, element 1 moves. -/
def sampleUnguardedGrid : SpringLevelSet :=
  { sampleGrid with
    mConstellation := { sampleConstellation with mParticleVelocity := [⟨0, 0, 0⟩, ⟨1, 0, 0⟩] }
    fillList := [0] }

/-! ## A sample for the aspect test of `clean` -/

/-- The single-precision value of `0.35f`, `11744051 / 2 ^ 25`. -/
def SLIM_WIDTH : ℚ := 11744051 / 33554432

/-- A sample mesh: one quad of 3.5 by `0.35f` on the plane `z = 0`. -/
def slimMesh : Mesh where
  mVertexes := [⟨0, 0, 0⟩, ⟨7 / 2, 0, 0⟩, ⟨7 / 2, SLIM_WIDTH, 0⟩, ⟨0, SLIM_WIDTH, 0⟩]
  mFaces := [⟨0, 1, 2, 3⟩]
  mQuadIndexes := [0, 1, 2, 3]
  mTriIndexes := []
  mParticleVelocity := []
  mVertexVelocity := []

/-- A sample environment for the slim quad, with the values single-precision
arithmetic returns on it: the square roots of `3.5²`, `0.35f²` and
`(7 · 0.35f)²` are 3.5, `0.35f` and `7 · 0.35f`, and the quotient of `0.35f` by
3.5, which is 0.0999999966 in exact arithmetic, is the nearest `float`, `0.1f`.
Elsewhere the operations are those of the first sample environment. -/
def slimEnv : Env :=
  { sampleEnv with
    fdiv := fun a b => if a = SLIM_WIDTH ∧ b = 7 / 2 then 13421773 / 134217728 else a / b
    sqrt := fun x =>
      if x = 49 / 4 then 7 / 2
      else if x = SLIM_WIDTH * SLIM_WIDTH then SLIM_WIDTH
      else if x = 49 * (SLIM_WIDTH * SLIM_WIDTH) then 7 * SLIM_WIDTH
      else x }

/-- The constellation created from the slim quad. -/
def slimConstellation : Constellation :=
  Constellation.create slimEnv emptyConstellation slimMesh

/-- A sample aggregate around the slim quad. -/
def slimGrid : SpringLevelSet where
  mConstellation := slimConstellation
  mNearestNeighbors := []
  fillList := []
  mFillCount := 0
  mCleanCount := 0
  pointList := []
  polygonPoolList := []

/-! ## A sample for the distance test of `fill` -/

/-- A sample environment for `fill`: the stencil finds element 0 around every
point, and the squared distance to its face is exactly `D2` from the point
`(1/8, 1/8, 0)` and 1 from every other point. -/
def boundaryEnv : Env :=
  { sampleEnv with
    denseStencil := fun _ _ => [0]
    DistanceToQuadSqr := fun pt _ _ _ _ _ => if pt = ⟨1 / 8, 1 / 8, 0⟩ then D2 else 1 }

/-- The cleaned sample aggregate with an iso-surface of two triangles: the
first has its reference point at `(1/8, 1/8, 0)`, the second at
`(13/4, 1/4, 0)`. -/
def boundaryGrid : SpringLevelSet :=
  { sampleCleanedGrid with
    pointList := [⟨0, 0, 0⟩, ⟨1 / 2, 0, 0⟩, ⟨0, 1 / 2, 0⟩, ⟨4, 0, 0⟩, ⟨5, 0, 0⟩, ⟨4, 1, 0⟩]
    polygonPoolList := [⟨[], [⟨0, 1, 2⟩, ⟨3, 4, 5⟩]⟩] }

/-- The loop state of `fill` on the sample when it starts. -/
def boundaryStart : FillState :=
  { c := sampleCleaned, counter := 4, pcounter := 1, added := 0, fillList := [] }

/-! ## The loop of `advect1` in double precision

The loop above reads the loop of `advect1` in exact arithmetic.  Whether the
loop terminates, how many sub-steps it runs and where the running time ends
depend on how `mEndTime - time`, the quotient and `time += dt` are rounded, so
the loop is embedded a second time with these three operations as parameters
and with the constants at the values the compiler gives them. -/

/-- The three `double` operations of the loop of `advect1` whose rounding
matters: `add` for `time += dt`, `sub` for `mEndTime - time`, `div` for the
quotient of `MAX_TIME_STEP * scale` by the speed. -/
structure DoubleArith where
  add : ℚ → ℚ → ℚ
  sub : ℚ → ℚ → ℚ
  div : ℚ → ℚ → ℚ

/-- The value of `const double EPS = 1E-30f`: the single-precision literal,
`332307 / 2 ^ 118`, which is 1.0000000031710769e-30; the conversion to `double`
is exact. -/
def Rounded.EPS : ℚ := 332307 / 2 ^ 118

/-- The value of the `double` literal `1E-30` in `std::max(1E-30, maxV)`,
`178405961588245 / 2 ^ 147`. -/
def DBL_1E_30 : ℚ := 178405961588245 / 2 ^ 147

/-- The step chosen in a sub-step of `advect1`, with the arithmetic `fl`:
`maxV = std::max(EPS, V)` and
`dt = clamp(MAX_TIME_STEP * scale / std::max(1E-30, maxV), 0.0, mEndTime - time)`.
The product `MAX_TIME_STEP * scale` is exact, `MAX_TIME_STEP` being 0.5, and
so are `std::max` and `clamp`, which return one of their arguments. -/
def Rounded.stepSize (fl : DoubleArith) (scale V mEndTime time : ℚ) : ℚ :=
  clamp (fl.div (MAX_VEXT * scale) (max DBL_1E_30 (max Rounded.EPS V))) 0 (fl.sub mEndTime time)

/-- The loop `for (time = mStartTime; time < mEndTime; time += dt)` of
`advect1` with the arithmetic `fl`, run for at most `fuel` iterations; `none`
when the fuel does not suffice. -/
def Rounded.subStepLoop {σ : Type} (fl : DoubleArith) (ops : AdvectOps σ) (scheme : MotionScheme)
    (scale mEndTime : ℚ) : Nat → LoopState σ → Option (LoopState σ)
  | 0, st => if st.time < mEndTime then none else some st
  | fuel + 1, st =>
    if st.time < mEndTime then
      let V := ops.maxSpeed st.s st.time
      let dt := Rounded.stepSize fl scale V mEndTime st.time
      if dt < Rounded.EPS then some { st with dt := dt }
      else
        let s1 := ops.advectSpringls st.s st.time dt
        let s2 := if scheme = MotionScheme.EXPLICIT then ops.advectVertexes s1 st.time dt else s1
        let s3 := if scheme = MotionScheme.SEMI_IMPLICIT then ops.track s2 st.time else s2
        Rounded.subStepLoop fl ops scheme scale mEndTime fuel
          { s := s3
            time := fl.add st.time dt
            dt := dt
            steps := st.steps ++ [⟨st.time, V, dt⟩]
            events :=
              st.events ++ [AdvectEvent.advectSpringls st.time dt]
                ++ (if scheme = MotionScheme.EXPLICIT then
                      [AdvectEvent.advectVertexes st.time dt] else [])
                ++ (if scheme = MotionScheme.SEMI_IMPLICIT then
                      [AdvectEvent.track st.time] else []) }
    else some st

/-- The `double` nearest to `10 ^ 30`, the value of the literal `1e30`. -/
def DBL_1E30 : ℚ := 1000000000000000019884624838656

/-- The `double` quotient of 0.5 by `EPS`: the quotient is
`2 ^ 117 / 332307`, and the nearest `double` is `7105427335069146 · 2 ^ 46`. -/
def HALF_BY_EPS : ℚ := 499999998414461599230348754944

/-- The value of the `double` literal `0.3`. -/
def DBL_0_3 : ℚ := 5404319552844595 / 2 ^ 54

/-- The value of the `double` literal `0.9`. -/
def DBL_0_9 : ℚ := 8106479329266893 / 2 ^ 53

/-- The `double` result of `0.9 - 0.3`, which is 0.6000000000000001. -/
def DBL_0_9_MINUS_0_3 : ℚ := 1351079888211149 / 2 ^ 51

/-- The `double` result of `0.3 + (0.9 - 0.3)`, which is 0.9000000000000001. -/
def DBL_0_3_PLUS_REST : ℚ := 4053239664633447 / 2 ^ 52

/-- The value of the `double` literal `0.2`. -/
def DBL_0_2 : ℚ := 3602879701896397 / 2 ^ 54

/-- The value of the `double` literal `0.86`. -/
def DBL_0_86 : ℚ := 7746191359077253 / 2 ^ 53

/-- The `double` result of `0.86 - 0.2`, which is 0.6599999999999999. -/
def DBL_0_86_MINUS_0_2 : ℚ := 2972375754064527 / 2 ^ 52

/-- The `double` result of `0.2 + (0.86 - 0.2)`, which is 0.8599999999999999,
the `double` just below `0.86`. -/
def DBL_0_2_PLUS_REST : ℚ := 1936547839769313 / 2 ^ 51

/-- Sample `double` arithmetic: the results IEEE 754 arithmetic (round to
nearest, ties to even) returns on the operands of the sample runs, where the
result is rounded, and the exact result on all other operands.  Rounded are the
quotient of 0.5 by `EPS`, the differences `0.9 - 0.3` and `0.86 - 0.2`, the
sums `0.3 + (0.9 - 0.3)` and `0.2 + (0.86 - 0.2)`, and the sum `1e20 + 1`,
which is `1e20` again, the spacing of `double` values at `1e20` being 16384.
The other operations of the sample runs are exact in `double` arithmetic. -/
def sampleDouble : DoubleArith where
  add := fun a b =>
    if a = 10 ^ 20 ∧ b = 1 then 10 ^ 20
    else if a = DBL_0_3 ∧ b = DBL_0_9_MINUS_0_3 then DBL_0_3_PLUS_REST
    else if a = DBL_0_2 ∧ b = DBL_0_86_MINUS_0_2 then DBL_0_2_PLUS_REST
    else a + b
  sub := fun a b =>
    if a = DBL_0_9 ∧ b = DBL_0_3 then DBL_0_9_MINUS_0_3
    else if a = DBL_0_86 ∧ b = DBL_0_2 then DBL_0_86_MINUS_0_2
    else a - b
  div := fun a b => if a = 1 / 2 ∧ b = Rounded.EPS then HALF_BY_EPS else a / b

theorem getD_append_drop {α : Type} (A X : List α) (p n : Nat) (d : α)
    (hA : A.length = p) (hpn : p ≤ n) : (A ++ X.drop p).getD n d = X.getD n d := by
  rw [List.getD_append_right _ _ _ _ (by omega)]
  simp only [List.getD_eq_getElem?_getD, List.getElem?_drop, hA]
  congr 2
  omega

theorem set_append_drop {α : Type} (A X : List α) (p : Nat) (v : α)
    (hA : A.length = p) (hp : p < X.length) :
    (A ++ X.drop p).set p v = (A ++ [v]) ++ X.drop (p + 1) := by
  rw [List.set_append, if_neg (by omega), hA, Nat.sub_self, List.drop_eq_getElem_cons hp,
    List.set_cons_zero, List.append_assoc, List.singleton_append]

theorem keep_append_drop {α : Type} (A X : List α) (p : Nat) (d : α)
    (hp : p < X.length) :
    A ++ X.drop p = (A ++ [X.getD p d]) ++ X.drop (p + 1) := by
  rw [List.drop_eq_getElem_cons hp, List.getD_eq_getElem _ _ hp]
  simp

theorem copyRange_succ {α : Type} [Inhabited α] (a : List α) (dst src K : Nat) :
    copyRange a dst src (K + 1) =
      (copyRange a dst src K).set (dst + K) ((copyRange a dst src K).getD (src + K) default) := by
  simp [copyRange, List.range_succ, List.foldl_append]

theorem copyRange_length {α : Type} [Inhabited α] (a : List α) (dst src K : Nat) :
    (copyRange a dst src K).length = a.length := by
  induction K with
  | zero => simp [copyRange]
  | succ K ih => rw [copyRange_succ, List.length_set, ih]

theorem copyRange_getElem? {α : Type} [Inhabited α] (a : List α) (dst src K : Nat)
    (hds : dst ≤ src) (hs : src + K ≤ a.length) :
    ∀ i, (copyRange a dst src K)[i]? =
      if dst ≤ i ∧ i < dst + K then a[src + (i - dst)]? else a[i]? := by
  induction K with
  | zero =>
    intro i
    have : ¬ (dst ≤ i ∧ i < dst + 0) := by omega
    rw [if_neg this]; simp [copyRange]
  | succ K ih =>
    intro i
    have ih' := ih (by omega)
    have hlen := copyRange_length a dst src K
    rw [copyRange_succ, List.getElem?_set, List.getD_eq_getElem?_getD, ih' (src + K), hlen]
    have h1 : ¬ (dst ≤ src + K ∧ src + K < dst + K) := by omega
    have h2 : dst + K < a.length := by omega
    have h3 : src + K < a.length := by omega
    rw [if_neg h1, if_pos h2, List.getElem?_eq_getElem h3, Option.getD_some]
    by_cases h : dst + K = i
    · subst h
      have : dst ≤ dst + K ∧ dst + K < dst + (K + 1) := by omega
      rw [if_pos rfl, if_pos this]
      have e : src + (dst + K - dst) = src + K := by omega
      rw [e, List.getElem?_eq_getElem h3]
    · rw [if_neg h, ih' i]
      by_cases h4 : dst ≤ i ∧ i < dst + K
      · have : dst ≤ i ∧ i < dst + (K + 1) := by omega
        rw [if_pos h4, if_pos this]
      · have : ¬ (dst ≤ i ∧ i < dst + (K + 1)) := by omega
        rw [if_neg h4, if_neg this]

theorem copyRange_append_drop {α : Type} [Inhabited α] (A X : List α) (vo off K : Nat)
    (hA : A.length = vo) (hvo : vo ≤ off) (hoff : off + K ≤ X.length) :
    copyRange (A ++ X.drop vo) vo off K = (A ++ block X off K) ++ X.drop (vo + K) := by
  apply List.ext_getElem?
  intro i
  have hlen : (A ++ X.drop vo).length = X.length := by
    simp [hA]; omega
  rw [copyRange_getElem? _ _ _ _ hvo (by omega)]
  simp only [block, List.getElem?_append, List.length_append, List.length_take, List.length_drop,
    hA, List.getElem?_drop, List.getElem?_take]
  have hmin : min K (X.length - off) = K := by omega
  rw [hmin]
  by_cases h1 : i < vo
  · have : ¬ (vo ≤ i ∧ i < vo + K) := by omega
    have h2 : i < vo + K := by omega
    simp [this, h1, h2]
  · by_cases h2 : i < vo + K
    · have : vo ≤ i ∧ i < vo + K := by omega
      have h3 : ¬ (off + (i - vo) < vo) := by omega
      have h4 : i - vo < K := by omega
      simp only [this, h1, h2, h3, h4, if_true, if_false, and_self]
      congr 1; omega
    · have : ¬ (vo ≤ i ∧ i < vo + K) := by omega
      simp only [this, h1, h2, if_false, and_false]
      congr 1; omega

theorem storeRange_succ (a : List Nat) (dst base K : Nat) :
    storeRange a dst base (K + 1) = (storeRange a dst base K).set (dst + K) (base + K) := by
  simp [storeRange, List.range_succ, List.foldl_append]

theorem storeRange_length (a : List Nat) (dst base K : Nat) :
    (storeRange a dst base K).length = a.length := by
  induction K with
  | zero => simp [storeRange]
  | succ K ih => rw [storeRange_succ, List.length_set, ih]

theorem storeRange_getElem? (a : List Nat) (dst base K : Nat) (hs : dst + K ≤ a.length) :
    ∀ i, (storeRange a dst base K)[i]? =
      if dst ≤ i ∧ i < dst + K then some (base + (i - dst)) else a[i]? := by
  induction K with
  | zero =>
    intro i
    have : ¬ (dst ≤ i ∧ i < dst + 0) := by omega
    rw [if_neg this]; simp [storeRange]
  | succ K ih =>
    intro i
    have ih' := ih (by omega)
    rw [storeRange_succ, List.getElem?_set, storeRange_length]
    have h2 : dst + K < a.length := by omega
    rw [if_pos h2]
    by_cases h : dst + K = i
    · subst h
      have : dst ≤ dst + K ∧ dst + K < dst + (K + 1) := by omega
      rw [if_pos rfl, if_pos this]
      congr 2; omega
    · rw [if_neg h, ih' i]
      by_cases h4 : dst ≤ i ∧ i < dst + K
      · have : dst ≤ i ∧ i < dst + (K + 1) := by omega
        rw [if_pos h4, if_pos this]
      · have : ¬ (dst ≤ i ∧ i < dst + (K + 1)) := by omega
        rw [if_neg h4, if_neg this]

theorem storeRange_append_drop (A X : List Nat) (qi base K : Nat)
    (hA : A.length = qi) (hq : qi + K ≤ X.length) :
    storeRange (A ++ X.drop qi) qi base K
      = (A ++ (List.range K).map (fun k => base + k)) ++ X.drop (qi + K) := by
  apply List.ext_getElem?
  intro i
  rw [storeRange_getElem? _ _ _ _ (by simp [hA]; omega)]
  simp only [List.getElem?_append, List.length_append, List.length_map, List.length_range,
    hA, List.getElem?_drop, List.getElem?_map]
  by_cases h1 : i < qi
  · have : ¬ (qi ≤ i ∧ i < qi + K) := by omega
    have h2 : i < qi + K := by omega
    simp [this, h1, h2]
  · by_cases h2 : i < qi + K
    · have : qi ≤ i ∧ i < qi + K := by omega
      have h4 : i - qi < K := by omega
      simp [this, h1, h2, h4, List.getElem?_range]
    · have : ¬ (qi ≤ i ∧ i < qi + K) := by omega
      simp only [this, h1, h2, if_false, and_false]
      congr 1; omega

/-! ### Layouts -/

theorem layoutSpringls_append (i off : Nat) (ks ls : List Nat) :
    layoutSpringls i off (ks ++ ls)
      = layoutSpringls i off ks ++ layoutSpringls (i + ks.length) (off + ks.sum) ls := by
  induction ks generalizing i off with
  | nil => simp [layoutSpringls]
  | cons k ks ih =>
    rw [List.cons_append]
    simp only [layoutSpringls, List.length_cons, List.sum_cons, List.cons_append]
    rw [ih, show i + 1 + ks.length = i + (ks.length + 1) by omega,
      show off + k + ks.sum = off + (k + ks.sum) by omega]

theorem layoutFaces_append (off : Nat) (ks ls : List Nat) :
    layoutFaces off (ks ++ ls) = layoutFaces off ks ++ layoutFaces (off + ks.sum) ls := by
  induction ks generalizing off with
  | nil => simp [layoutFaces]
  | cons k ks ih =>
    rw [List.cons_append]
    simp only [layoutFaces, List.sum_cons, List.cons_append, List.append_assoc]
    rw [ih, show off + k + ks.sum = off + (k + ks.sum) by omega]

theorem layoutQuads_append (off : Nat) (ks ls : List Nat) :
    layoutQuads off (ks ++ ls) = layoutQuads off ks ++ layoutQuads (off + ks.sum) ls := by
  induction ks generalizing off with
  | nil => simp [layoutQuads]
  | cons k ks ih =>
    rw [List.cons_append]
    simp only [layoutQuads, List.sum_cons, List.cons_append, List.append_assoc]
    rw [ih, show off + k + ks.sum = off + (k + ks.sum) by omega]

theorem layoutTris_append (off : Nat) (ks ls : List Nat) :
    layoutTris off (ks ++ ls) = layoutTris off ks ++ layoutTris (off + ks.sum) ls := by
  induction ks generalizing off with
  | nil => simp [layoutTris]
  | cons k ks ih =>
    rw [List.cons_append]
    simp only [layoutTris, List.sum_cons, List.cons_append, List.append_assoc]
    rw [ih, show off + k + ks.sum = off + (k + ks.sum) by omega]

theorem layoutSpringls_length (i off : Nat) (ks : List Nat) :
    (layoutSpringls i off ks).length = ks.length := by
  induction ks generalizing i off with
  | nil => rfl
  | cons k ks ih => simp [layoutSpringls, ih]

theorem layoutFaces_length (off : Nat) (ks : List Nat) :
    (layoutFaces off ks).length = ks.length := by
  induction ks generalizing off with
  | nil => rfl
  | cons k ks ih => simp [layoutFaces, ih]

/-- Length of the quad stream of a shape. -/
theorem layoutQuads_length (off : Nat) (ks : List Nat) :
    (layoutQuads off ks).length = (ks.map (fun k => if k = 4 then 4 else 0)).sum := by
  induction ks generalizing off with
  | nil => rfl
  | cons k ks ih =>
    simp only [layoutQuads, List.length_append, ih, List.map_cons, List.sum_cons, quadEntries]
    split <;> simp

theorem layoutTris_length (off : Nat) (ks : List Nat) :
    (layoutTris off ks).length = (ks.map (fun k => if k = 4 then 0 else 3)).sum := by
  induction ks generalizing off with
  | nil => rfl
  | cons k ks ih =>
    simp only [layoutTris, List.length_append, ih, List.map_cons, List.sum_cons, triEntries]
    split <;> simp

theorem take_succ_getD (ks : List Nat) (n : Nat) (hn : n < ks.length) :
    ks.take (n + 1) = ks.take n ++ [ks.getD n 0] := by
  rw [List.take_succ, List.getD_eq_getElem _ _ hn, List.getElem?_eq_getElem hn]
  rfl

theorem split_at (ks : List Nat) (n : Nat) (hn : n < ks.length) :
    ks = ks.take n ++ ks.getD n 0 :: ks.drop (n + 1) := by
  conv_lhs => rw [← List.take_append_drop n ks, List.drop_eq_getElem_cons hn]
  rw [List.getD_eq_getElem _ _ hn]

theorem layoutSpringls_getD (ks : List Nat) (n : Nat) (hn : n < ks.length) :
    (layoutSpringls 0 0 ks).getD n default = ⟨n, offs ks n⟩ := by
  have h := split_at ks n hn
  have hl : (ks.take n).length = n := by simp; omega
  have e1 : offs ks n = (ks.take n).sum := rfl
  rw [e1]
  generalize ks.getD n 0 = K at h ⊢
  generalize ks.take n = pre at h hl ⊢
  rw [h, layoutSpringls_append, List.getD_append_right _ _ _ _ (by simp [layoutSpringls_length]; omega)]
  simp [layoutSpringls_length, hl, layoutSpringls]

theorem layoutFaces_getD (ks : List Nat) (n : Nat) (hn : n < ks.length) :
    (layoutFaces 0 ks).getD n default = blockFace (offs ks n) (ks.getD n 0) := by
  have h := split_at ks n hn
  have hl : (ks.take n).length = n := by simp; omega
  have e1 : offs ks n = (ks.take n).sum := rfl
  rw [e1]
  generalize ks.getD n 0 = K at h ⊢
  generalize ks.take n = pre at h hl ⊢
  rw [h, layoutFaces_append, List.getD_append_right _ _ _ _ (by simp [layoutFaces_length]; omega)]
  simp [layoutFaces_length, hl, layoutFaces]

/-! ### Prefixes, offsets and gathered blocks -/

theorem map_getD_range {α : Type} (l : List α) (d : α) (m : Nat) (hm : m ≤ l.length) :
    (List.range m).map (fun n => l.getD n d) = l.take m := by
  apply List.ext_getElem?
  intro i
  simp only [List.getElem?_map, List.getElem?_range, List.getElem?_take]
  by_cases h : i < m
  · have hi : i < l.length := by omega
    simp [h, List.getElem?_range, List.getD_eq_getElem _ _ hi, List.getElem?_eq_getElem hi]
  · simp [h, List.getElem?_range]; omega

theorem offs_succ (ks : List Nat) (n : Nat) (hn : n < ks.length) :
    offs ks (n + 1) = offs ks n + ks.getD n 0 := by
  simp [offs, take_succ_getD ks n hn]

theorem offs_mono (ks : List Nat) {b n : Nat} (h : b ≤ n) : offs ks b ≤ offs ks n := by
  unfold offs
  exact List.Sublist.sum_le_sum ((List.take_sublist_take_left ks h)) (fun _ _ => Nat.zero_le _)

theorem offs_le_sum (ks : List Nat) (n : Nat) : offs ks n ≤ ks.sum := by
  unfold offs
  exact List.Sublist.sum_le_sum (List.take_sublist n ks) (fun _ _ => Nat.zero_le _)

theorem offs_add_le (ks : List Nat) (n : Nat) (hn : n < ks.length) :
    offs ks n + ks.getD n 0 ≤ ks.sum := by
  rw [← offs_succ ks n hn]; exact offs_le_sum ks (n + 1)

theorem sum_map_sublist_le (ks : List Nat) (f : Nat → Nat) (pre : List Nat) (b : Nat)
    (hb : b ≤ ks.length) (hpre : pre.Sublist (List.range b)) :
    ((pre.map (fun n => ks.getD n 0)).map f).sum ≤ ((ks.take b).map f).sum := by
  rw [← map_getD_range ks 0 b hb]
  exact List.Sublist.sum_le_sum ((hpre.map _).map f) (fun _ _ => Nat.zero_le _)

theorem sum_map_take_mono (ks : List Nat) (f : Nat → Nat) {b n : Nat} (h : b ≤ n) :
    ((ks.take b).map f).sum ≤ ((ks.take n).map f).sum :=
  List.Sublist.sum_le_sum ((List.take_sublist_take_left ks h).map f) (fun _ _ => Nat.zero_le _)

theorem sum_map_take_le (ks : List Nat) (f : Nat → Nat) (n : Nat) :
    ((ks.take n).map f).sum ≤ (ks.map f).sum :=
  List.Sublist.sum_le_sum ((List.take_sublist n ks).map f) (fun _ _ => Nat.zero_le _)

theorem block_length {α : Type} (l : List α) (off K : Nat) (h : off + K ≤ l.length) :
    (block l off K).length = K := by
  simp [block]; omega

theorem gather_length {α : Type} (l : List α) (ks keep : List Nat)
    (hk : ∀ n ∈ keep, n < ks.length) (hl : ks.sum ≤ l.length) :
    (gather l ks keep).length = (keep.map (fun n => ks.getD n 0)).sum := by
  induction keep with
  | nil => simp [gather]
  | cons n keep ih =>
    have hn : n < ks.length := hk n (by simp)
    have h1 := offs_add_le ks n hn
    have ih' := ih (fun m hm => hk m (by simp [hm]))
    simp only [gather, List.flatMap_cons, List.length_append, List.map_cons, List.sum_cons] at ih' ⊢
    rw [ih', block_length _ _ _ (by omega)]

theorem gather_append {α : Type} (l : List α) (ks pre : List Nat) (n : Nat) :
    gather l ks (pre ++ [n]) = gather l ks pre ++ block l (offs ks n) (ks.getD n 0) := by
  simp [gather, List.flatMap_append]

theorem gather_range {α : Type} (l : List α) (ks : List Nat) (m : Nat) (hm : m ≤ ks.length) :
    gather l ks (List.range m) = l.take (offs ks m) := by
  induction m with
  | zero => simp [gather, offs]
  | succ m ih =>
    rw [List.range_succ, gather_append, ih (by omega), offs_succ ks m (by omega), block,
      List.take_add]

theorem sublist_range'_cons {n : Nat} {t : List Nat} {b m : Nat}
    (h : (n :: t).Sublist (List.range' b m)) :
    b ≤ n ∧ n < b + m ∧ t.Sublist (List.range' (n + 1) (b + m - (n + 1))) := by
  induction m generalizing b with
  | zero => simp at h
  | succ m ih =>
    rw [List.range'_succ] at h
    rcases List.sublist_cons_iff.mp h with h' | ⟨r, hr, h'⟩
    · obtain ⟨h1, h2, h3⟩ := ih h'
      refine ⟨by omega, by omega, ?_⟩
      have : b + 1 + m - (n + 1) = b + (m + 1) - (n + 1) := by omega
      rw [← this]; exact h3
    · injection hr with h1 h2
      subst h1 h2
      refine ⟨le_refl _, by omega, ?_⟩
      have : n + (m + 1) - (n + 1) = m := by omega
      rw [this]; exact h'

theorem sublist_snoc_range {pre : List Nat} {b n : Nat} (h : pre.Sublist (List.range b))
    (hbn : b ≤ n) : (pre ++ [n]).Sublist (List.range (n + 1)) := by
  rw [List.range_succ]
  exact List.Sublist.append (h.trans (List.range_sublist.mpr hbn)) (List.Sublist.refl _)

theorem sublist_range_full {pre : List Nat} {b : Nat} (h : pre.Sublist (List.range b))
    (hl : pre.length = b) : pre = List.range b :=
  h.eq_of_length (by simp [hl])

theorem sublist_range_length {pre : List Nat} {b : Nat} (h : pre.Sublist (List.range b)) :
    pre.length ≤ b := by
  simpa using h.length_le

theorem sublist_range_lt {pre : List Nat} {b : Nat} (h : pre.Sublist (List.range b)) :
    ∀ x ∈ pre, x < b := fun _ hx => List.mem_range.mp (h.subset hx)

/-! ### Projections of one compaction step -/

theorem cleanStep_springlOffset (st : CleanState) (n : Nat) :
    (cleanStep st n).springlOffset = st.springlOffset + 1 := rfl

theorem cleanStep_vertexOffset (st : CleanState) (n : Nat) :
    (cleanStep st n).vertexOffset
      = st.vertexOffset + st.c.size (st.c.springls.getD n default) := rfl

theorem cleanStep_quadIndex (st : CleanState) (n : Nat) :
    (cleanStep st n).quadIndex
      = if st.c.size (st.c.springls.getD n default) = 4 then
          st.quadIndex + st.c.size (st.c.springls.getD n default)
        else st.quadIndex := rfl

theorem cleanStep_triIndex (st : CleanState) (n : Nat) :
    (cleanStep st n).triIndex
      = if st.c.size (st.c.springls.getD n default) = 4 then st.triIndex
        else if st.c.size (st.c.springls.getD n default) = 3 then
          st.triIndex + st.c.size (st.c.springls.getD n default)
        else st.triIndex := rfl

theorem cleanStep_springls (st : CleanState) (n : Nat) :
    (cleanStep st n).c.springls
      = if st.springlOffset ≠ n then
          st.c.springls.set st.springlOffset ⟨st.springlOffset, st.vertexOffset⟩
        else st.c.springls := by
  unfold cleanStep; dsimp only; split <;> rfl

theorem cleanStep_mFaces (st : CleanState) (n : Nat) :
    (cleanStep st n).c.mFaces
      = if st.springlOffset ≠ n then
          st.c.mFaces.set st.springlOffset
            ((List.range (st.c.size (st.c.springls.getD n default))).foldl
              (fun q k => q.set k (st.vertexOffset + k)) ⟨0, 0, 0, INVALID_IDX⟩)
        else st.c.mFaces := by
  unfold cleanStep; dsimp only; split <;> rfl

theorem cleanStep_mParticles (st : CleanState) (n : Nat) :
    (cleanStep st n).c.mParticles
      = if st.springlOffset ≠ n then
          st.c.mParticles.set st.springlOffset (st.c.mParticles.getD n default)
        else st.c.mParticles := by
  unfold cleanStep; dsimp only; split <;> rfl

theorem cleanStep_mParticleNormals (st : CleanState) (n : Nat) :
    (cleanStep st n).c.mParticleNormals
      = if st.springlOffset ≠ n then
          st.c.mParticleNormals.set st.springlOffset (st.c.mParticleNormals.getD n default)
        else st.c.mParticleNormals := by
  unfold cleanStep; dsimp only; split <;> rfl

theorem cleanStep_mVertexes (st : CleanState) (n : Nat) :
    (cleanStep st n).c.mVertexes
      = if st.springlOffset ≠ n then
          copyRange st.c.mVertexes st.vertexOffset (st.c.springls.getD n default).offset
            (st.c.size (st.c.springls.getD n default))
        else st.c.mVertexes := by
  unfold cleanStep; dsimp only; split <;> rfl

theorem cleanStep_mVertexNormals (st : CleanState) (n : Nat) :
    (cleanStep st n).c.mVertexNormals
      = if st.springlOffset ≠ n then
          copyRange st.c.mVertexNormals st.vertexOffset (st.c.springls.getD n default).offset
            (st.c.size (st.c.springls.getD n default))
        else st.c.mVertexNormals := by
  unfold cleanStep; dsimp only; split <;> rfl

theorem cleanStep_mQuadIndexes (st : CleanState) (n : Nat) :
    (cleanStep st n).c.mQuadIndexes
      = if st.springlOffset ≠ n ∧ st.c.size (st.c.springls.getD n default) = 4 then
          storeRange st.c.mQuadIndexes st.quadIndex st.vertexOffset 4
        else st.c.mQuadIndexes := by
  unfold cleanStep; dsimp only
  generalize st.c.size (st.c.springls.getD n default) = K
  by_cases h1 : st.springlOffset ≠ n <;> by_cases h2 : K = 4 <;> simp [h1, h2]

theorem cleanStep_mTriIndexes (st : CleanState) (n : Nat) :
    (cleanStep st n).c.mTriIndexes
      = if st.springlOffset ≠ n ∧ st.c.size (st.c.springls.getD n default) = 3 then
          storeRange st.c.mTriIndexes st.triIndex st.vertexOffset 3
        else st.c.mTriIndexes := by
  unfold cleanStep; dsimp only
  generalize st.c.size (st.c.springls.getD n default) = K
  by_cases h1 : st.springlOffset ≠ n <;> by_cases h2 : K = 3 <;> simp [h1, h2]

theorem quadFace_eq (vo K : Nat) (hK : K = 3 ∨ K = 4) :
    (List.range K).foldl (fun (q : Vec4I) k => q.set k (vo + k)) ⟨0, 0, 0, INVALID_IDX⟩
      = blockFace vo K := by
  rcases hK with h | h <;> subst h <;>
    simp [List.range_succ, Vec4I.set, blockFace]

/-! ### The compaction invariant -/

theorem keptSizes_append (ks pre : List Nat) (n : Nat) :
    keptSizes ks (pre ++ [n]) = keptSizes ks pre ++ [ks.getD n 0] := by
  simp [keptSizes]

theorem keptSizes_length (ks pre : List Nat) : (keptSizes ks pre).length = pre.length := by
  simp [keptSizes]

theorem keptSizes_range (ks : List Nat) (m : Nat) (hm : m ≤ ks.length) :
    keptSizes ks (List.range m) = ks.take m :=
  map_getD_range ks 0 m hm

theorem Constellation.Layout.getD_size {c : Constellation} {ks : List Nat} (hL : c.Layout ks) {n : Nat}
    (hn : n < ks.length) : ks.getD n 0 = 3 ∨ ks.getD n 0 = 4 := by
  rw [List.getD_eq_getElem _ _ hn]
  exact hL.sizes _ (List.getElem_mem hn)

theorem Constellation.Layout.springls_length {c : Constellation} {ks : List Nat} (hL : c.Layout ks) :
    c.springls.length = ks.length := by
  rw [hL.springls_eq, layoutSpringls_length]

theorem Constellation.Layout.faces_length {c : Constellation} {ks : List Nat} (hL : c.Layout ks) :
    c.mFaces.length = ks.length := by
  rw [hL.faces_eq, layoutFaces_length]

theorem blockFace_i3 (off K : Nat) (hK : K = 3 ∨ K = 4) (hb : off + K ≤ INVALID_IDX) :
    (if (blockFace off K).i3 = INVALID_IDX then 3 else 4) = K := by
  rcases hK with h | h <;> subst h
  · simp [blockFace]
  · have : off + 3 ≠ INVALID_IDX := by omega
    simp [blockFace, this]

theorem layoutSpringls_take_drop (ks : List Nat) (m : Nat) :
    layoutSpringls 0 0 (ks.take m) ++ (layoutSpringls 0 0 ks).drop m = layoutSpringls 0 0 ks := by
  by_cases hm : m ≤ ks.length
  · have h1 : (layoutSpringls 0 0 (ks.take m)).length = m := by
      rw [layoutSpringls_length, List.length_take]; omega
    conv_lhs => rw [← List.take_append_drop m ks, layoutSpringls_append]
    conv_rhs => rw [← List.take_append_drop m ks, layoutSpringls_append]
    rw [List.take_append_drop]
    congr 1
    conv_lhs => arg 1; rw [← h1]
    exact List.drop_left _ _
  · have h1 : ks.take m = ks := List.take_of_length_le (by omega)
    rw [h1, List.drop_of_length_le (by rw [layoutSpringls_length]; omega), List.append_nil]

theorem layoutFaces_take_drop (ks : List Nat) (m : Nat) :
    layoutFaces 0 (ks.take m) ++ (layoutFaces 0 ks).drop m = layoutFaces 0 ks := by
  by_cases hm : m ≤ ks.length
  · have h1 : (layoutFaces 0 (ks.take m)).length = m := by
      rw [layoutFaces_length, List.length_take]; omega
    conv_lhs => rw [← List.take_append_drop m ks, layoutFaces_append]
    conv_rhs => rw [← List.take_append_drop m ks, layoutFaces_append]
    rw [List.take_append_drop]
    congr 1
    conv_lhs => arg 1; rw [← h1]
    exact List.drop_left _ _
  · have h1 : ks.take m = ks := List.take_of_length_le (by omega)
    rw [h1, List.drop_of_length_le (by rw [layoutFaces_length]; omega), List.append_nil]

theorem layoutQuads_take_drop (ks : List Nat) (m : Nat) :
    layoutQuads 0 (ks.take m) ++ (layoutQuads 0 ks).drop (layoutQuads 0 (ks.take m)).length
      = layoutQuads 0 ks := by
  conv_lhs => arg 2; arg 2; rw [← List.take_append_drop m ks, layoutQuads_append]
  conv_rhs => rw [← List.take_append_drop m ks, layoutQuads_append]
  rw [List.drop_left]

theorem layoutTris_take_drop (ks : List Nat) (m : Nat) :
    layoutTris 0 (ks.take m) ++ (layoutTris 0 ks).drop (layoutTris 0 (ks.take m)).length
      = layoutTris 0 ks := by
  conv_lhs => arg 2; arg 2; rw [← List.take_append_drop m ks, layoutTris_append]
  conv_rhs => rw [← List.take_append_drop m ks, layoutTris_append]
  rw [List.drop_left]

theorem cleanInv_range_iff {c0 : Constellation} {ks : List Nat} (hL : c0.Layout ks) (m : Nat)
    (hm : m ≤ ks.length) (st : CleanState) :
    CleanInv c0 ks (List.range m) st ↔
      (st.springlOffset = m ∧ st.vertexOffset = offs ks m ∧
        st.quadIndex = (layoutQuads 0 (ks.take m)).length ∧
        st.triIndex = (layoutTris 0 (ks.take m)).length) ∧
      (st.c.springls = c0.springls ∧ st.c.mFaces = c0.mFaces ∧
        st.c.mParticles = c0.mParticles ∧ st.c.mParticleNormals = c0.mParticleNormals ∧
        st.c.mVertexes = c0.mVertexes ∧ st.c.mVertexNormals = c0.mVertexNormals ∧
        st.c.mQuadIndexes = c0.mQuadIndexes ∧ st.c.mTriIndexes = c0.mTriIndexes) := by
  have esz := keptSizes_range ks m hm
  have elen : (List.range m).length = m := List.length_range m
  have e1 : layoutSpringls 0 0 (ks.take m) ++ c0.springls.drop m = c0.springls := by
    rw [hL.springls_eq, layoutSpringls_take_drop]
  have e2 : layoutFaces 0 (ks.take m) ++ c0.mFaces.drop m = c0.mFaces := by
    rw [hL.faces_eq, layoutFaces_take_drop]
  have e3 : (List.range m).map (fun n => c0.mParticles.getD n default) ++ c0.mParticles.drop m
      = c0.mParticles := by
    rw [map_getD_range _ _ _ (by rw [hL.particles_len]; exact hm), List.take_append_drop]
  have e4 : (List.range m).map (fun n => c0.mParticleNormals.getD n default)
      ++ c0.mParticleNormals.drop m = c0.mParticleNormals := by
    rw [map_getD_range _ _ _ (by rw [hL.pnormals_len]; exact hm), List.take_append_drop]
  have e5 : gather c0.mVertexes ks (List.range m) ++ c0.mVertexes.drop (ks.take m).sum
      = c0.mVertexes := by
    rw [gather_range _ _ _ hm]; exact List.take_append_drop _ _
  have e6 : gather c0.mVertexNormals ks (List.range m) ++ c0.mVertexNormals.drop (ks.take m).sum
      = c0.mVertexNormals := by
    rw [gather_range _ _ _ hm]; exact List.take_append_drop _ _
  have e7 : layoutQuads 0 (ks.take m)
      ++ c0.mQuadIndexes.drop (layoutQuads 0 (ks.take m)).length = c0.mQuadIndexes := by
    rw [hL.quads_eq, layoutQuads_take_drop]
  have e8 : layoutTris 0 (ks.take m)
      ++ c0.mTriIndexes.drop (layoutTris 0 (ks.take m)).length = c0.mTriIndexes := by
    rw [hL.tris_eq, layoutTris_take_drop]
  constructor
  · intro h
    have h1 := h.so; have h2 := h.vo; have h3 := h.qi; have h4 := h.ti
    have h5 := h.springls; have h6 := h.faces; have h7 := h.particles; have h8 := h.pnormals
    have h9 := h.vertexes; have h10 := h.vnormals; have h11 := h.quads; have h12 := h.tris
    rw [esz] at h2 h3 h4 h5 h6 h9 h10 h11 h12
    rw [elen] at h1 h5 h6 h7 h8
    rw [e1] at h5; rw [e2] at h6; rw [e3] at h7; rw [e4] at h8
    rw [e5] at h9; rw [e6] at h10; rw [e7] at h11; rw [e8] at h12
    exact ⟨⟨h1, h2, h3, h4⟩, h5, h6, h7, h8, h9, h10, h11, h12⟩
  · rintro ⟨⟨h1, h2, h3, h4⟩, h5, h6, h7, h8, h9, h10, h11, h12⟩
    exact
      { so := by rw [elen]; exact h1
        vo := by rw [esz]; exact h2
        qi := by rw [esz]; exact h3
        ti := by rw [esz]; exact h4
        springls := by rw [esz, elen, e1]; exact h5
        faces := by rw [esz, elen, e2]; exact h6
        particles := by rw [elen, e3]; exact h7
        pnormals := by rw [elen, e4]; exact h8
        vertexes := by rw [esz, e5]; exact h9
        vnormals := by rw [esz, e6]; exact h10
        quads := by rw [esz, e7]; exact h11
        tris := by rw [esz, e8]; exact h12 }

/-- The source element read by a compaction step is still the original one. -/
theorem cleanInv_source {c0 : Constellation} {ks pre : List Nat} (hL : c0.Layout ks)
    {st : CleanState} (hI : CleanInv c0 ks pre st) {n : Nat} (hpn : pre.length ≤ n)
    (hn : n < ks.length) :
    st.c.springls.getD n default = ⟨n, offs ks n⟩ ∧
    st.c.size (st.c.springls.getD n default) = ks.getD n 0 := by
  have h1 : st.c.springls.getD n default = ⟨n, offs ks n⟩ := by
    rw [hI.springls, getD_append_drop _ _ _ _ _ (by rw [layoutSpringls_length, keptSizes_length])
      hpn, hL.springls_eq, layoutSpringls_getD ks n hn]
  refine ⟨h1, ?_⟩
  rw [h1]
  unfold Constellation.size
  dsimp only
  rw [hI.faces, getD_append_drop _ _ _ _ _ (by rw [layoutFaces_length, keptSizes_length]) hpn,
    hL.faces_eq, layoutFaces_getD ks n hn]
  have := offs_add_le ks n hn
  exact blockFace_i3 _ _ (hL.getD_size hn) (by have := hL.bound; omega)

theorem layoutQuads_single_length (off K : Nat) :
    (layoutQuads off [K]).length = if K = 4 then 4 else 0 := by
  simp only [layoutQuads, quadEntries, List.append_nil]; split <;> rfl

theorem layoutTris_single_length (off K : Nat) :
    (layoutTris off [K]).length = if K = 4 then 0 else 3 := by
  simp only [layoutTris, triEntries, List.append_nil]; split <;> rfl

theorem quads_room (ks : List Nat) (n : Nat) (hn : n < ks.length) (h4 : ks.getD n 0 = 4) :
    (layoutQuads 0 (ks.take n)).length + 4 ≤ (layoutQuads 0 ks).length := by
  have h1 := sum_map_take_le ks (fun k => if k = 4 then 4 else 0) (n + 1)
  rw [take_succ_getD ks n hn] at h1
  simp only [List.map_append, List.sum_append, List.map_cons, List.map_nil, List.sum_cons,
    List.sum_nil, h4] at h1
  rw [layoutQuads_length, layoutQuads_length]
  simpa using h1

theorem tris_room (ks : List Nat) (n : Nat) (hn : n < ks.length) (h3 : ks.getD n 0 = 3) :
    (layoutTris 0 (ks.take n)).length + 3 ≤ (layoutTris 0 ks).length := by
  have h1 := sum_map_take_le ks (fun k => if k = 4 then 0 else 3) (n + 1)
  rw [take_succ_getD ks n hn] at h1
  simp only [List.map_append, List.sum_append, List.map_cons, List.map_nil, List.sum_cons,
    List.sum_nil, h3] at h1
  rw [layoutTris_length, layoutTris_length]
  simpa using h1

theorem cleanStep_inv_same {c0 : Constellation} {ks : List Nat} (hL : c0.Layout ks)
    {st : CleanState} {n : Nat} (hn : n < ks.length)
    (hI : CleanInv c0 ks (List.range n) st) :
    CleanInv c0 ks (List.range (n + 1)) (cleanStep st n) := by
  obtain ⟨hs, hK⟩ := cleanInv_source hL hI (by simp) hn
  have hK34 := hL.getD_size hn
  obtain ⟨⟨a, b, c, d⟩, s1, s2, s3, s4, s5, s6, s7, s8⟩ :=
    (cleanInv_range_iff hL n hn.le st).mp hI
  have hneg : ¬ (st.springlOffset ≠ n) := by simp [a]
  apply (cleanInv_range_iff hL (n + 1) hn (cleanStep st n)).mpr
  refine ⟨⟨?_, ?_, ?_, ?_⟩, ?_, ?_, ?_, ?_, ?_, ?_, ?_, ?_⟩
  · rw [cleanStep_springlOffset, a]
  · rw [cleanStep_vertexOffset, hK, b, offs_succ ks n hn]
  · rw [cleanStep_quadIndex, hK, c, take_succ_getD ks n hn, layoutQuads_append,
      List.length_append, layoutQuads_single_length]
    generalize ks.getD n 0 = K at hK34 ⊢
    rcases hK34 with h | h <;> subst h <;> simp
  · rw [cleanStep_triIndex, hK, d, take_succ_getD ks n hn, layoutTris_append,
      List.length_append, layoutTris_single_length]
    generalize ks.getD n 0 = K at hK34 ⊢
    rcases hK34 with h | h <;> subst h <;> simp
  · rw [cleanStep_springls, if_neg hneg, s1]
  · rw [cleanStep_mFaces, if_neg hneg, s2]
  · rw [cleanStep_mParticles, if_neg hneg, s3]
  · rw [cleanStep_mParticleNormals, if_neg hneg, s4]
  · rw [cleanStep_mVertexes, if_neg hneg, s5]
  · rw [cleanStep_mVertexNormals, if_neg hneg, s6]
  · rw [cleanStep_mQuadIndexes, if_neg (fun h => hneg h.1), s7]
  · rw [cleanStep_mTriIndexes, if_neg (fun h => hneg h.1), s8]

theorem cleanStep_inv_move {c0 : Constellation} {ks pre : List Nat} (hL : c0.Layout ks)
    {st : CleanState} {n : Nat} (hn : n < ks.length) (hpre : pre.Sublist (List.range n))
    (hlt : pre.length < n) (hI : CleanInv c0 ks pre st) :
    CleanInv c0 ks (pre ++ [n]) (cleanStep st n) := by
  obtain ⟨hs, hK⟩ := cleanInv_source hL hI (by omega) hn
  have hK34 := hL.getD_size hn
  have hne : st.springlOffset ≠ n := by rw [hI.so]; omega
  have hvo : (keptSizes ks pre).sum ≤ offs ks n := by
    have := sum_map_sublist_le ks id pre n hn.le hpre
    simpa [keptSizes, offs] using this
  have hq : (layoutQuads 0 (keptSizes ks pre)).length ≤ (layoutQuads 0 (ks.take n)).length := by
    rw [layoutQuads_length, layoutQuads_length]
    exact sum_map_sublist_le ks _ pre n hn.le hpre
  have ht : (layoutTris 0 (keptSizes ks pre)).length ≤ (layoutTris 0 (ks.take n)).length := by
    rw [layoutTris_length, layoutTris_length]
    exact sum_map_sublist_le ks _ pre n hn.le hpre
  have hoff := offs_add_le ks n hn
  have hmem : ∀ m ∈ pre, m < ks.length := fun m hm => by
    have := sublist_range_lt hpre m hm; omega
  have hlenS : (layoutSpringls 0 0 (keptSizes ks pre)).length = pre.length := by
    rw [layoutSpringls_length, keptSizes_length]
  have hlenF : (layoutFaces 0 (keptSizes ks pre)).length = pre.length := by
    rw [layoutFaces_length, keptSizes_length]
  refine
    { so := ?_, vo := ?_, qi := ?_, ti := ?_, springls := ?_, faces := ?_, particles := ?_,
      pnormals := ?_, vertexes := ?_, vnormals := ?_, quads := ?_, tris := ?_ }
  · rw [cleanStep_springlOffset, hI.so]; simp
  · rw [cleanStep_vertexOffset, hK, hI.vo, keptSizes_append]; simp
  · rw [cleanStep_quadIndex, hK, hI.qi, keptSizes_append, layoutQuads_append,
      List.length_append, layoutQuads_single_length]
    generalize ks.getD n 0 = K at hK34 ⊢
    rcases hK34 with h | h <;> subst h <;> simp
  · rw [cleanStep_triIndex, hK, hI.ti, keptSizes_append, layoutTris_append,
      List.length_append, layoutTris_single_length]
    generalize ks.getD n 0 = K at hK34 ⊢
    rcases hK34 with h | h <;> subst h <;> simp
  · rw [cleanStep_springls, if_pos hne, hI.so, hI.vo, hI.springls,
      set_append_drop _ _ _ _ hlenS (by rw [hL.springls_length]; omega), keptSizes_append,
      layoutSpringls_append, keptSizes_length]
    simp [layoutSpringls]
  · rw [cleanStep_mFaces, if_pos hne, hK, quadFace_eq _ _ hK34, hI.so, hI.vo, hI.faces,
      set_append_drop _ _ _ _ hlenF (by rw [hL.faces_length]; omega), keptSizes_append,
      layoutFaces_append]
    simp [layoutFaces]
  · rw [cleanStep_mParticles, if_pos hne, hI.so, hI.particles,
      getD_append_drop _ _ _ _ _ (by simp) (by omega),
      set_append_drop _ _ _ _ (by simp) (by rw [hL.particles_len]; omega)]
    simp
  · rw [cleanStep_mParticleNormals, if_pos hne, hI.so, hI.pnormals,
      getD_append_drop _ _ _ _ _ (by simp) (by omega),
      set_append_drop _ _ _ _ (by simp) (by rw [hL.pnormals_len]; omega)]
    simp
  · rw [cleanStep_mVertexes, if_pos hne, hK, hs, hI.vo, hI.vertexes]
    dsimp only
    rw [copyRange_append_drop _ _ _ _ _
        (show (gather c0.mVertexes ks pre).length = (keptSizes ks pre).sum from
          gather_length _ _ _ hmem (by rw [hL.vertexes_len])) hvo
        (by rw [hL.vertexes_len]; exact hoff),
      gather_append, keptSizes_append, List.sum_append]
    simp
  · rw [cleanStep_mVertexNormals, if_pos hne, hK, hs, hI.vo, hI.vnormals]
    dsimp only
    rw [copyRange_append_drop _ _ _ _ _
        (show (gather c0.mVertexNormals ks pre).length = (keptSizes ks pre).sum from
          gather_length _ _ _ hmem (by rw [hL.vnormals_len])) hvo
        (by rw [hL.vnormals_len]; exact hoff),
      gather_append, keptSizes_append, List.sum_append]
    simp
  · rw [cleanStep_mQuadIndexes, hK, keptSizes_append, layoutQuads_append]
    rcases hK34 with h | h
    · rw [if_neg (by rw [h]; simp), hI.quads, h]
      simp [layoutQuads, quadEntries]
    · have hroom := quads_room ks n hn h
      rw [if_pos ⟨hne, h⟩, hI.qi, hI.vo, hI.quads,
        storeRange_append_drop _ _ _ _ 4 rfl (by rw [hL.quads_eq]; omega), h]
      simp [layoutQuads, quadEntries, List.range_succ]
  · rw [cleanStep_mTriIndexes, hK, keptSizes_append, layoutTris_append]
    rcases hK34 with h | h
    · have hroom := tris_room ks n hn h
      rw [if_pos ⟨hne, h⟩, hI.ti, hI.vo, hI.tris,
        storeRange_append_drop _ _ _ _ 3 rfl (by rw [hL.tris_eq]; omega), h]
      simp [layoutTris, triEntries, List.range_succ]
    · rw [if_neg (by rw [h]; simp), hI.tris, h]
      simp [layoutTris, triEntries]

theorem cleanInv_init (c0 : Constellation) (ks : List Nat) :
    CleanInv c0 ks [] ⟨c0, 0, 0, 0, 0⟩ := by
  constructor <;> simp [keptSizes, layoutSpringls, layoutFaces, layoutQuads, layoutTris, gather]

theorem cleanFold_inv {c0 : Constellation} {ks : List Nat} (hL : c0.Layout ks) :
    ∀ (post pre : List Nat) (b : Nat) (st : CleanState),
      pre.Sublist (List.range b) → post.Sublist (List.range' b (ks.length - b)) →
      CleanInv c0 ks pre st → CleanInv c0 ks (pre ++ post) (post.foldl cleanStep st) := by
  intro post
  induction post with
  | nil => intro pre b st _ _ hI; simpa using hI
  | cons n post ih =>
    intro pre b st hpre hpost hI
    obtain ⟨hbn, hn', hrest⟩ := sublist_range'_cons hpost
    have hn : n < ks.length := by omega
    have hpre' : pre.Sublist (List.range n) := hpre.trans (List.range_sublist.mpr hbn)
    have hstep : CleanInv c0 ks (pre ++ [n]) (cleanStep st n) := by
      by_cases hp : pre.length = n
      · have e := sublist_range_full hpre' hp
        subst e
        rw [← List.range_succ]
        exact cleanStep_inv_same hL hn hI
      · have hlt : pre.length < n := by
          have := sublist_range_length hpre'; omega
        exact cleanStep_inv_move hL hn hpre' hlt hI
    have e2 : b + (ks.length - b) - (n + 1) = ks.length - (n + 1) := by omega
    rw [e2] at hrest
    have := ih (pre ++ [n]) (n + 1) (cleanStep st n) (sublist_snoc_range hpre' (le_refl n))
      hrest hstep
    simpa using this

/-- The outcome of the compaction pass on a well laid out constellation, array
by array. -/
theorem compact_spec {c0 : Constellation} {ks keep : List Nat} (hL : c0.Layout ks)
    (hkeep : keep.Sublist (List.range ks.length)) :
    (compact c0 keep).springls = layoutSpringls 0 0 (keptSizes ks keep) ∧
    (compact c0 keep).mFaces = layoutFaces 0 (keptSizes ks keep) ∧
    (compact c0 keep).mParticles = keep.map (fun n => c0.mParticles.getD n default) ∧
    (compact c0 keep).mParticleNormals
      = keep.map (fun n => c0.mParticleNormals.getD n default) ∧
    (compact c0 keep).mVertexes = gather c0.mVertexes ks keep ∧
    (compact c0 keep).mVertexNormals = gather c0.mVertexNormals ks keep ∧
    (compact c0 keep).mQuadIndexes = layoutQuads 0 (keptSizes ks keep) ∧
    (compact c0 keep).mTriIndexes = layoutTris 0 (keptSizes ks keep) := by
  have hI := cleanFold_inv hL keep [] 0 ⟨c0, 0, 0, 0, 0⟩ (by simp)
    (by simpa [List.range_eq_range'] using hkeep) (cleanInv_init c0 ks)
  rw [List.nil_append] at hI
  have hmem : ∀ m ∈ keep, m < ks.length := sublist_range_lt hkeep
  unfold compact cleanErase
  dsimp only
  refine ⟨?_, ?_, ?_, ?_, ?_, ?_, ?_, ?_⟩
  · rw [hI.so, hI.springls]
    exact List.take_left' (by rw [layoutSpringls_length, keptSizes_length])
  · rw [hI.so, hI.faces]
    exact List.take_left' (by rw [layoutFaces_length, keptSizes_length])
  · rw [hI.so, hI.particles]
    exact List.take_left' (by simp)
  · rw [hI.so, hI.pnormals]
    exact List.take_left' (by simp)
  · rw [hI.vo, hI.vertexes]
    exact List.take_left' (gather_length _ _ _ hmem (by rw [hL.vertexes_len]))
  · rw [hI.vo, hI.vnormals]
    exact List.take_left' (gather_length _ _ _ hmem (by rw [hL.vnormals_len]))
  · rw [hI.qi, hI.quads]
    exact List.take_left' rfl
  · rw [hI.ti, hI.tris]
    exact List.take_left' rfl

theorem keptSizes_mem {c : Constellation} {ks keep : List Nat} (hL : c.Layout ks)
    (hmem : ∀ m ∈ keep, m < ks.length) : ∀ k ∈ keptSizes ks keep, k = 3 ∨ k = 4 := by
  intro k hk
  simp only [keptSizes, List.mem_map] at hk
  obtain ⟨n, hn, rfl⟩ := hk
  exact hL.getD_size (hmem n hn)

theorem keptSizes_sum_le {ks keep : List Nat} (hkeep : keep.Sublist (List.range ks.length)) :
    (keptSizes ks keep).sum ≤ ks.sum := by
  have := sum_map_sublist_le ks id keep ks.length (le_refl _) hkeep
  simpa [keptSizes] using this

/-- Compaction preserves the layout, with the sizes of the kept elements. -/
theorem compact_layout {c0 : Constellation} {ks keep : List Nat} (hL : c0.Layout ks)
    (hkeep : keep.Sublist (List.range ks.length)) :
    (compact c0 keep).Layout (keptSizes ks keep) := by
  obtain ⟨h1, h2, h3, h4, h5, h6, h7, h8⟩ := compact_spec hL hkeep
  have hmem : ∀ m ∈ keep, m < ks.length := sublist_range_lt hkeep
  exact
    { sizes := keptSizes_mem hL hmem
      springls_eq := h1
      faces_eq := h2
      quads_eq := h7
      tris_eq := h8
      vertexes_len := by rw [h5]; exact gather_length _ _ _ hmem (by rw [hL.vertexes_len])
      vnormals_len := by rw [h6]; exact gather_length _ _ _ hmem (by rw [hL.vnormals_len])
      particles_len := by rw [h3]; simp [keptSizes]
      pnormals_len := by rw [h4]; simp [keptSizes]
      bound := le_trans (keptSizes_sum_le hkeep) hL.bound }

/-! ### From the layout to the invariant of the data model -/

theorem Constellation.Layout.springl_getD {c : Constellation} {ks : List Nat} (hL : c.Layout ks)
    {n : Nat} (hn : n < ks.length) : c.springls.getD n default = ⟨n, offs ks n⟩ := by
  rw [hL.springls_eq, layoutSpringls_getD ks n hn]

theorem Constellation.Layout.face_getD {c : Constellation} {ks : List Nat} (hL : c.Layout ks)
    {n : Nat} (hn : n < ks.length) :
    c.mFaces.getD n default = blockFace (offs ks n) (ks.getD n 0) := by
  rw [hL.faces_eq, layoutFaces_getD ks n hn]

theorem Constellation.Layout.size_getD {c : Constellation} {ks : List Nat} (hL : c.Layout ks)
    {n : Nat} (hn : n < ks.length) :
    c.size (c.springls.getD n default) = ks.getD n 0 := by
  rw [hL.springl_getD hn]
  unfold Constellation.size
  dsimp only
  rw [hL.face_getD hn]
  have := offs_add_le ks n hn
  exact blockFace_i3 _ _ (hL.getD_size hn) (by have := hL.bound; omega)

theorem Constellation.Layout.map_size {c : Constellation} {ks : List Nat} (hL : c.Layout ks) :
    c.springls.map c.size = ks := by
  apply List.ext_getElem?
  intro i
  rw [List.getElem?_map]
  by_cases hi : i < ks.length
  · have hi' : i < c.springls.length := by rw [hL.springls_length]; exact hi
    rw [List.getElem?_eq_getElem hi', List.getElem?_eq_getElem hi, Option.map_some']
    have := hL.size_getD hi
    rw [List.getD_eq_getElem _ _ hi', List.getD_eq_getElem _ _ hi] at this
    rw [this]
  · rw [List.getElem?_eq_none (by rw [hL.springls_length]; omega),
      List.getElem?_eq_none (by omega)]
    rfl

theorem sum_eq_counts (ks : List Nat) (h : ∀ k ∈ ks, k = 3 ∨ k = 4) :
    ks.sum = 4 * ks.countP (fun k => decide (k = 4)) + 3 * ks.countP (fun k => decide (k = 3)) ∧
    (ks.map (fun k => if k = 4 then 4 else 0)).sum = 4 * ks.countP (fun k => decide (k = 4)) ∧
    (ks.map (fun k => if k = 4 then 0 else 3)).sum = 3 * ks.countP (fun k => decide (k = 3)) := by
  induction ks with
  | nil => simp
  | cons k ks ih =>
    obtain ⟨i1, i2, i3⟩ := ih (fun x hx => h x (by simp [hx]))
    rcases h k (by simp) with hk | hk <;> subst hk <;>
      simp only [List.sum_cons, List.map_cons, List.countP_cons, i1, i2, i3] <;> simp <;> omega

theorem Constellation.Layout.numQuads_eq {c : Constellation} {ks : List Nat} (hL : c.Layout ks) :
    c.numQuads = ks.countP (fun k => decide (k = 4)) := by
  unfold Constellation.numQuads
  conv_rhs => rw [← hL.map_size, List.countP_map]
  rfl

theorem Constellation.Layout.numTris_eq {c : Constellation} {ks : List Nat} (hL : c.Layout ks) :
    c.numTris = ks.countP (fun k => decide (k = 3)) := by
  unfold Constellation.numTris
  conv_rhs => rw [← hL.map_size, List.countP_map]
  rfl

theorem Constellation.Layout.aligned {c : Constellation} {ks : List Nat} (hL : c.Layout ks) :
    c.Aligned := by
  obtain ⟨c1, c2, c3⟩ := sum_eq_counts ks hL.sizes
  refine ⟨?_, ?_, ?_, ?_, ?_, ?_, ?_, ?_⟩
  · intro i hi
    have hi' : i < ks.length := by rw [← hL.springls_length]; exact hi
    have hsz := hL.size_getD hi'
    have hsp := hL.springl_getD hi'
    refine ⟨by rw [hsp], ?_, ?_, ?_, ?_⟩
    · rw [hsz]; exact hL.getD_size hi'
    · rw [hsp]
      unfold Constellation.size
      dsimp only
      split <;> simp_all
    · rw [List.map_take, hL.map_size, hsp]; rfl
    · rw [hsz, hsp, hL.vertexes_len]; exact offs_add_le ks i hi'
  · rw [hL.vertexes_len, hL.numQuads_eq, hL.numTris_eq]; exact c1
  · rw [hL.vnormals_len, hL.vertexes_len]
  · rw [hL.quads_eq, layoutQuads_length, hL.numQuads_eq]; exact c2
  · rw [hL.tris_eq, layoutTris_length, hL.numTris_eq]; exact c3
  · rw [hL.particles_len, hL.springls_length]
  · rw [hL.pnormals_len, hL.springls_length]
  · rw [hL.faces_length, hL.springls_length]

/-! ### `Constellation::create` establishes the layout -/

theorem resize_length {α : Type} [Inhabited α] (l : List α) (n : Nat) :
    (resize l n).length = n := by
  simp [resize]; omega

theorem createStep_inv (env : Env) (mesh : Mesh) (nv nf : Nat) (fs : List Vec4I)
    (st : CreateState) (face : Vec4I) (hI : CreateInv nv nf fs st) :
    CreateInv nv nf (fs ++ [face]) (createStep env mesh st face) := by
  have hlenS : st.c.springls.length = fs.length := by
    rw [hI.springls_eq, layoutSpringls_length, List.length_map]
  by_cases hf : face.i3 = INVALID_IDX
  · have hsz : faceSize face = 3 := by simp [faceSize, hf]
    unfold createStep
    dsimp only
    rw [if_neg (by simpa using hf)]
    constructor <;>
      simp [hI.counter_eq, hI.pcounter_eq, hI.springls_eq, hI.faces_eq, hI.quads_eq,
        hI.tris_eq, hI.vertexes_len, hI.vnormals_len, hI.particles_len, hI.pnormals_len, hsz,
        layoutSpringls_append, layoutFaces_append, layoutQuads_append, layoutTris_append,
        layoutSpringls, layoutFaces, layoutQuads, layoutTris, blockFace, quadEntries, triEntries,
        layoutSpringls_length]
  · have hsz : faceSize face = 4 := by simp [faceSize, hf]
    unfold createStep
    dsimp only
    rw [if_pos (by simpa using hf)]
    constructor <;>
      simp [hI.counter_eq, hI.pcounter_eq, hI.springls_eq, hI.faces_eq, hI.quads_eq,
        hI.tris_eq, hI.vertexes_len, hI.vnormals_len, hI.particles_len, hI.pnormals_len, hsz,
        layoutSpringls_append, layoutFaces_append, layoutQuads_append, layoutTris_append,
        layoutSpringls, layoutFaces, layoutQuads, layoutTris, blockFace, quadEntries, triEntries,
        layoutSpringls_length]

theorem createFold_inv (env : Env) (mesh : Mesh) (nv nf : Nat) :
    ∀ (rest fs : List Vec4I) (st : CreateState), CreateInv nv nf fs st →
      CreateInv nv nf (fs ++ rest) (rest.foldl (createStep env mesh) st) := by
  intro rest
  induction rest with
  | nil => intro fs st hI; simpa using hI
  | cons f rest ih =>
    intro fs st hI
    have := ih (fs ++ [f]) _ (createStep_inv env mesh nv nf fs st f hI)
    simpa using this

theorem createInit_inv (c : Constellation) (mesh : Mesh) :
    CreateInv (mesh.mQuadIndexes.length + mesh.mTriIndexes.length) mesh.mFaces.length []
      ⟨createInit c mesh, 0, 0⟩ := by
  constructor <;>
    simp [createInit, layoutSpringls, layoutFaces, layoutQuads, layoutTris, resize_length]

theorem faceSize_counts (fs : List Vec4I) :
    (fs.map faceSize).sum
      = 4 * fs.countP (fun f => decide (f.i3 ≠ INVALID_IDX))
        + 3 * fs.countP (fun f => decide (f.i3 = INVALID_IDX)) := by
  induction fs with
  | nil => simp
  | cons f fs ih =>
    by_cases hf : f.i3 = INVALID_IDX <;>
      simp [List.countP_cons, faceSize, hf, ih] <;> omega

theorem faceSize_mem (fs : List Vec4I) : ∀ k ∈ fs.map faceSize, k = 3 ∨ k = 4 := by
  intro k hk
  simp only [List.mem_map] at hk
  obtain ⟨f, _, rfl⟩ := hk
  unfold faceSize
  split <;> simp

/-- Running `Constellation::create` on a consistent mesh of representable size yields a
well laid out constellation whose shape is the list of face sizes. -/
theorem create_layout (env : Env) (c : Constellation) (mesh : Mesh) (hm : mesh.Consistent)
    (hb : mesh.mQuadIndexes.length + mesh.mTriIndexes.length ≤ INVALID_IDX) :
    (Constellation.create env c mesh).Layout (mesh.mFaces.map faceSize) := by
  have hI := createFold_inv env mesh _ _ mesh.mFaces [] _ (createInit_inv c mesh)
  rw [List.nil_append] at hI
  have hsum : (mesh.mFaces.map faceSize).sum
      = mesh.mQuadIndexes.length + mesh.mTriIndexes.length := by
    rw [faceSize_counts, hm.1, hm.2]
  exact
    { sizes := faceSize_mem _
      springls_eq := hI.springls_eq
      faces_eq := hI.faces_eq
      quads_eq := hI.quads_eq
      tris_eq := hI.tris_eq
      vertexes_len := by rw [hsum]; exact hI.vertexes_len
      vnormals_len := by rw [hsum]; exact hI.vnormals_len
      particles_len := by rw [List.length_map]; exact hI.particles_len
      pnormals_len := by rw [List.length_map]; exact hI.pnormals_len
      bound := by rw [hsum]; exact hb }

/-! ### `fill` appends -/

theorem opt_push {α : Type} (old cur add : List α) (n m : Nat) (z : α)
    (h : cur = old ++ (if old.length > 0 then List.replicate n z else []))
    (hadd : add = List.replicate m z) :
    (if cur.length > 0 then cur ++ add else cur)
      = old ++ (if old.length > 0 then List.replicate (n + m) z else []) := by
  subst hadd
  by_cases h0 : old.length > 0
  · rw [if_pos h0] at h
    have : cur.length > 0 := by rw [h, List.length_append]; omega
    rw [if_pos this, if_pos h0, h, List.append_assoc, List.replicate_add]
  · rw [if_neg h0, List.append_nil] at h
    subst h
    rw [if_neg h0, if_neg h0, List.append_nil]

theorem fillList_push (old cur : List Vec3s) (fl : List Nat) (n0 n : Nat) (z : Vec3s)
    (h : cur = old ++ (if old.length > 0 then List.replicate n z else []))
    (hfl : fl = if old.length > 0 then List.range' n0 n else []) :
    (if decide (cur.length > 0) = true then fl ++ [n0 + n] else fl)
      = if old.length > 0 then List.range' n0 (n + 1) else [] := by
  by_cases h0 : old.length > 0
  · rw [if_pos h0] at h hfl
    have : cur.length > 0 := by rw [h, List.length_append]; omega
    rw [if_pos (by simpa using this), if_pos h0, hfl, List.range'_concat]
    simp
  · rw [if_neg h0, List.append_nil] at h
    rw [if_neg h0] at hfl
    subst h hfl
    rw [if_neg (by simpa using h0), if_neg h0]

theorem appendQuad_rel (env : Env) (c0 : Constellation) (ks : List Nat) (st : FillState)
    (p0 p1 p2 p3 : Vec3s) (hR : FillRel c0 ks st) :
    FillRel c0 (ks ++ [4]) (appendQuad env st p0 p1 p2 p3) := by
  obtain ⟨vs, hv, hvl⟩ := hR.vertexes_eq
  obtain ⟨ns, hn, hnl⟩ := hR.vnormals_eq
  obtain ⟨ps, hp, hpl⟩ := hR.particles_eq
  obtain ⟨qs, hq, hql⟩ := hR.pnormals_eq
  have hlen : st.c.springls.length = c0.springls.length + ks.length := by
    rw [hR.springls_eq, List.length_append, layoutSpringls_length]
  refine
    { sizes := ?_, counter_eq := ?_, added_eq := ?_, springls_eq := ?_, faces_eq := ?_,
      quads_eq := ?_, tris_eq := ?_, vertexes_eq := ?_, vnormals_eq := ?_, particles_eq := ?_,
      pnormals_eq := ?_, pvelocity_eq := ?_, vvelocity_eq := ?_, label_eq := ?_,
      fillList_eq := ?_ }
  · intro k hk
    rcases List.mem_append.mp hk with h | h
    · exact hR.sizes k h
    · right; simpa using h
  · simp [appendQuad, hR.counter_eq]; omega
  · simp [appendQuad, hR.added_eq]
  · simp [appendQuad, hR.springls_eq, layoutSpringls_append, layoutSpringls, hR.counter_eq,
      layoutSpringls_length]
  · simp [appendQuad, hR.faces_eq, layoutFaces_append, layoutFaces, blockFace, hR.counter_eq]
  · simp [appendQuad, hR.quads_eq, layoutQuads_append, layoutQuads, quadEntries, hR.counter_eq]
  · simp [appendQuad, hR.tris_eq, layoutTris_append, layoutTris, triEntries]
  · exact ⟨vs ++ [p0, p1, p2, p3], by simp [appendQuad, hv], by simp [hvl]⟩
  · refine ⟨ns ++ List.replicate 4 ((appendQuad env st p0 p1 p2 p3).c.mParticleNormals.getLastD
      default), ?_, by simp [hnl]⟩
    simp [appendQuad, hn, List.replicate]
  · exact ⟨ps ++ [(appendQuad env st p0 p1 p2 p3).c.mParticles.getLastD default],
      by simp [appendQuad, hp], by simp [hpl]⟩
  · exact ⟨qs ++ [(appendQuad env st p0 p1 p2 p3).c.mParticleNormals.getLastD default],
      by simp [appendQuad, hq], by simp [hql]⟩
  · have := opt_push c0.mParticleVelocity st.c.mParticleVelocity [Vec3s.zero] ks.length 1
      Vec3s.zero hR.pvelocity_eq rfl
    rw [List.length_append, List.length_singleton, ← this]
    simp [appendQuad]
  · have := opt_push c0.mVertexVelocity st.c.mVertexVelocity
      [Vec3s.zero, Vec3s.zero, Vec3s.zero, Vec3s.zero] ks.sum 4 Vec3s.zero hR.vvelocity_eq rfl
    rw [List.sum_append, List.sum_singleton, ← this]
    simp [appendQuad]
  · have := opt_push c0.mParticleLabel st.c.mParticleLabel [0] ks.length 1 0 hR.label_eq rfl
    rw [List.length_append, List.length_singleton, ← this]
    simp [appendQuad]
  · have := fillList_push c0.mParticleVelocity st.c.mParticleVelocity st.fillList
      c0.springls.length ks.length Vec3s.zero hR.pvelocity_eq hR.fillList_eq
    rw [List.length_append, List.length_singleton, ← this, ← hlen]
    simp [appendQuad]

theorem appendTri_rel (env : Env) (c0 : Constellation) (ks : List Nat) (st : FillState)
    (p0 p1 p2 : Vec3s) (hR : FillRel c0 ks st) :
    FillRel c0 (ks ++ [3]) (appendTri env st p0 p1 p2) := by
  obtain ⟨vs, hv, hvl⟩ := hR.vertexes_eq
  obtain ⟨ns, hn, hnl⟩ := hR.vnormals_eq
  obtain ⟨ps, hp, hpl⟩ := hR.particles_eq
  obtain ⟨qs, hq, hql⟩ := hR.pnormals_eq
  have hlen : st.c.springls.length = c0.springls.length + ks.length := by
    rw [hR.springls_eq, List.length_append, layoutSpringls_length]
  refine
    { sizes := ?_, counter_eq := ?_, added_eq := ?_, springls_eq := ?_, faces_eq := ?_,
      quads_eq := ?_, tris_eq := ?_, vertexes_eq := ?_, vnormals_eq := ?_, particles_eq := ?_,
      pnormals_eq := ?_, pvelocity_eq := ?_, vvelocity_eq := ?_, label_eq := ?_,
      fillList_eq := ?_ }
  · intro k hk
    rcases List.mem_append.mp hk with h | h
    · exact hR.sizes k h
    · left; simpa using h
  · simp [appendTri, hR.counter_eq]; omega
  · simp [appendTri, hR.added_eq]
  · simp [appendTri, hR.springls_eq, layoutSpringls_append, layoutSpringls, hR.counter_eq,
      layoutSpringls_length]
  · simp [appendTri, hR.faces_eq, layoutFaces_append, layoutFaces, blockFace, hR.counter_eq]
  · simp [appendTri, hR.quads_eq, layoutQuads_append, layoutQuads, quadEntries]
  · simp [appendTri, hR.tris_eq, layoutTris_append, layoutTris, triEntries, hR.counter_eq]
  · exact ⟨vs ++ [p0, p1, p2], by simp [appendTri, hv], by simp [hvl]⟩
  · refine ⟨ns ++ List.replicate 3 ((appendTri env st p0 p1 p2).c.mParticleNormals.getLastD
      default), ?_, by simp [hnl]⟩
    simp [appendTri, hn, List.replicate]
  · exact ⟨ps ++ [(appendTri env st p0 p1 p2).c.mParticles.getLastD default],
      by simp [appendTri, hp], by simp [hpl]⟩
  · exact ⟨qs ++ [(appendTri env st p0 p1 p2).c.mParticleNormals.getLastD default],
      by simp [appendTri, hq], by simp [hql]⟩
  · have := opt_push c0.mParticleVelocity st.c.mParticleVelocity [Vec3s.zero] ks.length 1
      Vec3s.zero hR.pvelocity_eq rfl
    rw [List.length_append, List.length_singleton, ← this]
    simp [appendTri]
  · have := opt_push c0.mVertexVelocity st.c.mVertexVelocity
      [Vec3s.zero, Vec3s.zero, Vec3s.zero] ks.sum 3 Vec3s.zero hR.vvelocity_eq rfl
    rw [List.sum_append, List.sum_singleton, ← this]
    simp [appendTri]
  · have := opt_push c0.mParticleLabel st.c.mParticleLabel [0] ks.length 1 0 hR.label_eq rfl
    rw [List.length_append, List.length_singleton, ← this]
    simp [appendTri]
  · have := fillList_push c0.mParticleVelocity st.c.mParticleVelocity st.fillList
      c0.springls.length ks.length Vec3s.zero hR.pvelocity_eq hR.fillList_eq
    rw [List.length_append, List.length_singleton, ← this, ← hlen]
    simp [appendTri]

theorem fillFold_rel {β : Type} (c0 : Constellation) (f : FillState → β → FillState)
    (hf : ∀ st x ks, FillRel c0 ks st → ∃ ks', FillRel c0 (ks ++ ks') (f st x)) :
    ∀ (l : List β) (st : FillState) (ks : List Nat), FillRel c0 ks st →
      ∃ ks', FillRel c0 (ks ++ ks') (l.foldl f st) := by
  intro l
  induction l with
  | nil => intro st ks h; exact ⟨[], by simpa using h⟩
  | cons x l ih =>
    intro st ks h
    obtain ⟨k1, h1⟩ := hf st x ks h
    obtain ⟨k2, h2⟩ := ih (f st x) (ks ++ k1) h1
    exact ⟨k1 ++ k2, by simpa [List.append_assoc] using h2⟩

theorem fillQuad_rel (env : Env) (pts : List Vec3s) (cnt : Nat) (c0 : Constellation)
    (st : FillState) (quad : Vec4I) (ks : List Nat) (hR : FillRel c0 ks st) :
    ∃ ks', FillRel c0 (ks ++ ks') (fillQuad env pts cnt st quad) := by
  unfold fillQuad
  dsimp only
  split
  · exact ⟨[4], appendQuad_rel env c0 ks st _ _ _ _ hR⟩
  · exact ⟨[], by simpa using hR⟩

theorem fillTri_rel (env : Env) (pts : List Vec3s) (cnt : Nat) (c0 : Constellation)
    (st : FillState) (tri : Vec3I) (ks : List Nat) (hR : FillRel c0 ks st) :
    ∃ ks', FillRel c0 (ks ++ ks') (fillTri env pts cnt st tri) := by
  unfold fillTri
  dsimp only
  split
  · exact ⟨[3], appendTri_rel env c0 ks st _ _ _ hR⟩
  · exact ⟨[], by simpa using hR⟩

theorem fillPool_rel (env : Env) (pts : List Vec3s) (cnt : Nat) (c0 : Constellation)
    (st : FillState) (pool : PolygonPool) (ks : List Nat) (hR : FillRel c0 ks st) :
    ∃ ks', FillRel c0 (ks ++ ks') (fillPool env pts cnt st pool) := by
  unfold fillPool
  obtain ⟨k1, h1⟩ := fillFold_rel c0 _ (fillQuad_rel env pts cnt c0) pool.quads st ks hR
  obtain ⟨k2, h2⟩ := fillFold_rel c0 _ (fillTri_rel env pts cnt c0) pool.triangles _ _ h1
  exact ⟨k1 ++ k2, by simpa [List.append_assoc] using h2⟩

theorem fillRel_init (c0 : Constellation) :
    FillRel c0 []
      { c := c0, counter := c0.getNumVertexes, pcounter := c0.getNumSpringls, added := 0,
        fillList := [] } := by
  constructor <;>
    simp [Constellation.getNumVertexes, layoutSpringls, layoutFaces, layoutQuads, layoutTris]

/-- The loops of `fill` only append: the final state is related to the
constellation the call started from by the sizes of the appended elements. -/
theorem fillLoop_rel (env : Env) (g : SpringLevelSet) :
    ∃ ks, FillRel g.mConstellation ks (fillLoop env g) := by
  obtain ⟨ks, h⟩ := fillFold_rel g.mConstellation _
    (fillPool_rel env g.pointList g.mConstellation.getNumSpringls g.mConstellation)
    g.polygonPoolList _ [] (fillRel_init g.mConstellation)
  exact ⟨ks, by simpa [fillLoop] using h⟩

theorem fillRel_layout {c0 : Constellation} {ks0 ks : List Nat} {st : FillState}
    (hL : c0.Layout ks0) (hR : FillRel c0 ks st) (hb : st.c.mVertexes.length ≤ INVALID_IDX) :
    st.c.Layout (ks0 ++ ks) := by
  obtain ⟨vs, hv, hvl⟩ := hR.vertexes_eq
  obtain ⟨ns, hn, hnl⟩ := hR.vnormals_eq
  obtain ⟨ps, hp, hpl⟩ := hR.particles_eq
  obtain ⟨qs, hq, hql⟩ := hR.pnormals_eq
  have e1 := hL.springls_length
  have e2 := hL.vertexes_len
  exact
    { sizes := fun k hk => by
        rcases List.mem_append.mp hk with h | h
        · exact hL.sizes k h
        · exact hR.sizes k h
      springls_eq := by
        rw [hR.springls_eq, e1, e2, layoutSpringls_append, ← hL.springls_eq]; simp
      faces_eq := by rw [hR.faces_eq, e2, layoutFaces_append, ← hL.faces_eq]; simp
      quads_eq := by rw [hR.quads_eq, e2, layoutQuads_append, ← hL.quads_eq]; simp
      tris_eq := by rw [hR.tris_eq, e2, layoutTris_append, ← hL.tris_eq]; simp
      vertexes_len := by rw [hv, List.length_append, hvl, e2, List.sum_append]
      vnormals_len := by rw [hn, List.length_append, hnl, hL.vnormals_len, List.sum_append]
      particles_len := by
        rw [hp, List.length_append, hpl, hL.particles_len, List.length_append]
      pnormals_len := by
        rw [hq, List.length_append, hql, hL.pnormals_len, List.length_append]
      bound := by
        rw [hv, List.length_append, hvl, e2] at hb
        rw [List.sum_append]; exact hb }

theorem fill_WF (env : Env) (g : SpringLevelSet) (hWF : g.mConstellation.WF)
    (hb : (g.fill env).1.mConstellation.mVertexes.length ≤ INVALID_IDX) :
    (g.fill env).1.mConstellation.WF := by
  obtain ⟨ks0, hL⟩ := hWF
  obtain ⟨ks, hR⟩ := fillLoop_rel env g
  exact ⟨ks0 ++ ks, fillRel_layout hL hR hb⟩

theorem layoutSpringls_map_id (i off : Nat) (ks : List Nat) :
    (layoutSpringls i off ks).map Springl.id = List.range' i ks.length := by
  induction ks generalizing i off with
  | nil => rfl
  | cons k ks ih => simp [layoutSpringls, ih, List.range'_succ]

theorem keepList_sublist (env : Env) {c : Constellation} {ks : List Nat} (hL : c.Layout ks) :
    (keepList env c).Sublist (List.range ks.length) := by
  have h := ((List.filter_sublist (p := cleanKeeps env c) c.springls).map Springl.id)
  rw [hL.springls_eq, layoutSpringls_map_id, ← List.range_eq_range'] at h
  unfold keepList
  rw [hL.springls_eq]
  exact h

theorem clean_WF (env : Env) (g : SpringLevelSet) (hWF : g.mConstellation.WF) :
    (g.clean env).1.mConstellation.WF := by
  obtain ⟨ks, hL⟩ := hWF
  unfold SpringLevelSet.clean
  dsimp only
  split
  · exact ⟨ks, hL⟩
  · exact ⟨_, compact_layout hL (keepList_sublist env hL)⟩

theorem runOps_WF : ∀ (ops : List MaintOp) (g : SpringLevelSet), g.mConstellation.WF →
    (∀ k, k ≤ ops.length →
      (runOps g (ops.take k)).mConstellation.mVertexes.length ≤ INVALID_IDX) →
    (runOps g ops).mConstellation.WF := by
  intro ops
  induction ops with
  | nil => intro g h _; exact h
  | cons op ops ih =>
    intro g hWF hb
    have h1 : (op.apply g).mConstellation.WF := by
      cases op with
      | clean env => exact clean_WF env g hWF
      | fill env pts pools =>
        have := hb 1 (by simp)
        exact fill_WF env _ hWF this
    have := ih (op.apply g) h1 (fun k hk => by
      have := hb (k + 1) (by simpa using hk)
      simpa [runOps] using this)
    simpa [runOps] using this

theorem create_vertexes_len (env : Env) (c : Constellation) (mesh : Mesh) :
    (Constellation.create env c mesh).mVertexes.length
      = mesh.mQuadIndexes.length + mesh.mTriIndexes.length := by
  have hI := createFold_inv env mesh _ _ mesh.mFaces [] _ (createInit_inv c mesh)
  exact hI.vertexes_len

/-- C1. After `Constellation::create` on a consistent mesh and any sequence of
`clean` and `fill` calls (vertex counts staying below the 32-bit sentinel),
every element has id equal to its position, size 3 or 4 according to the
sentinel in its face, offset equal to the sum of the preceding sizes, a vertex
block inside the vertex array, and all array lengths agree. -/
theorem constellation_invariant (env : Env) (c : Constellation) (mesh : Mesh)
    (g : SpringLevelSet) (ops : List MaintOp) (hmesh : mesh.Consistent)
    (hg : g.mConstellation = Constellation.create env c mesh)
    (hbound : ∀ k, k ≤ ops.length →
      (runOps g (ops.take k)).mConstellation.mVertexes.length ≤ INVALID_IDX) :
    (runOps g ops).mConstellation.Aligned := by
  have h0 := hbound 0 (Nat.zero_le _)
  simp only [List.take_zero, runOps, List.foldl_nil] at h0
  rw [hg, create_vertexes_len] at h0
  have hWF : g.mConstellation.WF := ⟨_, hg ▸ create_layout env c mesh hmesh h0⟩
  obtain ⟨ks, hL⟩ := runOps_WF ops g hWF hbound
  exact hL.aligned

theorem sampleConstellation_eq : sampleConstellation =
    { mVertexes := [⟨0, 0, 5⟩, ⟨1 / 2, 0, 5⟩, ⟨0, 1 / 2, 5⟩,
        ⟨0, 0, 0⟩, ⟨1 / 2, 0, 0⟩, ⟨1 / 2, 1 / 2, 0⟩, ⟨0, 1 / 2, 0⟩]
      mVertexNormals := [⟨0, 0, 1 / 4⟩, ⟨0, 0, 1 / 4⟩, ⟨0, 0, 1 / 4⟩,
        ⟨0, 0, 1 / 2⟩, ⟨0, 0, 1 / 2⟩, ⟨0, 0, 1 / 2⟩, ⟨0, 0, 1 / 2⟩]
      mParticles := [⟨1 / 6, 1 / 6, 5⟩, ⟨1 / 4, 1 / 4, 0⟩]
      mParticleNormals := [⟨0, 0, 1 / 4⟩, ⟨0, 0, 1 / 2⟩]
      mParticleVelocity := []
      mVertexVelocity := []
      mParticleLabel := []
      mFaces := [⟨0, 1, 2, INVALID_IDX⟩, ⟨3, 4, 5, 6⟩]
      mQuadIndexes := [3, 4, 5, 6]
      mTriIndexes := [0, 1, 2]
      springls := [⟨0, 0⟩, ⟨1, 3⟩] } := by
  simp [sampleConstellation, Constellation.create, createStep, createInit, sampleMesh,
    emptyConstellation, resize, INVALID_IDX, sampleEnv, Constellation.computeCentroid,
    Constellation.computeNormal, Constellation.crossSum, Constellation.size,
    Constellation.vertex, Constellation.particle, Vec3s.add, Vec3s.sub, Vec3s.smul, Vec3s.cross,
    Vec3s.zero, List.range_succ, List.replicate]
  norm_num

theorem sample_keepList : keepList sampleEnv sampleConstellation = [1] := by
  rw [sampleConstellation_eq]
  simp [keepList, cleanKeeps, edgeMinMax, Constellation.area, Constellation.crossSum,
    Constellation.size, Constellation.vertex, Constellation.particle, Env.length, sampleEnv,
    INVALID_IDX, Vec3s.add, Vec3s.sub, Vec3s.cross, Vec3s.zero, Vec3s.lengthSqr,
    List.range_succ, List.filter, CLEAN_DISTANCE, MIN_AREA, MAX_AREA, MIN_ASPECT_RATIO]
  norm_num [abs_le]

theorem sample_compact : compact sampleConstellation [1] = sampleCleaned := by
  rw [sampleConstellation_eq]
  simp [compact, cleanStep, cleanErase, copyRange, storeRange, Constellation.size, INVALID_IDX,
    Vec4I.set, List.range_succ, sampleCleaned]

theorem sample_clean :
    sampleGrid.clean sampleEnv
      = ({ sampleGrid with mConstellation := sampleCleaned, mCleanCount := 1 }, 1) := by
  have h1 : sampleGrid.mConstellation = sampleConstellation := rfl
  have h2 : sampleConstellation.getNumSpringls = 2 := by
    rw [sampleConstellation_eq]; rfl
  simp [SpringLevelSet.clean, h1, h2, sample_keepList, sample_compact]
  rfl

theorem sample_fill : sampleCleanedGrid.fill sampleEnv = (sampleFilledGrid, 1) := by
  simp [SpringLevelSet.fill, fillLoop, fillPool, fillTri, fillQuad, fillAccepts, nearestSqr,
    stencilCopy, appendTri, triRefPoint, sampleCleanedGrid, sampleGrid, sampleCleaned,
    sampleFilled, sampleFilledGrid, sampleEnv, Constellation.getNumSpringls,
    Constellation.getNumVertexes,
    Constellation.computeCentroid, Constellation.computeNormal, Constellation.crossSum,
    Constellation.size, Constellation.vertex, Constellation.particle, INVALID_IDX,
    Vec3s.add, Vec3s.sub, Vec3s.smul, Vec3s.cross, Vec3s.zero, List.range_succ, FLT_MAX,
    D2]
  norm_num

theorem sample_apply_clean : MaintOp.apply sampleGrid (.clean sampleEnv) = sampleCleanedGrid := by
  simp [MaintOp.apply, sample_clean, sampleCleanedGrid]

theorem sample_apply_fill :
    MaintOp.apply sampleCleanedGrid
      (.fill sampleEnv sampleGrid.pointList sampleGrid.polygonPoolList) = sampleFilledGrid := by
  have e : MaintOp.apply sampleCleanedGrid
      (.fill sampleEnv sampleGrid.pointList sampleGrid.polygonPoolList)
      = (sampleCleanedGrid.fill sampleEnv).1 := rfl
  rw [e, sample_fill]

theorem sample_run : runOps sampleGrid sampleOps = sampleFilledGrid := by
  simp only [runOps, sampleOps, List.foldl_cons, List.foldl_nil, sample_apply_clean,
    sample_apply_fill]

theorem sampleMesh_consistent : sampleMesh.Consistent := by
  simp [Mesh.Consistent, sampleMesh, INVALID_IDX, List.countP_cons]

theorem sample_run_bound : ∀ k, k ≤ sampleOps.length →
    (runOps sampleGrid (sampleOps.take k)).mConstellation.mVertexes.length ≤ INVALID_IDX := by
  intro k hk
  have hk' : k ≤ 2 := hk
  interval_cases k
  · simp [runOps, sampleGrid, sampleConstellation_eq, INVALID_IDX]
  · simp [runOps, sampleOps, sample_apply_clean, sampleCleanedGrid, sampleCleaned, INVALID_IDX]
  · have e : sampleOps.take 2 = sampleOps := rfl
    rw [e, sample_run]
    simp [sampleFilledGrid, sampleFilled, INVALID_IDX]

theorem constellation_invariant_witness :
    (runOps sampleGrid sampleOps).mConstellation.Aligned :=
  constellation_invariant sampleEnv emptyConstellation sampleMesh sampleGrid sampleOps
    sampleMesh_consistent rfl sample_run_bound

/-! ### The classification of `clean` -/

theorem foldl_pair_minmax (f : Nat → ℚ) (l : List Nat) (a b : ℚ) :
    l.foldl (fun (mm : ℚ × ℚ) i => (min mm.1 (f i), max mm.2 (f i))) (a, b)
      = ((l.map f).foldl min a, (l.map f).foldl max b) := by
  induction l generalizing a b with
  | nil => rfl
  | cons x l ih => simp [List.foldl_cons, ih]

theorem edgeMinMax_eq (env : Env) (c : Constellation) (s : Springl) :
    edgeMinMax env c s
      = ((edgeLengths env c s).foldl min ((10 : ℚ) ^ 30),
         (edgeLengths env c s).foldl max (-(10 : ℚ) ^ 30)) := by
  unfold edgeMinMax edgeLengths
  exact foldl_pair_minmax _ _ _ _

theorem edgeLengths_ne_nil (env : Env) (c : Constellation) (s : Springl) :
    edgeLengths env c s ≠ [] := by
  unfold edgeLengths Constellation.size
  split <;> simp [List.range_succ]

theorem foldl_min_sentinel (l : List ℚ) (hne : l ≠ []) (M : ℚ) (h : ∀ x ∈ l, x ≤ M) :
    l.foldl min M = listMin l := by
  cases l with
  | nil => exact absurd rfl hne
  | cons x xs =>
    simp only [List.foldl_cons, listMin]
    rw [min_eq_right (h x (by simp))]

theorem foldl_max_sentinel (l : List ℚ) (hne : l ≠ []) (M : ℚ) (h : ∀ x ∈ l, M ≤ x) :
    l.foldl max M = listMax l := by
  cases l with
  | nil => exact absurd rfl hne
  | cons x xs =>
    simp only [List.foldl_cons, listMax]
    rw [max_eq_right (h x (by simp))]

theorem cleanKeeps_iff (env : Env) (c : Constellation) (s : Springl)
    (h : ∀ l ∈ edgeLengths env c s, 0 ≤ l ∧ l ≤ (10 : ℚ) ^ 30) :
    cleanKeeps env c s = true ↔ KeepCondition env c s := by
  have hmin : (edgeLengths env c s).foldl min ((10 : ℚ) ^ 30) = shortestEdge env c s :=
    foldl_min_sentinel _ (edgeLengths_ne_nil env c s) _ (fun x hx => (h x hx).2)
  have hmax : (edgeLengths env c s).foldl max (-(10 : ℚ) ^ 30) = longestEdge env c s :=
    foldl_max_sentinel _ (edgeLengths_ne_nil env c s) _ (fun x hx => by
      have := (h x hx).1
      have h30 : (0 : ℚ) ≤ (10 : ℚ) ^ 30 := by positivity
      linarith)
  unfold cleanKeeps KeepCondition
  simp only [edgeMinMax_eq, hmin, hmax]
  by_cases hv : |env.interpolation (c.particle s)| ≤ CLEAN_DISTANCE
  · simp [hv]
  · simp [hv]

theorem Constellation.Layout.mem_springls {c : Constellation} {ks : List Nat} (hL : c.Layout ks)
    {s : Springl} (hs : s ∈ c.springls) :
    s.id < ks.length ∧ c.springls.getD s.id default = s := by
  obtain ⟨i, hi, rfl⟩ := List.mem_iff_getElem.mp hs
  have hi' : i < ks.length := by rw [← hL.springls_length]; exact hi
  have h := hL.springl_getD hi'
  rw [List.getD_eq_getElem _ _ hi] at h
  rw [h]
  exact ⟨hi', hL.springl_getD hi'⟩

theorem Constellation.Layout.getD_mem {c : Constellation} {ks : List Nat} (hL : c.Layout ks)
    {n : Nat} (hn : n < ks.length) : c.springls.getD n default ∈ c.springls := by
  have hn' : n < c.springls.length := by rw [hL.springls_length]; exact hn
  rw [List.getD_eq_getElem _ _ hn']
  exact List.getElem_mem hn'

theorem mem_keepList_iff (env : Env) {c : Constellation} {ks : List Nat} (hL : c.Layout ks)
    {n : Nat} (hn : n < ks.length) :
    n ∈ keepList env c ↔ cleanKeeps env c (c.springls.getD n default) = true := by
  unfold keepList
  simp only [List.mem_map, List.mem_filter]
  constructor
  · rintro ⟨s, ⟨hs, hk⟩, rfl⟩
    rw [(hL.mem_springls hs).2]; exact hk
  · intro hk
    exact ⟨_, ⟨hL.getD_mem hn, hk⟩, by rw [hL.springl_getD hn]⟩

theorem clean_springls_length (env : Env) (g : SpringLevelSet) (hWF : g.mConstellation.WF) :
    (g.clean env).1.mConstellation.springls.length = (keepList env g.mConstellation).length := by
  obtain ⟨ks, hL⟩ := hWF
  unfold SpringLevelSet.clean
  dsimp only
  split
  · next h => rw [h]; rfl
  · rw [(compact_spec hL (keepList_sublist env hL)).1, layoutSpringls_length, keptSizes_length]

theorem keepList_length_le (env : Env) (c : Constellation) :
    (keepList env c).length ≤ c.springls.length := by
  unfold keepList
  rw [List.length_map]
  exact List.length_filter_le _ _

theorem sample_edgesInRange : EdgesInRange sampleEnv sampleGrid.mConstellation := by
  have h1 : sampleGrid.mConstellation = sampleConstellation := rfl
  rw [h1, sampleConstellation_eq]
  intro s hs l hl
  simp only [List.mem_cons, List.mem_singleton, List.not_mem_nil, or_false] at hs
  rcases hs with rfl | rfl <;>
    simp [edgeLengths, Constellation.size, Constellation.vertex, INVALID_IDX, List.range_succ,
      Env.length, sampleEnv, Vec3s.sub, Vec3s.lengthSqr] at hl <;>
    (first
      | (rcases hl with h | h | h <;> subst h <;> norm_num)
      | (subst hl; norm_num))

theorem sample_WF : sampleGrid.mConstellation.WF :=
  ⟨_, create_layout sampleEnv emptyConstellation sampleMesh sampleMesh_consistent
    (by simp [sampleMesh, INVALID_IDX])⟩

/-! ### Reading the compacted arrays element by element -/

theorem block_getD {α : Type} (l : List α) (off K k : Nat) (d : α) (hk : k < K) :
    (block l off K).getD k d = l.getD (off + k) d := by
  simp only [block, List.getD_eq_getElem?_getD, List.getElem?_take, List.getElem?_drop, hk,
    if_true]

theorem offs_keptSizes_succ (ks : List Nat) (n : Nat) (keep : List Nat) (j : Nat) :
    offs (keptSizes ks (n :: keep)) (j + 1) = ks.getD n 0 + offs (keptSizes ks keep) j := by
  simp [offs, keptSizes]

theorem gather_getD {α : Type} (l : List α) (ks : List Nat) (d : α) (hl : ks.sum ≤ l.length) :
    ∀ (keep : List Nat) (j k : Nat), (∀ n ∈ keep, n < ks.length) → j < keep.length →
      k < ks.getD (keep.getD j 0) 0 →
      (gather l ks keep).getD (offs (keptSizes ks keep) j + k) d
        = l.getD (offs ks (keep.getD j 0) + k) d := by
  intro keep
  induction keep with
  | nil => intro j k _ hj; simp at hj
  | cons n keep ih =>
    intro j k hmem hj hk
    have hn : n < ks.length := hmem n (by simp)
    have hb : (block l (offs ks n) (ks.getD n 0)).length = ks.getD n 0 :=
      block_length _ _ _ (by have := offs_add_le ks n hn; omega)
    cases j with
    | zero =>
      simp only [List.getD_cons_zero] at hk ⊢
      have e : offs (keptSizes ks (n :: keep)) 0 = 0 := by simp [offs]
      rw [e, Nat.zero_add]
      simp only [gather, List.flatMap_cons]
      rw [List.getD_append _ _ _ _ (by rw [hb]; exact hk), block_getD _ _ _ _ _ hk]
    | succ j =>
      simp only [List.getD_cons_succ] at hk ⊢
      rw [offs_keptSizes_succ]
      simp only [gather, List.flatMap_cons]
      rw [List.getD_append_right _ _ _ _ (by rw [hb]; omega), hb]
      have e : ks.getD n 0 + offs (keptSizes ks keep) j + k - ks.getD n 0
          = offs (keptSizes ks keep) j + k := by omega
      rw [e]
      exact ih j k (fun m hm => hmem m (by simp [hm])) (by simpa using hj) hk

theorem layoutSpringls_flatMap_quads (g : Nat → Nat) (i off : Nat) (ks : List Nat)
    (hg : ∀ j, j < ks.length → g (i + j) = ks.getD j 0) :
    (layoutSpringls i off ks).flatMap (fun s => quadEntries s.offset (g s.id))
      = layoutQuads off ks := by
  induction ks generalizing i off with
  | nil => rfl
  | cons k ks ih =>
    have h0 := hg 0 (by simp)
    simp only [Nat.add_zero, List.getD_cons_zero] at h0
    simp only [layoutSpringls, List.flatMap_cons, layoutQuads, h0]
    rw [ih (i + 1) (off + k) (fun j hj => by
      have := hg (j + 1) (by simpa using hj)
      simpa [Nat.add_assoc, Nat.add_comm 1 j] using this)]

theorem layoutSpringls_flatMap_tris (g : Nat → Nat) (i off : Nat) (ks : List Nat)
    (hg : ∀ j, j < ks.length → g (i + j) = ks.getD j 0) :
    (layoutSpringls i off ks).flatMap (fun s => triEntries s.offset (g s.id))
      = layoutTris off ks := by
  induction ks generalizing i off with
  | nil => rfl
  | cons k ks ih =>
    have h0 := hg 0 (by simp)
    simp only [Nat.add_zero, List.getD_cons_zero] at h0
    simp only [layoutSpringls, List.flatMap_cons, layoutTris, h0]
    rw [ih (i + 1) (off + k) (fun j hj => by
      have := hg (j + 1) (by simpa using hj)
      simpa [Nat.add_assoc, Nat.add_comm 1 j] using this)]

theorem flatMap_congr_mem {α β : Type} (l : List α) (f g : α → List β)
    (h : ∀ x ∈ l, f x = g x) : l.flatMap f = l.flatMap g := by
  induction l with
  | nil => rfl
  | cons x l ih =>
    simp only [List.flatMap_cons]
    rw [h x (by simp), ih (fun y hy => h y (by simp [hy]))]

theorem Constellation.Layout.size_of_mem {c : Constellation} {ks : List Nat} (hL : c.Layout ks)
    {s : Springl} (hs : s ∈ c.springls) : c.size s = ks.getD s.id 0 := by
  obtain ⟨h1, h2⟩ := hL.mem_springls hs
  have := hL.size_getD h1
  rw [h2] at this
  exact this

theorem Constellation.Layout.quads_flatMap {c : Constellation} {ks : List Nat}
    (hL : c.Layout ks) :
    c.mQuadIndexes = c.springls.flatMap (fun s => quadEntries s.offset (c.size s)) := by
  rw [flatMap_congr_mem _ _ (fun s => quadEntries s.offset (ks.getD s.id 0))
    (fun s hs => by rw [hL.size_of_mem hs])]
  rw [hL.quads_eq]
  conv_rhs => rw [hL.springls_eq]
  exact (layoutSpringls_flatMap_quads (fun n => ks.getD n 0) 0 0 ks (fun j _ => by simp)).symm

theorem Constellation.Layout.tris_flatMap {c : Constellation} {ks : List Nat}
    (hL : c.Layout ks) :
    c.mTriIndexes = c.springls.flatMap (fun s => triEntries s.offset (c.size s)) := by
  rw [flatMap_congr_mem _ _ (fun s => triEntries s.offset (ks.getD s.id 0))
    (fun s hs => by rw [hL.size_of_mem hs])]
  rw [hL.tris_eq]
  conv_rhs => rw [hL.springls_eq]
  exact (layoutSpringls_flatMap_tris (fun n => ks.getD n 0) 0 0 ks (fun j _ => by simp)).symm

theorem compactedFrom_compact {c : Constellation} {ks keep : List Nat} (hL : c.Layout ks)
    (hkeep : keep.Sublist (List.range ks.length)) : CompactedFrom c ks keep (compact c keep) := by
  obtain ⟨h1, h2, h3, h4, h5, h6, h7, h8⟩ := compact_spec hL hkeep
  exact ⟨h1, h2, h3, h4, h5, h6, h7, h8⟩

theorem compactedFrom_self {c : Constellation} {ks : List Nat} (hL : c.Layout ks) :
    CompactedFrom c ks (List.range ks.length) c := by
  have esz : keptSizes ks (List.range ks.length) = ks := by
    rw [keptSizes_range ks _ (le_refl _), List.take_length]
  have eo : offs ks ks.length = ks.sum := by simp [offs]
  exact
    { springls_eq := by rw [esz]; exact hL.springls_eq
      faces_eq := by rw [esz]; exact hL.faces_eq
      particles_eq := by
        rw [← hL.particles_len, map_getD_range _ _ _ (le_refl _), List.take_length]
      pnormals_eq := by
        rw [← hL.pnormals_len, map_getD_range _ _ _ (le_refl _), List.take_length]
      vertexes_eq := by
        rw [gather_range _ _ _ (le_refl _), eo, ← hL.vertexes_len, List.take_length]
      vnormals_eq := by
        rw [gather_range _ _ _ (le_refl _), eo, ← hL.vnormals_len, List.take_length]
      quads_eq := by rw [esz]; exact hL.quads_eq
      tris_eq := by rw [esz]; exact hL.tris_eq }

theorem compactedFrom_clean (env : Env) (g : SpringLevelSet) {ks : List Nat}
    (hL : g.mConstellation.Layout ks) :
    CompactedFrom g.mConstellation ks (keepList env g.mConstellation)
      (g.clean env).1.mConstellation := by
  have hsub := keepList_sublist env hL
  unfold SpringLevelSet.clean
  dsimp only
  split
  · next h =>
    have h' : (keepList env g.mConstellation).length = ks.length := by
      rw [h, Constellation.getNumSpringls, hL.springls_length]
    rw [sublist_range_full hsub h']
    exact compactedFrom_self hL
  · exact compactedFrom_compact hL hsub

theorem compactedFrom_layout {c c' : Constellation} {ks keep : List Nat}
    (hC : CompactedFrom c ks keep c') (hL : c.Layout ks)
    (hkeep : keep.Sublist (List.range ks.length)) : c'.Layout (keptSizes ks keep) := by
  have hmem : ∀ m ∈ keep, m < ks.length := sublist_range_lt hkeep
  exact
    { sizes := keptSizes_mem hL hmem
      springls_eq := hC.springls_eq
      faces_eq := hC.faces_eq
      quads_eq := hC.quads_eq
      tris_eq := hC.tris_eq
      vertexes_len := by
        rw [hC.vertexes_eq]; exact gather_length _ _ _ hmem (by rw [hL.vertexes_len])
      vnormals_len := by
        rw [hC.vnormals_eq]; exact gather_length _ _ _ hmem (by rw [hL.vnormals_len])
      particles_len := by rw [hC.particles_eq]; simp [keptSizes]
      pnormals_len := by rw [hC.pnormals_eq]; simp [keptSizes]
      bound := le_trans (keptSizes_sum_le hkeep) hL.bound }

theorem keptSizes_getD (ks keep : List Nat) (j : Nat) (hj : j < keep.length) :
    (keptSizes ks keep).getD j 0 = ks.getD (keep.getD j 0) 0 := by
  simp [keptSizes, List.getD_eq_getElem?_getD, List.getElem?_map, List.getElem?_eq_getElem hj]

theorem getD_mem_of_lt (keep : List Nat) (j : Nat) (hj : j < keep.length) :
    keep.getD j 0 ∈ keep := by
  rw [List.getD_eq_getElem _ _ hj]; exact List.getElem_mem hj

theorem map_getD_getD {α : Type} (l : List α) (keep : List Nat) (d : α) (j : Nat)
    (hj : j < keep.length) :
    (keep.map (fun n => l.getD n d)).getD j d = l.getD (keep.getD j 0) d := by
  simp [List.getD_eq_getElem?_getD, List.getElem?_map, List.getElem?_eq_getElem hj]

/-- Element `j` of a compacted constellation is the kept element `keep[j]`. -/
theorem CompactedFrom.sameElement {c c' : Constellation} {ks keep : List Nat}
    (hC : CompactedFrom c ks keep c') (hL : c.Layout ks)
    (hkeep : keep.Sublist (List.range ks.length)) (j : Nat) (hj : j < keep.length) :
    SameElement c (keep.getD j 0) c' j ∧
    (c'.springls.getD j default).offset = offs (keptSizes ks keep) j := by
  have hL' := compactedFrom_layout hC hL hkeep
  have hmem : ∀ m ∈ keep, m < ks.length := sublist_range_lt hkeep
  have hn : keep.getD j 0 < ks.length := hmem _ (getD_mem_of_lt keep j hj)
  have hj' : j < (keptSizes ks keep).length := by rw [keptSizes_length]; exact hj
  have hs' := hL'.springl_getD hj'
  have hs := hL.springl_getD hn
  have hsz' := hL'.size_getD hj'
  have hsz := hL.size_getD hn
  rw [keptSizes_getD ks keep j hj] at hsz'
  refine ⟨⟨by rw [hs'], by rw [hsz', hsz], ?_, ?_, ?_, ?_⟩, by rw [hs']⟩
  · intro k hk
    rw [hsz] at hk
    rw [hs', hs]
    unfold Constellation.vertex
    dsimp only
    rw [hC.vertexes_eq, hC.vnormals_eq,
      gather_getD _ _ _ (by rw [hL.vertexes_len]) keep j k hmem hj hk,
      gather_getD _ _ _ (by rw [hL.vnormals_len]) keep j k hmem hj hk]
    exact ⟨rfl, rfl⟩
  · rw [hs', hs]
    unfold Constellation.particle
    dsimp only
    rw [hC.particles_eq, map_getD_getD _ _ _ _ hj]
  · rw [hs', hs]
    unfold Constellation.normal
    dsimp only
    rw [hC.pnormals_eq, map_getD_getD _ _ _ _ hj]
  · rw [hL'.face_getD hj', hs', hsz, keptSizes_getD ks keep j hj]

theorem keepList_sorted (env : Env) {c : Constellation} {ks : List Nat} (hL : c.Layout ks) :
    (keepList env c).Sorted (· < ·) :=
  (List.pairwise_lt_range ks.length).sublist (keepList_sublist env hL)

theorem offs_keptSizes_eq {c : Constellation} {ks keep : List Nat} (hL : c.Layout ks)
    (hmem : ∀ m ∈ keep, m < ks.length) (j : Nat) :
    offs (keptSizes ks keep) j
      = ((keep.take j).map (fun n => c.size (c.springls.getD n default))).sum := by
  unfold offs keptSizes
  rw [← List.map_take]
  congr 1
  apply List.map_congr_left
  intro n hn
  exact (hL.size_getD (hmem n (List.mem_of_mem_take hn))).symm

/-- C3. `clean` is an order-preserving compaction: the kept ids are ascending,
and element `j` of the result is the old element with the `j`-th kept id (same
size, vertex positions, vertex normals, particle, particle normal, and a face
entry enumerating its new block), placed at the offset that is the sum of the
sizes of the kept elements before it; the quad and triangle index streams list
the vertex indices of the remaining quads and triangles in element order. -/
theorem clean_is_compaction (env : Env) (g : SpringLevelSet) (hWF : g.mConstellation.WF) :
    (keepList env g.mConstellation).Sorted (· < ·) ∧
    (g.clean env).1.mConstellation.springls.length = (keepList env g.mConstellation).length ∧
    (∀ j, j < (keepList env g.mConstellation).length →
      SameElement g.mConstellation ((keepList env g.mConstellation).getD j 0)
        (g.clean env).1.mConstellation j ∧
      ((g.clean env).1.mConstellation.springls.getD j default).offset
        = (((keepList env g.mConstellation).take j).map
            (fun n => g.mConstellation.size (g.mConstellation.springls.getD n default))).sum) ∧
    (g.clean env).1.mConstellation.mQuadIndexes
      = (g.clean env).1.mConstellation.springls.flatMap
          (fun s => quadEntries s.offset ((g.clean env).1.mConstellation.size s)) ∧
    (g.clean env).1.mConstellation.mTriIndexes
      = (g.clean env).1.mConstellation.springls.flatMap
          (fun s => triEntries s.offset ((g.clean env).1.mConstellation.size s)) := by
  have hlen := clean_springls_length env g hWF
  obtain ⟨ks, hL⟩ := hWF
  have hsub := keepList_sublist env hL
  have hC := compactedFrom_clean env g hL
  have hL' := compactedFrom_layout hC hL hsub
  refine ⟨keepList_sorted env hL, hlen, ?_, hL'.quads_flatMap, hL'.tris_flatMap⟩
  intro j hj
  obtain ⟨h1, h2⟩ := hC.sameElement hL hsub j hj
  exact ⟨h1, by rw [h2, offs_keptSizes_eq hL (sublist_range_lt hsub) j]⟩

theorem clean_is_compaction_witness :
    (sampleGrid.clean sampleEnv).1.mConstellation.springls.length
      = (keepList sampleEnv sampleGrid.mConstellation).length :=
  (clean_is_compaction sampleEnv sampleGrid sample_WF).2.1

/-! ### Idempotence of `clean` -/

theorem size_pos (c : Constellation) (s : Springl) : 0 < c.size s := by
  unfold Constellation.size; split <;> decide

theorem crossSum_congr {c c' : Constellation} {s s' : Springl}
    (hp : c'.particle s' = c.particle s) (hK : c'.size s' = c.size s)
    (hv : ∀ k, k < c.size s → c'.vertex s' k = c.vertex s k) :
    c'.crossSum s' = c.crossSum s := by
  unfold Constellation.crossSum
  dsimp only
  rw [hK, hp]
  apply List.foldl_ext
  intro acc k hk
  have hk' : k < c.size s := List.mem_range.mp hk
  rw [hv k hk', hv _ (Nat.mod_lt _ (size_pos c s))]

theorem edgeMinMax_congr (env : Env) {c c' : Constellation} {s s' : Springl}
    (hK : c'.size s' = c.size s)
    (hv : ∀ k, k < c.size s → c'.vertex s' k = c.vertex s k) :
    edgeMinMax env c' s' = edgeMinMax env c s := by
  unfold edgeMinMax
  dsimp only
  rw [hK]
  apply List.foldl_ext
  intro acc k hk
  have hk' : k < c.size s := List.mem_range.mp hk
  rw [hv k hk', hv _ (Nat.mod_lt _ (size_pos c s))]

theorem cleanKeeps_congr (env : Env) {c c' : Constellation} {s s' : Springl}
    (hp : c'.particle s' = c.particle s) (hK : c'.size s' = c.size s)
    (hv : ∀ k, k < c.size s → c'.vertex s' k = c.vertex s k) :
    cleanKeeps env c' s' = cleanKeeps env c s := by
  unfold cleanKeeps Constellation.area
  dsimp only
  rw [hp, edgeMinMax_congr env hK hv, crossSum_congr hp hK hv]

theorem SameElement.cleanKeeps_eq (env : Env) {c c' : Constellation} {n j : Nat}
    (h : SameElement c n c' j) :
    cleanKeeps env c' (c'.springls.getD j default)
      = cleanKeeps env c (c.springls.getD n default) :=
  cleanKeeps_congr env h.2.2.2.1 h.2.1 (fun k hk => (h.2.2.1 k hk).1)

theorem clean_all_kept (env : Env) (g : SpringLevelSet) (hWF : g.mConstellation.WF) :
    (keepList env (g.clean env).1.mConstellation).length
      = (g.clean env).1.mConstellation.springls.length := by
  have hlen := clean_springls_length env g hWF
  obtain ⟨ks, hL⟩ := hWF
  have hsub := keepList_sublist env hL
  have hmem := sublist_range_lt hsub
  have hC := compactedFrom_clean env g hL
  have hL' := compactedFrom_layout hC hL hsub
  have hall : ∀ s ∈ (g.clean env).1.mConstellation.springls,
      cleanKeeps env (g.clean env).1.mConstellation s = true := by
    intro s hs
    obtain ⟨h1, h2⟩ := hL'.mem_springls hs
    rw [keptSizes_length] at h1
    have hsame := (hC.sameElement hL hsub s.id h1).1
    have := hsame.cleanKeeps_eq env
    rw [h2] at this
    rw [this]
    have hn := hmem _ (getD_mem_of_lt _ _ h1)
    exact (mem_keepList_iff env hL hn).mp (getD_mem_of_lt _ _ h1)
  unfold keepList
  rw [List.length_map, List.filter_eq_self.mpr hall]

/-- C4. `clean` is idempotent on a well laid out constellation: a second call
against the same signed field returns 0 and leaves the state the first call
produced unchanged. -/
theorem clean_idempotent (env : Env) (g : SpringLevelSet) (hWF : g.mConstellation.WF) :
    ((g.clean env).1.clean env).2 = 0 ∧ ((g.clean env).1.clean env).1 = (g.clean env).1 := by
  have h := clean_all_kept env g hWF
  generalize (g.clean env).1 = g' at h ⊢
  unfold SpringLevelSet.clean
  dsimp only
  rw [if_pos (show _ = g'.mConstellation.getNumSpringls from h)]
  exact ⟨rfl, rfl⟩

theorem clean_idempotent_witness :
    ((sampleGrid.clean sampleEnv).1.clean sampleEnv).2 = 0 :=
  (clean_idempotent sampleEnv sampleGrid sample_WF).1

theorem layoutSpringls_getD_gen (i off : Nat) (ks : List Nat) (n : Nat) (hn : n < ks.length) :
    (layoutSpringls i off ks).getD n default = ⟨i + n, off + (ks.take n).sum⟩ := by
  induction ks generalizing i off n with
  | nil => simp at hn
  | cons k ks ih =>
    cases n with
    | zero => simp [layoutSpringls]
    | succ n =>
      simp only [layoutSpringls, List.getD_cons_succ, List.take_succ_cons, List.sum_cons]
      rw [ih (i + 1) (off + k) n (by simpa using hn)]
      congr 1 <;> omega

/-- C5. `fill` is append-only.  If it returns `k`, there is a list `ks` of `k`
sizes (3 or 4) of the new elements such that: the element count grows by `k`
and `mFillCount` by `k`; the vertex count grows by 4 per new quad and 3 per new
triangle; every array is its old content followed by new entries; new element
`i` has id equal to its index and offset equal to the vertex count when it was
appended; and each optional array that was non-empty receives zero entries,
one per new element (per new vertex for the vertex velocity), while an empty
one stays empty. -/
theorem fill_append_only (env : Env) (g : SpringLevelSet) :
    ∃ (ks : List Nat) (vs ns ps qs : List Vec3s),
      (∀ k ∈ ks, k = 3 ∨ k = 4) ∧
      (g.fill env).2 = ks.length ∧
      (g.fill env).1.mConstellation.springls.length
        = g.mConstellation.springls.length + (g.fill env).2 ∧
      (g.fill env).1.mConstellation.mVertexes.length
        = g.mConstellation.mVertexes.length
          + (4 * ks.countP (fun k => decide (k = 4)) + 3 * ks.countP (fun k => decide (k = 3))) ∧
      (g.fill env).1.mFillCount = g.mFillCount + (g.fill env).2 ∧
      (g.fill env).1.mConstellation.mVertexes = g.mConstellation.mVertexes ++ vs ∧
      (g.fill env).1.mConstellation.mVertexNormals = g.mConstellation.mVertexNormals ++ ns ∧
      (g.fill env).1.mConstellation.mParticles = g.mConstellation.mParticles ++ ps ∧
      (g.fill env).1.mConstellation.mParticleNormals
        = g.mConstellation.mParticleNormals ++ qs ∧
      (g.fill env).1.mConstellation.mFaces
        = g.mConstellation.mFaces ++ layoutFaces g.mConstellation.mVertexes.length ks ∧
      (g.fill env).1.mConstellation.mQuadIndexes
        = g.mConstellation.mQuadIndexes ++ layoutQuads g.mConstellation.mVertexes.length ks ∧
      (g.fill env).1.mConstellation.mTriIndexes
        = g.mConstellation.mTriIndexes ++ layoutTris g.mConstellation.mVertexes.length ks ∧
      (g.fill env).1.mConstellation.springls
        = g.mConstellation.springls
          ++ layoutSpringls g.mConstellation.springls.length
              g.mConstellation.mVertexes.length ks ∧
      (∀ i, i < ks.length →
        (g.fill env).1.mConstellation.springls.getD (g.mConstellation.springls.length + i)
            default
          = ⟨g.mConstellation.springls.length + i,
              g.mConstellation.mVertexes.length + (ks.take i).sum⟩) ∧
      (g.fill env).1.mConstellation.mParticleVelocity
        = g.mConstellation.mParticleVelocity
          ++ (if g.mConstellation.mParticleVelocity.length > 0 then
                List.replicate ks.length Vec3s.zero else []) ∧
      (g.fill env).1.mConstellation.mVertexVelocity
        = g.mConstellation.mVertexVelocity
          ++ (if g.mConstellation.mVertexVelocity.length > 0 then
                List.replicate ks.sum Vec3s.zero else []) ∧
      (g.fill env).1.mConstellation.mParticleLabel
        = g.mConstellation.mParticleLabel
          ++ (if g.mConstellation.mParticleLabel.length > 0 then
                List.replicate ks.length 0 else []) := by
  obtain ⟨ks, hR⟩ := fillLoop_rel env g
  obtain ⟨vs, hv, hvl⟩ := hR.vertexes_eq
  obtain ⟨ns, hn, hnl⟩ := hR.vnormals_eq
  obtain ⟨ps, hp, hpl⟩ := hR.particles_eq
  obtain ⟨qs, hq, hql⟩ := hR.pnormals_eq
  have hfill1 : (g.fill env).1.mConstellation = (fillLoop env g).c := rfl
  have hfill2 : (g.fill env).2 = (fillLoop env g).added := rfl
  have hfill3 : (g.fill env).1.mFillCount = g.mFillCount + (fillLoop env g).added := rfl
  rw [hfill1, hfill2, hfill3]
  refine ⟨ks, vs, ns, ps, qs, hR.sizes, hR.added_eq, ?_, ?_, rfl, hv, hn, hp, hq, hR.faces_eq,
    hR.quads_eq, hR.tris_eq, hR.springls_eq, ?_, hR.pvelocity_eq, hR.vvelocity_eq, hR.label_eq⟩
  · rw [hR.springls_eq, List.length_append, layoutSpringls_length, hR.added_eq]
  · rw [hv, List.length_append, hvl, (sum_eq_counts ks hR.sizes).1]
  · intro i hi
    rw [hR.springls_eq, List.getD_append_right _ _ _ _ (by omega),
      show g.mConstellation.springls.length + i - g.mConstellation.springls.length = i by omega,
      layoutSpringls_getD_gen _ _ _ _ hi]

/-! ### The acceptance test of `fill` -/

theorem nearest_fold_gt (d : Nat → ℚ) (D : ℚ) :
    ∀ (l : List Nat) (last : Nat) (lsv : ℚ), (lsv ≤ d last ∨ last ∉ l) →
      ((l.foldl
          (fun (st : Nat × ℚ) id =>
            (id, if st.1 ≠ id then (if d id < st.2 then d id else st.2) else st.2))
          (last, lsv)).2 > D ↔ lsv > D ∧ ∀ id ∈ l, d id > D) := by
  intro l
  induction l with
  | nil => intro last lsv _; simp
  | cons id l ih =>
    intro last lsv hP
    rw [List.foldl_cons]
    by_cases hne : last ≠ id
    · simp only [hne, if_true, ne_eq, not_false_eq_true]
      by_cases hlt : d id < lsv
      · rw [if_pos hlt, ih id (d id) (Or.inl (le_refl _))]
        constructor
        · rintro ⟨h1, h2⟩
          exact ⟨lt_trans h1 hlt, fun x hx => by
            rcases List.mem_cons.mp hx with rfl | hx
            · exact h1
            · exact h2 x hx⟩
        · rintro ⟨_, h2⟩
          exact ⟨h2 id (by simp), fun x hx => h2 x (by simp [hx])⟩
      · rw [if_neg hlt, ih id lsv (Or.inl (not_lt.mp hlt))]
        constructor
        · rintro ⟨h1, h2⟩
          exact ⟨h1, fun x hx => by
            rcases List.mem_cons.mp hx with rfl | hx
            · exact lt_of_lt_of_le h1 (not_lt.mp hlt)
            · exact h2 x hx⟩
        · rintro ⟨h1, h2⟩
          exact ⟨h1, fun x hx => h2 x (by simp [hx])⟩
    · have heq : last = id := not_not.mp hne
      subst heq
      have hle : lsv ≤ d last := by
        rcases hP with h | h
        · exact h
        · exact absurd (List.mem_cons_self _ _) h
      simp only [ne_eq, not_true_eq_false, if_false]
      rw [ih last lsv (Or.inl hle)]
      constructor
      · rintro ⟨h1, h2⟩
        exact ⟨h1, fun x hx => by
          rcases List.mem_cons.mp hx with rfl | hx
          · exact lt_of_lt_of_le h1 hle
          · exact h2 x hx⟩
      · rintro ⟨h1, h2⟩
        exact ⟨h1, fun x hx => h2 x (by simp [hx])⟩

theorem fillAccepts_iff (env : Env) (c : Constellation) (cnt : Nat) (hcnt : cnt ≤ INVALID_IDX)
    (ref : Vec3s) : fillAccepts env c cnt ref = true ↔ FarFromElements env c cnt ref := by
  unfold fillAccepts nearestSqr FarFromElements
  rw [decide_eq_true_eq]
  have hmem : ∀ id, id ∈ (stencilCopy env cnt ref).insertionSort (· ≤ ·)
      ↔ id ∈ env.denseStencil 1 ref ∧ id < cnt := by
    intro id
    rw [(List.perm_insertionSort _ _).mem_iff]
    simp [stencilCopy]
  have hP : INVALID_IDX ∉ (stencilCopy env cnt ref).insertionSort (· ≤ ·) := by
    intro h
    have := ((hmem _).mp h).2
    omega
  have h := nearest_fold_gt
    (fun id => c.distanceToFaceSqr env (c.springls.getD id default) ref)
    D2 _ INVALID_IDX FLT_MAX (Or.inr hP)
  rw [h]
  have hmax : FLT_MAX > D2 := by
    norm_num [FLT_MAX, D2]
  constructor
  · rintro ⟨_, h2⟩ id h3 h4
    exact h2 id ((hmem id).mpr ⟨h3, h4⟩)
  · intro h2
    refine ⟨hmax, fun id hid => ?_⟩
    obtain ⟨h3, h4⟩ := (hmem id).mp hid
    exact h2 id h3 h4

/-! ### Neighbour lists -/

theorem bestNeighbor_springlId (env : Env) (c : Constellation) (refPoint : Vec3s) (nbrId : Nat) :
    (bestNeighbor env c refPoint nbrId).springlId = nbrId := by
  have key : ∀ (l : List Nat) (b : SpringlNeighbor),
      (l.foldl
        (fun (best : SpringlNeighbor) n =>
          if c.distanceToEdgeSqr env (c.springls.getD nbrId default) refPoint n ≤ best.distance
          then { best with edgeId := (n : Int),
                           distance := c.distanceToEdgeSqr env (c.springls.getD nbrId default)
                             refPoint n }
          else best) b).springlId = b.springlId := by
    intro l
    induction l with
    | nil => intro b; rfl
    | cons n l ih =>
      intro b
      rw [List.foldl_cons, ih]
      split <;> rfl
  unfold bestNeighbor
  dsimp only
  rw [key]

/-- The ids pushed by the candidate loop are strictly ascending and come from
the list it runs over. -/
theorem tmpRange_fold (env : Env) (c : Constellation) (refPoint : Vec3s) :
    ∀ (l : List Nat) (last : Nat) (acc : List SpringlNeighbor),
      l.Sorted (· ≤ ·) →
      (acc.map SpringlNeighbor.springlId).Sorted (· < ·) →
      (∀ x ∈ acc, x.springlId ≤ last) →
      (acc ≠ [] → ∀ y ∈ l, last ≤ y) →
      ((l.foldl
          (fun (st : Nat × List SpringlNeighbor) nbrId =>
            if nbrId = st.1 then st
            else
              (nbrId,
                if (bestNeighbor env c refPoint nbrId).edgeId ≥ 0 then
                  st.2 ++ [bestNeighbor env c refPoint nbrId]
                else st.2))
          (last, acc)).2.map SpringlNeighbor.springlId).Sorted (· < ·) ∧
      (∀ x ∈ (l.foldl
          (fun (st : Nat × List SpringlNeighbor) nbrId =>
            if nbrId = st.1 then st
            else
              (nbrId,
                if (bestNeighbor env c refPoint nbrId).edgeId ≥ 0 then
                  st.2 ++ [bestNeighbor env c refPoint nbrId]
                else st.2))
          (last, acc)).2, x ∈ acc ∨ x.springlId ∈ l) := by
  intro l
  induction l with
  | nil => intro last acc _ h2 _ _; exact ⟨h2, fun x hx => Or.inl hx⟩
  | cons y l ih =>
    intro last acc hs h2 h3 h4
    have hs' : l.Sorted (· ≤ ·) := hs.of_cons
    have hy : ∀ z ∈ l, y ≤ z := fun z hz => List.rel_of_sorted_cons hs z hz
    rw [List.foldl_cons]
    by_cases hyl : y = last
    · rw [if_pos hyl]
      obtain ⟨r1, r2⟩ := ih last acc hs' h2 h3 (fun hne z hz => h4 hne z (by simp [hz]))
      exact ⟨r1, fun x hx => by
        rcases r2 x hx with h | h
        · exact Or.inl h
        · exact Or.inr (by simp [h])⟩
    · rw [if_neg hyl]
      by_cases he : (bestNeighbor env c refPoint y).edgeId ≥ 0
      · rw [if_pos he]
        have hlt : ∀ x ∈ acc, x.springlId < y := fun x hx => by
          have h5 := h3 x hx
          have h6 := h4 (List.ne_nil_of_mem hx) y (by simp)
          omega
        have hsorted : ((acc ++ [bestNeighbor env c refPoint y]).map
            SpringlNeighbor.springlId).Sorted (· < ·) := by
          rw [List.map_append, List.map_singleton, bestNeighbor_springlId]
          unfold List.Sorted at h2 ⊢
          rw [List.pairwise_append]
          refine ⟨h2, List.pairwise_singleton _ _, fun a ha b hb => ?_⟩
          simp only [List.mem_singleton] at hb
          subst hb
          obtain ⟨x, hx, rfl⟩ := List.mem_map.mp ha
          exact hlt x hx
        obtain ⟨r1, r2⟩ := ih y (acc ++ [bestNeighbor env c refPoint y]) hs' hsorted
          (fun x hx => by
            rcases List.mem_append.mp hx with h | h
            · exact le_of_lt (hlt x h)
            · simp only [List.mem_singleton] at h
              rw [h, bestNeighbor_springlId])
          (fun _ z hz => hy z hz)
        exact ⟨r1, fun x hx => by
          rcases r2 x hx with h | h
          · rcases List.mem_append.mp h with h | h
            · exact Or.inl h
            · simp only [List.mem_singleton] at h
              right; rw [h, bestNeighbor_springlId]; simp
          · exact Or.inr (by simp [h])⟩
      · rw [if_neg he]
        obtain ⟨r1, r2⟩ := ih y acc hs' h2
          (fun x hx => by
            have h5 := h3 x hx
            have h6 := h4 (List.ne_nil_of_mem hx) y (by simp)
            omega)
          (fun _ z hz => hy z hz)
        exact ⟨r1, fun x hx => by
          rcases r2 x hx with h | h
          · exact Or.inl h
          · exact Or.inr (by simp [h])⟩

theorem tmpRange_spec (env : Env) (c : Constellation) (refPoint : Vec3s) (ids : List Nat)
    (hs : ids.Sorted (· ≤ ·)) :
    ((tmpRange env c refPoint ids).map SpringlNeighbor.springlId).Nodup ∧
    ∀ x ∈ tmpRange env c refPoint ids, x.springlId ∈ ids := by
  obtain ⟨r1, r2⟩ := tmpRange_fold env c refPoint ids INVALID_IDX [] hs (by simp)
    (by simp) (by simp)
  refine ⟨r1.nodup, fun x hx => ?_⟩
  rcases r2 x hx with h | h
  · simp at h
  · exact h

/-- The entries pushed for one local vertex form an admissible list. -/
theorem neighborEntries_good (env : Env) (c : Constellation) (s : Springl) (k : Nat) :
    GoodNeighborList s.id (neighborEntries env c s k) := by
  unfold neighborEntries
  dsimp only
  have hsorted : ((neighborCandidates env c s).insertionSort (· ≤ ·)).Sorted (· ≤ ·) :=
    List.sorted_insertionSort _ _
  obtain ⟨t1, t2⟩ := tmpRange_spec env c (c.vertex s k) _ hsorted
  generalize tmpRange env c (c.vertex s k)
    ((neighborCandidates env c s).insertionSort (· ≤ ·)) = tmp at t1 t2
  have hperm := List.perm_insertionSort SpringlNeighbor.le tmp
  have hsub := List.take_sublist (min MAX_NEAREST_NEIGHBORS (tmp.insertionSort
    SpringlNeighbor.le).length) (tmp.insertionSort SpringlNeighbor.le)
  refine ⟨?_, ?_, ?_, ?_⟩
  · rw [List.length_take]
    exact le_trans (min_le_left _ _) (min_le_left _ _)
  · exact (List.sorted_insertionSort SpringlNeighbor.le tmp).sublist hsub
  · intro x hx
    have hx1 : x ∈ tmp := hperm.mem_iff.mp (hsub.subset hx)
    have hx2 := (List.perm_insertionSort _ _).mem_iff.mp (t2 x hx1)
    simp only [neighborCandidates, List.mem_filter, Bool.and_eq_true, decide_eq_true_eq] at hx2
    exact hx2.2.2
  · exact ((hperm.map _).nodup_iff.mpr t1).sublist (hsub.map _)

theorem pushFold_spec {β : Type} (base : Nat) (f : Nat → List β) :
    ∀ (K : Nat) (m : List (List β)),
      ((List.range K).foldl (fun m k => m.set (base + k) (m.getD (base + k) [] ++ f k)) m).length
        = m.length ∧
      ∀ i, ((List.range K).foldl
              (fun m k => m.set (base + k) (m.getD (base + k) [] ++ f k)) m).getD i []
        = if base ≤ i ∧ i < base + K ∧ i < m.length then m.getD i [] ++ f (i - base)
          else m.getD i [] := by
  intro K
  induction K with
  | zero =>
    intro m
    refine ⟨rfl, fun i => ?_⟩
    have : ¬ (base ≤ i ∧ i < base + 0 ∧ i < m.length) := by omega
    rw [if_neg this]; rfl
  | succ K ih =>
    intro m
    obtain ⟨h1, h2⟩ := ih m
    rw [List.range_succ, List.foldl_append]
    simp only [List.foldl_cons, List.foldl_nil]
    refine ⟨by rw [List.length_set, h1], fun i => ?_⟩
    rw [List.getD_eq_getElem?_getD, List.getElem?_set, h1]
    by_cases hi : base + K = i
    · subst hi
      rw [if_pos rfl, h2 (base + K)]
      have hneg : ¬ (base ≤ base + K ∧ base + K < base + K ∧ base + K < m.length) := by omega
      rw [if_neg hneg]
      by_cases hlen : base + K < m.length
      · have hpos : base ≤ base + K ∧ base + K < base + (K + 1) ∧ base + K < m.length := by
          omega
        rw [if_pos hlen, if_pos hpos, Option.getD_some]
        congr 2; omega
      · have hneg2 : ¬ (base ≤ base + K ∧ base + K < base + (K + 1) ∧ base + K < m.length) := by
          omega
        rw [if_neg hlen, if_neg hneg2, Option.getD_none, List.getD_eq_default _ _ (by omega)]
    · rw [if_neg hi, ← List.getD_eq_getElem?_getD, h2 i]
      by_cases hc : base ≤ i ∧ i < base + K ∧ i < m.length
      · have hc' : base ≤ i ∧ i < base + (K + 1) ∧ i < m.length := by omega
        rw [if_pos hc, if_pos hc']
      · have hc' : ¬ (base ≤ i ∧ i < base + (K + 1) ∧ i < m.length) := by omega
        rw [if_neg hc, if_neg hc']

/-- What `compute` contributes to the list of local vertex `k` of an element:
nothing when it returns early, the closest candidates otherwise. -/
theorem nearestNeighborCompute_spec (env : Env) (c : Constellation)
    (map : List (List SpringlNeighbor)) (s : Springl) (hs : c.springls.getD s.id default = s) :
    (nearestNeighborCompute env c map s).length = map.length ∧
    ∀ i, ∃ l, GoodNeighborList s.id l ∧
      (nearestNeighborCompute env c map s).getD i []
        = if s.offset ≤ i ∧ i < s.offset + c.size s ∧ i < map.length then map.getD i [] ++ l
          else map.getD i [] := by
  have hnil : GoodNeighborList s.id [] := by
    refine ⟨by simp, by simp, by simp, by simp⟩
  unfold nearestNeighborCompute
  split
  · exact ⟨rfl, fun i => ⟨[], hnil, by simp⟩⟩
  · split
    · exact ⟨rfl, fun i => ⟨[], hnil, by simp⟩⟩
    · dsimp only
      rw [hs]
      obtain ⟨h1, h2⟩ := pushFold_spec s.offset (neighborEntries env c s) (c.size s) map
      exact ⟨h1, fun i => ⟨_, neighborEntries_good env c s (i - s.offset), h2 i⟩⟩

theorem take_succ_getD_gen {α : Type} [Inhabited α] (l : List α) (n : Nat) (hn : n < l.length) :
    l.take (n + 1) = l.take n ++ [l.getD n default] := by
  rw [List.take_succ, List.getD_eq_getElem _ _ hn, List.getElem?_eq_getElem hn]
  rfl

theorem offs_block_le (ks : List Nat) {e m : Nat} (he : e < m) (hm : m ≤ ks.length) :
    offs ks e + ks.getD e 0 ≤ offs ks m := by
  rw [← offs_succ ks e (by omega)]
  exact offs_mono ks he

theorem nnFold_inv (env : Env) {c : Constellation} {ks : List Nat} (hL : c.Layout ks) :
    ∀ m, m ≤ ks.length →
      ((c.springls.take m).foldl (nearestNeighborCompute env c)
          (nearestNeighborInit c)).length = ks.sum ∧
      ∀ e, e < ks.length → ∀ k, k < ks.getD e 0 →
        (e < m → GoodNeighborList e
          (((c.springls.take m).foldl (nearestNeighborCompute env c)
              (nearestNeighborInit c)).getD (offs ks e + k) [])) ∧
        (m ≤ e →
          ((c.springls.take m).foldl (nearestNeighborCompute env c)
              (nearestNeighborInit c)).getD (offs ks e + k) [] = []) := by
  intro m
  induction m with
  | zero =>
    intro _
    refine ⟨by simp [nearestNeighborInit, Constellation.getNumVertexes, hL.vertexes_len], ?_⟩
    intro e _ k _
    refine ⟨fun h => absurd h (Nat.not_lt_zero _), fun _ => ?_⟩
    simp only [List.take_zero, List.foldl_nil, nearestNeighborInit, List.getD_eq_getElem?_getD,
      List.getElem?_replicate]
    split <;> rfl
  | succ m ih =>
    intro hm
    have hm' : m < ks.length := hm
    obtain ⟨ih1, ih2⟩ := ih (by omega)
    have hsm := hL.springl_getD hm'
    have hsz := hL.size_getD hm'
    rw [hsm] at hsz
    rw [take_succ_getD_gen _ _ (by rw [hL.springls_length]; exact hm'), List.foldl_append, hsm]
    simp only [List.foldl_cons, List.foldl_nil]
    generalize (c.springls.take m).foldl (nearestNeighborCompute env c)
      (nearestNeighborInit c) = map at ih1 ih2 ⊢
    obtain ⟨h1, h2⟩ := nearestNeighborCompute_spec env c map ⟨m, offs ks m⟩ hsm
    refine ⟨by rw [h1, ih1], ?_⟩
    intro e he k hk
    obtain ⟨l, hgood, hget⟩ := h2 (offs ks e + k)
    dsimp only at hget hgood
    rw [hsz, ih1] at hget
    obtain ⟨i1, i2⟩ := ih2 e he k hk
    by_cases hem : e = m
    · subst hem
      have hin : offs ks e ≤ offs ks e + k ∧ offs ks e + k < offs ks e + ks.getD e 0 ∧
          offs ks e + k < ks.sum := by
        have := offs_add_le ks e he
        omega
      rw [if_pos hin, i2 (le_refl _), List.nil_append] at hget
      rw [hget]
      exact ⟨fun _ => hgood, fun h => absurd h (by omega)⟩
    · have hout : ¬ (offs ks m ≤ offs ks e + k ∧ offs ks e + k < offs ks m + ks.getD m 0 ∧
          offs ks e + k < ks.sum) := by
        rcases Nat.lt_or_gt_of_ne hem with h | h
        · have := offs_block_le ks h (by omega)
          omega
        · have := offs_block_le ks h (by omega)
          omega
      rw [if_neg hout] at hget
      rw [hget]
      exact ⟨fun h => i1 (by omega), fun h => i2 (by omega)⟩

/-- C7. After `updateNearestNeighbors()` on a well laid out constellation,
the neighbour list of every element `e` and local vertex `k < size(e)`, stored
at map index `offset_e + k`, has at most `MAX_NEAREST_NEIGHBORS` entries, is
sorted by ascending squared distance, has no entry whose `springlId` is the id
of `e`, and names no neighbour element twice. -/
theorem neighbor_lists_good (env : Env) (g : SpringLevelSet) (hWF : g.mConstellation.WF)
    (e : Nat) (he : e < g.mConstellation.springls.length) (k : Nat)
    (hk : k < g.mConstellation.size (g.mConstellation.springls.getD e default)) :
    GoodNeighborList (g.mConstellation.springls.getD e default).id
      ((g.updateNearestNeighbors env).getNearestNeighbors e k) := by
  obtain ⟨ks, hL⟩ := hWF
  have he' : e < ks.length := by rw [← hL.springls_length]; exact he
  rw [hL.size_getD he'] at hk
  have h := (nnFold_inv env hL ks.length (le_refl _)).2 e he' k hk
  rw [← hL.springls_length, List.take_length] at h
  unfold SpringLevelSet.getNearestNeighbors SpringLevelSet.updateNearestNeighbors
  dsimp only
  rw [hL.springl_getD he']
  exact h.1 he

theorem sample_size : sampleGrid.mConstellation.size
    (sampleGrid.mConstellation.springls.getD 0 default) = 3 := by
  have h1 : sampleGrid.mConstellation = sampleConstellation := rfl
  rw [h1, sampleConstellation_eq]
  simp [Constellation.size, INVALID_IDX]

theorem neighbor_lists_good_witness :
    GoodNeighborList (sampleGrid.mConstellation.springls.getD 0 default).id
      ((sampleGrid.updateNearestNeighbors sampleEnv).getNearestNeighbors 0 2) :=
  neighbor_lists_good sampleEnv sampleGrid sample_WF 0
    (by
      have h1 : sampleGrid.mConstellation = sampleConstellation := rfl
      rw [h1, sampleConstellation_eq]
      decide)
    2 (by rw [sample_size]; decide)

/-! ### The adaptive step -/

theorem still_stepSize : stepSize 1 0 1 0 = 1 := by
  norm_num [stepSize, clamp, EPS, MAX_VEXT]

theorem EPS_pos : 0 < EPS := by unfold EPS; positivity

theorem map_returned_ne {σ : Type} (o : Option σ) (msg : String) :
    (o.map (fun s1 => (s1, AdvectOutcome.returned 0))).map Prod.snd
      ≠ some (AdvectOutcome.ValueError msg) := by
  cases o <;> simp

/-- C11. In `EXPLICIT` or `SEMI_IMPLICIT` mode `advect` ends with the
`ValueError` "MapType not supported!" exactly when the map type of the
transform is none of `UniformScaleMap`, `UniformScaleTranslateMap`,
`UnitaryMap`, `TranslationMap`; and when it does, the state is the one the
call started from, whatever the operators do: none of them has run. -/
theorem advect_raises_iff {σ : Type} (a : AdvectEnv σ) (scheme : MotionScheme)
    (hs : scheme = MotionScheme.EXPLICIT ∨ scheme = MotionScheme.SEMI_IMPLICIT)
    (scale : ℚ) (fuel : Nat) (trans : String) (s : σ) (startTime endTime : ℚ) :
    ((advect a scheme scale fuel trans s startTime endTime).map Prod.snd
        = some (AdvectOutcome.ValueError "MapType not supported!") ↔
      (trans ≠ a.mapType MapT.UniformScaleMap ∧
        trans ≠ a.mapType MapT.UniformScaleTranslateMap ∧
        trans ≠ a.mapType MapT.UnitaryMap ∧ trans ≠ a.mapType MapT.TranslationMap)) ∧
    ((trans ≠ a.mapType MapT.UniformScaleMap ∧
        trans ≠ a.mapType MapT.UniformScaleTranslateMap ∧
        trans ≠ a.mapType MapT.UnitaryMap ∧ trans ≠ a.mapType MapT.TranslationMap) →
      advect a scheme scale fuel trans s startTime endTime
        = some (s, AdvectOutcome.ValueError "MapType not supported!")) := by
  have hne : scheme ≠ MotionScheme.IMPLICIT := by
    rcases hs with h | h <;> rw [h] <;> decide
  have hraise : (trans ≠ a.mapType MapT.UniformScaleMap ∧
        trans ≠ a.mapType MapT.UniformScaleTranslateMap ∧
        trans ≠ a.mapType MapT.UnitaryMap ∧ trans ≠ a.mapType MapT.TranslationMap) →
      advect a scheme scale fuel trans s startTime endTime
        = some (s, AdvectOutcome.ValueError "MapType not supported!") := by
    rintro ⟨h1, h2, h3, h4⟩
    unfold advect
    rw [if_neg hne, if_neg h1, if_neg h2, if_neg h3, if_neg h4]
  refine ⟨⟨fun h => ?_, fun h => by rw [hraise h]; rfl⟩, hraise⟩
  unfold advect at h
  rw [if_neg hne] at h
  by_cases h1 : trans = a.mapType MapT.UniformScaleMap
  · rw [if_pos h1] at h
    exact absurd h (map_returned_ne _ _)
  rw [if_neg h1] at h
  by_cases h2 : trans = a.mapType MapT.UniformScaleTranslateMap
  · rw [if_pos h2] at h
    exact absurd h (map_returned_ne _ _)
  rw [if_neg h2] at h
  by_cases h3 : trans = a.mapType MapT.UnitaryMap
  · rw [if_pos h3] at h
    exact absurd h (map_returned_ne _ _)
  rw [if_neg h3] at h
  by_cases h4 : trans = a.mapType MapT.TranslationMap
  · rw [if_pos h4] at h
    exact absurd h (map_returned_ne _ _)
  exact ⟨h1, h2, h3, h4⟩

theorem advect_raises_iff_witness :
    advect sampleAdvectEnv MotionScheme.SEMI_IMPLICIT 1 5 "AffineMap" 0 0 1
      = some (0, AdvectOutcome.ValueError "MapType not supported!") :=
  (advect_raises_iff sampleAdvectEnv MotionScheme.SEMI_IMPLICIT (Or.inr rfl) 1 5 "AffineMap" 0
    0 1).2 (by simp [sampleAdvectEnv])

/-! ### The elements that `create` builds -/

theorem getD_set_ne {α : Type} (l : List α) {n m : Nat} (x d : α) (h : n ≠ m) :
    (l.set n x).getD m d = l.getD m d := by
  simp [List.getD_eq_getElem?_getD, List.getElem?_set_ne h]

theorem getD_set_self {α : Type} (l : List α) {n : Nat} (x d : α) (h : n < l.length) :
    (l.set n x).getD n d = x := by
  simp [List.getD_eq_getElem?_getD, List.getElem?_set_self h]

/-- One iteration of the face loop leaves the entries below the counters
alone. -/
theorem createStep_old (env : Env) (mesh : Mesh) (st : CreateState) (face : Vec4I) :
    (∀ j, j < st.counter →
      (createStep env mesh st face).c.mVertexes.getD j default = st.c.mVertexes.getD j default ∧
      (createStep env mesh st face).c.mVertexNormals.getD j default
        = st.c.mVertexNormals.getD j default) ∧
    (∀ i, i < st.pcounter →
      (createStep env mesh st face).c.mParticles.getD i default = st.c.mParticles.getD i default ∧
      (createStep env mesh st face).c.mParticleNormals.getD i default
        = st.c.mParticleNormals.getD i default) := by
  unfold createStep
  dsimp only
  split
  · refine ⟨fun j hj => ⟨?_, ?_⟩, fun i hi => ⟨?_, ?_⟩⟩
    · rw [getD_set_ne _ _ _ (by omega), getD_set_ne _ _ _ (by omega),
        getD_set_ne _ _ _ (by omega), getD_set_ne _ _ _ (by omega)]
    · rw [getD_set_ne _ _ _ (by omega), getD_set_ne _ _ _ (by omega),
        getD_set_ne _ _ _ (by omega), getD_set_ne _ _ _ (by omega)]
    · rw [getD_set_ne _ _ _ (by omega)]
    · rw [getD_set_ne _ _ _ (by omega)]
  · refine ⟨fun j hj => ⟨?_, ?_⟩, fun i hi => ⟨?_, ?_⟩⟩
    · rw [getD_set_ne _ _ _ (by omega), getD_set_ne _ _ _ (by omega),
        getD_set_ne _ _ _ (by omega)]
    · rw [getD_set_ne _ _ _ (by omega), getD_set_ne _ _ _ (by omega),
        getD_set_ne _ _ _ (by omega)]
    · rw [getD_set_ne _ _ _ (by omega)]
    · rw [getD_set_ne _ _ _ (by omega)]
theorem computeCentroid_mean (c : Constellation) (s : Springl) :
    c.computeCentroid s = mean ((List.range (c.size s)).map (c.vertex s)) := by
  unfold Constellation.computeCentroid mean
  simp only [List.length_map, List.length_range, List.foldl_map]

theorem createStep_new_quad (env : Env) (mesh : Mesh) (st : CreateState) (face : Vec4I)
    (hf : face.i3 ≠ INVALID_IDX) (hlenF : st.c.mFaces.length = st.c.springls.length)
    (hV : st.counter + 4 ≤ st.c.mVertexes.length)
    (hN : st.counter + 4 ≤ st.c.mVertexNormals.length)
    (hP : st.pcounter < st.c.mParticles.length)
    (hPN : st.pcounter < st.c.mParticleNormals.length)
    (hb : st.counter + 4 ≤ INVALID_IDX) :
    (∀ k, k < 4 →
      (createStep env mesh st face).c.mVertexes.getD (st.counter + k) default
        = mesh.mVertexes.getD (face.get k) default) ∧
    (createStep env mesh st face).c.mParticles.getD st.pcounter default
      = mean (faceVertexes mesh face) ∧
    (∀ k, k < 4 →
      (createStep env mesh st face).c.mVertexNormals.getD (st.counter + k) default
        = (createStep env mesh st face).c.mParticleNormals.getD st.pcounter default) := by
  have hsz : faceSize face = 4 := by simp [faceSize, hf]
  have hvs : ∀ k, k < 4 →
      ((((st.c.mVertexes.set st.counter (mesh.mVertexes.getD face.i0 default)).set
            (st.counter + 1) (mesh.mVertexes.getD face.i1 default)).set
            (st.counter + 2) (mesh.mVertexes.getD face.i2 default)).set
            (st.counter + 3) (mesh.mVertexes.getD face.i3 default)).getD (st.counter + k) default
        = mesh.mVertexes.getD (face.get k) default := by
    intro k hk
    interval_cases k
    · rw [getD_set_ne _ _ _ (by omega), getD_set_ne _ _ _ (by omega),
        getD_set_ne _ _ _ (by omega), Nat.add_zero, getD_set_self _ _ _ (by omega)]
      rfl
    · rw [getD_set_ne _ _ _ (by omega), getD_set_ne _ _ _ (by omega),
        getD_set_self _ _ _ (by simp only [List.length_set]; omega)]
      rfl
    · rw [getD_set_ne _ _ _ (by omega),
        getD_set_self _ _ _ (by simp only [List.length_set]; omega)]
      rfl
    · rw [getD_set_self _ _ _ (by simp only [List.length_set]; omega)]
      rfl
  unfold createStep
  dsimp only
  rw [if_pos hf]
  dsimp only
  refine ⟨hvs, ?_, ?_⟩
  · rw [getD_set_self _ _ _ hP, computeCentroid_mean]
    have hface : (st.c.mFaces ++
        [(⟨st.counter, st.counter + 1, st.counter + 2, st.counter + 3⟩ : Vec4I)]).getD
          st.c.springls.length default
        = ⟨st.counter, st.counter + 1, st.counter + 2, st.counter + 3⟩ := by
      rw [← hlenF]
      simp [List.getD_eq_getElem?_getD]
    unfold Constellation.size faceVertexes
    dsimp only
    rw [hface, hsz]
    dsimp only
    rw [if_neg (by omega)]
    congr 1
    apply List.map_congr_left
    intro k hk
    exact hvs k (List.mem_range.mp hk)
  · intro k hk
    rw [getD_set_self _ _ _ hPN]
    generalize Constellation.computeNormal env _ _ = norm
    interval_cases k
    · simp only [Nat.add_zero]
      rw [getD_set_self _ _ _ (by simp only [List.length_set]; omega)]
    · rw [getD_set_ne _ _ _ (by omega),
        getD_set_self _ _ _ (by simp only [List.length_set]; omega)]
    · rw [getD_set_ne _ _ _ (by omega), getD_set_ne _ _ _ (by omega),
        getD_set_self _ _ _ (by simp only [List.length_set]; omega)]
    · rw [getD_set_ne _ _ _ (by omega), getD_set_ne _ _ _ (by omega),
        getD_set_ne _ _ _ (by omega), getD_set_self _ _ _ (by omega)]
theorem createStep_new_tri (env : Env) (mesh : Mesh) (st : CreateState) (face : Vec4I)
    (hf : face.i3 = INVALID_IDX) (hlenF : st.c.mFaces.length = st.c.springls.length)
    (hV : st.counter + 3 ≤ st.c.mVertexes.length)
    (hN : st.counter + 3 ≤ st.c.mVertexNormals.length)
    (hP : st.pcounter < st.c.mParticles.length)
    (hPN : st.pcounter < st.c.mParticleNormals.length) :
    (∀ k, k < 3 →
      (createStep env mesh st face).c.mVertexes.getD (st.counter + k) default
        = mesh.mVertexes.getD (face.get k) default) ∧
    (createStep env mesh st face).c.mParticles.getD st.pcounter default
      = mean (faceVertexes mesh face) ∧
    (∀ k, k < 3 →
      (createStep env mesh st face).c.mVertexNormals.getD (st.counter + k) default
        = (createStep env mesh st face).c.mParticleNormals.getD st.pcounter default) := by
  have hsz : faceSize face = 3 := by simp [faceSize, hf]
  have hvs : ∀ k, k < 3 →
      (((st.c.mVertexes.set st.counter (mesh.mVertexes.getD face.i0 default)).set
            (st.counter + 1) (mesh.mVertexes.getD face.i1 default)).set
            (st.counter + 2) (mesh.mVertexes.getD face.i2 default)).getD (st.counter + k) default
        = mesh.mVertexes.getD (face.get k) default := by
    intro k hk
    interval_cases k
    · rw [getD_set_ne _ _ _ (by omega), getD_set_ne _ _ _ (by omega), Nat.add_zero,
        getD_set_self _ _ _ (by omega)]
      rfl
    · rw [getD_set_ne _ _ _ (by omega),
        getD_set_self _ _ _ (by simp only [List.length_set]; omega)]
      rfl
    · rw [getD_set_self _ _ _ (by simp only [List.length_set]; omega)]
      rfl
  unfold createStep
  dsimp only
  rw [if_neg (by simpa using hf)]
  dsimp only
  refine ⟨hvs, ?_, ?_⟩
  · rw [getD_set_self _ _ _ hP, computeCentroid_mean]
    have hface : (st.c.mFaces ++
        [(⟨st.counter, st.counter + 1, st.counter + 2, INVALID_IDX⟩ : Vec4I)]).getD
          st.c.springls.length default
        = ⟨st.counter, st.counter + 1, st.counter + 2, INVALID_IDX⟩ := by
      rw [← hlenF]
      simp [List.getD_eq_getElem?_getD]
    unfold Constellation.size faceVertexes
    dsimp only
    rw [hface, hsz]
    dsimp only
    rw [if_pos rfl]
    congr 1
    apply List.map_congr_left
    intro k hk
    exact hvs k (List.mem_range.mp hk)
  · intro k hk
    rw [getD_set_self _ _ _ hPN]
    generalize Constellation.computeNormal env _ _ = norm
    interval_cases k
    · simp only [Nat.add_zero]
      rw [getD_set_self _ _ _ (by simp only [List.length_set]; omega)]
    · rw [getD_set_ne _ _ _ (by omega),
        getD_set_self _ _ _ (by simp only [List.length_set]; omega)]
    · rw [getD_set_ne _ _ _ (by omega), getD_set_ne _ _ _ (by omega),
        getD_set_self _ _ _ (by omega)]

theorem offs_append_le (ks ls : List Nat) {i : Nat} (hi : i ≤ ks.length) :
    offs (ks ++ ls) i = offs ks i := by
  unfold offs
  rw [List.take_append_of_le_length hi]

theorem getD_append_lt {α : Type} (l r : List α) (d : α) {i : Nat} (hi : i < l.length) :
    (l ++ r).getD i d = l.getD i d := by
  simp [List.getD_eq_getElem?_getD, List.getElem?_append_left hi]

theorem createStep_content (env : Env) (mesh : Mesh) (nv nf : Nat) (fs : List Vec4I)
    (st : CreateState) (face : Vec4I) (hI : CreateInv nv nf fs st)
    (hC : CreateContent mesh fs st) (hroom : st.counter + faceSize face ≤ nv)
    (hnf : fs.length < nf) (hb : nv ≤ INVALID_IDX) :
    CreateContent mesh (fs ++ [face]) (createStep env mesh st face) := by
  have hlenF : st.c.mFaces.length = st.c.springls.length := by
    rw [hI.faces_eq, hI.springls_eq, layoutFaces_length, layoutSpringls_length]
  have hcnt := hI.counter_eq
  have hpc := hI.pcounter_eq
  obtain ⟨hold1, hold2⟩ := createStep_old env mesh st face
  have hnew : (∀ k, k < faceSize face →
        (createStep env mesh st face).c.mVertexes.getD (st.counter + k) default
          = mesh.mVertexes.getD (face.get k) default) ∧
      (createStep env mesh st face).c.mParticles.getD st.pcounter default
        = mean (faceVertexes mesh face) ∧
      (∀ k, k < faceSize face →
        (createStep env mesh st face).c.mVertexNormals.getD (st.counter + k) default
          = (createStep env mesh st face).c.mParticleNormals.getD st.pcounter default) := by
    by_cases hf : face.i3 = INVALID_IDX
    · have hsz : faceSize face = 3 := by simp [faceSize, hf]
      rw [hsz] at hroom ⊢
      exact createStep_new_tri env mesh st face hf hlenF (by rw [hI.vertexes_len]; exact hroom)
        (by rw [hI.vnormals_len]; exact hroom) (by rw [hI.particles_len, hpc]; exact hnf)
        (by rw [hI.pnormals_len, hpc]; exact hnf)
    · have hsz : faceSize face = 4 := by simp [faceSize, hf]
      rw [hsz] at hroom ⊢
      exact createStep_new_quad env mesh st face hf hlenF (by rw [hI.vertexes_len]; exact hroom)
        (by rw [hI.vnormals_len]; exact hroom) (by rw [hI.particles_len, hpc]; exact hnf)
        (by rw [hI.pnormals_len, hpc]; exact hnf) (by omega)
  have hoff : ∀ i, i ≤ fs.length →
      offs ((fs ++ [face]).map faceSize) i = offs (fs.map faceSize) i := by
    intro i hi
    rw [List.map_append, offs_append_le _ _ (by rw [List.length_map]; exact hi)]
  have hlast : offs (fs.map faceSize) fs.length = st.counter := by
    rw [hcnt]
    unfold offs
    rw [List.take_of_length_le (by rw [List.length_map])]
  have hbelow : ∀ i, i < fs.length → ∀ k, k < faceSize (fs.getD i default) →
      offs (fs.map faceSize) i + k < st.counter := by
    intro i hi k hk
    have h1 := offs_add_le (fs.map faceSize) i (by rw [List.length_map]; exact hi)
    have h2 : (fs.map faceSize).getD i 0 = faceSize (fs.getD i default) := by
      simp [List.getD_eq_getElem?_getD, List.getElem?_map, List.getElem?_eq_getElem hi]
    rw [h2] at h1
    rw [hcnt]
    omega
  have hlen : (fs ++ [face]).length = fs.length + 1 := by simp
  refine ⟨fun i hi k hk => ?_, fun i hi => ?_, fun i hi k hk => ?_⟩
  · rw [hlen] at hi
    by_cases hlt : i < fs.length
    · rw [getD_append_lt _ _ _ hlt] at hk ⊢
      rw [hoff i (by omega), (hold1 _ (hbelow i hlt k hk)).1]
      exact hC.vertexes i hlt k hk
    · have hi' : i = fs.length := by omega
      subst hi'
      have hget : (fs ++ [face]).getD fs.length default = face := by
        simp [List.getD_eq_getElem?_getD]
      rw [hget] at hk ⊢
      rw [hoff _ (le_refl _), hlast]
      exact hnew.1 k hk
  · rw [hlen] at hi
    by_cases hlt : i < fs.length
    · rw [getD_append_lt _ _ _ hlt, (hold2 i (by rw [hpc]; exact hlt)).1]
      exact hC.particles i hlt
    · have hi' : i = fs.length := by omega
      subst hi'
      have hget : (fs ++ [face]).getD fs.length default = face := by
        simp [List.getD_eq_getElem?_getD]
      rw [hget, ← hpc]
      exact hnew.2.1
  · rw [hlen] at hi
    by_cases hlt : i < fs.length
    · rw [getD_append_lt _ _ _ hlt] at hk
      rw [hoff i (by omega), (hold1 _ (hbelow i hlt k hk)).2,
        (hold2 i (by rw [hpc]; exact hlt)).2]
      exact hC.vnormals i hlt k hk
    · have hi' : i = fs.length := by omega
      subst hi'
      have hget : (fs ++ [face]).getD fs.length default = face := by
        simp [List.getD_eq_getElem?_getD]
      rw [hget] at hk
      rw [hoff _ (le_refl _), hlast, ← hpc]
      exact hnew.2.2 k hk
theorem createFold_content (env : Env) (mesh : Mesh) (nv nf : Nat) (hb : nv ≤ INVALID_IDX) :
    ∀ (rest fs : List Vec4I) (st : CreateState), CreateInv nv nf fs st →
      CreateContent mesh fs st → ((fs ++ rest).map faceSize).sum ≤ nv →
      (fs ++ rest).length ≤ nf →
      CreateContent mesh (fs ++ rest) (rest.foldl (createStep env mesh) st) := by
  intro rest
  induction rest with
  | nil => intro fs st _ hC _ _; simpa using hC
  | cons f rest ih =>
    intro fs st hI hC hsum hlen
    have hsum' : ((fs ++ [f] ++ rest).map faceSize).sum ≤ nv := by simpa using hsum
    have hlen' : (fs ++ [f] ++ rest).length ≤ nf := by simpa using hlen
    have hroom : st.counter + faceSize f ≤ nv := by
      rw [hI.counter_eq]
      simp only [List.map_append, List.sum_append, List.map_cons, List.sum_cons] at hsum
      omega
    have hnf : fs.length < nf := by
      simp only [List.length_append, List.length_cons] at hlen
      omega
    have := ih (fs ++ [f]) _ (createStep_inv env mesh nv nf fs st f hI)
      (createStep_content env mesh nv nf fs st f hI hC hroom hnf hb) hsum' hlen'
    simpa using this

theorem create_content (env : Env) (c : Constellation) (mesh : Mesh) (hm : mesh.Consistent)
    (hb : mesh.mQuadIndexes.length + mesh.mTriIndexes.length ≤ INVALID_IDX) :
    CreateContent mesh mesh.mFaces
      (mesh.mFaces.foldl (createStep env mesh) ⟨createInit c mesh, 0, 0⟩) := by
  have hsum : (mesh.mFaces.map faceSize).sum
      = mesh.mQuadIndexes.length + mesh.mTriIndexes.length := by
    rw [faceSize_counts, hm.1, hm.2]
  have h0 : CreateContent mesh [] ⟨createInit c mesh, 0, 0⟩ :=
    ⟨fun i hi => absurd hi (Nat.not_lt_zero _), fun i hi => absurd hi (Nat.not_lt_zero _),
      fun i hi => absurd hi (Nat.not_lt_zero _)⟩
  have h := createFold_content env mesh _ _ hb mesh.mFaces [] _ (createInit_inv c mesh) h0
    (by rw [List.nil_append, hsum]) (by rw [List.nil_append])
  rw [List.nil_append] at h
  exact h

/-- C12. On a mesh whose index streams are consistent with its `F` faces,
`Constellation::create` produces `F` elements and `Σ faceSize` vertices; element
`i` has id `i`, the size of face `i` and the offset that is the sum of the sizes
of the faces before it; its vertex block holds the mesh vertices of face `i` in
face order, its particle is their arithmetic mean, each of its vertex normals
is its particle normal; and the quad and triangle index streams list the
vertex indices of the quad and triangle elements in element order. -/
theorem create_elements (env : Env) (c : Constellation) (mesh : Mesh) (hm : mesh.Consistent)
    (hb : mesh.mQuadIndexes.length + mesh.mTriIndexes.length ≤ INVALID_IDX) :
    (Constellation.create env c mesh).springls.length = mesh.mFaces.length ∧
    (Constellation.create env c mesh).mVertexes.length = (mesh.mFaces.map faceSize).sum ∧
    (∀ i, i < mesh.mFaces.length →
      ((Constellation.create env c mesh).springls.getD i default).id = i ∧
      (Constellation.create env c mesh).size
          ((Constellation.create env c mesh).springls.getD i default)
        = faceSize (mesh.mFaces.getD i default) ∧
      ((Constellation.create env c mesh).springls.getD i default).offset
        = ((mesh.mFaces.take i).map faceSize).sum ∧
      (∀ k, k < faceSize (mesh.mFaces.getD i default) →
        (Constellation.create env c mesh).vertex
            ((Constellation.create env c mesh).springls.getD i default) k
          = mesh.mVertexes.getD ((mesh.mFaces.getD i default).get k) default ∧
        (Constellation.create env c mesh).mVertexNormals.getD
            (((Constellation.create env c mesh).springls.getD i default).offset + k) default
          = (Constellation.create env c mesh).normal
              ((Constellation.create env c mesh).springls.getD i default)) ∧
      (Constellation.create env c mesh).particle
          ((Constellation.create env c mesh).springls.getD i default)
        = mean (faceVertexes mesh (mesh.mFaces.getD i default))) ∧
    (Constellation.create env c mesh).mQuadIndexes
      = (Constellation.create env c mesh).springls.flatMap
          (fun s => quadEntries s.offset ((Constellation.create env c mesh).size s)) ∧
    (Constellation.create env c mesh).mTriIndexes
      = (Constellation.create env c mesh).springls.flatMap
          (fun s => triEntries s.offset ((Constellation.create env c mesh).size s)) := by
  have hL := create_layout env c mesh hm hb
  have hC := create_content env c mesh hm hb
  have hlen : (mesh.mFaces.map faceSize).length = mesh.mFaces.length := List.length_map _ _
  refine ⟨by rw [hL.springls_length, hlen], hL.vertexes_len, fun i hi => ?_, hL.quads_flatMap,
    hL.tris_flatMap⟩
  have hi' : i < (mesh.mFaces.map faceSize).length := by rw [hlen]; exact hi
  have hsz : (mesh.mFaces.map faceSize).getD i 0 = faceSize (mesh.mFaces.getD i default) := by
    simp [List.getD_eq_getElem?_getD, List.getElem?_map, List.getElem?_eq_getElem hi]
  have hoff : offs (mesh.mFaces.map faceSize) i = ((mesh.mFaces.take i).map faceSize).sum := by
    unfold offs
    rw [List.map_take]
  rw [hL.size_getD hi', hL.springl_getD hi', hsz]
  dsimp only
  refine ⟨rfl, rfl, hoff, fun k hk => ⟨?_, ?_⟩, ?_⟩
  · exact hC.vertexes i hi k hk
  · exact hC.vnormals i hi k hk
  · exact hC.particles i hi

theorem create_elements_witness :
    (Constellation.create sampleEnv emptyConstellation sampleMesh).springls.length
        = sampleMesh.mFaces.length ∧
      (Constellation.create sampleEnv emptyConstellation sampleMesh).mVertexes.length
        = (sampleMesh.mFaces.map faceSize).sum :=
  ⟨(create_elements sampleEnv emptyConstellation sampleMesh sampleMesh_consistent
      (by simp [sampleMesh, INVALID_IDX])).1,
    (create_elements sampleEnv emptyConstellation sampleMesh sampleMesh_consistent
      (by simp [sampleMesh, INVALID_IDX])).2.1⟩

/-! ### The optional arrays under `create`, `clean` and `fill` -/

theorem createStep_optional (env : Env) (mesh : Mesh) (st : CreateState) (face : Vec4I) :
    (createStep env mesh st face).c.mVertexVelocity = st.c.mVertexVelocity ∧
    (createStep env mesh st face).c.mParticleVelocity = st.c.mParticleVelocity ∧
    (createStep env mesh st face).c.mParticleLabel = st.c.mParticleLabel := by
  unfold createStep
  dsimp only
  split <;> exact ⟨rfl, rfl, rfl⟩

/-- The face loop of `create` never writes the optional arrays: the velocity
arrays of the result are the arrays of the mesh, entry for entry. -/
theorem create_optional (env : Env) (c : Constellation) (mesh : Mesh) :
    (Constellation.create env c mesh).mVertexVelocity = mesh.mVertexVelocity ∧
    (Constellation.create env c mesh).mParticleVelocity = mesh.mParticleVelocity ∧
    (Constellation.create env c mesh).mParticleLabel = c.mParticleLabel := by
  have key : ∀ (fs : List Vec4I) (st : CreateState),
      (fs.foldl (createStep env mesh) st).c.mVertexVelocity = st.c.mVertexVelocity ∧
      (fs.foldl (createStep env mesh) st).c.mParticleVelocity = st.c.mParticleVelocity ∧
      (fs.foldl (createStep env mesh) st).c.mParticleLabel = st.c.mParticleLabel := by
    intro fs
    induction fs with
    | nil => intro st; exact ⟨rfl, rfl, rfl⟩
    | cons f fs ih =>
      intro st
      obtain ⟨h1, h2, h3⟩ := ih (createStep env mesh st f)
      obtain ⟨g1, g2, g3⟩ := createStep_optional env mesh st f
      rw [List.foldl_cons]
      exact ⟨h1.trans g1, h2.trans g2, h3.trans g3⟩
  exact key mesh.mFaces ⟨createInit c mesh, 0, 0⟩

theorem sharedMesh_consistent : sharedMesh.Consistent := by
  simp [Mesh.Consistent, sharedMesh, INVALID_IDX, List.countP_cons]

/-- C18, the code at a mesh with shared vertices.  `create` on two triangles
that share an edge builds six constellation vertices but keeps the four
velocities of the mesh as they are: slot 3, which holds mesh vertex 0 (the
first vertex of the second face), carries the velocity of mesh vertex 3, and
slots 4 and 5 have no velocity at all. -/
theorem create_vertex_velocity_copied :
    (Constellation.create sampleEnv emptyConstellation sharedMesh).mVertexes.length = 6 ∧
    (Constellation.create sampleEnv emptyConstellation sharedMesh).mVertexVelocity.length = 4 ∧
    ((Constellation.create sampleEnv emptyConstellation sharedMesh).springls.getD 1
      default).offset = 3 ∧
    (Constellation.create sampleEnv emptyConstellation sharedMesh).mVertexVelocity.getD 3 default
      = ⟨13, 0, 0⟩ ∧
    sharedMesh.mVertexVelocity.getD ((sharedMesh.mFaces.getD 1 default).get 0) default
      = ⟨10, 0, 0⟩ := by
  have hL := create_layout sampleEnv emptyConstellation sharedMesh sharedMesh_consistent
    (by simp [sharedMesh, INVALID_IDX])
  have hks : sharedMesh.mFaces.map faceSize = [3, 3] := by
    simp [sharedMesh, faceSize]
  rw [hks] at hL
  refine ⟨hL.vertexes_len, ?_, ?_, ?_, ?_⟩
  · rw [(create_optional _ _ _).1]; rfl
  · rw [hL.springl_getD (by decide : 1 < [3, 3].length)]; rfl
  · rw [(create_optional _ _ _).1]; rfl
  · rfl
theorem cleanStep_optional_length (st : CleanState) (n : Nat) :
    (cleanStep st n).c.mParticleVelocity.length = st.c.mParticleVelocity.length ∧
    (cleanStep st n).c.mParticleLabel.length = st.c.mParticleLabel.length ∧
    (cleanStep st n).c.mVertexVelocity.length = st.c.mVertexVelocity.length := by
  unfold cleanStep
  dsimp only
  by_cases h : st.springlOffset = n
  · rw [if_neg (by simpa using h)]
    exact ⟨rfl, rfl, rfl⟩
  · rw [if_pos h]
    dsimp only
    refine ⟨?_, ?_, ?_⟩
    · split
      · rw [List.length_set]
      · rfl
    · split
      · rw [List.length_set]
      · rfl
    · split
      · rw [copyRange_length]
      · rfl

theorem cleanFold_optional_length :
    ∀ (keep : List Nat) (st : CleanState),
      (keep.foldl cleanStep st).c.mParticleVelocity.length = st.c.mParticleVelocity.length ∧
      (keep.foldl cleanStep st).c.mParticleLabel.length = st.c.mParticleLabel.length ∧
      (keep.foldl cleanStep st).c.mVertexVelocity.length = st.c.mVertexVelocity.length ∧
      (keep.foldl cleanStep st).springlOffset = st.springlOffset + keep.length := by
  intro keep
  induction keep with
  | nil => intro st; exact ⟨rfl, rfl, rfl, rfl⟩
  | cons n keep ih =>
    intro st
    obtain ⟨h1, h2, h3, h4⟩ := ih (cleanStep st n)
    obtain ⟨g1, g2, g3⟩ := cleanStep_optional_length st n
    rw [List.foldl_cons]
    refine ⟨h1.trans g1, h2.trans g2, h3.trans g3, ?_⟩
    rw [h4, cleanStep_springlOffset, List.length_cons]
    omega

/-- The compaction shortens the particle velocities to the number of kept
elements and leaves the length of the label array as it was. -/
theorem compact_optional_length (c : Constellation) (keep : List Nat) :
    (compact c keep).mParticleVelocity.length = min keep.length c.mParticleVelocity.length ∧
    (compact c keep).mParticleLabel.length = c.mParticleLabel.length := by
  obtain ⟨h1, h2, _, h4⟩ := cleanFold_optional_length keep ⟨c, 0, 0, 0, 0⟩
  unfold compact cleanErase
  dsimp only at h1 h2 h4 ⊢
  refine ⟨?_, h2⟩
  rw [h4, Nat.zero_add]
  split
  · rw [List.length_take, h1]
  · rename_i hlen
    rw [h1] at hlen ⊢
    have : c.mParticleVelocity.length = 0 := by omega
    rw [this, Nat.min_zero]

/-- Whatever `clean` removes, the label array keeps its length. -/
theorem clean_label_length (env : Env) (g : SpringLevelSet) :
    (g.clean env).1.mConstellation.mParticleLabel.length
      = g.mConstellation.mParticleLabel.length := by
  unfold SpringLevelSet.clean
  dsimp only
  split
  · rfl
  · exact (compact_optional_length _ _).2

/-- The particle velocities stay aligned under `clean`. -/
theorem clean_velocity_aligned (env : Env) (g : SpringLevelSet) (hWF : g.mConstellation.WF)
    (hlen : g.mConstellation.mParticleVelocity.length = g.mConstellation.getNumSpringls) :
    (g.clean env).1.mConstellation.mParticleVelocity.length
      = (g.clean env).1.mConstellation.getNumSpringls := by
  have hcount := clean_springls_length env g hWF
  obtain ⟨ks, hL⟩ := hWF
  have hle : (keepList env g.mConstellation).length ≤ g.mConstellation.getNumSpringls := by
    have := sublist_range_length (keepList_sublist env hL)
    unfold Constellation.getNumSpringls
    rw [hL.springls_length]
    exact this
  unfold Constellation.getNumSpringls at *
  rw [hcount]
  unfold SpringLevelSet.clean
  dsimp only
  split
  · rename_i h
    dsimp only
    rw [hlen]
    exact h.symm
  · dsimp only
    rw [(compact_optional_length _ _).1, hlen]
    exact Nat.min_eq_left hle

/-- The optional per-element arrays stay aligned under `fill`. -/
theorem fill_optional_aligned (env : Env) (g : SpringLevelSet) :
    (g.mConstellation.mParticleVelocity.length = g.mConstellation.getNumSpringls →
      0 < g.mConstellation.mParticleVelocity.length →
      (g.fill env).1.mConstellation.mParticleVelocity.length
        = (g.fill env).1.mConstellation.getNumSpringls) ∧
    (g.mConstellation.mParticleLabel.length = g.mConstellation.getNumSpringls →
      0 < g.mConstellation.mParticleLabel.length →
      (g.fill env).1.mConstellation.mParticleLabel.length
        = (g.fill env).1.mConstellation.getNumSpringls) := by
  obtain ⟨ks, hR⟩ := fillLoop_rel env g
  have hfill : (g.fill env).1.mConstellation = (fillLoop env g).c := rfl
  unfold Constellation.getNumSpringls
  rw [hfill, hR.springls_eq, hR.pvelocity_eq, hR.label_eq]
  constructor
  · intro h1 h2
    rw [if_pos h2]
    simp [layoutSpringls_length, h1]
  · intro h1 h2
    rw [if_pos h2]
    simp [layoutSpringls_length, h1]
theorem sampleTagged_eq : sampleTagged =
    { mVertexes := [⟨0, 0, 5⟩, ⟨1 / 2, 0, 5⟩, ⟨0, 1 / 2, 5⟩,
        ⟨0, 0, 0⟩, ⟨1 / 2, 0, 0⟩, ⟨1 / 2, 1 / 2, 0⟩, ⟨0, 1 / 2, 0⟩]
      mVertexNormals := [⟨0, 0, 1 / 4⟩, ⟨0, 0, 1 / 4⟩, ⟨0, 0, 1 / 4⟩,
        ⟨0, 0, 1 / 2⟩, ⟨0, 0, 1 / 2⟩, ⟨0, 0, 1 / 2⟩, ⟨0, 0, 1 / 2⟩]
      mParticles := [⟨1 / 6, 1 / 6, 5⟩, ⟨1 / 4, 1 / 4, 0⟩]
      mParticleNormals := [⟨0, 0, 1 / 4⟩, ⟨0, 0, 1 / 2⟩]
      mParticleVelocity := [⟨1, 0, 0⟩, ⟨2, 0, 0⟩]
      mVertexVelocity :=
        [⟨10, 0, 0⟩, ⟨11, 0, 0⟩, ⟨12, 0, 0⟩, ⟨13, 0, 0⟩, ⟨14, 0, 0⟩, ⟨15, 0, 0⟩, ⟨16, 0, 0⟩]
      mParticleLabel := [7, 8]
      mFaces := [⟨0, 1, 2, INVALID_IDX⟩, ⟨3, 4, 5, 6⟩]
      mQuadIndexes := [3, 4, 5, 6]
      mTriIndexes := [0, 1, 2]
      springls := [⟨0, 0⟩, ⟨1, 3⟩] } := by
  unfold sampleTagged
  rw [sampleConstellation_eq]

theorem sampleTagged_keepList : keepList sampleEnv sampleTagged = [1] := by
  rw [sampleTagged_eq]
  simp [keepList, cleanKeeps, edgeMinMax, Constellation.area, Constellation.crossSum,
    Constellation.size, Constellation.vertex, Constellation.particle, Env.length, sampleEnv,
    INVALID_IDX, Vec3s.add, Vec3s.sub, Vec3s.cross, Vec3s.zero, Vec3s.lengthSqr,
    List.range_succ, List.filter, CLEAN_DISTANCE, MIN_AREA, MAX_AREA, MIN_ASPECT_RATIO]
  norm_num [abs_le]

theorem sampleTagged_compact : compact sampleTagged [1] =
    { mVertexes := [⟨0, 0, 0⟩, ⟨1 / 2, 0, 0⟩, ⟨1 / 2, 1 / 2, 0⟩, ⟨0, 1 / 2, 0⟩]
      mVertexNormals := [⟨0, 0, 1 / 2⟩, ⟨0, 0, 1 / 2⟩, ⟨0, 0, 1 / 2⟩, ⟨0, 0, 1 / 2⟩]
      mParticles := [⟨1 / 4, 1 / 4, 0⟩]
      mParticleNormals := [⟨0, 0, 1 / 2⟩]
      mParticleVelocity := [⟨2, 0, 0⟩]
      mVertexVelocity := [⟨13, 0, 0⟩, ⟨14, 0, 0⟩, ⟨15, 0, 0⟩, ⟨13, 0, 0⟩]
      mParticleLabel := [8, 8]
      mFaces := [⟨0, 1, 2, 3⟩]
      mQuadIndexes := [0, 1, 2, 3]
      mTriIndexes := []
      springls := [⟨0, 0⟩] } := by
  rw [sampleTagged_eq]
  simp [compact, cleanStep, cleanErase, copyRange, storeRange, Constellation.size, INVALID_IDX,
    Vec4I.set, List.range_succ]

theorem sampleTagged_clean :
    sampleTaggedGrid.clean sampleEnv
      = ({ sampleTaggedGrid with
            mConstellation := compact sampleTagged [1], mCleanCount := 1 }, 1) := by
  have h1 : sampleTaggedGrid.mConstellation = sampleTagged := rfl
  have h2 : sampleTagged.getNumSpringls = 2 := by
    rw [sampleTagged_eq]; rfl
  simp [SpringLevelSet.clean, h1, h2, sampleTagged_keepList]
  rfl

/-- C13, the code at a constellation with labels.  The sample constellation
has two elements and two labels; `clean` removes the far triangle and moves the
label of the kept quad to the front, but the label array is never shortened:
one element remains, with one particle velocity and two labels. -/
theorem clean_leaves_label_tail :
    sampleTaggedGrid.mConstellation.mParticleLabel.length
      = sampleTaggedGrid.mConstellation.getNumSpringls ∧
    (sampleTaggedGrid.clean sampleEnv).2 = 1 ∧
    (sampleTaggedGrid.clean sampleEnv).1.mConstellation.getNumSpringls = 1 ∧
    (sampleTaggedGrid.clean sampleEnv).1.mConstellation.mParticleVelocity = [⟨2, 0, 0⟩] ∧
    (sampleTaggedGrid.clean sampleEnv).1.mConstellation.mParticleLabel = [8, 8] := by
  rw [sampleTagged_clean]
  dsimp only
  rw [sampleTagged_compact]
  refine ⟨?_, rfl, rfl, rfl, rfl⟩
  show sampleTagged.mParticleLabel.length = sampleTagged.getNumSpringls
  rw [sampleTagged_eq]
  rfl

/-- C17, the code at a constellation of mixed sizes.  In the sample
constellation the triangle (vertices 0 to 2) is removed and the quad (old
vertices 3 to 6) is kept; its velocities should move to slots 0 to 3, but the
copy runs over the old block of the destination descriptor, three entries
long, so slot 3 keeps its old content instead of receiving the velocity of old
vertex 6. -/
theorem clean_vertex_velocity_shifted :
    keepList sampleEnv sampleTaggedGrid.mConstellation = [1] ∧
    (sampleTaggedGrid.clean sampleEnv).1.mConstellation.mVertexVelocity
      = [⟨13, 0, 0⟩, ⟨14, 0, 0⟩, ⟨15, 0, 0⟩, ⟨13, 0, 0⟩] ∧
    (sampleTaggedGrid.clean sampleEnv).1.mConstellation.mVertexVelocity.length
      = (sampleTaggedGrid.clean sampleEnv).1.mConstellation.mVertexes.length ∧
    ((sampleTaggedGrid.clean sampleEnv).1.mConstellation.springls.getD 0 default).offset = 0 ∧
    (sampleTaggedGrid.mConstellation.springls.getD 1 default).offset = 3 ∧
    sampleTaggedGrid.mConstellation.mVertexVelocity.getD (3 + 3) default = ⟨16, 0, 0⟩ := by
  have h1 : sampleTaggedGrid.mConstellation = sampleTagged := rfl
  rw [sampleTagged_clean, h1]
  dsimp only
  rw [sampleTagged_compact]
  refine ⟨sampleTagged_keepList, rfl, rfl, rfl, ?_, ?_⟩
  · rw [sampleTagged_eq]; rfl
  · rw [sampleTagged_eq]; rfl

/-! ### The pending fill list -/

/-- C14, as stated, fails.  The cleaned sample constellation uses no particle
velocities; `fill` creates one element (id 1) and returns 1, and the fill list
is empty. -/
theorem fill_list_empty_without_velocity :
    (sampleCleanedGrid.fill sampleEnv).2 = 1 ∧
    (sampleCleanedGrid.fill sampleEnv).1.mConstellation.springls = [⟨0, 0⟩, ⟨1, 4⟩] ∧
    (sampleCleanedGrid.fill sampleEnv).1.fillList = [] := by
  rw [sample_fill]
  exact ⟨rfl, rfl, rfl⟩

/-- C14, amended.  After `fill()` returns `k`, the element count has grown by
`k` and the new elements carry the ids `N, N+1, ..., N+k-1` in creation order,
`N` being the count before the call.  When the particle velocity array was
non-empty at the start of the call the pending fill list consists of exactly
these ids, in this order, whatever it held before; when the array was empty
the fill list is empty. -/
theorem fill_list_pending (env : Env) (g : SpringLevelSet) :
    (g.fill env).1.fillList
      = (if g.mConstellation.mParticleVelocity.length > 0 then
          List.range' g.mConstellation.getNumSpringls (g.fill env).2
        else []) ∧
    (g.fill env).1.mConstellation.getNumSpringls
      = g.mConstellation.getNumSpringls + (g.fill env).2 ∧
    (∀ i, i < (g.fill env).2 →
      ((g.fill env).1.mConstellation.springls.getD (g.mConstellation.getNumSpringls + i)
        default).id = g.mConstellation.getNumSpringls + i) := by
  obtain ⟨ks, hR⟩ := fillLoop_rel env g
  have hfill1 : (g.fill env).1.mConstellation = (fillLoop env g).c := rfl
  have hfill2 : (g.fill env).2 = (fillLoop env g).added := rfl
  have hfill3 : (g.fill env).1.fillList = (fillLoop env g).fillList := rfl
  unfold Constellation.getNumSpringls
  rw [hfill1, hfill2, hfill3, hR.added_eq, hR.fillList_eq, hR.springls_eq]
  refine ⟨rfl, by rw [List.length_append, layoutSpringls_length], fun i hi => ?_⟩
  rw [List.getD_append_right _ _ _ _ (by omega),
    show g.mConstellation.springls.length + i - g.mConstellation.springls.length = i by omega,
    layoutSpringls_getD_gen _ _ _ _ hi]

theorem fill_list_pending_witness :
    (sampleVelocityGrid.fill sampleEnv).1.fillList
      = List.range' 1 (sampleVelocityGrid.fill sampleEnv).2 :=
  (fill_list_pending sampleEnv sampleVelocityGrid).1.trans (if_pos (by decide))

/-! ### The reference point of `fill` -/

/-- The reference point of a quad is the mean of its corners. -/
theorem quadRefPoint_eq_mean (p0 p1 p2 p3 : Vec3s) :
    quadRefPoint p0 p1 p2 p3 = mean [p0, p1, p2, p3] := by
  simp [quadRefPoint, mean, Vec3s.smul, Vec3s.add, Vec3s.zero]

/-- The reference point of a triangle is three quarters of the mean of its
corners. -/
theorem triRefPoint_eq (p0 p1 p2 : Vec3s) :
    triRefPoint p0 p1 p2 = Vec3s.smul (3 / 4) (mean [p0, p1, p2]) := by
  simp [triRefPoint, mean, Vec3s.smul, Vec3s.add, Vec3s.zero]
  refine ⟨?_, ?_, ?_⟩ <;> ring

/-- The particle stored for a new triangle is the mean of its corners. -/
theorem appendTri_particle (env : Env) (st : FillState) (p0 p1 p2 : Vec3s)
    (hlenF : st.c.mFaces.length = st.c.springls.length)
    (hcnt : st.counter = st.c.mVertexes.length) :
    (appendTri env st p0 p1 p2).c.mParticles = st.c.mParticles ++ [mean [p0, p1, p2]] := by
  unfold appendTri
  dsimp only
  rw [computeCentroid_mean]
  have hface : (st.c.mFaces ++
      [(⟨st.counter, st.counter + 1, st.counter + 2, INVALID_IDX⟩ : Vec4I)]).getD
        st.c.springls.length default
      = ⟨st.counter, st.counter + 1, st.counter + 2, INVALID_IDX⟩ := by
    rw [← hlenF]
    simp [List.getD_eq_getElem?_getD]
  unfold Constellation.size Constellation.vertex
  dsimp only
  rw [hface]
  dsimp only
  rw [if_pos rfl, hcnt]
  have hv : ∀ k, (st.c.mVertexes ++ [p0, p1, p2]).getD (st.c.mVertexes.length + k) default
      = [p0, p1, p2].getD k default := by
    intro k
    rw [List.getD_append_right _ _ _ _ (by omega)]
    congr 1
    omega
  have hv0 := hv 0
  rw [Nat.add_zero] at hv0
  simp only [List.range_succ, List.range_zero, List.nil_append, List.cons_append,
    List.map_cons, List.map_nil, hv, hv0]
  rfl

/-- The particle stored for a new quad is the mean of its corners, which is
also its reference point. -/
theorem appendQuad_particle (env : Env) (st : FillState) (p0 p1 p2 p3 : Vec3s)
    (hlenF : st.c.mFaces.length = st.c.springls.length)
    (hcnt : st.counter = st.c.mVertexes.length) (hb : st.counter + 4 ≤ INVALID_IDX) :
    (appendQuad env st p0 p1 p2 p3).c.mParticles
      = st.c.mParticles ++ [quadRefPoint p0 p1 p2 p3] := by
  unfold appendQuad
  dsimp only
  rw [computeCentroid_mean, quadRefPoint_eq_mean]
  have hface : (st.c.mFaces ++
      [(⟨st.counter, st.counter + 1, st.counter + 2, st.counter + 3⟩ : Vec4I)]).getD
        st.c.springls.length default
      = ⟨st.counter, st.counter + 1, st.counter + 2, st.counter + 3⟩ := by
    rw [← hlenF]
    simp [List.getD_eq_getElem?_getD]
  unfold Constellation.size Constellation.vertex
  dsimp only
  rw [hface]
  dsimp only
  rw [if_neg (by omega), hcnt]
  have hv : ∀ k, (st.c.mVertexes ++ [p0, p1, p2, p3]).getD (st.c.mVertexes.length + k) default
      = [p0, p1, p2, p3].getD k default := by
    intro k
    rw [List.getD_append_right _ _ _ _ (by omega)]
    congr 1
    omega
  have hv0 := hv 0
  rw [Nat.add_zero] at hv0
  simp only [List.range_succ, List.range_zero, List.nil_append, List.cons_append,
    List.map_cons, List.map_nil, hv, hv0]
  rfl

/-- C19, the code at a triangle.  For the triangle of the sample iso-surface,
with corners `(0, 1/2, 0)`, `(1/2, 0, 0)`, `(0, 0, 0)`, the triangle loop of
`fill` queries the stencil at `(1/8, 1/8, 0)`, a quarter of the corner sum,
while the centroid, which is stored as the particle of the new element, is
`(1/6, 1/6, 0)`. -/
theorem fill_triangle_reference_point :
    (∀ st : FillState,
      fillTri sampleEnv sampleCleanedGrid.pointList 1 st ⟨0, 1, 2⟩
        = if fillAccepts sampleEnv st.c 1 ⟨1 / 8, 1 / 8, 0⟩ then
            appendTri sampleEnv st ⟨0, 1 / 2, 0⟩ ⟨1 / 2, 0, 0⟩ ⟨0, 0, 0⟩
          else st) ∧
    mean [⟨0, 1 / 2, 0⟩, ⟨1 / 2, 0, 0⟩, ⟨0, 0, 0⟩] = ⟨1 / 6, 1 / 6, 0⟩ ∧
    (sampleCleanedGrid.fill sampleEnv).1.mConstellation.mParticles.getD 1 default
      = ⟨1 / 6, 1 / 6, 0⟩ := by
  refine ⟨fun st => ?_, ?_, ?_⟩
  · have hp : triRefPoint ⟨0, 1 / 2, 0⟩ ⟨1 / 2, 0, 0⟩ ⟨0, 0, 0⟩ = ⟨1 / 8, 1 / 8, 0⟩ := by
      simp [triRefPoint, Vec3s.smul, Vec3s.add]
      norm_num
    unfold fillTri
    have h2 : sampleCleanedGrid.pointList.getD 2 default = (⟨0, 1 / 2, 0⟩ : Vec3s) := rfl
    have h1 : sampleCleanedGrid.pointList.getD 1 default = (⟨1 / 2, 0, 0⟩ : Vec3s) := rfl
    have h0 : sampleCleanedGrid.pointList.getD 0 default = (⟨0, 0, 0⟩ : Vec3s) := rfl
    dsimp only
    rw [h2, h1, h0, hp]
  · simp [mean, Vec3s.smul, Vec3s.add, Vec3s.zero]
    norm_num
  · rw [sample_fill]
    rfl

/-! ### Motion scheme names -/

/-- C16. Decoding the encoded name of a motion scheme gives the scheme back,
for each of the four schemes; the three names of the usage text decode to the
schemes they name, which encode back to them; and a string decodes to
`UNDEFINED` exactly when it is none of the seven accepted spellings. -/
theorem motion_scheme_round_trip :
    (∀ s : MotionScheme, DecodeMotionScheme (EncodeMotionScheme s) = s) ∧
    usageSchemeNames.map DecodeMotionScheme
      = [MotionScheme.IMPLICIT, MotionScheme.SEMI_IMPLICIT, MotionScheme.EXPLICIT] ∧
    (∀ name ∈ usageSchemeNames, EncodeMotionScheme (DecodeMotionScheme name) = name) ∧
    (∀ name : String,
      DecodeMotionScheme name = MotionScheme.UNDEFINED ↔ name ∉ acceptedSchemeNames) := by
  refine ⟨fun s => ?_, ?_, ?_, fun name => ?_⟩
  · cases s <;> simp [DecodeMotionScheme, EncodeMotionScheme]
  · simp [usageSchemeNames, DecodeMotionScheme]
  · intro name hn
    simp only [usageSchemeNames, List.mem_cons, List.mem_singleton, List.not_mem_nil,
      or_false] at hn
    rcases hn with h | h | h <;> subst h <;> simp [DecodeMotionScheme, EncodeMotionScheme]
  · unfold DecodeMotionScheme acceptedSchemeNames
    simp only [List.mem_cons, List.mem_singleton, List.not_mem_nil, or_false, not_or]
    split_ifs with h1 h2 h3
    · simp only [reduceCtorEq, false_iff, not_and]
      rcases h1 with h | h <;> simp [h]
    · simp only [reduceCtorEq, false_iff, not_and]
      rcases h2 with h | h | h <;> simp [h]
    · simp only [reduceCtorEq, false_iff, not_and]
      rcases h3 with h | h <;> simp [h]
    · simp only [true_iff]
      simp only [not_or] at h1 h2 h3
      exact ⟨h1.1, h1.2, h2.1, h2.2.1, h2.2.2, h3.1, h3.2⟩

/-! ### The entries of a neighbour list -/

theorem bestFold_spec (d : Nat → ℚ) (id : Nat) (D2 : ℚ) :
    ∀ (m : Nat) (b : SpringlNeighbor),
      b = (List.range m).foldl
            (fun (best : SpringlNeighbor) n =>
              if d n ≤ best.distance then { best with edgeId := (n : Int), distance := d n }
              else best)
            ⟨id, -1, D2⟩ →
      b.distance ≤ D2 ∧ (∀ n, n < m → b.distance ≤ d n) ∧
      ((b.edgeId = -1 ∧ b.distance = D2 ∧ ∀ n, n < m → D2 < d n) ∨
        (0 ≤ b.edgeId ∧ b.edgeId < (m : Int) ∧ b.distance = d b.edgeId.toNat)) := by
  intro m
  induction m with
  | zero =>
    intro b hb
    subst hb
    refine ⟨le_refl _, fun n hn => absurd hn (Nat.not_lt_zero _), Or.inl ⟨rfl, rfl, ?_⟩⟩
    intro n hn
    exact absurd hn (Nat.not_lt_zero _)
  | succ m ih =>
    intro b hb
    rw [List.range_succ, List.foldl_append] at hb
    simp only [List.foldl_cons, List.foldl_nil] at hb
    obtain ⟨h1, h2, h3⟩ := ih _ rfl
    generalize (List.range m).foldl
        (fun (best : SpringlNeighbor) n =>
          if d n ≤ best.distance then { best with edgeId := (n : Int), distance := d n }
          else best)
        ⟨id, -1, D2⟩ = b0 at hb h1 h2 h3
    by_cases hd : d m ≤ b0.distance
    · rw [if_pos hd] at hb
      subst hb
      dsimp only
      refine ⟨le_trans hd h1, fun n hn => ?_, Or.inr ⟨by omega, by omega, ?_⟩⟩
      · rcases Nat.lt_succ_iff_lt_or_eq.mp hn with h | h
        · exact le_trans hd (h2 n h)
        · rw [h]
      · rw [Int.toNat_ofNat]
    · rw [if_neg hd] at hb
      subst hb
      have hlt : b.distance < d m := lt_of_not_le hd
      refine ⟨h1, fun n hn => ?_, ?_⟩
      · rcases Nat.lt_succ_iff_lt_or_eq.mp hn with h | h
        · exact h2 n h
        · rw [h]; exact le_of_lt hlt
      · rcases h3 with ⟨e1, e2, e3⟩ | ⟨e1, e2, e3⟩
        · refine Or.inl ⟨e1, e2, fun n hn => ?_⟩
          rcases Nat.lt_succ_iff_lt_or_eq.mp hn with h | h
          · exact e3 n h
          · rw [h, ← e2]; exact hlt
        · exact Or.inr ⟨e1, by push_cast; omega, e3⟩

/-- The record the edge loop of `compute` leaves for a candidate: either no
edge is within range, or the record names an edge of the candidate whose
squared distance to the reference point is the least over all its edges and is
within range. -/
theorem bestNeighbor_spec (env : Env) (c : Constellation) (refPoint : Vec3s) (nbrId : Nat) :
    (bestNeighbor env c refPoint nbrId).distance
        ≤ NEAREST_NEIGHBOR_RANGE * NEAREST_NEIGHBOR_RANGE ∧
    (∀ n, n < c.size (c.springls.getD nbrId default) →
      (bestNeighbor env c refPoint nbrId).distance
        ≤ c.distanceToEdgeSqr env (c.springls.getD nbrId default) refPoint n) ∧
    (((bestNeighbor env c refPoint nbrId).edgeId = -1 ∧
        ∀ n, n < c.size (c.springls.getD nbrId default) →
          NEAREST_NEIGHBOR_RANGE * NEAREST_NEIGHBOR_RANGE
            < c.distanceToEdgeSqr env (c.springls.getD nbrId default) refPoint n) ∨
      (0 ≤ (bestNeighbor env c refPoint nbrId).edgeId ∧
        (bestNeighbor env c refPoint nbrId).edgeId
          < (c.size (c.springls.getD nbrId default) : Int) ∧
        (bestNeighbor env c refPoint nbrId).distance
          = c.distanceToEdgeSqr env (c.springls.getD nbrId default) refPoint
              (bestNeighbor env c refPoint nbrId).edgeId.toNat)) := by
  obtain ⟨h1, h2, h3⟩ := bestFold_spec
    (fun n => c.distanceToEdgeSqr env (c.springls.getD nbrId default) refPoint n) nbrId
    (NEAREST_NEIGHBOR_RANGE * NEAREST_NEIGHBOR_RANGE)
    (c.size (c.springls.getD nbrId default)) (bestNeighbor env c refPoint nbrId) rfl
  refine ⟨h1, h2, ?_⟩
  rcases h3 with ⟨e1, _, e3⟩ | h
  · exact Or.inl ⟨e1, e3⟩
  · exact Or.inr h
theorem tmpRange_fold_mem (env : Env) (c : Constellation) (refPoint : Vec3s) :
    ∀ (l : List Nat) (last : Nat) (acc : List SpringlNeighbor),
      (∀ x ∈ (l.foldl
          (fun (st : Nat × List SpringlNeighbor) nbrId =>
            if nbrId = st.1 then st
            else
              (nbrId,
                if (bestNeighbor env c refPoint nbrId).edgeId ≥ 0 then
                  st.2 ++ [bestNeighbor env c refPoint nbrId]
                else st.2))
          (last, acc)).2,
        x ∈ acc ∨
          (x.springlId ∈ l ∧ x = bestNeighbor env c refPoint x.springlId ∧ 0 ≤ x.edgeId)) ∧
      (∀ x ∈ acc, x ∈ (l.foldl
          (fun (st : Nat × List SpringlNeighbor) nbrId =>
            if nbrId = st.1 then st
            else
              (nbrId,
                if (bestNeighbor env c refPoint nbrId).edgeId ≥ 0 then
                  st.2 ++ [bestNeighbor env c refPoint nbrId]
                else st.2))
          (last, acc)).2) ∧
      (∀ id ∈ l, id ≠ last → 0 ≤ (bestNeighbor env c refPoint id).edgeId →
        bestNeighbor env c refPoint id ∈ (l.foldl
          (fun (st : Nat × List SpringlNeighbor) nbrId =>
            if nbrId = st.1 then st
            else
              (nbrId,
                if (bestNeighbor env c refPoint nbrId).edgeId ≥ 0 then
                  st.2 ++ [bestNeighbor env c refPoint nbrId]
                else st.2))
          (last, acc)).2) := by
  intro l
  induction l with
  | nil =>
    intro last acc
    exact ⟨fun x hx => Or.inl hx, fun x hx => hx, fun id hid => absurd hid (List.not_mem_nil _)⟩
  | cons y l ih =>
    intro last acc
    rw [List.foldl_cons]
    by_cases hyl : y = last
    · rw [if_pos hyl]
      obtain ⟨r1, r2, r3⟩ := ih last acc
      refine ⟨fun x hx => ?_, r2, fun id hid hne hedge => ?_⟩
      · rcases r1 x hx with h | ⟨h1, h2, h3⟩
        · exact Or.inl h
        · exact Or.inr ⟨List.mem_cons_of_mem _ h1, h2, h3⟩
      · rcases List.mem_cons.mp hid with h | h
        · exact absurd (h.trans hyl) hne
        · exact r3 id h hne hedge
    · rw [if_neg hyl]
      by_cases he : (bestNeighbor env c refPoint y).edgeId ≥ 0
      · rw [if_pos he]
        obtain ⟨r1, r2, r3⟩ := ih y (acc ++ [bestNeighbor env c refPoint y])
        refine ⟨fun x hx => ?_, fun x hx => r2 x (List.mem_append_left _ hx),
          fun id hid hne hedge => ?_⟩
        · rcases r1 x hx with h | ⟨h1, h2, h3⟩
          · rcases List.mem_append.mp h with h | h
            · exact Or.inl h
            · simp only [List.mem_singleton] at h
              refine Or.inr ⟨?_, ?_, ?_⟩
              · rw [h, bestNeighbor_springlId]; exact List.mem_cons_self _ _
              · rw [h, bestNeighbor_springlId]
              · rw [h]; exact he
          · exact Or.inr ⟨List.mem_cons_of_mem _ h1, h2, h3⟩
        · rcases List.mem_cons.mp hid with h | h
          · rw [h]
            exact r2 _ (List.mem_append_right _ (List.mem_singleton_self _))
          · by_cases hy : id = y
            · rw [hy]
              exact r2 _ (List.mem_append_right _ (List.mem_singleton_self _))
            · exact r3 id h hy hedge
      · rw [if_neg he]
        obtain ⟨r1, r2, r3⟩ := ih y acc
        refine ⟨fun x hx => ?_, r2, fun id hid hne hedge => ?_⟩
        · rcases r1 x hx with h | ⟨h1, h2, h3⟩
          · exact Or.inl h
          · exact Or.inr ⟨List.mem_cons_of_mem _ h1, h2, h3⟩
        · rcases List.mem_cons.mp hid with h | h
          · rw [h] at hedge
            exact absurd hedge he
          · by_cases hy : id = y
            · rw [hy] at hedge
              exact absurd hedge he
            · exact r3 id h hy hedge

/-- The records on `tmpRange` are the best-edge records of the candidates that
have an edge within range, and every such candidate has its record there. -/
theorem tmpRange_mem (env : Env) (c : Constellation) (refPoint : Vec3s) (ids : List Nat) :
    (∀ x ∈ tmpRange env c refPoint ids,
      x.springlId ∈ ids ∧ x = bestNeighbor env c refPoint x.springlId ∧ 0 ≤ x.edgeId) ∧
    (∀ id ∈ ids, id ≠ INVALID_IDX → 0 ≤ (bestNeighbor env c refPoint id).edgeId →
      bestNeighbor env c refPoint id ∈ tmpRange env c refPoint ids) := by
  obtain ⟨r1, _, r3⟩ := tmpRange_fold_mem env c refPoint ids INVALID_IDX []
  refine ⟨fun x hx => ?_, r3⟩
  rcases r1 x hx with h | h
  · exact absurd h (List.not_mem_nil _)
  · exact h

theorem sorted_take_le_drop {α : Type} (r : α → α → Prop) (S : List α) (hS : S.Sorted r)
    (n : Nat) : ∀ x ∈ S.take n, ∀ y ∈ S.drop n, r x y := by
  have h : (S.take n ++ S.drop n).Pairwise r := by
    rw [List.take_append_drop]
    exact hS
  exact (List.pairwise_append.mp h).2.2

theorem neighborEntries_nil (env : Env) (c : Constellation) (s : Springl) (k : Nat)
    (h : neighborCandidates env c s = []) : neighborEntries env c s k = [] := by
  simp [neighborEntries, h, tmpRange]

theorem neighborCandidates_nil (env : Env) (c : Constellation) (s : Springl)
    (h : (env.denseStencil 2 (c.particle s)).length = 0) : neighborCandidates env c s = [] := by
  unfold neighborCandidates
  rw [List.length_eq_zero.mp h]
  rfl

/-- What `compute` leaves in the map: the entries of every local vertex of the
element are appended to the list of that vertex, the other lists stay as they
are. -/
theorem nearestNeighborCompute_exact (env : Env) (c : Constellation)
    (map : List (List SpringlNeighbor)) (s : Springl) (hs : c.springls.getD s.id default = s) :
    (nearestNeighborCompute env c map s).length = map.length ∧
    ∀ i, (nearestNeighborCompute env c map s).getD i []
        = if s.offset ≤ i ∧ i < s.offset + c.size s ∧ i < map.length then
            map.getD i [] ++ neighborEntries env c s (i - s.offset)
          else map.getD i [] := by
  unfold nearestNeighborCompute
  split
  · rename_i h
    refine ⟨rfl, fun i => ?_⟩
    rw [neighborEntries_nil env c s _ (neighborCandidates_nil env c s h), List.append_nil,
      ite_self]
  · split
    · rename_i h
      refine ⟨rfl, fun i => ?_⟩
      rw [neighborEntries_nil env c s _ (List.length_eq_zero.mp h), List.append_nil, ite_self]
    · dsimp only
      rw [hs]
      exact pushFold_spec s.offset (neighborEntries env c s) (c.size s) map
theorem nnFold_entries (env : Env) {c : Constellation} {ks : List Nat} (hL : c.Layout ks) :
    ∀ m, m ≤ ks.length →
      ((c.springls.take m).foldl (nearestNeighborCompute env c)
          (nearestNeighborInit c)).length = ks.sum ∧
      ∀ e, e < ks.length → ∀ k, k < ks.getD e 0 →
        ((c.springls.take m).foldl (nearestNeighborCompute env c)
            (nearestNeighborInit c)).getD (offs ks e + k) []
          = if e < m then neighborEntries env c ⟨e, offs ks e⟩ k else [] := by
  intro m
  induction m with
  | zero =>
    intro _
    refine ⟨by simp [nearestNeighborInit, Constellation.getNumVertexes, hL.vertexes_len], ?_⟩
    intro e _ k _
    rw [if_neg (Nat.not_lt_zero _)]
    simp only [List.take_zero, List.foldl_nil, nearestNeighborInit, List.getD_eq_getElem?_getD,
      List.getElem?_replicate]
    split <;> rfl
  | succ m ih =>
    intro hm
    have hm' : m < ks.length := hm
    obtain ⟨ih1, ih2⟩ := ih (by omega)
    have hsm := hL.springl_getD hm'
    have hsz := hL.size_getD hm'
    rw [hsm] at hsz
    rw [take_succ_getD_gen _ _ (by rw [hL.springls_length]; exact hm'), List.foldl_append, hsm]
    simp only [List.foldl_cons, List.foldl_nil]
    generalize (c.springls.take m).foldl (nearestNeighborCompute env c)
      (nearestNeighborInit c) = map at ih1 ih2 ⊢
    obtain ⟨h1, h2⟩ := nearestNeighborCompute_exact env c map ⟨m, offs ks m⟩ hsm
    refine ⟨by rw [h1, ih1], ?_⟩
    intro e he k hk
    have hget := h2 (offs ks e + k)
    dsimp only at hget
    rw [hsz, ih1] at hget
    have i2 := ih2 e he k hk
    by_cases hem : e = m
    · subst hem
      have hin : offs ks e ≤ offs ks e + k ∧ offs ks e + k < offs ks e + ks.getD e 0 ∧
          offs ks e + k < ks.sum := by
        have := offs_add_le ks e he
        omega
      rw [if_pos hin, i2, if_neg (lt_irrefl _), List.nil_append, Nat.add_sub_cancel_left] at hget
      rw [hget, if_pos (Nat.lt_succ_self _)]
    · have hout : ¬ (offs ks m ≤ offs ks e + k ∧ offs ks e + k < offs ks m + ks.getD m 0 ∧
          offs ks e + k < ks.sum) := by
        rcases Nat.lt_or_gt_of_ne hem with h | h
        · have := offs_block_le ks h (by omega)
          omega
        · have := offs_block_le ks h (by omega)
          omega
      rw [if_neg hout] at hget
      rw [hget, i2]
      by_cases hlt : e < m
      · rw [if_pos hlt, if_pos (by omega)]
      · rw [if_neg hlt, if_neg (by omega)]

/-- After `updateNearestNeighbors()` the list of local vertex `k` of element
`e` holds exactly the entries `compute` pushes for that vertex. -/
theorem updateNearestNeighbors_entries (env : Env) (g : SpringLevelSet) {ks : List Nat}
    (hL : g.mConstellation.Layout ks) {e : Nat} (he : e < ks.length) {k : Nat}
    (hk : k < ks.getD e 0) :
    (g.updateNearestNeighbors env).getNearestNeighbors e k
      = neighborEntries env g.mConstellation (g.mConstellation.springls.getD e default) k := by
  have h := (nnFold_entries env hL ks.length (le_refl _)).2 e he k hk
  rw [← hL.springls_length, List.take_length, hL.springls_length, if_pos he] at h
  unfold SpringLevelSet.getNearestNeighbors SpringLevelSet.updateNearestNeighbors
  dsimp only
  rw [hL.springl_getD he]
  exact h

/-- The fold of `compute` over the first `m` elements from any map with one
list per vertex: the entries of every local vertex of these elements are
appended to what its list held. -/
theorem nnFold_from (env : Env) {c : Constellation} {ks : List Nat} (hL : c.Layout ks)
    (map0 : List (List SpringlNeighbor)) (hlen : map0.length = ks.sum) :
    ∀ m, m ≤ ks.length →
      ((c.springls.take m).foldl (nearestNeighborCompute env c) map0).length = ks.sum ∧
      ∀ e, e < ks.length → ∀ k, k < ks.getD e 0 →
        ((c.springls.take m).foldl (nearestNeighborCompute env c) map0).getD (offs ks e + k) []
          = if e < m then
              map0.getD (offs ks e + k) [] ++ neighborEntries env c ⟨e, offs ks e⟩ k
            else map0.getD (offs ks e + k) [] := by
  intro m
  induction m with
  | zero =>
    intro _
    refine ⟨by simpa using hlen, ?_⟩
    intro e _ k _
    rw [if_neg (Nat.not_lt_zero _)]
    rfl
  | succ m ih =>
    intro hm
    have hm' : m < ks.length := hm
    obtain ⟨ih1, ih2⟩ := ih (by omega)
    have hsm := hL.springl_getD hm'
    have hsz := hL.size_getD hm'
    rw [hsm] at hsz
    rw [take_succ_getD_gen _ _ (by rw [hL.springls_length]; exact hm'), List.foldl_append, hsm]
    simp only [List.foldl_cons, List.foldl_nil]
    generalize (c.springls.take m).foldl (nearestNeighborCompute env c) map0 = map at ih1 ih2 ⊢
    obtain ⟨h1, h2⟩ := nearestNeighborCompute_exact env c map ⟨m, offs ks m⟩ hsm
    refine ⟨by rw [h1, ih1], ?_⟩
    intro e he k hk
    have hget := h2 (offs ks e + k)
    dsimp only at hget
    rw [hsz, ih1] at hget
    have i2 := ih2 e he k hk
    by_cases hem : e = m
    · subst hem
      have hin : offs ks e ≤ offs ks e + k ∧ offs ks e + k < offs ks e + ks.getD e 0 ∧
          offs ks e + k < ks.sum := by
        have := offs_add_le ks e he
        omega
      rw [if_pos hin, i2, if_neg (lt_irrefl _), Nat.add_sub_cancel_left] at hget
      rw [hget, if_pos (Nat.lt_succ_self _)]
    · have hout : ¬ (offs ks m ≤ offs ks e + k ∧ offs ks e + k < offs ks m + ks.getD m 0 ∧
          offs ks e + k < ks.sum) := by
        rcases Nat.lt_or_gt_of_ne hem with h | h
        · have := offs_block_le ks h (by omega)
          omega
        · have := offs_block_le ks h (by omega)
          omega
      rw [if_neg hout] at hget
      rw [hget, i2]
      by_cases hlt : e < m
      · rw [if_pos hlt, if_pos (by omega)]
      · rw [if_neg hlt, if_neg (by omega)]

/-- C20. After `updateNearestNeighbors()` on a well laid out constellation,
every entry `{id, edgeId, d}` of the list of local vertex `k` of element `e`
names a valid element id `id` that the stencil around the particle of `e`
returned and an edge `0 ≤ edgeId < size(id)`; `d` is the squared distance from
the vertex to that edge, it is the least squared distance from the vertex to an
edge of element `id`, and `d ≤ NEAREST_NEIGHBOR_RANGE²`.  Every candidate (a
valid stencil id other than `e`) that is not in the list either has all its
edges farther than `NEAREST_NEIGHBOR_RANGE²` or has all its edges at least as
far as every `d` in the list. -/
theorem neighbor_entries_closest (env : Env) (g : SpringLevelSet) (hWF : g.mConstellation.WF)
    (e : Nat) (he : e < g.mConstellation.springls.length) (k : Nat)
    (hk : k < g.mConstellation.size (g.mConstellation.springls.getD e default)) :
    (∀ x ∈ (g.updateNearestNeighbors env).getNearestNeighbors e k,
      x.springlId < g.mConstellation.getNumSpringls ∧
      x.springlId ∈ env.denseStencil 2
        (g.mConstellation.particle (g.mConstellation.springls.getD e default)) ∧
      0 ≤ x.edgeId ∧
      x.edgeId
        < (g.mConstellation.size (g.mConstellation.springls.getD x.springlId default) : Int) ∧
      x.distance
        = g.mConstellation.distanceToEdgeSqr env
            (g.mConstellation.springls.getD x.springlId default)
            (g.mConstellation.vertex (g.mConstellation.springls.getD e default) k)
            x.edgeId.toNat ∧
      (∀ n, n < g.mConstellation.size (g.mConstellation.springls.getD x.springlId default) →
        x.distance
          ≤ g.mConstellation.distanceToEdgeSqr env
              (g.mConstellation.springls.getD x.springlId default)
              (g.mConstellation.vertex (g.mConstellation.springls.getD e default) k) n) ∧
      x.distance ≤ NEAREST_NEIGHBOR_RANGE ^ 2) ∧
    (∀ id, id ∈ env.denseStencil 2
          (g.mConstellation.particle (g.mConstellation.springls.getD e default)) →
      id < g.mConstellation.getNumSpringls →
      id ≠ (g.mConstellation.springls.getD e default).id →
      id ∉ ((g.updateNearestNeighbors env).getNearestNeighbors e k).map
        SpringlNeighbor.springlId →
      (∀ n, n < g.mConstellation.size (g.mConstellation.springls.getD id default) →
        NEAREST_NEIGHBOR_RANGE ^ 2
          < g.mConstellation.distanceToEdgeSqr env (g.mConstellation.springls.getD id default)
              (g.mConstellation.vertex (g.mConstellation.springls.getD e default) k) n) ∨
      (∀ x ∈ (g.updateNearestNeighbors env).getNearestNeighbors e k,
        ∀ n, n < g.mConstellation.size (g.mConstellation.springls.getD id default) →
          x.distance
            ≤ g.mConstellation.distanceToEdgeSqr env
                (g.mConstellation.springls.getD id default)
                (g.mConstellation.vertex (g.mConstellation.springls.getD e default) k) n)) := by
  obtain ⟨ks, hL⟩ := hWF
  have he' : e < ks.length := by rw [← hL.springls_length]; exact he
  rw [hL.size_getD he'] at hk
  rw [updateNearestNeighbors_entries env g hL he' hk]
  generalize g.mConstellation.springls.getD e default = s
  generalize hv : g.mConstellation.vertex s k = v
  have hD2 : NEAREST_NEIGHBOR_RANGE ^ 2 = NEAREST_NEIGHBOR_RANGE * NEAREST_NEIGHBOR_RANGE :=
    pow_two _
  have hN : g.mConstellation.getNumSpringls ≤ INVALID_IDX := by
    unfold Constellation.getNumSpringls
    rw [hL.springls_length]
    have h3 : ks.length ≤ ks.sum := by
      have hsz := hL.sizes
      clear hL he' hk
      induction ks with
      | nil => simp
      | cons a ks ih =>
        have ha := hsz a (List.mem_cons_self _ _)
        have := ih (fun k hk => hsz k (List.mem_cons_of_mem _ hk))
        simp only [List.length_cons, List.sum_cons]
        omega
    exact le_trans h3 hL.bound
  -- the pieces of `neighborEntries`
  have hcand : ∀ id, id ∈ (neighborCandidates env g.mConstellation s).insertionSort (· ≤ ·) ↔
      id ∈ env.denseStencil 2 (g.mConstellation.particle s) ∧
        id < g.mConstellation.getNumSpringls ∧ id ≠ s.id := by
    intro id
    rw [(List.perm_insertionSort _ _).mem_iff]
    simp [neighborCandidates, List.mem_filter]
  obtain ⟨t1, t2⟩ := tmpRange_mem env g.mConstellation v
    ((neighborCandidates env g.mConstellation s).insertionSort (· ≤ ·))
  have hent : neighborEntries env g.mConstellation s k
      = ((tmpRange env g.mConstellation v
            ((neighborCandidates env g.mConstellation s).insertionSort (· ≤ ·))).insertionSort
          SpringlNeighbor.le).take
          (min MAX_NEAREST_NEIGHBORS
            ((tmpRange env g.mConstellation v
              ((neighborCandidates env g.mConstellation s).insertionSort (· ≤ ·))).insertionSort
              SpringlNeighbor.le).length) := by
    unfold neighborEntries
    rw [hv]
  rw [hent]
  generalize tmpRange env g.mConstellation v
    ((neighborCandidates env g.mConstellation s).insertionSort (· ≤ ·)) = tmp at t1 t2
  have hperm := List.perm_insertionSort SpringlNeighbor.le tmp
  have hsorted := List.sorted_insertionSort SpringlNeighbor.le tmp
  generalize tmp.insertionSort SpringlNeighbor.le = S at hperm hsorted
  generalize min MAX_NEAREST_NEIGHBORS S.length = cnt
  have hsub : ∀ x ∈ S.take cnt, x ∈ tmp := fun x hx =>
    hperm.mem_iff.mp ((List.take_sublist _ _).subset hx)
  constructor
  · intro x hx
    obtain ⟨m1, m2, m3⟩ := t1 x (hsub x hx)
    obtain ⟨c1, c2, c3⟩ := (hcand x.springlId).mp m1
    obtain ⟨b1, b2, b3⟩ := bestNeighbor_spec env g.mConstellation v x.springlId
    rw [← m2] at b1 b2 b3
    refine ⟨c2, c1, m3, ?_, ?_, b2, by rw [hD2]; exact b1⟩
    · rcases b3 with ⟨e1, _⟩ | ⟨_, e2, _⟩
      · rw [e1] at m3; exact absurd m3 (by decide)
      · exact e2
    · rcases b3 with ⟨e1, _⟩ | ⟨_, _, e3⟩
      · rw [e1] at m3; exact absurd m3 (by decide)
      · exact e3
  · intro id hid1 hid2 hid3 hnot
    obtain ⟨b1, b2, b3⟩ := bestNeighbor_spec env g.mConstellation v id
    rcases b3 with ⟨_, e2⟩ | ⟨e1, _, _⟩
    · left
      intro n hn
      rw [hD2]
      exact e2 n hn
    · right
      have hmem : bestNeighbor env g.mConstellation v id ∈ tmp :=
        t2 id ((hcand id).mpr ⟨hid1, hid2, hid3⟩) (by omega) e1
      have hS : bestNeighbor env g.mConstellation v id ∈ S := hperm.mem_iff.mpr hmem
      have hdrop : bestNeighbor env g.mConstellation v id ∈ S.drop cnt := by
        rw [← List.take_append_drop cnt S] at hS
        rcases List.mem_append.mp hS with h | h
        · exfalso
          apply hnot
          rw [← bestNeighbor_springlId env g.mConstellation v id]
          exact List.mem_map_of_mem _ h
        · exact h
      intro x hx n hn
      exact le_trans (sorted_take_le_drop _ S hsorted cnt x hx _ hdrop) (b2 n hn)
theorem sample_neighbors :
    (sampleGrid.updateNearestNeighbors stencilEnv).getNearestNeighbors 0 2 = [⟨1, 3, 0⟩] := by
  have hL : sampleGrid.mConstellation.Layout [3, 4] := by
    have h := create_layout sampleEnv emptyConstellation sampleMesh sampleMesh_consistent
      (by simp [sampleMesh, INVALID_IDX])
    have hks : sampleMesh.mFaces.map faceSize = [3, 4] := by
      simp [sampleMesh, faceSize, INVALID_IDX]
    rw [hks] at h
    exact h
  rw [updateNearestNeighbors_entries stencilEnv sampleGrid hL (by decide : 0 < [3, 4].length)
    (by decide : 2 < [3, 4].getD 0 0)]
  have h1 : sampleGrid.mConstellation = sampleConstellation := rfl
  rw [h1, sampleConstellation_eq]
  simp [neighborEntries, neighborCandidates, tmpRange, bestNeighbor, stencilEnv, sampleEnv,
    Constellation.getNumSpringls, Constellation.size, Constellation.vertex,
    Constellation.particle, Constellation.distanceToEdgeSqr, INVALID_IDX,
    NEAREST_NEIGHBOR_RANGE, MAX_NEAREST_NEIGHBORS, List.range_succ, List.insertionSort,
    List.orderedInsert]
  norm_num

theorem neighbor_entries_closest_witness :
    (⟨1, 3, 0⟩ : SpringlNeighbor).springlId < sampleGrid.mConstellation.getNumSpringls ∧
      (⟨1, 3, 0⟩ : SpringlNeighbor).edgeId
        < (sampleGrid.mConstellation.size
            (sampleGrid.mConstellation.springls.getD
              (⟨1, 3, 0⟩ : SpringlNeighbor).springlId default) : Int) ∧
      (⟨1, 3, 0⟩ : SpringlNeighbor).distance ≤ NEAREST_NEIGHBOR_RANGE ^ 2 :=
  have h := (neighbor_entries_closest stencilEnv sampleGrid sample_WF 0
    (by
      have h1 : sampleGrid.mConstellation = sampleConstellation := rfl
      rw [h1, sampleConstellation_eq]
      decide)
    2 (by rw [sample_size]; decide)).1 ⟨1, 3, 0⟩
    (by rw [sample_neighbors]; exact List.mem_singleton_self _)
  ⟨h.1, h.2.2.2.1, h.2.2.2.2.2.2⟩

/-! ### The vector area of an element -/

theorem size_cases (c : Constellation) (s : Springl) : c.size s = 3 ∨ c.size s = 4 := by
  unfold Constellation.size
  split
  · exact Or.inl rfl
  · exact Or.inr rfl

theorem crossSumAbout_eq_cyclic (c : Constellation) (s : Springl) (p : Vec3s) :
    c.crossSumAbout s p = c.cyclicCross s := by
  unfold Constellation.crossSumAbout Constellation.cyclicCross
  rcases size_cases c s with h | h
  · rw [h]
    simp only [List.range_succ, List.range_zero, List.nil_append, List.cons_append,
      List.foldl_cons, List.foldl_nil, Vec3s.add, Vec3s.sub, Vec3s.cross, Vec3s.zero,
      Vec3s.mk.injEq]
    norm_num
    refine ⟨?_, ?_, ?_⟩ <;> ring
  · rw [h]
    simp only [List.range_succ, List.range_zero, List.nil_append, List.cons_append,
      List.foldl_cons, List.foldl_nil, Vec3s.add, Vec3s.sub, Vec3s.cross, Vec3s.zero,
      Vec3s.mk.injEq]
    norm_num
    refine ⟨?_, ?_, ?_⟩ <;> ring

/-- C29. The cross product sum of `area` and `computeNormal` is the sum about
the stored particle, and the sum about any point `p` is the cyclic sum
`Σ_k v_k × v_{(k+1) mod K}`; so area and normal of an element are the same
whatever the particle array holds, and for a triangle the area is half the
length of `(v_1 − v_0) × (v_2 − v_0)`. -/
theorem vector_area_particle_free (env : Env) (c : Constellation) (s : Springl) :
    c.crossSum s = c.crossSumAbout s (c.particle s) ∧
    (∀ p : Vec3s, c.crossSumAbout s p = c.cyclicCross s) ∧
    (∀ ps : List Vec3s,
      Constellation.area env { c with mParticles := ps } s = c.area env s ∧
      Constellation.computeNormal env { c with mParticles := ps } s = c.computeNormal env s) ∧
    (c.size s = 3 →
      c.area env s
        = (1 / 2) * env.length
            (Vec3s.cross (Vec3s.sub (c.vertex s 1) (c.vertex s 0))
              (Vec3s.sub (c.vertex s 2) (c.vertex s 0)))) := by
  have h0 : ∀ c' : Constellation, c'.crossSum s = c'.crossSumAbout s (c'.particle s) :=
    fun _ => rfl
  have h1 : ∀ c' : Constellation, c'.crossSum s = c'.cyclicCross s := fun c' => by
    rw [h0, crossSumAbout_eq_cyclic]
  refine ⟨h0 c, crossSumAbout_eq_cyclic c s, fun ps => ?_, fun h3 => ?_⟩
  · have hc : Constellation.cyclicCross { c with mParticles := ps } s = c.cyclicCross s := rfl
    unfold Constellation.area Constellation.computeNormal
    rw [h1, h1 c, hc]
    exact ⟨rfl, rfl⟩
  · unfold Constellation.area
    rw [h1 c]
    congr 2
    unfold Constellation.cyclicCross
    rw [h3]
    simp only [List.range_succ, List.range_zero, List.nil_append, List.cons_append,
      List.foldl_cons, List.foldl_nil, Vec3s.add, Vec3s.sub, Vec3s.cross, Vec3s.zero,
      Vec3s.mk.injEq]
    norm_num
    refine ⟨?_, ?_, ?_⟩ <;> ring

/-! ### The bounding box of an element -/

/-- The upper corner of the box never goes below its starting value, the
least positive normalised value, on any axis. -/
theorem getBoundingBox_max_ge (c : Constellation) (s : Springl) :
    FLT_MIN ≤ (c.getBoundingBox s).max.x ∧ FLT_MIN ≤ (c.getBoundingBox s).max.y ∧
    FLT_MIN ≤ (c.getBoundingBox s).max.z := by
  have key : ∀ (l : List Nat) (b : BBox),
      FLT_MIN ≤ b.max.x ∧ FLT_MIN ≤ b.max.y ∧ FLT_MIN ≤ b.max.z →
      FLT_MIN ≤ (l.foldl
          (fun (bbox : BBox) n =>
            { min := Vec3s.Min bbox.min (c.vertex s n),
              max := Vec3s.Max bbox.max (c.vertex s n) }) b).max.x ∧
      FLT_MIN ≤ (l.foldl
          (fun (bbox : BBox) n =>
            { min := Vec3s.Min bbox.min (c.vertex s n),
              max := Vec3s.Max bbox.max (c.vertex s n) }) b).max.y ∧
      FLT_MIN ≤ (l.foldl
          (fun (bbox : BBox) n =>
            { min := Vec3s.Min bbox.min (c.vertex s n),
              max := Vec3s.Max bbox.max (c.vertex s n) }) b).max.z := by
    intro l
    induction l with
    | nil => intro b hb; exact hb
    | cons n l ih =>
      intro b hb
      rw [List.foldl_cons]
      apply ih
      exact ⟨le_trans hb.1 (le_max_left _ _), le_trans hb.2.1 (le_max_left _ _),
        le_trans hb.2.2 (le_max_left _ _)⟩
  exact key _ _ ⟨le_refl _, le_refl _, le_refl _⟩

/-- The corners of the box, axis by axis: the running minimum of the vertex
coordinates started at `FLT_MAX`, and their running maximum started at
`FLT_MIN`. -/
theorem getBoundingBox_corners (c : Constellation) (s : Springl) :
    (c.getBoundingBox s).min
      = ⟨((List.range (c.size s)).map (fun n => (c.vertex s n).x)).foldl min FLT_MAX,
          ((List.range (c.size s)).map (fun n => (c.vertex s n).y)).foldl min FLT_MAX,
          ((List.range (c.size s)).map (fun n => (c.vertex s n).z)).foldl min FLT_MAX⟩ ∧
    (c.getBoundingBox s).max
      = ⟨((List.range (c.size s)).map (fun n => (c.vertex s n).x)).foldl max FLT_MIN,
          ((List.range (c.size s)).map (fun n => (c.vertex s n).y)).foldl max FLT_MIN,
          ((List.range (c.size s)).map (fun n => (c.vertex s n).z)).foldl max FLT_MIN⟩ := by
  have key : ∀ (l : List Nat) (b : BBox),
      l.foldl
          (fun (bbox : BBox) n =>
            { min := Vec3s.Min bbox.min (c.vertex s n),
              max := Vec3s.Max bbox.max (c.vertex s n) }) b
        = { min :=
              ⟨(l.map (fun n => (c.vertex s n).x)).foldl min b.min.x,
                (l.map (fun n => (c.vertex s n).y)).foldl min b.min.y,
                (l.map (fun n => (c.vertex s n).z)).foldl min b.min.z⟩,
            max :=
              ⟨(l.map (fun n => (c.vertex s n).x)).foldl max b.max.x,
                (l.map (fun n => (c.vertex s n).y)).foldl max b.max.y,
                (l.map (fun n => (c.vertex s n).z)).foldl max b.max.z⟩ } := by
    intro l
    induction l with
    | nil => intro b; rfl
    | cons n l ih =>
      intro b
      rw [List.foldl_cons, ih]
      rfl
  unfold Constellation.getBoundingBox
  rw [key]
  exact ⟨rfl, rfl⟩

/-- C30, the code at an element with negative coordinates.  For the triangle
with vertices `(-3,-1,-1)`, `(-2,-1,-1)`, `(-3,-2,-1)` the lower corner of the
box is the least coordinate on every axis, `(-3,-2,-1)`, but the upper corner
is `(2^-126, 2^-126, 2^-126)`, the value it starts from, where the greatest
coordinates are `(-2,-1,-1)`. -/
theorem bounding_box_negative_element :
    negativeConstellation.size ⟨0, 0⟩ = 3 ∧
    negativeConstellation.getBoundingBox ⟨0, 0⟩
      = { min := ⟨-3, -2, -1⟩, max := ⟨FLT_MIN, FLT_MIN, FLT_MIN⟩ } ∧
    (0 : ℚ) < FLT_MIN := by
  refine ⟨by simp [Constellation.size, negativeConstellation], ?_, by unfold FLT_MIN; positivity⟩
  simp [Constellation.getBoundingBox, Constellation.size, Constellation.vertex,
    negativeConstellation, List.range_succ, Vec3s.Min, Vec3s.Max, FLT_MAX, FLT_MIN]
  norm_num

/-! ### The schedule of one `advect1` call -/

theorem subStepLoop_events {σ : Type} (ops : AdvectOps σ) (scheme : MotionScheme)
    (scale mEndTime : ℚ) :
    ∀ (fuel : Nat) (st r : LoopState σ),
      subStepLoop ops scheme scale mEndTime fuel st = some r →
      ∃ new : List SubStep,
        r.steps = st.steps ++ new ∧
        r.events = st.events ++ new.flatMap (stepEvents scheme) ∧
        r.s = (new.flatMap (stepEvents scheme)).foldl ops.run st.s := by
  intro fuel
  induction fuel with
  | zero =>
    intro st r h
    unfold subStepLoop at h
    split at h
    · exact absurd h (by simp)
    · simp only [Option.some.injEq] at h
      subst h
      exact ⟨[], by simp, by simp, by simp⟩
  | succ fuel ih =>
    intro st r h
    unfold subStepLoop at h
    split at h
    · dsimp only at h
      split at h
      · simp only [Option.some.injEq] at h
        subst h
        exact ⟨[], by simp, by simp, by simp⟩
      · obtain ⟨new, h1, h2, h3⟩ := ih _ r h
        dsimp only at h1 h2 h3
        refine ⟨⟨st.time, ops.maxSpeed st.s st.time,
          stepSize scale (ops.maxSpeed st.s st.time) mEndTime st.time⟩ :: new, ?_, ?_, ?_⟩
        · rw [h1]; simp
        · rw [h2]
          simp only [List.flatMap_cons, stepEvents, List.append_assoc]
        · rw [h3]
          simp only [List.flatMap_cons, stepEvents, List.foldl_append, List.foldl_cons,
            List.foldl_nil, AdvectOps.run]
          congr 1
          by_cases he : scheme = MotionScheme.EXPLICIT
          · subst he
            simp [AdvectOps.run]
          · by_cases hs : scheme = MotionScheme.SEMI_IMPLICIT
            · subst hs
              simp [AdvectOps.run]
            · simp [he, hs]
    · simp only [Option.some.injEq] at h
      subst h
      exact ⟨[], by simp, by simp, by simp⟩
theorem countP_flatMap_const {α β : Type} (p : β → Bool) (f : α → List β) (n : Nat)
    (l : List α) (h : ∀ x, (f x).countP p = n) : (l.flatMap f).countP p = n * l.length := by
  induction l with
  | nil => simp
  | cons x l ih =>
    rw [List.flatMap_cons, List.countP_append, h, ih, List.length_cons]
    ring

theorem still_semi_run :
    subStepLoop stillOps MotionScheme.SEMI_IMPLICIT 1 1 2 (loopInit 0 0)
      = some
          { s := 1, time := 1, dt := 1, steps := [⟨0, 0, 1⟩]
            events := [AdvectEvent.advectSpringls 0 1, AdvectEvent.track 0] } := by
  simp [subStepLoop, loopInit, stillOps, still_stepSize, EPS]
  norm_num

/-- C23. In a run of the loop of `advect1` that executes `n` sub-steps, the
operations are those of the sub-steps, in order, and the state the loop leaves
is the result of applying them.  In `SEMI_IMPLICIT` mode each sub-step is the
particle integration followed by `track`: `track` runs `n` times, the mesh
vertex operator never, and no `track` follows the loop.  In `EXPLICIT` mode
each sub-step is the particle integration followed by the mesh vertex
integration: `track` does not run inside the loop and runs once on the state
the loop leaves. -/
theorem advect_track_schedule {σ : Type} (ops : AdvectOps σ) (scheme : MotionScheme)
    (scale : ℚ) (fuel : Nat) (s : σ) (mStartTime mEndTime : ℚ) (r : LoopState σ)
    (h : subStepLoop ops scheme scale mEndTime fuel (loopInit (ops.resetMetrics s) mStartTime)
      = some r) :
    r.s = r.events.foldl ops.run (ops.resetMetrics s) ∧
    (scheme = MotionScheme.SEMI_IMPLICIT →
      r.events
        = r.steps.flatMap
            (fun x => [AdvectEvent.advectSpringls x.time x.dt, AdvectEvent.track x.time]) ∧
      r.events.countP AdvectEvent.isTrack = r.steps.length ∧
      r.events.countP AdvectEvent.isVertexStep = 0 ∧
      advect1 ops scheme scale fuel s mStartTime mEndTime
        = some (ops.updateVertexNormals r.s)) ∧
    (scheme = MotionScheme.EXPLICIT →
      r.events
        = r.steps.flatMap
            (fun x =>
              [AdvectEvent.advectSpringls x.time x.dt,
                AdvectEvent.advectVertexes x.time x.dt]) ∧
      r.events.countP AdvectEvent.isTrack = 0 ∧
      r.events.countP AdvectEvent.isVertexStep = r.steps.length ∧
      advect1 ops scheme scale fuel s mStartTime mEndTime
        = some (ops.updateVertexNormals (ops.track r.s r.time))) := by
  obtain ⟨new, h1, h2, h3⟩ := subStepLoop_events ops scheme scale mEndTime fuel _ r h
  have hs : r.steps = new := by rw [h1]; rfl
  have he : r.events = new.flatMap (stepEvents scheme) := by rw [h2]; rfl
  have hr : r.s = (new.flatMap (stepEvents scheme)).foldl ops.run (ops.resetMetrics s) := h3
  refine ⟨by rw [he]; exact hr, fun hsemi => ?_, fun hexp => ?_⟩
  · subst hsemi
    have hf : stepEvents MotionScheme.SEMI_IMPLICIT
        = fun x => [AdvectEvent.advectSpringls x.time x.dt, AdvectEvent.track x.time] := by
      funext x
      simp [stepEvents]
    rw [hf] at he
    refine ⟨by rw [he, hs], ?_, ?_, ?_⟩
    · rw [he, hs, countP_flatMap_const _ _ 1 _ (fun x => by simp [AdvectEvent.isTrack])]
      omega
    · rw [he, countP_flatMap_const _ _ 0 _ (fun x => by simp [AdvectEvent.isVertexStep])]
      omega
    · unfold advect1
      rw [h]
      simp
  · subst hexp
    have hf : stepEvents MotionScheme.EXPLICIT
        = fun x =>
            [AdvectEvent.advectSpringls x.time x.dt, AdvectEvent.advectVertexes x.time x.dt] := by
      funext x
      simp [stepEvents]
    rw [hf] at he
    refine ⟨by rw [he, hs], ?_, ?_, ?_⟩
    · rw [he, countP_flatMap_const _ _ 0 _ (fun x => by simp [AdvectEvent.isTrack])]
      omega
    · rw [he, hs, countP_flatMap_const _ _ 1 _ (fun x => by simp [AdvectEvent.isVertexStep])]
      omega
    · unfold advect1
      rw [h]
      simp

theorem advect_track_schedule_witness :
    [AdvectEvent.advectSpringls 0 1, AdvectEvent.track 0].countP AdvectEvent.isTrack
        = [(⟨0, 0, 1⟩ : SubStep)].length ∧
      advect1 stillOps MotionScheme.SEMI_IMPLICIT 1 2 0 0 1
        = some (stillOps.updateVertexNormals 1) :=
  have h := (advect_track_schedule stillOps MotionScheme.SEMI_IMPLICIT 1 2 0 0 1 _
    still_semi_run).2.1 rfl
  ⟨h.2.1, h.2.2.2⟩

/-! ### The maintenance cycle `track` -/

theorem trackCalls_semi (mResample : Bool) (time : ℚ) (resample : Bool) :
    trackCalls MotionScheme.SEMI_IMPLICIT mResample time resample
      = [TrackCall.updateUnSignedLevelSet false, TrackCall.updateNearestNeighbors,
          TrackCall.relax 5, TrackCall.updateUnSignedLevelSet true, TrackCall.updateGradient,
          TrackCall.evolve time (3 / 4) 32 (1 / 100)]
        ++ (if mResample then
              [TrackCall.clean, TrackCall.updateUnSignedLevelSet false,
                TrackCall.updateIsoSurface, TrackCall.fill]
            else if resample then [TrackCall.updateIsoSurface]
            else []) := by
  simp [trackCalls, RELAX_OUTER_ITERS, RELAX_INNER_ITERS, List.range_succ]

theorem trackCalls_explicit (mResample : Bool) (time : ℚ) (resample : Bool) :
    trackCalls MotionScheme.EXPLICIT mResample time resample
      = [TrackCall.updateUnSignedLevelSet false, TrackCall.updateNearestNeighbors,
          TrackCall.relax 5]
        ++ (if resample then
              [TrackCall.isoUpdateVertexNormals, TrackCall.isoDilate (1 / 2),
                TrackCall.updateSignedLevelSet, TrackCall.updateUnSignedLevelSet true,
                TrackCall.updateGradient, TrackCall.evolve time (3 / 4) 128 (1 / 20)]
            else [])
        ++ (if mResample then
              [TrackCall.clean, TrackCall.updateUnSignedLevelSet false,
                TrackCall.updateIsoSurface, TrackCall.fill]
            else if resample then [TrackCall.updateIsoSurface]
            else []) := by
  simp [trackCalls, RELAX_OUTER_ITERS, RELAX_INNER_ITERS, List.range_succ]

/-- C24, as stated, fails.  In `EXPLICIT` mode, with resampling enabled, a
maintenance cycle at time 0 makes thirteen calls: between `relax(5)` and the
widening of the unsigned band it refreshes the vertex normals of the
iso-surface, dilates it and rebuilds the signed level set from it.  The cycle
is not the listed sequence, whatever the parameters of the tracker. -/
theorem track_explicit_extra_calls :
    trackCalls MotionScheme.EXPLICIT true 0 true
      = [TrackCall.updateUnSignedLevelSet false, TrackCall.updateNearestNeighbors,
          TrackCall.relax 5, TrackCall.isoUpdateVertexNormals, TrackCall.isoDilate (1 / 2),
          TrackCall.updateSignedLevelSet, TrackCall.updateUnSignedLevelSet true,
          TrackCall.updateGradient, TrackCall.evolve 0 (3 / 4) 128 (1 / 20), TrackCall.clean,
          TrackCall.updateUnSignedLevelSet false, TrackCall.updateIsoSurface, TrackCall.fill] ∧
    ∀ (dt : ℚ) (iterations : Nat) (tolerance : ℚ),
      trackCalls MotionScheme.EXPLICIT true 0 true
        ≠ listedTrackOrder 0 dt iterations tolerance := by
  refine ⟨by rw [trackCalls_explicit]; rfl, fun dt it tol h => ?_⟩
  have hlen := congrArg List.length h
  rw [trackCalls_explicit] at hlen
  simp [listedTrackOrder] at hlen

/-- C24, amended.  With resampling enabled, a maintenance cycle in
`SEMI_IMPLICIT` mode makes exactly the listed calls in the listed order (the
tracker with step 0.75, at most 32 iterations and tolerance 0.01); in
`EXPLICIT` mode, called with `resample = true`, it makes the same calls in the
same order (the tracker with at most 128 iterations and tolerance 0.05) with
three more between `relax(5)` and the widening of the unsigned band: the
refresh of the iso-surface vertex normals, the dilation of the iso-surface by
0.5 and the rebuild of the signed level set. -/
theorem track_order (time : ℚ) (resample : Bool) :
    trackCalls MotionScheme.SEMI_IMPLICIT true time resample
      = listedTrackOrder time (3 / 4) 32 (1 / 100) ∧
    trackCalls MotionScheme.EXPLICIT true time true
      = (listedTrackOrder time (3 / 4) 128 (1 / 20)).take 3
        ++ [TrackCall.isoUpdateVertexNormals, TrackCall.isoDilate (1 / 2),
            TrackCall.updateSignedLevelSet]
        ++ (listedTrackOrder time (3 / 4) 128 (1 / 20)).drop 3 := by
  constructor
  · rw [trackCalls_semi]
    rfl
  · rw [trackCalls_explicit]
    rfl

/-- C25, as stated, fails.  With resampling disabled, a maintenance cycle in
`SEMI_IMPLICIT` mode at time 0 still runs the implicit tracker, after widening
the unsigned band and refreshing the gradient; only `clean`, the band refresh
and `fill` are left out. -/
theorem track_without_resampling_runs_tracker :
    trackCalls MotionScheme.SEMI_IMPLICIT false 0 true
      = [TrackCall.updateUnSignedLevelSet false, TrackCall.updateNearestNeighbors,
          TrackCall.relax 5, TrackCall.updateUnSignedLevelSet true, TrackCall.updateGradient,
          TrackCall.evolve 0 (3 / 4) 32 (1 / 100), TrackCall.updateIsoSurface] ∧
    (trackCalls MotionScheme.SEMI_IMPLICIT false 0 true).countP TrackCall.isEvolve = 1 := by
  rw [trackCalls_semi]
  exact ⟨rfl, rfl⟩

/-- C25, amended.  With resampling disabled, a maintenance cycle makes neither
the `clean` nor the `fill` call and, called with `resample = true`, ends with
the re-extraction of the iso-surface.  The implicit tracker is not skipped: in
`SEMI_IMPLICIT` mode the band is widened, the gradient refreshed and the
tracker run as with resampling enabled, and so it is in `EXPLICIT` mode when
`track` is called with `resample = true` (after the refresh of the iso-surface
normals, its dilation and the rebuild of the signed level set).  Only in
`EXPLICIT` mode with `resample = false` does the cycle end after the
neighbour and relax phase, and then without re-extraction. -/
theorem track_without_resampling (time : ℚ) :
    (∀ (scheme : MotionScheme) (resample : Bool),
      TrackCall.clean ∉ trackCalls scheme false time resample ∧
      TrackCall.fill ∉ trackCalls scheme false time resample) ∧
    trackCalls MotionScheme.SEMI_IMPLICIT false time true
      = [TrackCall.updateUnSignedLevelSet false, TrackCall.updateNearestNeighbors,
          TrackCall.relax 5, TrackCall.updateUnSignedLevelSet true, TrackCall.updateGradient,
          TrackCall.evolve time (3 / 4) 32 (1 / 100), TrackCall.updateIsoSurface] ∧
    trackCalls MotionScheme.EXPLICIT false time true
      = [TrackCall.updateUnSignedLevelSet false, TrackCall.updateNearestNeighbors,
          TrackCall.relax 5, TrackCall.isoUpdateVertexNormals, TrackCall.isoDilate (1 / 2),
          TrackCall.updateSignedLevelSet, TrackCall.updateUnSignedLevelSet true,
          TrackCall.updateGradient, TrackCall.evolve time (3 / 4) 128 (1 / 20),
          TrackCall.updateIsoSurface] ∧
    trackCalls MotionScheme.EXPLICIT false time false
      = [TrackCall.updateUnSignedLevelSet false, TrackCall.updateNearestNeighbors,
          TrackCall.relax 5] := by
  refine ⟨fun scheme resample => ?_, by rw [trackCalls_semi]; rfl,
    by rw [trackCalls_explicit]; rfl, by rw [trackCalls_explicit]; rfl⟩
  cases scheme <;> cases resample <;>
    simp [trackCalls, RELAX_OUTER_ITERS, RELAX_INNER_ITERS, List.range_succ]

/-! ### The implicit tracker loop -/

theorem leaf_fold_count (leaf : List (ℚ × ℚ)) (n : Nat) :
    leaf.foldl (fun n v => if v.1 * (v.1 - v.2) < 0 then n + 1 else n) n
      = n + leaf.countP (fun v => decide (v.1 * (v.1 - v.2) < 0)) := by
  induction leaf generalizing n with
  | nil => simp
  | cons v leaf ih =>
    rw [List.foldl_cons, ih, List.countP_cons]
    by_cases h : v.1 * (v.1 - v.2) < 0
    · simp [h]; omega
    · simp [h]

theorem rangeSignChanges_eq (range : List (List (ℚ × ℚ))) :
    rangeSignChanges range
      = range.flatten.countP (fun v => decide (v.1 * (v.1 - v.2) < 0)) := by
  have key : ∀ (l : List (List (ℚ × ℚ))) (n : Nat),
      l.foldl
          (fun signChanges leaf =>
            leaf.foldl (fun n v => if v.1 * (v.1 - v.2) < 0 then n + 1 else n) signChanges) n
        = n + l.flatten.countP (fun v => decide (v.1 * (v.1 - v.2) < 0)) := by
    intro l
    induction l with
    | nil => intro n; simp
    | cons leaf l ih =>
      intro n
      rw [List.foldl_cons, ih, leaf_fold_count, List.flatten_cons, List.countP_append]
      omega
  unfold rangeSignChanges
  rw [key, Nat.zero_add]

/-- The total of one iteration is the number of active voxels, over all
leaves, whose value changes sign. -/
theorem totalSignChanges_eq (ranges : List (List (List (ℚ × ℚ)))) :
    totalSignChanges ranges
      = ranges.flatten.flatten.countP (fun v => decide (v.1 * (v.1 - v.2) < 0)) := by
  have key : ∀ (l : List (List (List (ℚ × ℚ)))) (n : Nat),
      l.foldl (fun total range => total + rangeSignChanges range) n
        = n + l.flatten.flatten.countP (fun v => decide (v.1 * (v.1 - v.2) < 0)) := by
    intro l
    induction l with
    | nil => intro n; simp
    | cons r l ih =>
      intro n
      rw [List.foldl_cons, ih, rangeSignChanges_eq, List.flatten_cons, List.flatten_append,
        List.countP_append]
      omega
  unfold totalSignChanges
  rw [key, Nat.zero_add]

theorem foldl_max_cons (mx c : Nat) (l : List Nat) :
    (c :: l).foldl max mx = l.foldl max (max c mx) := by
  rw [List.foldl_cons, max_comm]

theorem evolveLoop_spec {σ : Type} (ops : EvolveOps σ) (tol : ℚ) :
    ∀ (n : Nat) (s : σ) (mx : Nat) (counts : List Nat),
      ∃ new : List Nat,
        evolveLoop ops tol n s mx counts = (ops.advance^[new.length] s, counts ++ new) ∧
        new.length ≤ n ∧ (1 ≤ n → 1 ≤ new.length) ∧
        (∀ i, i < new.length →
          new.getD i 0 = totalSignChanges (ops.ranges (ops.advance^[i] s))) ∧
        (∀ i, i + 1 < new.length →
          ¬ ops.ratio (new.getD i 0) ((new.take (i + 1)).foldl max mx) ≤ tol) ∧
        (new.length < n →
          ops.ratio (new.getD (new.length - 1) 0) (new.foldl max mx) ≤ tol) := by
  intro n
  induction n with
  | zero =>
    intro s mx counts
    refine ⟨[], by simp [evolveLoop], le_refl _, fun h => absurd h (by decide), ?_, ?_, ?_⟩
    · intro i hi; exact absurd hi (Nat.not_lt_zero _)
    · intro i hi; exact absurd hi (Nat.not_lt_zero _)
    · intro h; exact absurd h (Nat.not_lt_zero _)
  | succ n ih =>
    intro s mx counts
    unfold evolveLoop
    dsimp only
    by_cases hr : ops.ratio (totalSignChanges (ops.ranges s))
        (max (totalSignChanges (ops.ranges s)) mx) ≤ tol
    · rw [if_pos hr]
      refine ⟨[totalSignChanges (ops.ranges s)], rfl, by simp, fun _ => by simp, ?_, ?_, ?_⟩
      · intro i hi
        have : i = 0 := by simpa using hi
        subst this
        rfl
      · intro i hi
        simp at hi
      · intro _
        simpa [max_comm] using hr
    · rw [if_neg hr]
      obtain ⟨new, h1, h2, h3, h4, h5, h6⟩ := ih (ops.advance s)
        (max (totalSignChanges (ops.ranges s)) mx) (counts ++ [totalSignChanges (ops.ranges s)])
      refine ⟨totalSignChanges (ops.ranges s) :: new, ?_, ?_, ?_, ?_, ?_, ?_⟩
      · rw [h1]
        simp [Function.iterate_succ_apply]
      · simp; exact h2
      · intro _; simp
      · intro i hi
        cases i with
        | zero => rfl
        | succ i =>
          simp only [List.length_cons, Nat.add_lt_add_iff_right] at hi
          rw [Function.iterate_succ_apply]
          simpa using h4 i hi
      · intro i hi
        cases i with
        | zero =>
          simpa [max_comm] using hr
        | succ i =>
          simp only [List.length_cons, Nat.add_lt_add_iff_right] at hi
          have := h5 i hi
          rw [List.take_succ_cons, foldl_max_cons]
          simpa using this
      · intro hlt
        simp only [List.length_cons, Nat.add_lt_add_iff_right] at hlt
        have hpos : 1 ≤ new.length := h3 (by omega)
        have := h6 hlt
        rw [foldl_max_cons]
        have hidx : (totalSignChanges (ops.ranges s) :: new).getD
            ((totalSignChanges (ops.ranges s) :: new).length - 1) 0
            = new.getD (new.length - 1) 0 := by
          rw [List.length_cons, Nat.add_sub_cancel]
          obtain ⟨m, hm⟩ : ∃ m, new.length = m + 1 := ⟨new.length - 1, by omega⟩
          rw [hm, Nat.add_sub_cancel]
          rfl
        rw [hidx]
        exact this

theorem slow_evolve_run :
    evolveProcess slowEvolveOps DOUBLE_0_05 4 0 = (4, [100, 5, 5, 5]) := by
  have h0 : totalSignChanges (slowEvolveOps.ranges 0) = 100 := by
    rw [totalSignChanges_eq]
    simp [slowEvolveOps]
  have hs : ∀ s, s ≠ 0 → totalSignChanges (slowEvolveOps.ranges s) = 5 := by
    intro s hs
    rw [totalSignChanges_eq]
    simp [slowEvolveOps, hs]
  have hr1 : ¬ slowEvolveOps.ratio 100 100 ≤ DOUBLE_0_05 := by
    norm_num [slowEvolveOps, DOUBLE_0_05]
  have hr2 : ¬ slowEvolveOps.ratio 5 100 ≤ DOUBLE_0_05 := by
    norm_num [slowEvolveOps, DOUBLE_0_05]
  have ha : ∀ s, slowEvolveOps.advance s = s + 1 := fun _ => rfl
  have hm1 : max 100 32 = 100 := by decide
  have hm2 : max 5 100 = 100 := by decide
  unfold evolveProcess
  simp only [evolveLoop, h0, ha, Nat.zero_add, Nat.reduceAdd, hs 1 (by decide), hs 2 (by decide),
    hs 3 (by decide), hm1, hm2, hr1, hr2, if_false, List.nil_append, List.cons_append]

/-- C28, as stated, fails.  With the tolerance `0.05` that `track` passes in
`EXPLICIT` mode and the iteration limit 4, on a level set whose sign change
counts are 100, 5, 5, 5, the second iteration has `c_2 / max(32, c_1, c_2)
= 5/100 ≤ 0.05`, yet the loop does not stop after it: all four iterations run.
The quotient is taken in single precision, where `5/100` is about
`0.0500000007`, above the `double` `0.05`. -/
theorem evolve_float_ratio_runs_on :
    (evolveProcess slowEvolveOps DOUBLE_0_05 4 0).2 = [100, 5, 5, 5] ∧
    ((5 : ℚ) / ((max 32 (max 100 5) : Nat) : ℚ) ≤ DOUBLE_0_05) ∧
    DOUBLE_0_05 < slowEvolveOps.ratio 5 100 := by
  refine ⟨by rw [slow_evolve_run], ?_, ?_⟩
  · norm_num [DOUBLE_0_05]
  · norm_num [slowEvolveOps, DOUBLE_0_05]

/-- C28, amended.  With an iteration limit `N ≥ 1`, `process` executes at
least 1 and at most `N` iterations; the count `c_i` of iteration `i` is the
number of active voxels with `old·(old − delta) < 0`, whatever the split of
the leaves into ranges; no iteration before the last passes the test
`ratio ≤ tol`, where `ratio` is the single-precision quotient of `c_i` by
`max(32, c_1, ..., c_i)`, and when fewer than `N` iterations run the last one
passes it; and for a tolerance `tol ≥ 0`, the quotient of 0 being 0, an
iteration with no sign change ends the loop. -/
theorem evolve_process_iterations {σ : Type} (ops : EvolveOps σ) (tol : ℚ) (N : Nat)
    (hN : 1 ≤ N) (s : σ) :
    1 ≤ (evolveProcess ops tol N s).2.length ∧
    (evolveProcess ops tol N s).2.length ≤ N ∧
    (evolveProcess ops tol N s).1 = ops.advance^[(evolveProcess ops tol N s).2.length] s ∧
    (∀ i, i < (evolveProcess ops tol N s).2.length →
      (evolveProcess ops tol N s).2.getD i 0
        = (ops.ranges (ops.advance^[i] s)).flatten.flatten.countP
            (fun v => decide (v.1 * (v.1 - v.2) < 0))) ∧
    (∀ r1 r2 : List (List (List (ℚ × ℚ))), r1.flatten.flatten.Perm r2.flatten.flatten →
      totalSignChanges r1 = totalSignChanges r2) ∧
    (∀ i, i + 1 < (evolveProcess ops tol N s).2.length →
      ¬ StopsAfter ops.ratio tol (evolveProcess ops tol N s).2 i) ∧
    ((evolveProcess ops tol N s).2.length < N →
      StopsAfter ops.ratio tol (evolveProcess ops tol N s).2
        ((evolveProcess ops tol N s).2.length - 1)) ∧
    (0 ≤ tol → (∀ mx, ops.ratio 0 mx = 0) →
      ∀ i, i < (evolveProcess ops tol N s).2.length →
        (evolveProcess ops tol N s).2.getD i 0 = 0 →
        i + 1 = (evolveProcess ops tol N s).2.length) := by
  obtain ⟨new, h1, h2, h3, h4, h5, h6⟩ := evolveLoop_spec ops tol N s 32 []
  have hp : evolveProcess ops tol N s = (ops.advance^[new.length] s, new) := by
    unfold evolveProcess
    rw [h1, List.nil_append]
  rw [hp]
  dsimp only
  have hstop : ∀ i, i + 1 < new.length → ¬ StopsAfter ops.ratio tol new i := fun i hi => h5 i hi
  refine ⟨h3 hN, h2, rfl, fun i hi => by rw [h4 i hi, totalSignChanges_eq], ?_, hstop, ?_, ?_⟩
  · intro r1 r2 hperm
    rw [totalSignChanges_eq, totalSignChanges_eq]
    exact hperm.countP_eq _
  · intro hlt
    have hpos := h3 hN
    unfold StopsAfter
    rw [show new.length - 1 + 1 = new.length by omega, List.take_length]
    exact h6 hlt
  · intro htol hzero0 i hi hzero
    by_contra hne
    have hlt : i + 1 < new.length := by omega
    apply hstop i hlt
    unfold StopsAfter
    rw [hzero, hzero0]
    exact htol

theorem sample_evolve_run :
    evolveProcess sampleEvolveOps (1 / 100) 5 0 = (4, [3, 2, 1, 0]) := by
  simp [evolveProcess, evolveLoop, sampleEvolveOps, totalSignChanges, rangeSignChanges]
  norm_num

theorem evolve_process_iterations_witness :
    (evolveProcess sampleEvolveOps (1 / 100) 5 0).2.getD 3 0 = 0 ∧
      3 + 1 = (evolveProcess sampleEvolveOps (1 / 100) 5 0).2.length :=
  have h : (evolveProcess sampleEvolveOps (1 / 100) 5 0).2.getD 3 0 = 0 := by
    rw [sample_evolve_run]; rfl
  ⟨h, (evolve_process_iterations sampleEvolveOps (1 / 100) 5 (by decide) 0).2.2.2.2.2.2.2
    (by norm_num) (fun mx => by simp [sampleEvolveOps]) 3 (by rw [sample_evolve_run]; decide) h⟩


/-! ### Relaxation is two-phase -/

theorem setRange_spec {α : Type} (base : Nat) (f : Nat → α) (d : α) :
    ∀ (K : Nat) (A : List α),
      ((List.range K).foldl (fun a k => a.set (base + k) (f k)) A).length = A.length ∧
      ∀ i, ((List.range K).foldl (fun a k => a.set (base + k) (f k)) A).getD i d
        = if base ≤ i ∧ i < base + K ∧ i < A.length then f (i - base) else A.getD i d := by
  intro K
  induction K with
  | zero =>
    intro A
    refine ⟨rfl, fun i => ?_⟩
    have : ¬ (base ≤ i ∧ i < base + 0 ∧ i < A.length) := by omega
    rw [if_neg this]; rfl
  | succ K ih =>
    intro A
    obtain ⟨h1, h2⟩ := ih A
    rw [List.range_succ, List.foldl_append]
    simp only [List.foldl_cons, List.foldl_nil]
    refine ⟨by rw [List.length_set, h1], fun i => ?_⟩
    by_cases hi : base + K = i
    · subst hi
      by_cases hlen : base + K < A.length
      · rw [getD_set_self _ _ _ (by rw [h1]; exact hlen),
          if_pos ⟨by omega, by omega, hlen⟩, Nat.add_sub_cancel_left]
      · rw [List.getD_eq_default _ _ (by rw [List.length_set, h1]; omega),
          if_neg (by omega), List.getD_eq_default _ _ (by omega)]
    · rw [getD_set_ne _ _ _ hi, h2 i]
      by_cases hc : base ≤ i ∧ i < base + K ∧ i < A.length
      · rw [if_pos hc, if_pos (by omega)]
      · rw [if_neg hc, if_neg (by omega)]

/-- The frame of `compute`: the spring level set is left alone, the staging
buffer keeps its length, and only the slots of the element may change, to the
positions computed from the spring level set. -/
theorem relaxCompute_frame (env : Env) (renv : RelaxEnv) (st : RelaxState) (s : Springl) :
    (relaxCompute env renv st s).g = st.g ∧
    (relaxCompute env renv st s).mVertexAuxBuffer.length = st.mVertexAuxBuffer.length ∧
    ∀ i, (relaxCompute env renv st s).mVertexAuxBuffer.getD i default
      = if s.offset ≤ i ∧ i < s.offset + st.g.mConstellation.size s ∧
            i < st.mVertexAuxBuffer.length then
          relaxTarget env renv st.g s (i - s.offset)
        else st.mVertexAuxBuffer.getD i default := by
  obtain ⟨h1, h2⟩ := setRange_spec s.offset (relaxTarget env renv st.g s) default
    (st.g.mConstellation.size s) st.mVertexAuxBuffer
  exact ⟨rfl, h1, h2⟩

/-- The frame of `apply`: the staging buffer and every array but the live
vertex array are left alone, the vertex array keeps its length, and only the
slots of the element may change, to the content of the staging buffer. -/
theorem relaxApply_frame (st : RelaxState) (s : Springl) :
    (relaxApply st s).mVertexAuxBuffer = st.mVertexAuxBuffer ∧
    (relaxApply st s).g
      = { st.g with
          mConstellation :=
            { st.g.mConstellation with
              mVertexes := (relaxApply st s).g.mConstellation.mVertexes } } ∧
    (relaxApply st s).g.mConstellation.mVertexes.length
      = st.g.mConstellation.mVertexes.length ∧
    ∀ i, (relaxApply st s).g.mConstellation.mVertexes.getD i default
      = if s.offset ≤ i ∧ i < s.offset + st.g.mConstellation.size s ∧
            i < st.g.mConstellation.mVertexes.length then
          st.mVertexAuxBuffer.getD i default
        else st.g.mConstellation.mVertexes.getD i default := by
  obtain ⟨h1, h2⟩ := setRange_spec s.offset
    (fun k => st.mVertexAuxBuffer.getD (s.offset + k) default) default
    (st.g.mConstellation.size s) st.g.mConstellation.mVertexes
  refine ⟨rfl, rfl, h1, fun i => ?_⟩
  have := h2 i
  unfold relaxApply
  dsimp only
  rw [this]
  by_cases hc : s.offset ≤ i ∧ i < s.offset + st.g.mConstellation.size s ∧
      i < st.g.mConstellation.mVertexes.length
  · rw [if_pos hc, if_pos hc, Nat.add_sub_cancel' hc.1]
  · rw [if_neg hc, if_neg hc]
theorem block_index_iff (ks : List Nat) {e e' k : Nat} (he : e < ks.length)
    (he' : e' < ks.length) (hk : k < ks.getD e 0) :
    (offs ks e' ≤ offs ks e + k ∧ offs ks e + k < offs ks e' + ks.getD e' 0) ↔ e' = e := by
  constructor
  · intro h
    by_contra hne
    rcases Nat.lt_or_gt_of_ne hne with hlt | hgt
    · have := offs_block_le ks hlt (by omega)
      omega
    · have := offs_block_le ks hgt (by omega)
      omega
  · intro h
    subst h
    omega

/-- The compute phase over any list of elements of the constellation: the
spring level set is left alone and the staging buffer holds, for every element
of the list, the positions computed from the spring level set. -/
theorem relaxComputeFold_spec (env : Env) (renv : RelaxEnv) {g : SpringLevelSet}
    {ks : List Nat} (hL : g.mConstellation.Layout ks) :
    ∀ (l : List Springl) (st : RelaxState), (∀ s ∈ l, s ∈ g.mConstellation.springls) →
      st.g = g → st.mVertexAuxBuffer.length = ks.sum →
      (l.foldl (relaxCompute env renv) st).g = g ∧
      (l.foldl (relaxCompute env renv) st).mVertexAuxBuffer.length = ks.sum ∧
      ∀ e, e < ks.length → ∀ k, k < ks.getD e 0 →
        (l.foldl (relaxCompute env renv) st).mVertexAuxBuffer.getD (offs ks e + k) default
          = if g.mConstellation.springls.getD e default ∈ l then
              relaxTarget env renv g (g.mConstellation.springls.getD e default) k
            else st.mVertexAuxBuffer.getD (offs ks e + k) default := by
  intro l
  induction l with
  | nil =>
    intro st _ hg hlen
    exact ⟨hg, hlen, fun e _ k _ => by simp⟩
  | cons s l ih =>
    intro st hmem hg hlen
    obtain ⟨f1, f2, f3⟩ := relaxCompute_frame env renv st s
    have hs := hmem s (List.mem_cons_self _ _)
    obtain ⟨hid, hget⟩ := hL.mem_springls hs
    have hsz : g.mConstellation.size s = ks.getD s.id 0 := hL.size_of_mem hs
    have hso : s = ⟨s.id, offs ks s.id⟩ := by rw [← hL.springl_getD hid, hget]
    have hoff : s.offset = offs ks s.id := by rw [hso]
    obtain ⟨r1, r2, r3⟩ := ih (relaxCompute env renv st s)
      (fun x hx => hmem x (List.mem_cons_of_mem _ hx)) (f1.trans hg) (f2.trans hlen)
    rw [List.foldl_cons]
    refine ⟨r1, r2, fun e he k hk => ?_⟩
    rw [r3 e he k hk, f3, hg, hsz, hoff, hlen]
    have hse := hL.springl_getD he
    by_cases heq : s.id = e
    · have hss : g.mConstellation.springls.getD e default = s := by rw [← heq]; exact hget
      have hin : offs ks s.id ≤ offs ks e + k ∧ offs ks e + k < offs ks s.id + ks.getD s.id 0 ∧
          offs ks e + k < ks.sum := by
        have h1 := (block_index_iff ks he hid hk).mpr heq
        have h2 := offs_add_le ks e he
        omega
      rw [if_pos hin, hss]
      have hk' : offs ks e + k - offs ks s.id = k := by rw [heq]; omega
      rw [hk']
      simp
    · have hout : ¬ (offs ks s.id ≤ offs ks e + k ∧
          offs ks e + k < offs ks s.id + ks.getD s.id 0 ∧ offs ks e + k < ks.sum) := by
        intro h
        exact heq ((block_index_iff ks he hid hk).mp ⟨h.1, h.2.1⟩)
      rw [if_neg hout]
      have hne : g.mConstellation.springls.getD e default ≠ s := by
        intro h
        apply heq
        rw [← h, hse]
      simp only [List.mem_cons, hne, false_or]

/-- The apply phase over any list of elements of the constellation: every
array but the live vertex array is left alone, and the vertex slots of the
elements of the list hold the content of the staging buffer. -/
theorem relaxApplyFold_spec {g : SpringLevelSet} {ks : List Nat}
    (hL : g.mConstellation.Layout ks) :
    ∀ (l : List Springl) (st : RelaxState), (∀ s ∈ l, s ∈ g.mConstellation.springls) →
      st.g
        = { g with
            mConstellation :=
              { g.mConstellation with mVertexes := st.g.mConstellation.mVertexes } } →
      st.g.mConstellation.mVertexes.length = ks.sum →
      (l.foldl relaxApply st).mVertexAuxBuffer = st.mVertexAuxBuffer ∧
      (l.foldl relaxApply st).g
        = { g with
            mConstellation :=
              { g.mConstellation with
                mVertexes := (l.foldl relaxApply st).g.mConstellation.mVertexes } } ∧
      (l.foldl relaxApply st).g.mConstellation.mVertexes.length = ks.sum ∧
      ∀ e, e < ks.length → ∀ k, k < ks.getD e 0 →
        (l.foldl relaxApply st).g.mConstellation.mVertexes.getD (offs ks e + k) default
          = if g.mConstellation.springls.getD e default ∈ l then
              st.mVertexAuxBuffer.getD (offs ks e + k) default
            else st.g.mConstellation.mVertexes.getD (offs ks e + k) default := by
  intro l
  induction l with
  | nil =>
    intro st _ hg hlen
    exact ⟨rfl, hg, hlen, fun e _ k _ => by simp⟩
  | cons s l ih =>
    intro st hmem hg hlen
    obtain ⟨f1, f2, f3, f4⟩ := relaxApply_frame st s
    have hs := hmem s (List.mem_cons_self _ _)
    obtain ⟨hid, hget⟩ := hL.mem_springls hs
    have hsz0 : st.g.mConstellation.size s = g.mConstellation.size s := by
      rw [hg]; rfl
    have hsz : st.g.mConstellation.size s = ks.getD s.id 0 := by
      rw [hsz0]; exact hL.size_of_mem hs
    have hso : s = ⟨s.id, offs ks s.id⟩ := by rw [← hL.springl_getD hid, hget]
    have hoff : s.offset = offs ks s.id := by rw [hso]
    have hg' : (relaxApply st s).g
        = { g with
            mConstellation :=
              { g.mConstellation with
                mVertexes := (relaxApply st s).g.mConstellation.mVertexes } } := by
      rw [f2, hg]
    obtain ⟨r1, r2, r3, r4⟩ := ih (relaxApply st s)
      (fun x hx => hmem x (List.mem_cons_of_mem _ hx)) hg' (f3.trans hlen)
    rw [List.foldl_cons]
    refine ⟨r1.trans f1, r2, r3, fun e he k hk => ?_⟩
    rw [r4 e he k hk, f1, f4, hsz, hoff, hlen]
    have hse := hL.springl_getD he
    by_cases heq : s.id = e
    · have hss : g.mConstellation.springls.getD e default = s := by rw [← heq]; exact hget
      have hin : offs ks s.id ≤ offs ks e + k ∧ offs ks e + k < offs ks s.id + ks.getD s.id 0 ∧
          offs ks e + k < ks.sum := by
        have h1 := (block_index_iff ks he hid hk).mpr heq
        have h2 := offs_add_le ks e he
        omega
      rw [if_pos hin, hss]
      simp
    · have hout : ¬ (offs ks s.id ≤ offs ks e + k ∧
          offs ks e + k < offs ks s.id + ks.getD s.id 0 ∧ offs ks e + k < ks.sum) := by
        intro h
        exact heq ((block_index_iff ks he hid hk).mp ⟨h.1, h.2.1⟩)
      rw [if_neg hout]
      have hne : g.mConstellation.springls.getD e default ≠ s := by
        intro h
        apply heq
        rw [← h, hse]
      simp only [List.mem_cons, hne, false_or]
theorem index_in_block (ks : List Nat) :
    ∀ i, i < ks.sum → ∃ e k, e < ks.length ∧ k < ks.getD e 0 ∧ i = offs ks e + k := by
  induction ks with
  | nil => intro i hi; exact absurd hi (Nat.not_lt_zero _)
  | cons a ks ih =>
    intro i hi
    rw [List.sum_cons] at hi
    by_cases hia : i < a
    · exact ⟨0, i, by simp, by simpa using hia, by simp [offs]⟩
    · obtain ⟨e, k, he, hk, hik⟩ := ih (i - a) (by omega)
      refine ⟨e + 1, k, by simpa using he, by simpa using hk, ?_⟩
      have : offs (a :: ks) (e + 1) = a + offs ks e := by simp [offs]
      rw [this]
      omega

theorem ext_getD {α : Type} (d : α) (A B : List α) (hlen : A.length = B.length)
    (h : ∀ i, i < A.length → A.getD i d = B.getD i d) : A = B := by
  apply List.ext_getElem hlen
  intro i h1 h2
  have := h i h1
  rwa [List.getD_eq_getElem _ _ h1, List.getD_eq_getElem _ _ h2] at this

/-- One relax pass with the elements taken in any two orders. -/
theorem relaxProcessIn_spec (env : Env) (renv : RelaxEnv) (st : RelaxState) {ks : List Nat}
    (hL : st.g.mConstellation.Layout ks) (computeOrder applyOrder : List Springl)
    (h1 : computeOrder.Perm st.g.mConstellation.springls)
    (h2 : applyOrder.Perm st.g.mConstellation.springls) :
    (relaxProcessIn env renv computeOrder applyOrder st).g
      = { st.g with
          mConstellation :=
            { st.g.mConstellation with
              mVertexes :=
                (relaxProcessIn env renv computeOrder applyOrder st).g.mConstellation.mVertexes } } ∧
    (relaxProcessIn env renv computeOrder applyOrder st).g.mConstellation.mVertexes.length
      = ks.sum ∧
    (relaxProcessIn env renv computeOrder applyOrder st).mVertexAuxBuffer.length = ks.sum ∧
    ∀ e, e < ks.length → ∀ k, k < ks.getD e 0 →
      (relaxProcessIn env renv computeOrder applyOrder st).g.mConstellation.mVertexes.getD
          (offs ks e + k) default
        = relaxTarget env renv st.g (st.g.mConstellation.springls.getD e default) k ∧
      (relaxProcessIn env renv computeOrder applyOrder st).mVertexAuxBuffer.getD
          (offs ks e + k) default
        = relaxTarget env renv st.g (st.g.mConstellation.springls.getD e default) k := by
  have hinit : (relaxInit st).mVertexAuxBuffer.length = ks.sum := by
    unfold relaxInit
    dsimp only
    rw [resize_length, Constellation.getNumVertexes, hL.vertexes_len]
  obtain ⟨c1, c2, c3⟩ := relaxComputeFold_spec env renv hL computeOrder (relaxInit st)
    (fun s hs => h1.mem_iff.mp hs) rfl hinit
  obtain ⟨a1, a2, a3, a4⟩ := relaxApplyFold_spec hL applyOrder
    (computeOrder.foldl (relaxCompute env renv) (relaxInit st))
    (fun s hs => h2.mem_iff.mp hs) (by rw [c1]) (by rw [c1]; exact hL.vertexes_len)
  unfold relaxProcessIn
  refine ⟨a2, a3, by rw [a1]; exact c2, fun e he k hk => ?_⟩
  have hmem := hL.getD_mem he
  rw [a4 e he k hk, if_pos (h2.mem_iff.mpr hmem), a1, c3 e he k hk,
    if_pos (h1.mem_iff.mpr hmem)]
  exact ⟨rfl, rfl⟩

/-- C21. `compute` leaves the spring level set alone and writes only the
staging slots `offset + k`, `k < size`, of its element; `apply` leaves the
staging buffer and every array but the live vertex array alone and writes only
the vertex slots of its element, from the staging buffer.  So one relax pass
on a well laid out constellation, with the elements computed and applied in
any orders, changes nothing but the content of the vertex array (no length, no
particle, no normal, no neighbour list), every new vertex position is the
position computed from the state before the pass, and the result is the result
of the pass in constellation order. -/
theorem relax_two_phase (env : Env) (renv : RelaxEnv) (st : RelaxState)
    (hWF : st.g.mConstellation.WF) (computeOrder applyOrder : List Springl)
    (h1 : computeOrder.Perm st.g.mConstellation.springls)
    (h2 : applyOrder.Perm st.g.mConstellation.springls) :
    (∀ (st1 : RelaxState) (s : Springl),
      (relaxCompute env renv st1 s).g = st1.g ∧
      (relaxCompute env renv st1 s).mVertexAuxBuffer.length = st1.mVertexAuxBuffer.length ∧
      ∀ i, ¬ (s.offset ≤ i ∧ i < s.offset + st1.g.mConstellation.size s) →
        (relaxCompute env renv st1 s).mVertexAuxBuffer.getD i default
          = st1.mVertexAuxBuffer.getD i default) ∧
    (∀ (st1 : RelaxState) (s : Springl),
      (relaxApply st1 s).mVertexAuxBuffer = st1.mVertexAuxBuffer ∧
      (relaxApply st1 s).g
        = { st1.g with
            mConstellation :=
              { st1.g.mConstellation with
                mVertexes := (relaxApply st1 s).g.mConstellation.mVertexes } } ∧
      (relaxApply st1 s).g.mConstellation.mVertexes.length
        = st1.g.mConstellation.mVertexes.length ∧
      ∀ i, (relaxApply st1 s).g.mConstellation.mVertexes.getD i default
        = if s.offset ≤ i ∧ i < s.offset + st1.g.mConstellation.size s ∧
              i < st1.g.mConstellation.mVertexes.length then
            st1.mVertexAuxBuffer.getD i default
          else st1.g.mConstellation.mVertexes.getD i default) ∧
    (relaxProcessIn env renv computeOrder applyOrder st).g
      = { st.g with
          mConstellation :=
            { st.g.mConstellation with
              mVertexes :=
                (relaxProcessIn env renv computeOrder applyOrder st).g.mConstellation.mVertexes } } ∧
    (relaxProcessIn env renv computeOrder applyOrder st).g.mConstellation.mVertexes.length
      = st.g.mConstellation.mVertexes.length ∧
    (∀ e, e < st.g.mConstellation.springls.length →
      ∀ k, k < st.g.mConstellation.size (st.g.mConstellation.springls.getD e default) →
        (relaxProcessIn env renv computeOrder applyOrder st).g.mConstellation.vertex
            (st.g.mConstellation.springls.getD e default) k
          = relaxTarget env renv st.g (st.g.mConstellation.springls.getD e default) k) ∧
    relaxProcessIn env renv computeOrder applyOrder st = relaxProcess env renv st := by
  obtain ⟨ks, hL⟩ := hWF
  obtain ⟨p1, p2, p3, p4⟩ := relaxProcessIn_spec env renv st hL computeOrder applyOrder h1 h2
  obtain ⟨q1, q2, q3, q4⟩ := relaxProcessIn_spec env renv st hL st.g.mConstellation.springls
    st.g.mConstellation.springls (List.Perm.refl _) (List.Perm.refl _)
  refine ⟨fun st1 s => ?_, relaxApply_frame, p1, by rw [p2, hL.vertexes_len], ?_, ?_⟩
  · obtain ⟨f1, f2, f3⟩ := relaxCompute_frame env renv st1 s
    refine ⟨f1, f2, fun i hi => ?_⟩
    rw [f3 i, if_neg (fun h => hi ⟨h.1, h.2.1⟩)]
  · intro e he k hk
    have he' : e < ks.length := by rw [← hL.springls_length]; exact he
    rw [hL.size_getD he'] at hk
    have := (p4 e he' k hk).1
    unfold Constellation.vertex
    rw [hL.springl_getD he'] at this ⊢
    exact this
  · have hV : (relaxProcessIn env renv computeOrder applyOrder st).g.mConstellation.mVertexes
        = (relaxProcessIn env renv st.g.mConstellation.springls st.g.mConstellation.springls
            st).g.mConstellation.mVertexes := by
      apply ext_getD default _ _ (by rw [p2, q2])
      intro i hi
      rw [p2] at hi
      obtain ⟨e, k, he, hk, rfl⟩ := index_in_block ks i hi
      rw [(p4 e he k hk).1, (q4 e he k hk).1]
    have hA : (relaxProcessIn env renv computeOrder applyOrder st).mVertexAuxBuffer
        = (relaxProcessIn env renv st.g.mConstellation.springls st.g.mConstellation.springls
            st).mVertexAuxBuffer := by
      apply ext_getD default _ _ (by rw [p3, q3])
      intro i hi
      rw [p3] at hi
      obtain ⟨e, k, he, hk, rfl⟩ := index_in_block ks i hi
      rw [(p4 e he k hk).2, (q4 e he k hk).2]
    have hG : (relaxProcessIn env renv computeOrder applyOrder st).g
        = (relaxProcessIn env renv st.g.mConstellation.springls st.g.mConstellation.springls
            st).g := by
      rw [p1, q1, hV]
    unfold relaxProcess
    cases hx : relaxProcessIn env renv computeOrder applyOrder st with
    | mk gx ax =>
      cases hy : relaxProcessIn env renv st.g.mConstellation.springls
          st.g.mConstellation.springls st with
      | mk gy ay =>
        rw [hx, hy] at hG hA
        dsimp only at hG hA
        rw [hG, hA]

theorem relax_two_phase_witness :
    relaxProcessIn sampleEnv sampleRelaxEnv sampleGrid.mConstellation.springls.reverse
        sampleGrid.mConstellation.springls ⟨sampleGrid, []⟩
      = relaxProcess sampleEnv sampleRelaxEnv ⟨sampleGrid, []⟩ :=
  (relax_two_phase sampleEnv sampleRelaxEnv ⟨sampleGrid, []⟩ sample_WF
    sampleGrid.mConstellation.springls.reverse sampleGrid.mConstellation.springls
    (List.reverse_perm _) (List.Perm.refl _)).2.2.2.2.2

theorem foldl_add_zero {α : Type} (f : α → Vec3s) :
    ∀ (l : List α), (∀ a ∈ l, f a = Vec3s.zero) →
      l.foldl (fun acc a => Vec3s.add acc (f a)) Vec3s.zero = Vec3s.zero := by
  intro l
  induction l with
  | nil => intro _; rfl
  | cons a l ih =>
    intro h
    have h0 : Vec3s.add Vec3s.zero Vec3s.zero = Vec3s.zero := by simp [Vec3s.add, Vec3s.zero]
    rw [List.foldl_cons, h a (List.mem_cons_self _ _), h0]
    exact ih (fun b hb => h b (List.mem_cons_of_mem _ hb))

theorem relaxVertexVelocity_zero (env : Env) (renv : RelaxEnv) (g : SpringLevelSet)
    (s : Springl) (k : Nat) (h : relaxStartVelocity env renv g s k = Vec3s.zero) :
    relaxVertexVelocity env renv g s k = Vec3s.zero := by
  unfold relaxVertexVelocity
  rw [h]
  simp [Vec3s.smul, Vec3s.zero]

theorem relaxMoment_zero (env : Env) (renv : RelaxEnv) (g : SpringLevelSet) (s : Springl)
    (h : ∀ k, k < g.mConstellation.size s → relaxStartVelocity env renv g s k = Vec3s.zero) :
    relaxMoment env renv g s = Vec3s.zero := by
  unfold relaxMoment
  apply foldl_add_zero
    (fun k => Vec3s.cross (relaxVertexVelocity env renv g s k) (relaxTangent env g s k))
  intro k hk
  rw [relaxVertexVelocity_zero env renv g s k (h k (List.mem_range.mp hk))]
  simp [Vec3s.cross, Vec3s.zero]

/-- The staged position of a vertex at distance `L > 1E-6` from the particle
when the neighbours induce no velocity and the rotation about the zero moment
is the identity. -/
theorem relaxTarget_radial (env : Env) (renv : RelaxEnv) (g : SpringLevelSet) (s : Springl)
    (L : ℚ) (hL : 1 / 10 ^ 6 < L)
    (hvel : ∀ k, k < g.mConstellation.size s → relaxStartVelocity env renv g s k = Vec3s.zero)
    (hrot : ∀ v, renv.rotate Vec3s.zero (-(env.length Vec3s.zero)) v = v)
    (k : Nat) (hk : k < g.mConstellation.size s) (hlen : relaxTangentLength env g s k = L) :
    relaxTarget env renv g s k
      = Vec3s.add
          (Vec3s.smul (max (L + 3 / 100 * (1 / 10 - L)) (1 / 1000))
            (Vec3s.smul (1 / L)
              (Vec3s.sub (g.mConstellation.vertex s k) (g.mConstellation.particle s))))
          (g.mConstellation.particle s) := by
  have hlen' : env.length
      (Vec3s.sub (g.mConstellation.vertex s k) (g.mConstellation.particle s)) = L := hlen
  unfold relaxTarget
  dsimp only
  rw [relaxMoment_zero env renv g s hvel, hrot, relaxVertexVelocity_zero env renv g s k (hvel k hk),
    hlen']
  unfold relaxTangent relaxSpringForce
  dsimp only
  rw [hlen, if_pos hL]
  have h0 : Vec3s.dot Vec3s.zero
      (Vec3s.smul (1 / L)
        (Vec3s.sub (g.mConstellation.vertex s k) (g.mConstellation.particle s))) = 0 := by
    simp [Vec3s.dot, Vec3s.zero]
  rw [h0]
  have h1 : L + 0 + RELAX_TIMESTEP * SPRING_CONSTANT * (2 * PARTICLE_RADIUS - L)
      = L + 3 / 100 * (1 / 10 - L) := by
    unfold RELAX_TIMESTEP SPRING_CONSTANT PARTICLE_RADIUS
    ring
  rw [h1]

/-- C22, amended.  Take an element of a well laid out constellation whose
neighbours induce no velocity at any of its vertices, whose particle is the
centroid of its vertices, and whose vertices are all at one distance `L > 1E-6`
from the particle, and let the rotation about the zero moment be the identity.
Then the net moment is zero, one relax pass moves every vertex along its ray
from the particle, to the distance `max (L + 0.03 (0.1 - L)) 0.001`, and the
centroid of the element is unchanged. -/
theorem relax_centroid_equal_distance (env : Env) (renv : RelaxEnv) (st : RelaxState)
    (hWF : st.g.mConstellation.WF) (e : Nat) (he : e < st.g.mConstellation.springls.length)
    (L : ℚ) (hL : 1 / 10 ^ 6 < L)
    (hvel : ∀ k, k < st.g.mConstellation.size (st.g.mConstellation.springls.getD e default) →
      relaxStartVelocity env renv st.g (st.g.mConstellation.springls.getD e default) k
        = Vec3s.zero)
    (hrot : ∀ v, renv.rotate Vec3s.zero (-(env.length Vec3s.zero)) v = v)
    (hp : st.g.mConstellation.particle (st.g.mConstellation.springls.getD e default)
      = st.g.mConstellation.computeCentroid (st.g.mConstellation.springls.getD e default))
    (hlen : ∀ k, k < st.g.mConstellation.size (st.g.mConstellation.springls.getD e default) →
      relaxTangentLength env st.g (st.g.mConstellation.springls.getD e default) k = L) :
    relaxMoment env renv st.g (st.g.mConstellation.springls.getD e default) = Vec3s.zero ∧
    (∀ k, k < st.g.mConstellation.size (st.g.mConstellation.springls.getD e default) →
      (relaxProcess env renv st).g.mConstellation.vertex
          (st.g.mConstellation.springls.getD e default) k
        = Vec3s.add
            (Vec3s.smul (max (L + 3 / 100 * (1 / 10 - L)) (1 / 1000))
              (Vec3s.smul (1 / L)
                (Vec3s.sub
                  (st.g.mConstellation.vertex (st.g.mConstellation.springls.getD e default) k)
                  (st.g.mConstellation.particle
                    (st.g.mConstellation.springls.getD e default)))))
            (st.g.mConstellation.particle (st.g.mConstellation.springls.getD e default))) ∧
    (relaxProcess env renv st).g.mConstellation.computeCentroid
        (st.g.mConstellation.springls.getD e default)
      = st.g.mConstellation.computeCentroid (st.g.mConstellation.springls.getD e default) := by
  obtain ⟨ks, hLay⟩ := hWF
  obtain ⟨p1, -, -, p4⟩ := relaxProcessIn_spec env renv st hLay st.g.mConstellation.springls
    st.g.mConstellation.springls (List.Perm.refl _) (List.Perm.refl _)
  have he' : e < ks.length := by rw [← hLay.springls_length]; exact he
  have hsz := hLay.size_getD he'
  have hoff : (st.g.mConstellation.springls.getD e default).offset = offs ks e := by
    rw [hLay.springl_getD he']
  generalize hsdef : st.g.mConstellation.springls.getD e default = s at *
  have hvert : ∀ k, k < st.g.mConstellation.size s →
      (relaxProcess env renv st).g.mConstellation.vertex s k
        = Vec3s.add
            (Vec3s.smul (max (L + 3 / 100 * (1 / 10 - L)) (1 / 1000))
              (Vec3s.smul (1 / L)
                (Vec3s.sub (st.g.mConstellation.vertex s k) (st.g.mConstellation.particle s))))
            (st.g.mConstellation.particle s) := by
    intro k hk
    have h := (p4 e he' k (by rw [← hsz]; exact hk)).1
    rw [hsdef] at h
    rw [Constellation.vertex, relaxProcess, hoff, h]
    exact relaxTarget_radial env renv st.g s L hL hvel hrot k hk (hlen k hk)
  refine ⟨relaxMoment_zero env renv st.g s hvel, hvert, ?_⟩
  have hF : (relaxProcess env renv st).g.mConstellation.mFaces = st.g.mConstellation.mFaces :=
    congrArg (fun g => g.mConstellation.mFaces) p1
  have hsize : (relaxProcess env renv st).g.mConstellation.size s = st.g.mConstellation.size s := by
    unfold Constellation.size
    rw [hF]
  generalize max (L + 3 / 100 * (1 / 10 - L)) (1 / 1000) = d at hvert
  rw [← hp, Constellation.computeCentroid, hsize]
  rw [Constellation.computeCentroid] at hp
  rcases size_cases st.g.mConstellation s with h3 | h4
  · rw [h3] at hvert hp ⊢
    have hx := congrArg Vec3s.x hp
    have hy := congrArg Vec3s.y hp
    have hz := congrArg Vec3s.z hp
    simp only [List.range_succ, List.range_zero, List.nil_append, List.cons_append,
      List.foldl_cons, List.foldl_nil, Vec3s.add, Vec3s.smul, Vec3s.zero, Vec3s.sub,
      hvert 0 (by norm_num), hvert 1 (by norm_num), hvert 2 (by norm_num)] at hx hy hz ⊢
    rw [Vec3s.mk.injEq]
    refine ⟨?_, ?_, ?_⟩
    · linear_combination (-(d * (1 / L))) * hx
    · linear_combination (-(d * (1 / L))) * hy
    · linear_combination (-(d * (1 / L))) * hz
  · rw [h4] at hvert hp ⊢
    have hx := congrArg Vec3s.x hp
    have hy := congrArg Vec3s.y hp
    have hz := congrArg Vec3s.z hp
    simp only [List.range_succ, List.range_zero, List.nil_append, List.cons_append,
      List.foldl_cons, List.foldl_nil, Vec3s.add, Vec3s.smul, Vec3s.zero, Vec3s.sub,
      hvert 0 (by norm_num), hvert 1 (by norm_num), hvert 2 (by norm_num),
      hvert 3 (by norm_num)] at hx hy hz ⊢
    rw [Vec3s.mk.injEq]
    refine ⟨?_, ?_, ?_⟩
    · linear_combination (-(d * (1 / L))) * hx
    · linear_combination (-(d * (1 / L))) * hy
    · linear_combination (-(d * (1 / L))) * hz
theorem unbalanced_layout : unbalancedTriangle.Layout [3] where
  sizes := by simp
  springls_eq := rfl
  faces_eq := by simp [unbalancedTriangle, layoutFaces, blockFace]
  quads_eq := by simp [unbalancedTriangle, layoutQuads, quadEntries]
  tris_eq := by simp [unbalancedTriangle, layoutTris, triEntries]
  vertexes_len := rfl
  vnormals_len := rfl
  particles_len := rfl
  pnormals_len := rfl
  bound := by simp [INVALID_IDX]

theorem balanced_layout : balancedQuad.Layout [4] where
  sizes := by simp
  springls_eq := rfl
  faces_eq := by simp [balancedQuad, layoutFaces, blockFace]
  quads_eq := by simp [balancedQuad, layoutQuads, quadEntries]
  tris_eq := by simp [balancedQuad, layoutTris, triEntries]
  vertexes_len := rfl
  vnormals_len := rfl
  particles_len := rfl
  pnormals_len := rfl
  bound := by simp [INVALID_IDX]

/-- C22, a counterexample.  A single triangle, alone in space, has its particle
at the centroid of its vertices, the origin; two vertices are at distance `1/20`
and one at distance `2/25`.  No neighbour induces a velocity, the net moment is
zero and no rotation is applied, yet one relax pass moves the centroid to
`(0, 3/5000, 0)`: the spring term pulls every vertex towards the distance
`1/10` from the particle, the near vertices by more than the far one. -/
theorem relax_centroid_moves :
    unbalancedTriangle.WF ∧
    unbalancedTriangle.size ⟨0, 0⟩ = 3 ∧
    unbalancedTriangle.particle ⟨0, 0⟩ = unbalancedTriangle.computeCentroid ⟨0, 0⟩ ∧
    (∀ k, relaxStartVelocity unbalancedEnv sampleRelaxEnv unbalancedGrid ⟨0, 0⟩ k
      = Vec3s.zero) ∧
    relaxMoment unbalancedEnv sampleRelaxEnv unbalancedGrid ⟨0, 0⟩ = Vec3s.zero ∧
    unbalancedTriangle.computeCentroid ⟨0, 0⟩ = ⟨0, 0, 0⟩ ∧
    (relaxProcess unbalancedEnv sampleRelaxEnv ⟨unbalancedGrid, []⟩).g.mConstellation.mVertexes
      = [⟨309 / 10000, 412 / 10000, 0⟩, ⟨-309 / 10000, 412 / 10000, 0⟩,
          ⟨0, -806 / 10000, 0⟩] ∧
    (relaxProcess unbalancedEnv sampleRelaxEnv
        ⟨unbalancedGrid, []⟩).g.mConstellation.computeCentroid ⟨0, 0⟩
      = ⟨0, 3 / 5000, 0⟩ := by
  have hvel : ∀ k, relaxStartVelocity unbalancedEnv sampleRelaxEnv unbalancedGrid ⟨0, 0⟩ k
      = Vec3s.zero := by
    intro k
    have hmap : unbalancedGrid.getNearestNeighbors 0 k = [] := by
      unfold SpringLevelSet.getNearestNeighbors
      rcases k with _ | _ | _ | k <;>
        simp [unbalancedGrid, unbalancedTriangle, List.getD]
    unfold relaxStartVelocity
    dsimp only
    rw [hmap]
    rfl
  have hsz : unbalancedGrid.mConstellation.size ⟨0, 0⟩ = 3 := by
    simp [Constellation.size, unbalancedGrid, unbalancedTriangle]
  have hL0 : relaxTangentLength unbalancedEnv unbalancedGrid ⟨0, 0⟩ 0 = 1 / 20 := by
    simp [relaxTangentLength, Env.length, unbalancedEnv, unbalancedGrid, unbalancedTriangle,
      Constellation.vertex, Constellation.particle, Vec3s.sub, Vec3s.lengthSqr]
    norm_num
  have hL1 : relaxTangentLength unbalancedEnv unbalancedGrid ⟨0, 0⟩ 1 = 1 / 20 := by
    simp [relaxTangentLength, Env.length, unbalancedEnv, unbalancedGrid, unbalancedTriangle,
      Constellation.vertex, Constellation.particle, Vec3s.sub, Vec3s.lengthSqr]
    norm_num
  have hL2 : relaxTangentLength unbalancedEnv unbalancedGrid ⟨0, 0⟩ 2 = 2 / 25 := by
    simp [relaxTangentLength, Env.length, unbalancedEnv, unbalancedGrid, unbalancedTriangle,
      Constellation.vertex, Constellation.particle, Vec3s.sub, Vec3s.lengthSqr]
    norm_num
  have ht0 := relaxTarget_radial unbalancedEnv sampleRelaxEnv unbalancedGrid ⟨0, 0⟩ (1 / 20)
    (by norm_num) (fun k _ => hvel k) (fun _ => rfl) 0 (by rw [hsz]; norm_num) hL0
  have ht1 := relaxTarget_radial unbalancedEnv sampleRelaxEnv unbalancedGrid ⟨0, 0⟩ (1 / 20)
    (by norm_num) (fun k _ => hvel k) (fun _ => rfl) 1 (by rw [hsz]; norm_num) hL1
  have ht2 := relaxTarget_radial unbalancedEnv sampleRelaxEnv unbalancedGrid ⟨0, 0⟩ (2 / 25)
    (by norm_num) (fun k _ => hvel k) (fun _ => rfl) 2 (by rw [hsz]; norm_num) hL2
  obtain ⟨p1, p2, -, p4⟩ := relaxProcessIn_spec unbalancedEnv sampleRelaxEnv
    ⟨unbalancedGrid, []⟩ unbalanced_layout unbalancedTriangle.springls
    unbalancedTriangle.springls (List.Perm.refl _) (List.Perm.refl _)
  have hV : (relaxProcess unbalancedEnv sampleRelaxEnv
      ⟨unbalancedGrid, []⟩).g.mConstellation.mVertexes
      = [⟨309 / 10000, 412 / 10000, 0⟩, ⟨-309 / 10000, 412 / 10000, 0⟩,
          ⟨0, -806 / 10000, 0⟩] := by
    have p3 : (relaxProcess unbalancedEnv sampleRelaxEnv
        ⟨unbalancedGrid, []⟩).g.mConstellation.mVertexes.length = 3 := p2
    apply ext_getD default
    · exact p3
    · intro i hi
      have hi3 : i < 3 := by omega
      have h0 := (p4 0 (by norm_num) 0 (by norm_num)).1
      have h1 := (p4 0 (by norm_num) 1 (by norm_num)).1
      have h2 := (p4 0 (by norm_num) 2 (by norm_num)).1
      interval_cases i
      · refine Eq.trans h0 (Eq.trans ht0 ?_)
        simp [unbalancedGrid, unbalancedTriangle, Constellation.vertex, Constellation.particle,
          Vec3s.sub, Vec3s.smul, Vec3s.add]
        norm_num
      · refine Eq.trans h1 (Eq.trans ht1 ?_)
        simp [unbalancedGrid, unbalancedTriangle, Constellation.vertex, Constellation.particle,
          Vec3s.sub, Vec3s.smul, Vec3s.add]
        norm_num
      · refine Eq.trans h2 (Eq.trans ht2 ?_)
        simp [unbalancedGrid, unbalancedTriangle, Constellation.vertex, Constellation.particle,
          Vec3s.sub, Vec3s.smul, Vec3s.add]
        norm_num
  refine ⟨⟨_, unbalanced_layout⟩, by simp [Constellation.size, unbalancedTriangle], ?_, hvel,
    relaxMoment_zero _ _ _ _ (fun k _ => hvel k), ?_, hV, ?_⟩
  · simp [Constellation.particle, Constellation.computeCentroid, Constellation.size,
      Constellation.vertex, unbalancedTriangle, List.range_succ, Vec3s.add, Vec3s.smul,
      Vec3s.zero]
    norm_num
  · simp [Constellation.computeCentroid, Constellation.size,
      Constellation.vertex, unbalancedTriangle, List.range_succ, Vec3s.add, Vec3s.smul,
      Vec3s.zero]
    norm_num
  · have hF : (relaxProcess unbalancedEnv sampleRelaxEnv
        ⟨unbalancedGrid, []⟩).g.mConstellation.mFaces = [⟨0, 1, 2, INVALID_IDX⟩] := by
      exact congrArg (fun g => g.mConstellation.mFaces) p1
    simp [Constellation.computeCentroid, Constellation.size, Constellation.vertex, hF, hV,
      List.range_succ, Vec3s.add, Vec3s.smul, Vec3s.zero]
    norm_num
theorem relax_centroid_equal_distance_witness :
    (relaxProcess unbalancedEnv sampleRelaxEnv ⟨balancedGrid, []⟩).g.mConstellation.computeCentroid
        ⟨0, 0⟩
      = balancedQuad.computeCentroid ⟨0, 0⟩ :=
  (relax_centroid_equal_distance unbalancedEnv sampleRelaxEnv ⟨balancedGrid, []⟩
    ⟨_, balanced_layout⟩ 0 (by simp [balancedGrid, balancedQuad]) (1 / 20) (by norm_num)
    (by
      intro k _
      have hmap : balancedGrid.getNearestNeighbors 0 k = [] := by
        unfold SpringLevelSet.getNearestNeighbors
        rcases k with _ | _ | _ | _ | k <;> simp [balancedGrid, balancedQuad, List.getD]
      show relaxStartVelocity unbalancedEnv sampleRelaxEnv balancedGrid ⟨0, 0⟩ k = Vec3s.zero
      unfold relaxStartVelocity
      dsimp only
      rw [hmap]
      rfl)
    (fun _ => rfl)
    (by
      simp [Constellation.particle, Constellation.computeCentroid, Constellation.size,
        Constellation.vertex, balancedGrid, balancedQuad, List.range_succ, Vec3s.add, Vec3s.smul,
        Vec3s.zero, INVALID_IDX]
      norm_num)
    (by
      intro k hk
      have hsz : balancedGrid.mConstellation.size ⟨0, 0⟩ = 4 := by
        simp [Constellation.size, balancedGrid, balancedQuad, INVALID_IDX]
      have hk4 : k < 4 := by
        have : k < balancedGrid.mConstellation.size ⟨0, 0⟩ := hk
        omega
      show relaxTangentLength unbalancedEnv balancedGrid ⟨0, 0⟩ k = 1 / 20
      interval_cases k <;>
        simp [relaxTangentLength, Env.length, unbalancedEnv, balancedGrid, balancedQuad,
          Constellation.vertex, Constellation.particle, Vec3s.sub, Vec3s.lengthSqr] <;>
        norm_num)).2.2

theorem neighborEntries_id_lt (env : Env) (c : Constellation) (s : Springl) (k : Nat) :
    ∀ x ∈ neighborEntries env c s k, x.springlId < c.getNumSpringls := by
  intro x hx
  unfold neighborEntries at hx
  have h1 := (List.perm_insertionSort SpringlNeighbor.le _).mem_iff.mp
    ((List.take_sublist _ _).subset hx)
  obtain ⟨m1, -, -⟩ := (tmpRange_mem env c (c.vertex s k) _).1 x h1
  rw [(List.perm_insertionSort _ _).mem_iff] at m1
  simp only [neighborCandidates, List.mem_filter, Bool.and_eq_true, decide_eq_true_eq] at m1
  exact m1.2.1

theorem innerSum_spec (g : SpringLevelSet) {ks : List Nat} (hL : g.mConstellation.Layout ks)
    (hpv : g.mConstellation.mParticleVelocity.length = ks.length) :
    ∀ (l : List SpringlNeighbor) (acc : Vec3s × ℚ), (∀ ci ∈ l, ci.springlId < ks.length) →
      l.foldlM (addNeighborVelocity g) acc
        = some
            ((((l.map (fun ci =>
                  g.mConstellation.mParticleVelocity.getD ci.springlId default)).filter
                (fun v => decide (v.lengthSqr > 0))).foldl Vec3s.add acc.1),
              acc.2 +
                (((l.map (fun ci =>
                  g.mConstellation.mParticleVelocity.getD ci.springlId default)).filter
                (fun v => decide (v.lengthSqr > 0))).length : ℚ)) := by
  intro l
  induction l with
  | nil => intro acc _; simp
  | cons ci l ih =>
    intro acc h
    have hci := h ci (List.mem_cons_self _ _)
    have hread : g.mConstellation.particleVelocity
        (g.mConstellation.springls.getD ci.springlId default)
        = some (g.mConstellation.mParticleVelocity.getD ci.springlId default) := by
      unfold Constellation.particleVelocity
      rw [hL.springl_getD hci]
      dsimp only
      rw [List.getD_eq_getElem?_getD, List.getElem?_eq_getElem (by rw [hpv]; exact hci)]
      rfl
    rw [List.foldlM_cons]
    unfold addNeighborVelocity
    dsimp only
    rw [hread]
    dsimp only
    by_cases hz : (g.mConstellation.mParticleVelocity.getD ci.springlId default).lengthSqr > 0
    · rw [if_pos hz]
      show l.foldlM (addNeighborVelocity g) _ = _
      rw [ih _ (fun x hx => h x (List.mem_cons_of_mem _ hx))]
      simp only [List.map_cons, List.filter_cons, hz, decide_True, if_true, List.foldl_cons,
        List.length_cons]
      congr 2
      push_cast
      ring
    · rw [if_neg hz]
      show l.foldlM (addNeighborVelocity g) _ = _
      rw [ih _ (fun x hx => h x (List.mem_cons_of_mem _ hx))]
      simp only [List.map_cons, List.filter_cons, hz, decide_False]
      rfl

theorem neighborVelocitySum_spec (g : SpringLevelSet) {ks : List Nat}
    (hL : g.mConstellation.Layout ks)
    (hpv : g.mConstellation.mParticleVelocity.length = ks.length)
    (hnbr : ∀ e, e < ks.length → ∀ k, k < ks.getD e 0 →
      ∀ ci ∈ g.getNearestNeighbors e k, ci.springlId < ks.length)
    (e : Nat) (he : e < ks.length) :
    neighborVelocitySum g (g.mConstellation.springls.getD e default)
      = some
          ((nonZeroNeighborVelocities g (g.mConstellation.springls.getD e default)).foldl
              Vec3s.add Vec3s.zero,
            ((nonZeroNeighborVelocities g (g.mConstellation.springls.getD e default)).length
              : ℚ)) := by
  have hid : (g.mConstellation.springls.getD e default).id = e := by
    rw [hL.springl_getD he]
  have hsz := hL.size_getD he
  unfold neighborVelocitySum nonZeroNeighborVelocities fillNeighbors
  rw [hid, hsz]
  have key : ∀ (K : Nat), K ≤ ks.getD e 0 → ∀ acc : Vec3s × ℚ,
      (List.range K).foldlM
          (fun acc k => (g.getNearestNeighbors e k).foldlM (addNeighborVelocity g) acc) acc
        = some
            ((((((List.range K).flatMap (fun k => g.getNearestNeighbors e k)).map (fun ci =>
                  g.mConstellation.mParticleVelocity.getD ci.springlId default)).filter
                (fun v => decide (v.lengthSqr > 0))).foldl Vec3s.add acc.1),
              acc.2 +
                (((((List.range K).flatMap (fun k => g.getNearestNeighbors e k)).map (fun ci =>
                  g.mConstellation.mParticleVelocity.getD ci.springlId default)).filter
                (fun v => decide (v.lengthSqr > 0))).length : ℚ)) := by
    intro K
    induction K with
    | zero => intro _ acc; simp
    | succ K ih =>
      intro hK acc
      rw [List.range_succ, List.foldlM_append, ih (by omega) acc]
      simp only [List.foldlM_cons, List.foldlM_nil, Option.bind_eq_bind, Option.some_bind, bind_pure,
        Option.bind_some]
      rw [innerSum_spec g hL hpv _ _ (hnbr e he K (by omega))]
      simp only [List.flatMap_append, List.flatMap_cons, List.flatMap_nil, List.append_nil,
        List.map_append, List.filter_append, List.foldl_append, List.length_append]
      congr 2
      push_cast
      ring
  rw [key _ (le_refl _)]
  simp
theorem assignRange_spec {α : Type} (base : Nat) (x : α) :
    ∀ (K : Nat) (A : List α), base + K ≤ A.length →
      (List.range K).foldlM (fun vv n => assignAt vv (base + n) x) A
        = some ((List.range K).foldl (fun a k => a.set (base + k) x) A) := by
  intro K
  induction K with
  | zero => intro A _; rfl
  | succ K ih =>
    intro A h
    rw [List.range_succ, List.foldlM_append, ih A (by omega), List.foldl_append]
    simp only [List.foldlM_cons, List.foldlM_nil, Option.bind_eq_bind, Option.some_bind,
      bind_pure, Option.bind_some, List.foldl_cons, List.foldl_nil]
    unfold assignAt
    rw [if_pos]
    rw [(setRange_spec base (fun _ => x) x K A).1]
    omega

theorem FillReady.withVelocities_ready {g : SpringLevelSet} {ks : List Nat} (hR : FillReady g ks)
    (pv vv : List Vec3s) (h1 : pv.length = ks.length) (h2 : vv.length = ks.sum) :
    FillReady (g.withVelocities pv vv) ks where
  layout :=
    { sizes := hR.layout.sizes
      springls_eq := hR.layout.springls_eq
      faces_eq := hR.layout.faces_eq
      quads_eq := hR.layout.quads_eq
      tris_eq := hR.layout.tris_eq
      vertexes_len := hR.layout.vertexes_len
      vnormals_len := hR.layout.vnormals_len
      particles_len := hR.layout.particles_len
      pnormals_len := hR.layout.pnormals_len
      bound := hR.layout.bound }
  pv_len := h1
  vv_len := h2
  fill_lt := hR.fill_lt
  nbr_lt := hR.nbr_lt

/-- What the body of the loop over the fill list does for the element `fid`. -/
theorem fillElement_spec (g : SpringLevelSet) {ks : List Nat} (hR : FillReady g ks) (u fid : Nat)
    (hfid : fid < ks.length) :
    (nonZeroNeighborVelocities g (g.mConstellation.springls.getD fid default) = [] →
      fillElement (g, u) fid = some (g, u + 1)) ∧
    (nonZeroNeighborVelocities g (g.mConstellation.springls.getD fid default) ≠ [] →
      fillElement (g, u) fid
        = some
            (g.withVelocities
              (g.mConstellation.mParticleVelocity.set fid
                (mean (nonZeroNeighborVelocities g (g.mConstellation.springls.getD fid default))))
              ((List.range (ks.getD fid 0)).foldl
                (fun a k =>
                  a.set (offs ks fid + k)
                    (mean
                      (nonZeroNeighborVelocities g
                        (g.mConstellation.springls.getD fid default))))
                g.mConstellation.mVertexVelocity),
              u)) := by
  have hsum := neighborVelocitySum_spec g hR.layout hR.pv_len hR.nbr_lt fid hfid
  have hsz := hR.layout.size_getD hfid
  have hoff : (g.mConstellation.springls.getD fid default).offset = offs ks fid := by
    rw [hR.layout.springl_getD hfid]
  constructor
  · intro hnz
    unfold fillElement
    dsimp only
    rw [hsum]
    dsimp only
    rw [hnz, if_neg (by simp)]
  · intro hnz
    generalize nonZeroNeighborVelocities g (g.mConstellation.springls.getD fid default) = nz
      at hsum hnz ⊢
    have hpos : ((nz.length : ℚ)) > 0 := by
      have : 0 < nz.length := List.length_pos.mpr hnz
      exact_mod_cast this
    unfold fillElement
    dsimp only
    rw [hsum]
    dsimp only
    rw [if_pos hpos, hsz, hoff]
    unfold assignAt
    rw [if_pos (by rw [hR.pv_len]; exact hfid)]
    dsimp only
    have := assignRange_spec (offs ks fid) (Vec3s.smul (1 / (nz.length : ℚ))
      (nz.foldl Vec3s.add Vec3s.zero)) (ks.getD fid 0) g.mConstellation.mVertexVelocity
      (by rw [hR.vv_len]; exact offs_add_le ks fid hfid)
    unfold assignAt at this
    rw [this]
    rfl

/-- The elements `l` of the fill list are handled in order; every state on the
way is ready and differs from the first in the velocity arrays alone. -/
theorem fillFold_ready {ks : List Nat} :
    ∀ (l : List Nat) (g : SpringLevelSet) (u : Nat), FillReady g ks →
      (∀ fid ∈ l, fid < ks.length) →
      ∃ r, l.foldlM fillElement (g, u) = some r ∧ FillReady r.1 ks ∧
        r.1 = g.withVelocities r.1.mConstellation.mParticleVelocity
          r.1.mConstellation.mVertexVelocity := by
  intro l
  induction l with
  | nil => intro g u hR _; exact ⟨(g, u), rfl, hR, rfl⟩
  | cons fid l ih =>
    intro g u hR hl
    have hfid := hl fid (List.mem_cons_self _ _)
    obtain ⟨s1, s2⟩ := fillElement_spec g hR u fid hfid
    rw [List.foldlM_cons]
    by_cases hnz : nonZeroNeighborVelocities g (g.mConstellation.springls.getD fid default) = []
    · rw [s1 hnz]
      exact ih g (u + 1) hR (fun x hx => hl x (List.mem_cons_of_mem _ hx))
    · rw [s2 hnz]
      have hR1 := hR.withVelocities_ready
        (g.mConstellation.mParticleVelocity.set fid
          (mean (nonZeroNeighborVelocities g (g.mConstellation.springls.getD fid default))))
        ((List.range (ks.getD fid 0)).foldl
          (fun a k =>
            a.set (offs ks fid + k)
              (mean (nonZeroNeighborVelocities g (g.mConstellation.springls.getD fid default))))
          g.mConstellation.mVertexVelocity)
        (by rw [List.length_set]; exact hR.pv_len)
        (by rw [(setRange_spec _ (fun _ => _) default _ _).1]; exact hR.vv_len)
      obtain ⟨r, r1, r2, r3⟩ := ih _ u hR1 (fun x hx => hl x (List.mem_cons_of_mem _ hx))
      refine ⟨r, r1, r2, ?_⟩
      rw [r3]
      rfl
/-- An element that has no neighbour with a non-zero velocity whenever the loop
reaches it keeps the velocities it had. -/
theorem fillFold_unfilled {ks : List Nat} (e : Nat) (he : e < ks.length) :
    ∀ (l : List Nat) (g : SpringLevelSet) (u : Nat), FillReady g ks →
      (∀ fid ∈ l, fid < ks.length) →
      (∀ pre post st, l = pre ++ e :: post → pre.foldlM fillElement (g, u) = some st →
        nonZeroNeighborVelocities st.1 (st.1.mConstellation.springls.getD e default) = []) →
      ∀ r, l.foldlM fillElement (g, u) = some r →
        r.1.mConstellation.mParticleVelocity.getD e default
          = g.mConstellation.mParticleVelocity.getD e default ∧
        ∀ n, n < ks.getD e 0 →
          r.1.mConstellation.mVertexVelocity.getD (offs ks e + n) default
            = g.mConstellation.mVertexVelocity.getD (offs ks e + n) default := by
  intro l
  induction l with
  | nil =>
    intro g u _ _ _ r hr
    have : r = (g, u) := by
      have h : some (g, u) = some r := hr
      exact (Option.some.inj h).symm
    rw [this]
    exact ⟨rfl, fun _ _ => rfl⟩
  | cons fid l ih =>
    intro g u hR hl hyp r hr
    have hfid := hl fid (List.mem_cons_self _ _)
    have hl' : ∀ x ∈ l, x < ks.length := fun x hx => hl x (List.mem_cons_of_mem _ hx)
    obtain ⟨s1, s2⟩ := fillElement_spec g hR u fid hfid
    rw [List.foldlM_cons] at hr
    by_cases hnz : nonZeroNeighborVelocities g (g.mConstellation.springls.getD fid default) = []
    · rw [s1 hnz] at hr
      refine ih g (u + 1) hR hl' (fun pre post st hsplit hst => ?_) r hr
      apply hyp (fid :: pre) post st (by rw [hsplit]; rfl)
      rw [List.foldlM_cons, s1 hnz]
      exact hst
    · have hne : fid ≠ e := by
        intro h
        apply hnz
        rw [h]
        exact hyp [] l (g, u) (by rw [h]; rfl) rfl
      rw [s2 hnz] at hr
      have hR1 := hR.withVelocities_ready
        (g.mConstellation.mParticleVelocity.set fid
          (mean (nonZeroNeighborVelocities g (g.mConstellation.springls.getD fid default))))
        ((List.range (ks.getD fid 0)).foldl
          (fun a k =>
            a.set (offs ks fid + k)
              (mean (nonZeroNeighborVelocities g (g.mConstellation.springls.getD fid default))))
          g.mConstellation.mVertexVelocity)
        (by rw [List.length_set]; exact hR.pv_len)
        (by rw [(setRange_spec _ (fun _ => _) default _ _).1]; exact hR.vv_len)
      obtain ⟨i1, i2⟩ := ih _ u hR1 hl' (fun pre post st hsplit hst => by
        apply hyp (fid :: pre) post st (by rw [hsplit]; rfl)
        rw [List.foldlM_cons, s2 hnz]
        exact hst) r hr
      constructor
      · rw [i1]
        exact getD_set_ne _ _ _ hne
      · intro n hn
        rw [i2 n hn]
        show ((List.range (ks.getD fid 0)).foldl _ g.mConstellation.mVertexVelocity).getD _ _ = _
        rw [(setRange_spec (offs ks fid) (fun _ => _) default _ _).2, if_neg]
        intro hc
        exact hne ((block_index_iff ks he hfid hn).mp ⟨hc.1, hc.2.1⟩)

/-- The pass from a ready state returns, and the state it returns is ready,
with the fill list and everything but the velocity arrays unchanged. -/
theorem fillPass_ready {ks : List Nat} (g : SpringLevelSet) (hR : FillReady g ks) :
    ∃ r, fillPass g = some r ∧ FillReady r.1 ks ∧ r.1.fillList = g.fillList ∧
      r.1 = g.withVelocities r.1.mConstellation.mParticleVelocity
        r.1.mConstellation.mVertexVelocity := by
  obtain ⟨r, r1, r2, r3⟩ := fillFold_ready g.fillList g 0 hR hR.fill_lt
  refine ⟨r, r1, r2, ?_, r3⟩
  rw [r3]
  rfl

/-- The loop over the cycles from a ready state: at most `n` passes run, every
pass but the last leaves an element unfilled, and the last leaves none unless
it is pass `n`. -/
theorem fillCycles_runs {ks : List Nat} :
    ∀ (n : Nat) (g : SpringLevelSet), FillReady g ks →
      ∃ (earlier : List FillPassRun) (last : FillPassRun),
        FillPasses g (earlier ++ [last]) ∧
        earlier.length + 1 ≤ n + 1 ∧
        (∀ x ∈ earlier, x.unfilledCount ≠ 0) ∧
        (earlier.length + 1 < n + 1 → last.unfilledCount = 0) ∧
        fillCycles (n + 1) g = some last.after ∧
        (∀ x ∈ earlier ++ [last], FillReady x.before ks ∧ x.before.fillList = g.fillList) ∧
        FillReady last.after ks ∧ last.after.fillList = g.fillList := by
  intro n
  induction n with
  | zero =>
    intro g hR
    obtain ⟨r, r1, r2, r3, -⟩ := fillPass_ready g hR
    refine ⟨[], ⟨g, r.1, r.2⟩, ⟨rfl, r1, trivial⟩, le_refl _, fun x hx => ?_, fun h => ?_, ?_,
      fun x hx => ?_, r2, r3⟩
    · exact absurd hx (List.not_mem_nil _)
    · exact absurd h (by simp)
    · unfold fillCycles
      rw [r1]
      dsimp only
      split
      · rfl
      · rfl
    · have : x = ⟨g, r.1, r.2⟩ := by simpa using hx
      rw [this]
      exact ⟨hR, rfl⟩
  | succ n ih =>
    intro g hR
    obtain ⟨r, r1, r2, r3, -⟩ := fillPass_ready g hR
    by_cases hu : r.2 = 0
    · refine ⟨[], ⟨g, r.1, r.2⟩, ⟨rfl, r1, trivial⟩, by simp, fun x hx => ?_, fun _ => hu, ?_,
        fun x hx => ?_, r2, r3⟩
      · exact absurd hx (List.not_mem_nil _)
      · unfold fillCycles
        rw [r1]
        dsimp only
        rw [if_pos hu]
      · have : x = ⟨g, r.1, r.2⟩ := by simpa using hx
        rw [this]
        exact ⟨hR, rfl⟩
    · obtain ⟨earlier, last, c1, c2, c3, c4, c5, c6, c7, c8⟩ := ih r.1 r2
      refine ⟨⟨g, r.1, r.2⟩ :: earlier, last, ⟨rfl, r1, c1⟩, by simp; omega, fun x hx => ?_,
        fun h => c4 (by simp at h; omega), ?_, fun x hx => ?_, c7, by rw [c8, r3]⟩
      · rcases List.mem_cons.mp hx with h | h
        · rw [h]; exact hu
        · exact c3 x h
      · rw [fillCycles, r1]
        dsimp only
        rw [if_neg hu]
        exact c5
      · rcases List.mem_cons.mp hx with h | h
        · rw [h]; exact ⟨hR, rfl⟩
        · obtain ⟨a, b⟩ := c6 x h
          exact ⟨a, by rw [b, r3]⟩

/-- Along consecutive passes, an element that no pass fills keeps the
velocities it had before the first pass. -/
theorem fillPasses_unfilled {ks : List Nat} (e : Nat) (he : e < ks.length) :
    ∀ (runs : List FillPassRun) (g : SpringLevelSet), FillReady g ks → FillPasses g runs →
      (∀ x ∈ runs, UnfilledInPass x.before e) →
      ∀ x ∈ runs,
        x.after.mConstellation.mParticleVelocity.getD e default
          = g.mConstellation.mParticleVelocity.getD e default ∧
        ∀ n, n < ks.getD e 0 →
          x.after.mConstellation.mVertexVelocity.getD (offs ks e + n) default
            = g.mConstellation.mVertexVelocity.getD (offs ks e + n) default := by
  intro runs
  induction runs with
  | nil => intro g _ _ _ x hx; exact absurd hx (List.not_mem_nil _)
  | cons y runs ih =>
    intro g hR hP hU x hx
    obtain ⟨hb, hpass, hrest⟩ := hP
    obtain ⟨r, r1, r2, -, -⟩ := fillPass_ready g hR
    have hr : r = (y.after, y.unfilledCount) := by
      rw [r1] at hpass
      exact Option.some.inj hpass
    have hRy : FillReady y.after ks := by
      have := r2
      rw [hr] at this
      exact this
    have hy := fillFold_unfilled e he g.fillList g 0 hR hR.fill_lt
      (fun pre post st hsplit hst => by
        have := hU y (List.mem_cons_self _ _)
        rw [hb] at this
        exact this pre post st hsplit hst)
      (y.after, y.unfilledCount) hpass
    rcases List.mem_cons.mp hx with h | h
    · rw [h]
      exact hy
    · obtain ⟨i1, i2⟩ := ih y.after hRy hrest (fun z hz => hU z (List.mem_cons_of_mem _ hz)) x h
      exact ⟨by rw [i1]; exact hy.1, fun n hn => by rw [i2 n hn]; exact hy.2 n hn⟩
theorem updateNearestNeighbors_ready (env : Env) (g : SpringLevelSet) {ks : List Nat}
    (hL : g.mConstellation.Layout ks)
    (hpv : g.mConstellation.mParticleVelocity.length = ks.length)
    (hvv : g.mConstellation.mVertexVelocity.length = ks.sum)
    (hfill : ∀ fid ∈ g.fillList, fid < ks.length) :
    FillReady (g.updateNearestNeighbors env) ks where
  layout := hL
  pv_len := hpv
  vv_len := hvv
  fill_lt := hfill
  nbr_lt := by
    intro e he k hk ci hci
    rw [updateNearestNeighbors_entries env g hL he hk] at hci
    have := neighborEntries_id_lt env g.mConstellation _ k ci hci
    rw [Constellation.getNumSpringls, hL.springls_length] at this
    exact this

theorem Constellation.Layout.with_optional {c : Constellation} {ks : List Nat} (hL : c.Layout ks)
    (pv vv : List Vec3s) (lab : List Nat) :
    Constellation.Layout
      { c with mParticleVelocity := pv, mVertexVelocity := vv, mParticleLabel := lab } ks where
  sizes := hL.sizes
  springls_eq := hL.springls_eq
  faces_eq := hL.faces_eq
  quads_eq := hL.quads_eq
  tris_eq := hL.tris_eq
  vertexes_len := hL.vertexes_len
  vnormals_len := hL.vnormals_len
  particles_len := hL.particles_len
  pnormals_len := hL.pnormals_len
  bound := hL.bound

theorem sample_layout : sampleConstellation.Layout [3, 4] := by
  have h := create_layout sampleEnv emptyConstellation sampleMesh sampleMesh_consistent
    (by simp [sampleMesh, INVALID_IDX])
  have hks : sampleMesh.mFaces.map faceSize = [3, 4] := by
    simp [sampleMesh, faceSize, INVALID_IDX]
  rw [hks] at h
  exact h

/-- The write to the vertex velocity array in `fillWithNearestNeighbors` is not
guarded: with an aligned particle velocity array and no vertex velocity array,
the call has no defined result as soon as the first element of the fill list
has a neighbour entry with a non-zero particle velocity. -/
theorem fill_unguarded (env : Env) (g : SpringLevelSet) {ks : List Nat}
    (hL : g.mConstellation.Layout ks)
    (hpv : g.mConstellation.mParticleVelocity.length = ks.length)
    (hvv : g.mConstellation.mVertexVelocity = []) (fid : Nat) (rest : List Nat)
    (hfl : g.fillList = fid :: rest) (hfid : fid < ks.length)
    (hnz : nonZeroNeighborVelocities (g.updateNearestNeighbors env)
      (g.mConstellation.springls.getD fid default) ≠ []) :
    g.fillWithNearestNeighbors env = none := by
  have hnbr : ∀ e, e < ks.length → ∀ k, k < ks.getD e 0 →
      ∀ ci ∈ (g.updateNearestNeighbors env).getNearestNeighbors e k,
        ci.springlId < ks.length := by
    intro e he k hk ci hci
    rw [updateNearestNeighbors_entries env g hL he hk] at hci
    have := neighborEntries_id_lt env g.mConstellation _ k ci hci
    rw [Constellation.getNumSpringls, hL.springls_length] at this
    exact this
  have hsum := neighborVelocitySum_spec (g.updateNearestNeighbors env) hL hpv hnbr fid hfid
  have hsz : g.mConstellation.size (g.mConstellation.springls.getD fid default)
      = ks.getD fid 0 := hL.size_getD hfid
  have hK : 0 < ks.getD fid 0 := by
    have hmem : ks.getD fid 0 ∈ ks := by
      rw [List.getD_eq_getElem _ _ hfid]
      exact List.getElem_mem _
    rcases hL.sizes _ hmem with h | h <;> omega
  have hstep : ∀ u, fillElement (g.updateNearestNeighbors env, u) fid = none := by
    intro u
    unfold fillElement
    dsimp only
    have e1 : (g.updateNearestNeighbors env).mConstellation = g.mConstellation := rfl
    rw [e1] at hsum ⊢
    rw [hsum]
    dsimp only
    generalize nonZeroNeighborVelocities (g.updateNearestNeighbors env)
      (g.mConstellation.springls.getD fid default) = nz at hnz ⊢
    have hpos : ((nz.length : ℚ)) > 0 := by
      have : 0 < nz.length := List.length_pos.mpr hnz
      exact_mod_cast this
    rw [if_pos hpos, hsz, hvv]
    unfold assignAt
    rw [if_pos (by rw [hpv]; exact hfid)]
    dsimp only
    obtain ⟨K, hKeq⟩ : ∃ K, ks.getD fid 0 = K + 1 := ⟨ks.getD fid 0 - 1, by omega⟩
    rw [hKeq, List.range_succ_eq_map, List.foldlM_cons]
    simp
  have hpass : fillPass (g.updateNearestNeighbors env) = none := by
    unfold fillPass
    have e2 : (g.updateNearestNeighbors env).fillList = g.fillList := rfl
    rw [e2, hfl, List.foldlM_cons, hstep 0]
    rfl
  unfold SpringLevelSet.fillWithNearestNeighbors
  rw [if_pos (by rw [hfl]; simp), fillCycles, hpass]

theorem sampleUnguarded_neighbors :
    (sampleUnguardedGrid.updateNearestNeighbors stencilEnv).getNearestNeighbors 0 2
      = [⟨1, 3, 0⟩] := by
  have hL : sampleUnguardedGrid.mConstellation.Layout [3, 4] :=
    sample_layout.with_optional _ _ _
  rw [updateNearestNeighbors_entries stencilEnv sampleUnguardedGrid hL
    (by decide : 0 < [3, 4].length) (by decide : 2 < [3, 4].getD 0 0)]
  have h1 : sampleUnguardedGrid.mConstellation
      = { sampleConstellation with mParticleVelocity := [⟨0, 0, 0⟩, ⟨1, 0, 0⟩] } := rfl
  rw [h1, sampleConstellation_eq]
  simp [neighborEntries, neighborCandidates, tmpRange, bestNeighbor, stencilEnv, sampleEnv,
    Constellation.getNumSpringls, Constellation.size, Constellation.vertex,
    Constellation.particle, Constellation.distanceToEdgeSqr, INVALID_IDX,
    NEAREST_NEIGHBOR_RANGE, MAX_NEAREST_NEIGHBORS, List.range_succ, List.insertionSort,
    List.orderedInsert]
  norm_num

/-- C27, the code at a constellation with a particle velocity array and no
vertex velocity array.  Element 0, at rest, is on the fill list, and the rebuilt
neighbour list of its local vertex 2 names element 1, which moves.  The call
assigns to `mVertexVelocity[offset + n]` without looking at the size of the
array, so it has no defined result: an index is out of range. -/
theorem fill_nearest_neighbors_unguarded_write :
    sampleUnguardedGrid.mConstellation.mParticleVelocity = [⟨0, 0, 0⟩, ⟨1, 0, 0⟩] ∧
    sampleUnguardedGrid.mConstellation.mVertexVelocity = [] ∧
    sampleUnguardedGrid.fillList = [0] ∧
    (sampleUnguardedGrid.updateNearestNeighbors stencilEnv).getNearestNeighbors 0 2
      = [⟨1, 3, 0⟩] ∧
    assignAt sampleUnguardedGrid.mConstellation.mVertexVelocity 0 (⟨1, 0, 0⟩ : Vec3s) = none ∧
    sampleUnguardedGrid.fillWithNearestNeighbors stencilEnv = none := by
  have hpv : sampleUnguardedGrid.mConstellation.mParticleVelocity = [⟨0, 0, 0⟩, ⟨1, 0, 0⟩] := rfl
  have hvv : sampleUnguardedGrid.mConstellation.mVertexVelocity = [] := by
    show sampleConstellation.mVertexVelocity = []
    rw [sampleConstellation_eq]
  refine ⟨hpv, hvv, rfl, sampleUnguarded_neighbors, by rw [hvv]; rfl, ?_⟩
  have hL : sampleUnguardedGrid.mConstellation.Layout [3, 4] :=
    sample_layout.with_optional _ _ _
  apply fill_unguarded stencilEnv sampleUnguardedGrid hL (by rw [hpv]; rfl) hvv 0 [] rfl
    (by decide)
  have hs : sampleUnguardedGrid.mConstellation.springls.getD 0 default = ⟨0, 0⟩ := by
    rw [hL.springl_getD (by decide)]
    rfl
  have hsz : (sampleUnguardedGrid.updateNearestNeighbors stencilEnv).mConstellation.size ⟨0, 0⟩
      = 3 := by
    have := hL.size_getD (by decide : 0 < [3, 4].length)
    rw [hs] at this
    exact this
  rw [hs]
  have hmem : (⟨1, 0, 0⟩ : Vec3s)
      ∈ nonZeroNeighborVelocities (sampleUnguardedGrid.updateNearestNeighbors stencilEnv)
          ⟨0, 0⟩ := by
    unfold nonZeroNeighborVelocities fillNeighbors
    rw [List.mem_filter]
    refine ⟨List.mem_map.mpr ⟨⟨1, 3, 0⟩, List.mem_flatMap.mpr ⟨2, ?_, ?_⟩, ?_⟩, ?_⟩
    · rw [hsz]; simp
    · rw [sampleUnguarded_neighbors]; simp
    · show sampleUnguardedGrid.mConstellation.mParticleVelocity.getD 1 default = _
      rw [hpv]; rfl
    · simp [Vec3s.lengthSqr]
  exact List.ne_nil_of_mem hmem

theorem vector_area_particle_free_witness :
    sampleConstellation.size ⟨0, 0⟩ = 3 ∧
    sampleConstellation.area sampleEnv ⟨0, 0⟩
      = (1 / 2) * sampleEnv.length
          (Vec3s.cross
            (Vec3s.sub (sampleConstellation.vertex ⟨0, 0⟩ 1) (sampleConstellation.vertex ⟨0, 0⟩ 0))
            (Vec3s.sub (sampleConstellation.vertex ⟨0, 0⟩ 2)
              (sampleConstellation.vertex ⟨0, 0⟩ 0))) :=
  have h : sampleConstellation.size ⟨0, 0⟩ = 3 := by
    rw [sampleConstellation_eq]
    simp [Constellation.size]
  ⟨h, (vector_area_particle_free sampleEnv sampleConstellation ⟨0, 0⟩).2.2.2 h⟩

/-! ### Rebuilding the neighbour map twice -/

/-- C15. On a well laid out constellation and a fixed index grid, a second
`updateNearestNeighbors()` right after a first leaves the state of the first.
For every element `e` and local vertex `k` the list after the second call is
the list after the first, and that list is exactly what `compute` pushes for
the pair once: at most `MAX_NEAREST_NEIGHBORS` entries in ascending distance,
none for `e` itself and no neighbour element twice.  This is so because `init`
empties every list before the elements are computed: `compute` appends, and run
over all elements on the map of the first call, without `init`, it leaves
every list with its entries twice.  The result does not depend on what the
map held before the call. -/
theorem neighbor_rebuild_idempotent (env : Env) (g : SpringLevelSet)
    (hWF : g.mConstellation.WF) :
    (g.updateNearestNeighbors env).updateNearestNeighbors env = g.updateNearestNeighbors env ∧
    (∀ e, e < g.mConstellation.springls.length →
      ∀ k, k < g.mConstellation.size (g.mConstellation.springls.getD e default) →
        ((g.updateNearestNeighbors env).updateNearestNeighbors env).getNearestNeighbors e k
          = (g.updateNearestNeighbors env).getNearestNeighbors e k ∧
        (g.updateNearestNeighbors env).getNearestNeighbors e k
          = neighborEntries env g.mConstellation (g.mConstellation.springls.getD e default) k ∧
        GoodNeighborList e
          (((g.updateNearestNeighbors env).updateNearestNeighbors env).getNearestNeighbors e
            k) ∧
        SpringLevelSet.getNearestNeighbors
            { g with
              mNearestNeighbors :=
                g.mConstellation.springls.foldl (nearestNeighborCompute env g.mConstellation)
                  (g.updateNearestNeighbors env).mNearestNeighbors } e k
          = (g.updateNearestNeighbors env).getNearestNeighbors e k
            ++ (g.updateNearestNeighbors env).getNearestNeighbors e k) ∧
    (∀ old : List (List SpringlNeighbor),
      (SpringLevelSet.updateNearestNeighbors env { g with mNearestNeighbors := old })
        = g.updateNearestNeighbors env) := by
  obtain ⟨ks, hL⟩ := hWF
  have hL1 : (g.updateNearestNeighbors env).mConstellation.Layout ks := hL
  refine ⟨?_, fun e he k hk => ?_, fun _ => rfl⟩
  · unfold SpringLevelSet.updateNearestNeighbors
    rfl
  · have he' : e < ks.length := by rw [← hL.springls_length]; exact he
    rw [hL.size_getD he'] at hk
    have h1 := updateNearestNeighbors_entries env g hL he' hk
    have h2 := updateNearestNeighbors_entries env (g.updateNearestNeighbors env) hL1 he' hk
    have hc : (g.updateNearestNeighbors env).mConstellation = g.mConstellation := rfl
    rw [hc] at h2
    refine ⟨by rw [h2, h1], h1, ?_, ?_⟩
    · rw [h2]
      have := neighborEntries_good env g.mConstellation
        (g.mConstellation.springls.getD e default) k
      rw [hL.springl_getD he'] at this ⊢
      exact this
    · have hlen : (g.updateNearestNeighbors env).mNearestNeighbors.length = ks.sum :=
        (nnFold_entries env hL ks.length (le_refl _)).1.symm ▸ (by
          unfold SpringLevelSet.updateNearestNeighbors
          dsimp only
          rw [← hL.springls_length, List.take_length])
      have h3 := (nnFold_from env hL (g.updateNearestNeighbors env).mNearestNeighbors hlen
        ks.length (le_refl _)).2 e he' k hk
      rw [← hL.springls_length, List.take_length, hL.springls_length, if_pos he'] at h3
      have hget : (g.updateNearestNeighbors env).getNearestNeighbors e k
          = (g.updateNearestNeighbors env).mNearestNeighbors.getD (offs ks e + k) [] := by
        unfold SpringLevelSet.getNearestNeighbors
        rw [hc, hL.springl_getD he']
      rw [hget]
      unfold SpringLevelSet.getNearestNeighbors
      dsimp only
      rw [hL.springl_getD he']
      have h4 : neighborEntries env g.mConstellation ⟨e, offs ks e⟩ k
          = (g.updateNearestNeighbors env).mNearestNeighbors.getD (offs ks e + k) [] := by
        rw [← hget, h1, hL.springl_getD he']
      exact h3.trans (by rw [h4])

theorem neighbor_rebuild_idempotent_witness :
    ((sampleGrid.updateNearestNeighbors stencilEnv).updateNearestNeighbors
        stencilEnv).getNearestNeighbors 0 2
      = [⟨1, 3, 0⟩] :=
  ((neighbor_rebuild_idempotent stencilEnv sampleGrid sample_WF).2.1 0
    (by
      have h1 : sampleGrid.mConstellation = sampleConstellation := rfl
      rw [h1, sampleConstellation_eq]
      decide)
    2 (by rw [sample_size]; decide)).1.trans sample_neighbors

/-! ### What `clean` keeps -/

theorem min_aspect_ratio_rounds :
    |1 / 10 - MIN_ASPECT_RATIO| ≤ 1 / 2 ^ 28 ∧ MIN_ASPECT_RATIO = 13421773 / 2 ^ 27 := by
  unfold MIN_ASPECT_RATIO
  constructor
  · rw [abs_le]; norm_num
  · norm_num

theorem slim_quotient_rounds :
    |SLIM_WIDTH / (7 / 2) - MIN_ASPECT_RATIO| < 1 / 2 ^ 28 ∧
    SLIM_WIDTH / (7 / 2) < 1 / 10 ∧ SLIM_WIDTH / (7 / 2) < MIN_ASPECT_RATIO := by
  unfold MIN_ASPECT_RATIO SLIM_WIDTH
  refine ⟨?_, ?_, ?_⟩
  · rw [abs_lt]; constructor <;> norm_num
  · norm_num
  · norm_num

theorem slimConstellation_eq : slimConstellation =
    { mVertexes := [⟨0, 0, 0⟩, ⟨7 / 2, 0, 0⟩, ⟨7 / 2, SLIM_WIDTH, 0⟩, ⟨0, SLIM_WIDTH, 0⟩]
      mVertexNormals := [⟨0, 0, 7 * SLIM_WIDTH⟩, ⟨0, 0, 7 * SLIM_WIDTH⟩,
        ⟨0, 0, 7 * SLIM_WIDTH⟩, ⟨0, 0, 7 * SLIM_WIDTH⟩]
      mParticles := [⟨7 / 4, SLIM_WIDTH / 2, 0⟩]
      mParticleNormals := [⟨0, 0, 7 * SLIM_WIDTH⟩]
      mParticleVelocity := []
      mVertexVelocity := []
      mParticleLabel := []
      mFaces := [⟨0, 1, 2, 3⟩]
      mQuadIndexes := [0, 1, 2, 3]
      mTriIndexes := []
      springls := [⟨0, 0⟩] } := by
  simp [slimConstellation, Constellation.create, createStep, createInit, slimMesh,
    emptyConstellation, resize, INVALID_IDX, slimEnv, sampleEnv, Constellation.computeCentroid,
    Constellation.computeNormal, Constellation.crossSum, Constellation.size,
    Constellation.vertex, Constellation.particle, Vec3s.add, Vec3s.sub, Vec3s.smul, Vec3s.cross,
    Vec3s.zero, List.range_succ, List.replicate, SLIM_WIDTH]
  norm_num

theorem slim_edgeLengths :
    edgeLengths slimEnv slimConstellation ⟨0, 0⟩ = [7 / 2, SLIM_WIDTH, 7 / 2, SLIM_WIDTH] := by
  rw [slimConstellation_eq]
  simp [edgeLengths, Constellation.size, Constellation.vertex, INVALID_IDX, List.range_succ,
    Env.length, slimEnv, sampleEnv, Vec3s.sub, Vec3s.lengthSqr, SLIM_WIDTH]
  norm_num

theorem slim_keepList : keepList slimEnv slimConstellation = [0] := by
  have h := slim_edgeLengths
  have hmm : edgeMinMax slimEnv slimConstellation ⟨0, 0⟩ = (SLIM_WIDTH, 7 / 2) := by
    rw [edgeMinMax_eq, h]
    simp [SLIM_WIDTH]
    norm_num
  have harea : slimConstellation.area slimEnv ⟨0, 0⟩ = 7 / 2 * SLIM_WIDTH := by
    rw [slimConstellation_eq]
    simp [Constellation.area, Constellation.crossSum, Constellation.size, Constellation.vertex,
      Constellation.particle, Env.length, slimEnv, sampleEnv, INVALID_IDX, Vec3s.add, Vec3s.sub,
      Vec3s.cross, Vec3s.zero, Vec3s.lengthSqr, List.range_succ, SLIM_WIDTH]
    norm_num
  have hp : slimEnv.interpolation (slimConstellation.particle ⟨0, 0⟩) = 0 := by
    rw [slimConstellation_eq]
    simp [Constellation.particle, slimEnv, sampleEnv]
  have hk : cleanKeeps slimEnv slimConstellation ⟨0, 0⟩ = true := by
    unfold cleanKeeps
    simp only [hp, hmm, harea]
    simp [slimEnv, CLEAN_DISTANCE, MIN_AREA, MAX_AREA, MIN_ASPECT_RATIO, SLIM_WIDTH]
    norm_num
  have hs : slimConstellation.springls = [⟨0, 0⟩] := by rw [slimConstellation_eq]
  unfold keepList
  rw [hs, List.filter_cons_of_pos hk]
  rfl

theorem slimMesh_consistent : slimMesh.Consistent := by
  simp [Mesh.Consistent, slimMesh, INVALID_IDX, List.countP_cons]

theorem slim_WF : slimGrid.mConstellation.WF :=
  ⟨_, create_layout slimEnv emptyConstellation slimMesh slimMesh_consistent
    (by simp [slimMesh, INVALID_IDX])⟩

theorem slim_edgesInRange : EdgesInRange slimEnv slimGrid.mConstellation := by
  have h1 : slimGrid.mConstellation = slimConstellation := rfl
  have hs : slimConstellation.springls = [⟨0, 0⟩] := by rw [slimConstellation_eq]
  rw [h1]
  intro s hs' l hl
  rw [hs] at hs'
  simp only [List.mem_singleton] at hs'
  subst hs'
  rw [slim_edgeLengths] at hl
  simp only [List.mem_cons, List.mem_singleton, List.not_mem_nil, or_false] at hl
  rcases hl with h | h | h | h <;> subst h <;> norm_num [SLIM_WIDTH]

theorem all_kept_length (env : Env) {c : Constellation} {ks : List Nat} (hL : c.Layout ks)
    (h : ∀ n, n < c.springls.length → cleanKeeps env c (c.springls.getD n default) = true) :
    (keepList env c).length = c.springls.length := by
  have hall : ∀ s ∈ c.springls, cleanKeeps env c s = true := by
    intro s hs
    obtain ⟨h1, h2⟩ := hL.mem_springls hs
    have := h s.id (by rw [hL.springls_length]; exact h1)
    rwa [h2] at this
  unfold keepList
  rw [List.length_map, List.filter_eq_self.mpr hall]

/-- C2. `clean` keeps an element exactly when it is within `CLEAN_DISTANCE` of
the surface, its area lies in `[MIN_AREA, MAX_AREA)` and its aspect ratio, the
quotient of its shortest by its longest edge length as single-precision
division returns it, is at least `MIN_ASPECT_RATIO`: the keep list holds the
ids with this property, in ascending order.  The elements left are the kept
ones: the result has as many elements as the keep list, element `j` of the
result is the old element with the `j`-th kept id (same size, vertex positions,
vertex normals, particle and particle normal), so every element with the
property is found in the result and every element of the result has it.  The
returned value is the count before the call minus the count after it, and it
is 0 when every element has the property. -/
theorem clean_keeps_exactly (env : Env) (g : SpringLevelSet) (hWF : g.mConstellation.WF)
    (hE : EdgesInRange env g.mConstellation) :
    (∀ n, n < g.mConstellation.springls.length →
      (n ∈ keepList env g.mConstellation ↔
        KeepCondition env g.mConstellation (g.mConstellation.springls.getD n default))) ∧
    (keepList env g.mConstellation).Sorted (· < ·) ∧
    (g.clean env).1.mConstellation.springls.length = (keepList env g.mConstellation).length ∧
    (∀ j, j < (g.clean env).1.mConstellation.springls.length →
      (keepList env g.mConstellation).getD j 0 < g.mConstellation.springls.length ∧
      KeepCondition env g.mConstellation
        (g.mConstellation.springls.getD ((keepList env g.mConstellation).getD j 0) default) ∧
      SameElement g.mConstellation ((keepList env g.mConstellation).getD j 0)
        (g.clean env).1.mConstellation j) ∧
    (∀ n, n < g.mConstellation.springls.length →
      KeepCondition env g.mConstellation (g.mConstellation.springls.getD n default) →
      ∃ j, j < (g.clean env).1.mConstellation.springls.length ∧
        (keepList env g.mConstellation).getD j 0 = n ∧
        SameElement g.mConstellation n (g.clean env).1.mConstellation j) ∧
    (g.clean env).2
      = g.mConstellation.springls.length - (g.clean env).1.mConstellation.springls.length ∧
    ((∀ n, n < g.mConstellation.springls.length →
        KeepCondition env g.mConstellation (g.mConstellation.springls.getD n default)) →
      (g.clean env).2 = 0 ∧ (g.clean env).1 = g) := by
  have hlen := clean_springls_length env g hWF
  obtain ⟨ks, hL⟩ := hWF
  have hsub := keepList_sublist env hL
  have hmem := sublist_range_lt hsub
  have hC := compactedFrom_clean env g hL
  have hiff : ∀ n, n < g.mConstellation.springls.length →
      (n ∈ keepList env g.mConstellation ↔
        KeepCondition env g.mConstellation (g.mConstellation.springls.getD n default)) := by
    intro n hn
    have hn' : n < ks.length := by rw [← hL.springls_length]; exact hn
    rw [mem_keepList_iff env hL hn']
    exact cleanKeeps_iff env _ _ (hE _ (hL.getD_mem hn'))
  refine ⟨hiff, keepList_sorted env hL, hlen, ?_, ?_, ?_, ?_⟩
  · intro j hj
    rw [hlen] at hj
    have hin := getD_mem_of_lt _ _ hj
    have hlt : (keepList env g.mConstellation).getD j 0 < g.mConstellation.springls.length := by
      rw [hL.springls_length]; exact hmem _ hin
    exact ⟨hlt, (hiff _ hlt).mp hin, (hC.sameElement hL hsub j hj).1⟩
  · intro n hn hK
    have hin := (hiff n hn).mpr hK
    obtain ⟨j, hj, hjn⟩ := List.mem_iff_getElem.mp hin
    have hget : (keepList env g.mConstellation).getD j 0 = n := by
      rw [List.getD_eq_getElem _ _ hj]; exact hjn
    refine ⟨j, by rw [hlen]; exact hj, hget, ?_⟩
    have := (hC.sameElement hL hsub j hj).1
    rwa [hget] at this
  · rw [hlen]
    unfold SpringLevelSet.clean
    dsimp only
    split
    · next h => simp [h, Constellation.getNumSpringls]
    · rfl
  · intro hall
    have h := all_kept_length env hL (fun n hn => by
      have hn' : n < ks.length := by rw [← hL.springls_length]; exact hn
      exact (cleanKeeps_iff env _ _ (hE _ (hL.getD_mem hn'))).mpr (hall n hn))
    unfold SpringLevelSet.clean
    dsimp only
    rw [if_pos (show _ = g.mConstellation.getNumSpringls from h)]
    exact ⟨rfl, rfl⟩

theorem clean_keeps_exactly_witness :
    (KeepCondition slimEnv slimGrid.mConstellation
        (slimGrid.mConstellation.springls.getD 0 default) ∧
      SLIM_WIDTH / (7 / 2) < 1 / 10) ∧
    (¬ KeepCondition sampleEnv sampleGrid.mConstellation
        (sampleGrid.mConstellation.springls.getD 0 default) ∧
      SameElement sampleGrid.mConstellation 1 (sampleGrid.clean sampleEnv).1.mConstellation 0 ∧
      (sampleGrid.clean sampleEnv).2 = 1) :=
  ⟨⟨((clean_keeps_exactly slimEnv slimGrid slim_WF slim_edgesInRange).1 0
        (by
          have h1 : slimGrid.mConstellation = slimConstellation := rfl
          rw [h1, slimConstellation_eq]
          decide)).mp
      (by
        have h1 : slimGrid.mConstellation = slimConstellation := rfl
        rw [h1, slim_keepList]
        decide),
    slim_quotient_rounds.2.1⟩,
   ⟨fun hK => by
      have h := ((clean_keeps_exactly sampleEnv sampleGrid sample_WF sample_edgesInRange).1 0
        (by
          have h1 : sampleGrid.mConstellation = sampleConstellation := rfl
          rw [h1, sampleConstellation_eq]
          decide)).mpr hK
      have h1 : sampleGrid.mConstellation = sampleConstellation := rfl
      rw [h1, sample_keepList] at h
      exact absurd h (by decide),
    by
      have h := ((clean_keeps_exactly sampleEnv sampleGrid sample_WF sample_edgesInRange).2.2.2.1 0
        (by rw [sample_clean]; decide)).2.2
      have h1 : sampleGrid.mConstellation = sampleConstellation := rfl
      have h2 : (keepList sampleEnv sampleGrid.mConstellation).getD 0 0 = 1 := by
        rw [h1, sample_keepList]; rfl
      rwa [h2] at h,
    by
      have h := (clean_keeps_exactly sampleEnv sampleGrid sample_WF sample_edgesInRange).2.2.2.2.2.1
      rw [h, sample_clean]
      have h1 : sampleGrid.mConstellation = sampleConstellation := rfl
      rw [h1, sampleConstellation_eq]
      rfl⟩⟩

/-! ### The distance test of `fill` -/

theorem D2_rounds :
    |D2 - FILL_DISTANCE * FILL_DISTANCE| < 1 / 2 ^ 28 ∧ D2 = 12079596 / 2 ^ 27 ∧
    |FILL_DISTANCE - 3 / 10| < 1 / 2 ^ 26 ∧ FILL_DISTANCE = 10066330 / 2 ^ 25 ∧
    9 / 100 < D2 := by
  unfold D2 FILL_DISTANCE
  refine ⟨?_, by norm_num, ?_, by norm_num, by norm_num⟩
  · rw [abs_lt]; constructor <;> norm_num
  · rw [abs_lt]; constructor <;> norm_num

theorem fill_springls_count (env : Env) (g : SpringLevelSet) :
    (g.fill env).1.mConstellation.springls.length
      = g.mConstellation.springls.length + (g.fill env).2 := by
  obtain ⟨ks, h⟩ := fillLoop_rel env g
  show (fillLoop env g).c.springls.length = _ + (fillLoop env g).added
  rw [h.springls_eq, h.added_eq, List.length_append, layoutSpringls_length]

theorem boundary_near : ¬ FarFromElements boundaryEnv sampleCleaned 1 ⟨1 / 8, 1 / 8, 0⟩ := by
  intro h
  have := h 0 (by simp [boundaryEnv]) (by decide)
  simp [Constellation.distanceToFaceSqr, Constellation.size, sampleCleaned, boundaryEnv,
    INVALID_IDX] at this

theorem boundary_far : FarFromElements boundaryEnv sampleCleaned 1 ⟨13 / 4, 1 / 4, 0⟩ := by
  intro id _ _
  have hid : id = 0 := by omega
  subst hid
  simp [Constellation.distanceToFaceSqr, Constellation.size, sampleCleaned, boundaryEnv,
    INVALID_IDX, D2]
  norm_num

theorem boundary_fill :
    (boundaryGrid.fill boundaryEnv).2 = 1 ∧
    (boundaryGrid.fill boundaryEnv).1.mConstellation.springls = [⟨0, 0⟩, ⟨1, 4⟩] ∧
    (boundaryGrid.fill boundaryEnv).1.mConstellation.mVertexes
      = sampleCleaned.mVertexes ++ [⟨4, 1, 0⟩, ⟨5, 0, 0⟩, ⟨4, 0, 0⟩] := by
  simp [SpringLevelSet.fill, fillLoop, fillPool, fillTri, fillQuad, fillAccepts, nearestSqr,
    stencilCopy, appendTri, triRefPoint, boundaryGrid, sampleCleanedGrid, sampleGrid,
    sampleCleaned, boundaryEnv, sampleEnv, Constellation.getNumSpringls,
    Constellation.getNumVertexes, Constellation.distanceToFaceSqr,
    Constellation.computeCentroid, Constellation.computeNormal, Constellation.crossSum,
    Constellation.size, Constellation.vertex, Constellation.particle, INVALID_IDX,
    Vec3s.add, Vec3s.sub, Vec3s.smul, Vec3s.cross, Vec3s.zero, List.range_succ, FLT_MAX,
    D2]
  norm_num

/-- C6. In `fill`, with the element count `N ≤ INVALID_IDX` taken at the start
of the call, a quad or triangle of the iso-surface is instantiated exactly when
its reference point is far from the elements: the smallest squared face
distance to the elements the stencil finds among the ids below `N` is strictly
greater than `D2`, the squared fill distance as the code computes it.  Then the
count of added elements grows by one and one element is appended: a descriptor
with the next id and the vertex counter as offset, the corner points of the
polygon at the end of the vertex array, and a face entry over the new block.
Otherwise the iteration leaves the state as it is.  The call runs these
iterations over the quads and then the triangles of every pool, returns the
count of added elements, and the constellation has grown by that many
elements.  A polygon whose stencil yields no id below `N` is instantiated, one
with an element at squared distance exactly `D2` is not. -/
theorem fill_instantiates_iff (env : Env) (g : SpringLevelSet)
    (hcnt : g.mConstellation.getNumSpringls ≤ INVALID_IDX) :
    (∀ (st : FillState) (quad : Vec4I),
      (FarFromElements env st.c g.mConstellation.getNumSpringls
          (quadRefPoint (g.pointList.getD quad.i3 default) (g.pointList.getD quad.i2 default)
            (g.pointList.getD quad.i1 default) (g.pointList.getD quad.i0 default)) →
        fillQuad env g.pointList g.mConstellation.getNumSpringls st quad
          = appendQuad env st (g.pointList.getD quad.i3 default)
              (g.pointList.getD quad.i2 default) (g.pointList.getD quad.i1 default)
              (g.pointList.getD quad.i0 default) ∧
        (fillQuad env g.pointList g.mConstellation.getNumSpringls st quad).added
          = st.added + 1 ∧
        (fillQuad env g.pointList g.mConstellation.getNumSpringls st quad).c.springls
          = st.c.springls ++ [⟨st.c.springls.length, st.counter⟩] ∧
        (fillQuad env g.pointList g.mConstellation.getNumSpringls st quad).c.mVertexes
          = st.c.mVertexes ++ [g.pointList.getD quad.i3 default,
              g.pointList.getD quad.i2 default, g.pointList.getD quad.i1 default,
              g.pointList.getD quad.i0 default] ∧
        (fillQuad env g.pointList g.mConstellation.getNumSpringls st quad).c.mFaces
          = st.c.mFaces ++ [⟨st.counter, st.counter + 1, st.counter + 2, st.counter + 3⟩]) ∧
      (¬ FarFromElements env st.c g.mConstellation.getNumSpringls
          (quadRefPoint (g.pointList.getD quad.i3 default) (g.pointList.getD quad.i2 default)
            (g.pointList.getD quad.i1 default) (g.pointList.getD quad.i0 default)) →
        fillQuad env g.pointList g.mConstellation.getNumSpringls st quad = st)) ∧
    (∀ (st : FillState) (tri : Vec3I),
      (FarFromElements env st.c g.mConstellation.getNumSpringls
          (triRefPoint (g.pointList.getD tri.i2 default) (g.pointList.getD tri.i1 default)
            (g.pointList.getD tri.i0 default)) →
        fillTri env g.pointList g.mConstellation.getNumSpringls st tri
          = appendTri env st (g.pointList.getD tri.i2 default)
              (g.pointList.getD tri.i1 default) (g.pointList.getD tri.i0 default) ∧
        (fillTri env g.pointList g.mConstellation.getNumSpringls st tri).added
          = st.added + 1 ∧
        (fillTri env g.pointList g.mConstellation.getNumSpringls st tri).c.springls
          = st.c.springls ++ [⟨st.c.springls.length, st.counter⟩] ∧
        (fillTri env g.pointList g.mConstellation.getNumSpringls st tri).c.mVertexes
          = st.c.mVertexes ++ [g.pointList.getD tri.i2 default,
              g.pointList.getD tri.i1 default, g.pointList.getD tri.i0 default] ∧
        (fillTri env g.pointList g.mConstellation.getNumSpringls st tri).c.mFaces
          = st.c.mFaces ++ [⟨st.counter, st.counter + 1, st.counter + 2, INVALID_IDX⟩]) ∧
      (¬ FarFromElements env st.c g.mConstellation.getNumSpringls
          (triRefPoint (g.pointList.getD tri.i2 default) (g.pointList.getD tri.i1 default)
            (g.pointList.getD tri.i0 default)) →
        fillTri env g.pointList g.mConstellation.getNumSpringls st tri = st)) ∧
    (fillLoop env g
        = g.polygonPoolList.foldl
            (fun st pool =>
              pool.triangles.foldl (fillTri env g.pointList g.mConstellation.getNumSpringls)
                (pool.quads.foldl (fillQuad env g.pointList g.mConstellation.getNumSpringls)
                  st))
            { c := g.mConstellation
              counter := g.mConstellation.getNumVertexes
              pcounter := g.mConstellation.getNumSpringls
              added := 0
              fillList := [] } ∧
      (g.fill env).2 = (fillLoop env g).added ∧
      (g.fill env).1.mConstellation = (fillLoop env g).c ∧
      (g.fill env).1.mConstellation.springls.length
        = g.mConstellation.springls.length + (g.fill env).2) ∧
    (∀ (st : FillState) (refPoint : Vec3s),
      (∀ id, id ∈ env.denseStencil 1 refPoint → ¬ id < g.mConstellation.getNumSpringls) →
        FarFromElements env st.c g.mConstellation.getNumSpringls refPoint) ∧
    (∀ (st : FillState) (refPoint : Vec3s) (id : Nat), id ∈ env.denseStencil 1 refPoint →
      id < g.mConstellation.getNumSpringls →
      st.c.distanceToFaceSqr env (st.c.springls.getD id default) refPoint = D2 →
        ¬ FarFromElements env st.c g.mConstellation.getNumSpringls refPoint) := by
  refine ⟨fun st quad => ⟨fun h => ?_, fun h => ?_⟩, fun st tri => ⟨fun h => ?_, fun h => ?_⟩,
    ⟨rfl, rfl, rfl, fill_springls_count env g⟩,
    fun st ref h id h1 h2 => absurd h2 (h id h1), fun st ref id h1 h2 h3 hfar => ?_⟩
  · have e : fillQuad env g.pointList g.mConstellation.getNumSpringls st quad
        = appendQuad env st (g.pointList.getD quad.i3 default)
            (g.pointList.getD quad.i2 default) (g.pointList.getD quad.i1 default)
            (g.pointList.getD quad.i0 default) := by
      unfold fillQuad
      dsimp only
      rw [if_pos ((fillAccepts_iff env st.c _ hcnt _).mpr h)]
    rw [e]
    exact ⟨rfl, rfl, rfl, rfl, rfl⟩
  · unfold fillQuad
    dsimp only
    rw [if_neg (fun hacc => h ((fillAccepts_iff env st.c _ hcnt _).mp hacc))]
  · have e : fillTri env g.pointList g.mConstellation.getNumSpringls st tri
        = appendTri env st (g.pointList.getD tri.i2 default)
            (g.pointList.getD tri.i1 default) (g.pointList.getD tri.i0 default) := by
      unfold fillTri
      dsimp only
      rw [if_pos ((fillAccepts_iff env st.c _ hcnt _).mpr h)]
    rw [e]
    exact ⟨rfl, rfl, rfl, rfl, rfl⟩
  · unfold fillTri
    dsimp only
    rw [if_neg (fun hacc => h ((fillAccepts_iff env st.c _ hcnt _).mp hacc))]
  · have := hfar id h1 h2
    rw [h3] at this
    exact lt_irrefl _ this

theorem fill_instantiates_iff_witness :
    fillTri boundaryEnv boundaryGrid.pointList 1 boundaryStart ⟨0, 1, 2⟩ = boundaryStart ∧
    (fillTri boundaryEnv boundaryGrid.pointList 1 boundaryStart ⟨3, 4, 5⟩).added = 1 ∧
    (fillTri boundaryEnv boundaryGrid.pointList 1 boundaryStart ⟨3, 4, 5⟩).c.springls
      = [⟨0, 0⟩, ⟨1, 4⟩] :=
  ⟨((fill_instantiates_iff boundaryEnv boundaryGrid (by decide)).2.1 boundaryStart
      ⟨0, 1, 2⟩).2
      (by
        have hp : triRefPoint (boundaryGrid.pointList.getD 2 default)
            (boundaryGrid.pointList.getD 1 default) (boundaryGrid.pointList.getD 0 default)
            = ⟨1 / 8, 1 / 8, 0⟩ := by
          simp [triRefPoint, Vec3s.smul, Vec3s.add, boundaryGrid]
          norm_num
        show ¬ FarFromElements boundaryEnv sampleCleaned 1 _
        rw [hp]
        exact boundary_near),
    (((fill_instantiates_iff boundaryEnv boundaryGrid (by decide)).2.1 boundaryStart
      ⟨3, 4, 5⟩).1
      (by
        have hp : triRefPoint (boundaryGrid.pointList.getD 5 default)
            (boundaryGrid.pointList.getD 4 default) (boundaryGrid.pointList.getD 3 default)
            = ⟨13 / 4, 1 / 4, 0⟩ := by
          simp [triRefPoint, Vec3s.smul, Vec3s.add, boundaryGrid]
          norm_num
        show FarFromElements boundaryEnv sampleCleaned 1 _
        rw [hp]
        exact boundary_far)).2.1,
    (((fill_instantiates_iff boundaryEnv boundaryGrid (by decide)).2.1 boundaryStart
      ⟨3, 4, 5⟩).1
      (by
        have hp : triRefPoint (boundaryGrid.pointList.getD 5 default)
            (boundaryGrid.pointList.getD 4 default) (boundaryGrid.pointList.getD 3 default)
            = ⟨13 / 4, 1 / 4, 0⟩ := by
          simp [triRefPoint, Vec3s.smul, Vec3s.add, boundaryGrid]
          norm_num
        show FarFromElements boundaryEnv sampleCleaned 1 _
        rw [hp]
        exact boundary_far)).2.2.1⟩

/-! ### The passes of `fillWithNearestNeighbors`, element by element -/

theorem fillPasses_mem :
    ∀ (runs : List FillPassRun) (g : SpringLevelSet), FillPasses g runs →
      ∀ x ∈ runs, fillPass x.before = some (x.after, x.unfilledCount) := by
  intro runs
  induction runs with
  | nil => intro g _ x hx; exact absurd hx (List.not_mem_nil _)
  | cons y runs ih =>
    intro g hP x hx
    obtain ⟨hb, hpass, hrest⟩ := hP
    rcases List.mem_cons.mp hx with h | h
    · rw [h, hb]; exact hpass
    · exact ih y.after hrest x h

/-- An element that is not among the ids `l` the loop handles keeps its
velocities. -/
theorem fillFold_other {ks : List Nat} (e : Nat) (he : e < ks.length) (l : List Nat)
    (g : SpringLevelSet) (u : Nat) (hR : FillReady g ks) (hl : ∀ fid ∈ l, fid < ks.length)
    (hnot : e ∉ l) (r : SpringLevelSet × Nat) (hr : l.foldlM fillElement (g, u) = some r) :
    r.1.mConstellation.mParticleVelocity.getD e default
      = g.mConstellation.mParticleVelocity.getD e default ∧
    ∀ n, n < ks.getD e 0 →
      r.1.mConstellation.mVertexVelocity.getD (offs ks e + n) default
        = g.mConstellation.mVertexVelocity.getD (offs ks e + n) default :=
  fillFold_unfilled e he l g u hR hl
    (fun pre post _ hsplit _ => by
      exfalso
      apply hnot
      rw [hsplit]
      exact List.mem_append_right _ (List.mem_cons_self _ _))
    r hr

/-- The count of unfilled elements never goes down along the loop, and it
stays where it was exactly when every element the loop reaches has a neighbour
entry with a non-zero particle velocity. -/
theorem fillFold_count {ks : List Nat} :
    ∀ (l : List Nat) (g : SpringLevelSet) (u : Nat), FillReady g ks →
      (∀ fid ∈ l, fid < ks.length) →
      ∀ r, l.foldlM fillElement (g, u) = some r →
        u ≤ r.2 ∧
        (r.2 = u ↔
          ∀ pre fid post st, l = pre ++ fid :: post →
            pre.foldlM fillElement (g, u) = some st →
            nonZeroNeighborVelocities st.1 (st.1.mConstellation.springls.getD fid default)
              ≠ []) := by
  intro l
  induction l with
  | nil =>
    intro g u _ _ r hr
    have : r = (g, u) := by
      have h : some (g, u) = some r := hr
      exact (Option.some.inj h).symm
    rw [this]
    refine ⟨le_refl _, ⟨fun _ pre fid post st hsplit _ => ?_, fun _ => rfl⟩⟩
    exact absurd hsplit (by simp)
  | cons fid l ih =>
    intro g u hR hl r hr
    have hfid := hl fid (List.mem_cons_self _ _)
    have hl' : ∀ x ∈ l, x < ks.length := fun x hx => hl x (List.mem_cons_of_mem _ hx)
    obtain ⟨s1, s2⟩ := fillElement_spec g hR u fid hfid
    rw [List.foldlM_cons] at hr
    by_cases hnz : nonZeroNeighborVelocities g (g.mConstellation.springls.getD fid default) = []
    · rw [s1 hnz] at hr
      obtain ⟨i1, -⟩ := ih g (u + 1) hR hl' r hr
      refine ⟨by omega, ⟨fun h => by omega, fun h => ?_⟩⟩
      exact absurd hnz (h [] fid l (g, u) rfl rfl)
    · rw [s2 hnz] at hr
      have hR1 := hR.withVelocities_ready
        (g.mConstellation.mParticleVelocity.set fid
          (mean (nonZeroNeighborVelocities g (g.mConstellation.springls.getD fid default))))
        ((List.range (ks.getD fid 0)).foldl
          (fun a k =>
            a.set (offs ks fid + k)
              (mean (nonZeroNeighborVelocities g (g.mConstellation.springls.getD fid default))))
          g.mConstellation.mVertexVelocity)
        (by rw [List.length_set]; exact hR.pv_len)
        (by rw [(setRange_spec _ (fun _ => _) default _ _).1]; exact hR.vv_len)
      obtain ⟨i1, i2⟩ := ih _ u hR1 hl' r hr
      refine ⟨i1, ⟨fun h pre fid' post st hsplit hst => ?_, fun h => ?_⟩⟩
      · cases pre with
        | nil =>
          have h1 : fid = fid' := by
            have := List.cons.inj hsplit
            exact this.1
          have h2 : st = (g, u) := by
            have h : some (g, u) = some st := hst
            exact (Option.some.inj h).symm
          rw [h2, ← h1]
          exact hnz
        | cons a pre =>
          have hc := List.cons.inj hsplit
          have ha : fid = a := hc.1
          apply i2.mp h pre fid' post st hc.2
          rw [List.foldlM_cons, ← ha, s2 hnz] at hst
          exact hst
      · apply i2.mpr
        intro pre fid' post st hsplit hst
        apply h (fid :: pre) fid' post st (by rw [hsplit]; rfl)
        rw [List.foldlM_cons, s2 hnz]
        exact hst

/-- The loop over `pre ++ fid :: post` is the loop over `pre`, the body for
`fid` and the loop over `post`. -/
theorem fillFold_split (pre post : List Nat) (fid : Nat) (a st st' : SpringLevelSet × Nat)
    (h1 : pre.foldlM fillElement a = some st) (h2 : fillElement st fid = some st') :
    (pre ++ fid :: post).foldlM fillElement a = post.foldlM fillElement st' := by
  rw [List.foldlM_append, h1]
  show (fid :: post).foldlM fillElement st = _
  rw [List.foldlM_cons, h2]
  rfl

/-- C26. `fillWithNearestNeighbors` on a well laid out constellation with
aligned velocity arrays and a fill list of element ids.  With an empty fill
list the call changes nothing.  In every case it returns, with an empty fill
list.  With a non-empty fill list it rebuilds the neighbour map and runs
between 1 and 16 consecutive passes, and returns the state after the last pass
with the fill list emptied: every pass before the last left an element
unfilled, and the last left none unless it is pass 16.  The state after a pass
and its count of unfilled elements are what the loop over the fill list of the
call yields from the state before the pass and the count 0; only the velocity
arrays change; the count is 0 exactly when every element had, when the loop
reached it, a neighbour entry with a non-zero particle velocity.  For every
element `fid` of the fill list the loop body is run on the state `st` the
elements before it have left and yields the state `st'` from which the
elements after it lead to the state after the pass.  If no neighbour entry of
`fid` has a non-zero particle velocity in `st`, then `st'` is `st` with the
count one higher.  Otherwise the count stays and `st'` is `st` with the
particle velocity of `fid` and the velocity of each of its vertices set to the
mean of the non-zero particle velocities of its neighbour entries in `st`, one
per entry, every other entry of the two arrays being as in `st`; and unless
`fid` comes again later in the fill list, the state after the pass holds that
mean for `fid` as well.  An element that no pass fills has after the call the
velocities it had before. -/
theorem fill_with_nearest_neighbors (env : Env) (g : SpringLevelSet)
    (hWF : g.mConstellation.WF)
    (hpv : g.mConstellation.mParticleVelocity.length = g.mConstellation.springls.length)
    (hvv : g.mConstellation.mVertexVelocity.length = g.mConstellation.mVertexes.length)
    (hfill : ∀ fid ∈ g.fillList, fid < g.mConstellation.springls.length) :
    (g.fillList = [] → g.fillWithNearestNeighbors env = some g) ∧
    (g.fillWithNearestNeighbors env).map (fun r => r.fillList) = some [] ∧
    (g.fillList ≠ [] →
      ∃ (earlier : List FillPassRun) (last : FillPassRun),
        FillPasses (g.updateNearestNeighbors env) (earlier ++ [last]) ∧
        earlier.length + 1 ≤ 16 ∧
        (∀ x ∈ earlier, x.unfilledCount ≠ 0) ∧
        (earlier.length + 1 < 16 → last.unfilledCount = 0) ∧
        g.fillWithNearestNeighbors env = some { last.after with fillList := [] } ∧
        (∀ x ∈ earlier ++ [last],
          x.before.fillList = g.fillList ∧
          g.fillList.foldlM fillElement (x.before, 0) = some (x.after, x.unfilledCount) ∧
          x.after = x.before.withVelocities x.after.mConstellation.mParticleVelocity
            x.after.mConstellation.mVertexVelocity ∧
          (x.unfilledCount = 0 ↔
            ∀ pre fid post st, g.fillList = pre ++ fid :: post →
              pre.foldlM fillElement (x.before, 0) = some st →
              nonZeroNeighborVelocities st.1 (st.1.mConstellation.springls.getD fid default)
                ≠ []) ∧
          ∀ pre fid post, g.fillList = pre ++ fid :: post →
            ∃ st st', pre.foldlM fillElement (x.before, 0) = some st ∧
              fillElement st fid = some st' ∧
              post.foldlM fillElement st' = some (x.after, x.unfilledCount) ∧
              (nonZeroNeighborVelocities st.1 (st.1.mConstellation.springls.getD fid default)
                  = [] →
                st' = (st.1, st.2 + 1)) ∧
              (nonZeroNeighborVelocities st.1 (st.1.mConstellation.springls.getD fid default)
                  ≠ [] →
                st'.2 = st.2 ∧
                st'.1 = st.1.withVelocities st'.1.mConstellation.mParticleVelocity
                  st'.1.mConstellation.mVertexVelocity ∧
                st'.1.mConstellation.mParticleVelocity.length
                  = st.1.mConstellation.mParticleVelocity.length ∧
                st'.1.mConstellation.mVertexVelocity.length
                  = st.1.mConstellation.mVertexVelocity.length ∧
                (∀ i, st'.1.mConstellation.mParticleVelocity.getD i default
                  = if i = fid then
                      mean (nonZeroNeighborVelocities st.1
                        (st.1.mConstellation.springls.getD fid default))
                    else st.1.mConstellation.mParticleVelocity.getD i default) ∧
                (∀ j, st'.1.mConstellation.mVertexVelocity.getD j default
                  = if (st.1.mConstellation.springls.getD fid default).offset ≤ j ∧
                        j < (st.1.mConstellation.springls.getD fid default).offset
                          + st.1.mConstellation.size
                              (st.1.mConstellation.springls.getD fid default) then
                      mean (nonZeroNeighborVelocities st.1
                        (st.1.mConstellation.springls.getD fid default))
                    else st.1.mConstellation.mVertexVelocity.getD j default) ∧
                (fid ∉ post →
                  x.after.mConstellation.mParticleVelocity.getD fid default
                    = mean (nonZeroNeighborVelocities st.1
                        (st.1.mConstellation.springls.getD fid default)) ∧
                  ∀ n, n < st.1.mConstellation.size
                      (st.1.mConstellation.springls.getD fid default) →
                    x.after.mConstellation.mVertexVelocity.getD
                        ((st.1.mConstellation.springls.getD fid default).offset + n) default
                      = mean (nonZeroNeighborVelocities st.1
                          (st.1.mConstellation.springls.getD fid default))))) ∧
        (∀ e, e < g.mConstellation.springls.length →
          (∀ x ∈ earlier ++ [last], UnfilledInPass x.before e) →
          last.after.mConstellation.mParticleVelocity.getD e default
            = g.mConstellation.mParticleVelocity.getD e default ∧
          ∀ n, n < g.mConstellation.size (g.mConstellation.springls.getD e default) →
            last.after.mConstellation.mVertexVelocity.getD
                ((g.mConstellation.springls.getD e default).offset + n) default
              = g.mConstellation.mVertexVelocity.getD
                ((g.mConstellation.springls.getD e default).offset + n) default)) := by
  obtain ⟨ks, hL⟩ := hWF
  rw [hL.springls_length] at hpv hfill
  rw [hL.vertexes_len] at hvv
  have hR := updateNearestNeighbors_ready env g hL hpv hvv hfill
  obtain ⟨earlier, last, c1, c2, c3, c4, c5, c6, c7, c8⟩ :=
    fillCycles_runs 15 (g.updateNearestNeighbors env) hR
  have hres : g.fillList ≠ [] →
      g.fillWithNearestNeighbors env = some { last.after with fillList := [] } := by
    intro hne
    unfold SpringLevelSet.fillWithNearestNeighbors
    rw [if_pos (List.length_pos.mpr hne), c5]
  refine ⟨fun h => ?_, ?_, fun hne => ⟨earlier, last, c1, c2, c3, c4, hres hne,
    fun x hx => ?_, fun e he hU => ?_⟩⟩
  · unfold SpringLevelSet.fillWithNearestNeighbors
    rw [h]
    rfl
  · by_cases hne : g.fillList = []
    · unfold SpringLevelSet.fillWithNearestNeighbors
      rw [hne]
      exact congrArg some hne
    · rw [hres hne]
      rfl
  · obtain ⟨hRx, hfl⟩ := c6 x hx
    have hfl' : x.before.fillList = g.fillList := hfl
    have hpass : g.fillList.foldlM fillElement (x.before, 0)
        = some (x.after, x.unfilledCount) := by
      have := fillPasses_mem _ _ c1 x hx
      unfold fillPass at this
      rw [hfl'] at this
      exact this
    have hlt : ∀ fid ∈ g.fillList, fid < ks.length := hfill
    obtain ⟨r, r1, -, -, r4⟩ := fillPass_ready x.before hRx
    have hr : r = (x.after, x.unfilledCount) := by
      have := fillPasses_mem _ _ c1 x hx
      rw [r1] at this
      exact Option.some.inj this
    have hcount := (fillFold_count g.fillList x.before 0 hRx hlt _ hpass).2
    refine ⟨hfl', hpass, by rw [hr] at r4; exact r4, hcount, fun pre fid post hsplit => ?_⟩
    have hmem : ∀ y ∈ pre ++ fid :: post, y < ks.length := by
      intro y hy
      rw [← hsplit] at hy
      exact hlt y hy
    obtain ⟨st, t1, t2, -⟩ := fillFold_ready pre x.before 0 hRx
      (fun y hy => hmem y (List.mem_append_left _ hy))
    have hfid : fid < ks.length :=
      hmem fid (List.mem_append_right _ (List.mem_cons_self _ _))
    have hpost : ∀ y ∈ post, y < ks.length := fun y hy =>
      hmem y (List.mem_append_right _ (List.mem_cons_of_mem _ hy))
    obtain ⟨s1, s2⟩ := fillElement_spec st.1 t2 st.2 fid hfid
    have hsz := t2.layout.size_getD hfid
    have hoff : (st.1.mConstellation.springls.getD fid default).offset = offs ks fid := by
      rw [t2.layout.springl_getD hfid]
    by_cases hnz : nonZeroNeighborVelocities st.1
        (st.1.mConstellation.springls.getD fid default) = []
    · have hstep : fillElement st fid = some (st.1, st.2 + 1) := s1 hnz
      refine ⟨st, (st.1, st.2 + 1), t1, hstep, ?_, fun _ => rfl, fun h => absurd hnz h⟩
      rw [← fillFold_split pre post fid _ st _ t1 hstep, ← hsplit]
      exact hpass
    · have hstep := s2 hnz
      have hR1 := t2.withVelocities_ready
        (st.1.mConstellation.mParticleVelocity.set fid
          (mean (nonZeroNeighborVelocities st.1
            (st.1.mConstellation.springls.getD fid default))))
        ((List.range (ks.getD fid 0)).foldl
          (fun a k =>
            a.set (offs ks fid + k)
              (mean (nonZeroNeighborVelocities st.1
                (st.1.mConstellation.springls.getD fid default))))
          st.1.mConstellation.mVertexVelocity)
        (by rw [List.length_set]; exact t2.pv_len)
        (by rw [(setRange_spec _ (fun _ => _) default _ _).1]; exact t2.vv_len)
      have hrest := fillFold_split pre post fid _ st _ t1 hstep
      rw [← hsplit, hpass] at hrest
      have hvvget : ∀ j,
          ((List.range (ks.getD fid 0)).foldl
            (fun a k =>
              a.set (offs ks fid + k)
                (mean (nonZeroNeighborVelocities st.1
                  (st.1.mConstellation.springls.getD fid default))))
            st.1.mConstellation.mVertexVelocity).getD j default
            = if offs ks fid ≤ j ∧ j < offs ks fid + ks.getD fid 0 then
                mean (nonZeroNeighborVelocities st.1
                  (st.1.mConstellation.springls.getD fid default))
              else st.1.mConstellation.mVertexVelocity.getD j default := by
        intro j
        rw [(setRange_spec (offs ks fid) (fun _ => _) default _ _).2]
        have hb := offs_add_le ks fid hfid
        by_cases hj : offs ks fid ≤ j ∧ j < offs ks fid + ks.getD fid 0
        · rw [if_pos hj, if_pos ⟨hj.1, hj.2, by rw [t2.vv_len]; omega⟩]
        · rw [if_neg hj, if_neg (fun h => hj ⟨h.1, h.2.1⟩)]
      refine ⟨st, _, t1, hstep, hrest.symm, fun h => absurd h hnz, fun _ =>
        ⟨rfl, rfl, ?_, ?_, fun i => ?_, fun j => ?_, fun hnot => ?_⟩⟩
      · show (st.1.mConstellation.mParticleVelocity.set fid _).length = _
        rw [List.length_set]
      · show ((List.range (ks.getD fid 0)).foldl _ st.1.mConstellation.mVertexVelocity).length
          = _
        rw [(setRange_spec _ (fun _ => _) default _ _).1]
      · show (st.1.mConstellation.mParticleVelocity.set fid _).getD i default = _
        by_cases hi : i = fid
        · rw [if_pos hi, hi]
          exact getD_set_self _ _ _ (by rw [t2.pv_len]; exact hfid)
        · rw [if_neg hi]
          exact getD_set_ne _ _ _ (fun h => hi h.symm)
      · rw [hsz, hoff]
        exact hvvget j
      · obtain ⟨o1, o2⟩ := fillFold_other fid hfid post _ st.2 hR1 hpost hnot _ hrest.symm
        constructor
        · rw [o1]
          exact getD_set_self _ _ _ (by rw [t2.pv_len]; exact hfid)
        · intro n hn
          rw [hsz] at hn
          rw [hoff, o2 n hn]
          show ((List.range (ks.getD fid 0)).foldl _ st.1.mConstellation.mVertexVelocity).getD
            _ default = _
          rw [hvvget, if_pos ⟨by omega, by omega⟩]
  · rw [hL.springls_length] at he
    have hlast : last ∈ earlier ++ [last] :=
      List.mem_append_right _ (List.mem_singleton_self _)
    obtain ⟨d1, d2⟩ := fillPasses_unfilled e he (earlier ++ [last])
      (g.updateNearestNeighbors env) hR c1 hU last hlast
    refine ⟨d1, fun n hn => ?_⟩
    rw [hL.size_getD he] at hn
    rw [hL.springl_getD he]
    exact d2 n hn

theorem sampleFill_neighbors :
    (sampleFillGrid.updateNearestNeighbors stencilEnv).getNearestNeighbors 0 0 = [⟨1, 3, 0⟩] ∧
    (sampleFillGrid.updateNearestNeighbors stencilEnv).getNearestNeighbors 0 1 = [⟨1, 2, 0⟩] ∧
    (sampleFillGrid.updateNearestNeighbors stencilEnv).getNearestNeighbors 0 2
      = [⟨1, 3, 0⟩] := by
  have hL : sampleFillGrid.mConstellation.Layout [3, 4] :=
    sample_layout.with_optional _ _ _
  have h1 : sampleFillGrid.mConstellation = sampleTagged := rfl
  refine ⟨?_, ?_, ?_⟩
  · rw [updateNearestNeighbors_entries stencilEnv sampleFillGrid hL
      (by decide : 0 < [3, 4].length) (by decide : 0 < [3, 4].getD 0 0)]
    rw [h1, sampleTagged_eq]
    simp [neighborEntries, neighborCandidates, tmpRange, bestNeighbor, stencilEnv, sampleEnv,
      Constellation.getNumSpringls, Constellation.size, Constellation.vertex,
      Constellation.particle, Constellation.distanceToEdgeSqr, INVALID_IDX,
      NEAREST_NEIGHBOR_RANGE, MAX_NEAREST_NEIGHBORS, List.range_succ, List.insertionSort,
      List.orderedInsert]
    norm_num
  · rw [updateNearestNeighbors_entries stencilEnv sampleFillGrid hL
      (by decide : 0 < [3, 4].length) (by decide : 1 < [3, 4].getD 0 0)]
    rw [h1, sampleTagged_eq]
    simp [neighborEntries, neighborCandidates, tmpRange, bestNeighbor, stencilEnv, sampleEnv,
      Constellation.getNumSpringls, Constellation.size, Constellation.vertex,
      Constellation.particle, Constellation.distanceToEdgeSqr, INVALID_IDX,
      NEAREST_NEIGHBOR_RANGE, MAX_NEAREST_NEIGHBORS, List.range_succ, List.insertionSort,
      List.orderedInsert]
    norm_num
  · rw [updateNearestNeighbors_entries stencilEnv sampleFillGrid hL
      (by decide : 0 < [3, 4].length) (by decide : 2 < [3, 4].getD 0 0)]
    rw [h1, sampleTagged_eq]
    simp [neighborEntries, neighborCandidates, tmpRange, bestNeighbor, stencilEnv, sampleEnv,
      Constellation.getNumSpringls, Constellation.size, Constellation.vertex,
      Constellation.particle, Constellation.distanceToEdgeSqr, INVALID_IDX,
      NEAREST_NEIGHBOR_RANGE, MAX_NEAREST_NEIGHBORS, List.range_succ, List.insertionSort,
      List.orderedInsert]
    norm_num

theorem sampleFill_nonZero :
    nonZeroNeighborVelocities (sampleFillGrid.updateNearestNeighbors stencilEnv)
        ((sampleFillGrid.updateNearestNeighbors stencilEnv).mConstellation.springls.getD 0
          default)
      = [⟨2, 0, 0⟩, ⟨2, 0, 0⟩, ⟨2, 0, 0⟩] := by
  have hL : sampleFillGrid.mConstellation.Layout [3, 4] :=
    sample_layout.with_optional _ _ _
  have hc : (sampleFillGrid.updateNearestNeighbors stencilEnv).mConstellation
      = sampleFillGrid.mConstellation := rfl
  have hs : sampleFillGrid.mConstellation.springls.getD 0 default = ⟨0, 0⟩ := by
    rw [hL.springl_getD (by decide)]
    rfl
  have hsz : sampleFillGrid.mConstellation.size ⟨0, 0⟩ = 3 := by
    have := hL.size_getD (by decide : 0 < [3, 4].length)
    rw [hs] at this
    exact this
  have hpv : sampleFillGrid.mConstellation.mParticleVelocity = [⟨1, 0, 0⟩, ⟨2, 0, 0⟩] := rfl
  obtain ⟨n0, n1, n2⟩ := sampleFill_neighbors
  unfold nonZeroNeighborVelocities fillNeighbors
  rw [hc, hs, hsz]
  simp only [List.range_succ, List.range_zero, List.nil_append, List.cons_append,
    List.flatMap_cons, List.flatMap_nil, n0, n1, n2, List.append_nil, List.map_cons,
    List.map_nil, hpv]
  simp [Vec3s.lengthSqr, List.filter]

theorem fill_with_nearest_neighbors_witness :
    (sampleFillGrid.fillWithNearestNeighbors stencilEnv).map (fun r => r.fillList) = some [] ∧
    (sampleFillGrid.fillWithNearestNeighbors stencilEnv).map
        (fun r => r.mConstellation.mParticleVelocity.getD 0 default)
      = some ⟨2, 0, 0⟩ := by
  have hthm := fill_with_nearest_neighbors stencilEnv sampleFillGrid
    ⟨_, sample_layout.with_optional _ _ _⟩
    (by
      show sampleTagged.mParticleVelocity.length = sampleTagged.springls.length
      rw [sampleTagged_eq]; rfl)
    (by
      show sampleTagged.mVertexVelocity.length = sampleTagged.mVertexes.length
      rw [sampleTagged_eq]; rfl)
    (by
      intro fid hfid
      have h0 : fid = 0 := by simpa [sampleFillGrid] using hfid
      show fid < sampleTagged.springls.length
      rw [sampleTagged_eq, h0]
      decide)
  refine ⟨hthm.2.1, ?_⟩
  obtain ⟨earlier, last, c1, -, c3, -, c5, c6, -⟩ := hthm.2.2 (by simp [sampleFillGrid])
  have hfl : sampleFillGrid.fillList = [] ++ 0 :: [] := rfl
  have hmean : mean [(⟨2, 0, 0⟩ : Vec3s), ⟨2, 0, 0⟩, ⟨2, 0, 0⟩] = ⟨2, 0, 0⟩ := by
    simp [mean, Vec3s.smul, Vec3s.add, Vec3s.zero]
    norm_num
  have key : ∀ x ∈ earlier ++ [last],
      x.before = sampleFillGrid.updateNearestNeighbors stencilEnv →
      x.unfilledCount = 0 ∧
      x.after.mConstellation.mParticleVelocity.getD 0 default = ⟨2, 0, 0⟩ := by
    intro x hx hb
    obtain ⟨st, st', t1, -, t3, -, t5⟩ := (c6 x hx).2.2.2.2 [] 0 [] hfl
    have hst : st = (sampleFillGrid.updateNearestNeighbors stencilEnv, 0) := by
      have h : some (x.before, 0) = some st := t1
      rw [hb] at h
      exact (Option.some.inj h).symm
    have hst' : st' = (x.after, x.unfilledCount) := by
      have h : some st' = some (x.after, x.unfilledCount) := t3
      exact Option.some.inj h
    rw [hst, sampleFill_nonZero] at t5
    obtain ⟨u1, -, -, -, -, -, u7⟩ := t5 (by simp)
    rw [hst'] at u1
    exact ⟨u1, by rw [← hmean]; exact (u7 (by simp)).1⟩
  cases earlier with
  | nil =>
    have hb : last.before = sampleFillGrid.updateNearestNeighbors stencilEnv := c1.1
    rw [c5]
    exact congrArg some (key last (by simp) hb).2
  | cons y ys =>
    have hb : y.before = sampleFillGrid.updateNearestNeighbors stencilEnv := c1.1
    exact absurd (key y (by simp) hb).1 (c3 y (by simp))

/-! ### The loop of `advect1` in double precision -/

theorem rounded_EPS_pos : 0 < Rounded.EPS := by unfold Rounded.EPS; positivity

theorem dbl_le_EPS : DBL_1E_30 ≤ Rounded.EPS := by
  unfold DBL_1E_30 Rounded.EPS; norm_num

theorem rounded_max (v : ℚ) : max DBL_1E_30 (max Rounded.EPS v) = max v Rounded.EPS := by
  rw [max_eq_right (le_trans dbl_le_EPS (le_max_left _ _)), max_comm]

/-- The sample values are `double` values, and they are the nearest ones to
the exact results they stand for. -/
theorem sampleDouble_rounds :
    (HALF_BY_EPS = 7105427335069146 * 2 ^ 46 ∧
      |HALF_BY_EPS - 1 / 2 / Rounded.EPS| < 2 ^ 45) ∧
    (DBL_0_9_MINUS_0_3 = 5404319552844596 / 2 ^ 53 ∧
      |DBL_0_9_MINUS_0_3 - (DBL_0_9 - DBL_0_3)| ≤ 1 / 2 ^ 54) ∧
    (DBL_0_3_PLUS_REST = 8106479329266894 / 2 ^ 53 ∧
      |DBL_0_3_PLUS_REST - (DBL_0_3 + DBL_0_9_MINUS_0_3)| ≤ 1 / 2 ^ 54) ∧
    ((10 : ℚ) ^ 20 = 6103515625000000 * 2 ^ 14 ∧ |(10 : ℚ) ^ 20 - (10 ^ 20 + 1)| < 2 ^ 13) ∧
    (DBL_0_86_MINUS_0_2 = 5944751508129054 / 2 ^ 53 ∧
      |DBL_0_86_MINUS_0_2 - (DBL_0_86 - DBL_0_2)| ≤ 1 / 2 ^ 54) ∧
    (DBL_0_2_PLUS_REST = 7746191359077252 / 2 ^ 53 ∧
      |DBL_0_2_PLUS_REST - (DBL_0_2 + DBL_0_86_MINUS_0_2)| ≤ 1 / 2 ^ 54) ∧
    |DBL_0_3 - 3 / 10| < 1 / 2 ^ 55 ∧ |DBL_0_9 - 9 / 10| < 1 / 2 ^ 54 ∧
    |DBL_0_2 - 2 / 10| < 1 / 2 ^ 56 ∧ |DBL_0_86 - 86 / 100| < 1 / 2 ^ 54 ∧
    |DBL_1E30 - 10 ^ 30| < 2 ^ 46 ∧ DBL_1E30 = 7105427357601002 * 2 ^ 47 := by
  unfold HALF_BY_EPS Rounded.EPS DBL_0_9_MINUS_0_3 DBL_0_9 DBL_0_3 DBL_0_3_PLUS_REST DBL_1E30
    DBL_0_86_MINUS_0_2 DBL_0_86 DBL_0_2 DBL_0_2_PLUS_REST
  refine ⟨⟨by norm_num, ?_⟩, ⟨by norm_num, ?_⟩, ⟨by norm_num, ?_⟩, ⟨by norm_num, ?_⟩,
    ⟨by norm_num, ?_⟩, ⟨by norm_num, ?_⟩, ?_, ?_, ?_, ?_, ?_, by norm_num⟩
  · rw [abs_lt]; constructor <;> norm_num
  · rw [abs_le]; constructor <;> norm_num
  · rw [abs_le]; constructor <;> norm_num
  · rw [abs_lt]; constructor <;> norm_num
  · rw [abs_le]; constructor <;> norm_num
  · rw [abs_le]; constructor <;> norm_num
  · rw [abs_lt]; constructor <;> norm_num
  · rw [abs_lt]; constructor <;> norm_num
  · rw [abs_lt]; constructor <;> norm_num
  · rw [abs_lt]; constructor <;> norm_num
  · rw [abs_lt]; constructor <;> norm_num

theorem rounded_done {σ : Type} (fl : DoubleArith) (ops : AdvectOps σ) (scheme : MotionScheme)
    (scale mEndTime : ℚ) (fuel : Nat) (st : LoopState σ) (h : ¬ st.time < mEndTime) :
    Rounded.subStepLoop fl ops scheme scale mEndTime fuel st = some st := by
  cases fuel with
  | zero => unfold Rounded.subStepLoop; rw [if_neg h]
  | succ fuel => unfold Rounded.subStepLoop; dsimp only; rw [if_neg h]

/-- The record of sub-steps only grows along the loop. -/
theorem rounded_steps_mono {σ : Type} (fl : DoubleArith) (ops : AdvectOps σ)
    (scheme : MotionScheme) (scale mEndTime : ℚ) :
    ∀ (fuel : Nat) (st r : LoopState σ),
      Rounded.subStepLoop fl ops scheme scale mEndTime fuel st = some r →
      ∀ x ∈ st.steps, x ∈ r.steps := by
  intro fuel
  induction fuel with
  | zero =>
    intro st r h x hx
    unfold Rounded.subStepLoop at h
    split at h
    · exact absurd h (by simp)
    · injection h with h; subst h; exact hx
  | succ fuel ih =>
    intro st r h x hx
    unfold Rounded.subStepLoop at h
    dsimp only at h
    split at h
    · split at h
      · injection h with h; subst h; exact hx
      · exact ih _ r h x (List.mem_append_left _ hx)
    · injection h with h; subst h; exact hx

theorem sampleDouble_add_exact (a b : ℚ) (h1 : a ≠ 10 ^ 20) (h2 : a ≠ DBL_0_3)
    (h3 : a ≠ DBL_0_2) : sampleDouble.add a b = a + b := by
  simp [sampleDouble, h1, h2, h3]

theorem sampleDouble_sub_exact (a b : ℚ) (h : a ≠ DBL_0_9) (h2 : b ≠ DBL_0_2) :
    sampleDouble.sub a b = a - b := by
  simp [sampleDouble, h, h2]

/-- The step of the sample `double` arithmetic at zero velocity and voxel
scale 1 is the smaller of the rounded quotient and the rounded remaining
time. -/
theorem sample_zero_step (mEndTime time : ℚ) :
    Rounded.stepSize sampleDouble 1 0 mEndTime time
      = min HALF_BY_EPS (sampleDouble.sub mEndTime time) := by
  have hm : max DBL_1E_30 (max Rounded.EPS 0) = Rounded.EPS := by
    rw [rounded_max, max_eq_right rounded_EPS_pos.le]
  have hq : (0 : ℚ) ≤ HALF_BY_EPS := by unfold HALF_BY_EPS; norm_num
  unfold Rounded.stepSize clamp
  rw [hm]
  have hd : sampleDouble.div (MAX_VEXT * 1) Rounded.EPS = HALF_BY_EPS := by
    simp [sampleDouble, MAX_VEXT]
  rw [hd, max_eq_left hq]

theorem sample_two_steps :
    Rounded.subStepLoop sampleDouble stillOps MotionScheme.EXPLICIT 1 DBL_0_86 3
        (loopInit 0 DBL_0_2)
      = some
          { s := 0, time := DBL_0_86, dt := 1 / 2 ^ 53
            steps := [⟨DBL_0_2, 0, DBL_0_86_MINUS_0_2⟩, ⟨DBL_0_2_PLUS_REST, 0, 1 / 2 ^ 53⟩]
            events :=
              [AdvectEvent.advectSpringls DBL_0_2 DBL_0_86_MINUS_0_2,
                AdvectEvent.advectVertexes DBL_0_2 DBL_0_86_MINUS_0_2,
                AdvectEvent.advectSpringls DBL_0_2_PLUS_REST (1 / 2 ^ 53),
                AdvectEvent.advectVertexes DBL_0_2_PLUS_REST (1 / 2 ^ 53)] } := by
  have h1 : Rounded.stepSize sampleDouble 1 0 DBL_0_86 DBL_0_2 = DBL_0_86_MINUS_0_2 := by
    rw [sample_zero_step]
    have h : ¬ (DBL_0_86 = DBL_0_9 ∧ DBL_0_2 = DBL_0_3) := by
      unfold DBL_0_86 DBL_0_9; norm_num
    have : sampleDouble.sub DBL_0_86 DBL_0_2 = DBL_0_86_MINUS_0_2 := by
      simp only [sampleDouble, h, if_false, and_self, if_true]
    rw [this]
    unfold HALF_BY_EPS DBL_0_86_MINUS_0_2
    norm_num
  have h2 : Rounded.stepSize sampleDouble 1 0 DBL_0_86 DBL_0_2_PLUS_REST = 1 / 2 ^ 53 := by
    rw [sample_zero_step, sampleDouble_sub_exact _ _ (by unfold DBL_0_86 DBL_0_9; norm_num)
      (by unfold DBL_0_2_PLUS_REST DBL_0_2; norm_num)]
    unfold HALF_BY_EPS DBL_0_86 DBL_0_2_PLUS_REST
    norm_num
  have a1 : sampleDouble.add DBL_0_2 DBL_0_86_MINUS_0_2 = DBL_0_2_PLUS_REST := by
    have h : ¬ (DBL_0_2 = 10 ^ 20 ∧ DBL_0_86_MINUS_0_2 = 1) := by
      unfold DBL_0_2; norm_num
    have h' : ¬ (DBL_0_2 = DBL_0_3 ∧ DBL_0_86_MINUS_0_2 = DBL_0_9_MINUS_0_3) := by
      unfold DBL_0_2 DBL_0_3; norm_num
    simp only [sampleDouble, h, h', if_false, and_self, if_true]
  have a2 : sampleDouble.add DBL_0_2_PLUS_REST (1 / 2 ^ 53) = DBL_0_86 := by
    rw [sampleDouble_add_exact _ _ (by unfold DBL_0_2_PLUS_REST; norm_num)
      (by unfold DBL_0_2_PLUS_REST DBL_0_3; norm_num)
      (by unfold DBL_0_2_PLUS_REST DBL_0_2; norm_num)]
    unfold DBL_0_2_PLUS_REST DBL_0_86
    norm_num
  have b1 : ¬ (DBL_0_86_MINUS_0_2 < Rounded.EPS) := by
    unfold DBL_0_86_MINUS_0_2 Rounded.EPS; norm_num
  have b2 : ¬ ((1 : ℚ) / 2 ^ 53 < Rounded.EPS) := by
    unfold Rounded.EPS; norm_num
  have c0 : DBL_0_2 < DBL_0_86 := by unfold DBL_0_2 DBL_0_86; norm_num
  have c1 : DBL_0_2_PLUS_REST < DBL_0_86 := by
    unfold DBL_0_2_PLUS_REST DBL_0_86; norm_num
  have hst : stillOps.maxSpeed = fun _ _ => 0 := rfl
  simp only [Rounded.subStepLoop, loopInit, hst, h1, h2, a1, a2, b1, b2, c0, c1, if_true,
    if_false, lt_irrefl, List.nil_append, List.append_assoc, List.cons_append, List.append_nil]
  simp [stillOps]

theorem rounded_events_mono {σ : Type} (fl : DoubleArith) (ops : AdvectOps σ)
    (scheme : MotionScheme) (scale mEndTime : ℚ) :
    ∀ (fuel : Nat) (st r : LoopState σ),
      Rounded.subStepLoop fl ops scheme scale mEndTime fuel st = some r →
      ∀ x ∈ st.events, x ∈ r.events := by
  intro fuel
  induction fuel with
  | zero =>
    intro st r h x hx
    unfold Rounded.subStepLoop at h
    split at h
    · exact absurd h (by simp)
    · injection h with h; subst h; exact hx
  | succ fuel ih =>
    intro st r h x hx
    unfold Rounded.subStepLoop at h
    dsimp only at h
    split at h
    · split at h
      · injection h with h; subst h; exact hx
      · exact ih _ r h x
          (List.mem_append_left _ (List.mem_append_left _ (List.mem_append_left _ hx)))
    · injection h with h; subst h; exact hx

theorem sample_unit_run :
    Rounded.subStepLoop sampleDouble stillOps MotionScheme.SEMI_IMPLICIT 1 1 2 (loopInit 0 0)
      = some
          { s := 1, time := 1, dt := 1, steps := [⟨0, 0, 1⟩]
            events := [AdvectEvent.advectSpringls 0 1, AdvectEvent.track 0] } := by
  have h1 : Rounded.stepSize sampleDouble 1 0 1 0 = 1 := by
    rw [sample_zero_step, sampleDouble_sub_exact _ _ (by unfold DBL_0_9; norm_num)
      (by unfold DBL_0_2; norm_num)]
    unfold HALF_BY_EPS
    norm_num
  have a1 : sampleDouble.add 0 1 = 1 := by
    rw [sampleDouble_add_exact _ _ (by norm_num) (by unfold DBL_0_3; norm_num)
      (by unfold DBL_0_2; norm_num), zero_add]
  have b1 : ¬ ((1 : ℚ) < Rounded.EPS) := by unfold Rounded.EPS; norm_num
  have hst : stillOps.maxSpeed = fun _ _ => 0 := rfl
  simp only [Rounded.subStepLoop, loopInit, hst, h1, a1, b1, if_true, if_false, lt_irrefl,
    zero_lt_one, List.nil_append, List.append_assoc, List.cons_append, List.append_nil]
  simp [stillOps]

/-- C10, as stated, fails.  With a velocity that is zero throughout, voxel
scale 1 and the interval `[0, 1]`, the loop in `SEMI_IMPLICIT` mode does not
exit early: it integrates the particles over the whole interval and runs one
maintenance cycle, which the sample operators count in the state.  No operation
of this run is rounded in `double` arithmetic. -/
theorem zero_velocity_loop_tracks :
    (Rounded.subStepLoop sampleDouble stillOps MotionScheme.SEMI_IMPLICIT 1 1 2
        (loopInit 0 0)).map (fun r => (r.s, r.events))
      = some (1, [AdvectEvent.advectSpringls 0 1, AdvectEvent.track 0]) := by
  rw [sample_unit_run]
  rfl

/-- C10, amended.  When the computed maximum velocity is 0 throughout and
`t0 < t1`, the first iteration of the sub-step loop computes the step
`dt = clamp(0.5·voxelScale / EPS, 0, t1 − t0)` in `double` arithmetic, `EPS`
being the value of `1E-30f`.  If `dt < EPS` the loop exits at once: nothing is
executed and the state is the one before the loop.  If `dt ≥ EPS` the loop does
not exit early: it executes the particle integration over `(t0, dt)`, in
`EXPLICIT` mode the vertex integration, and in `SEMI_IMPLICIT` mode one
maintenance cycle, and goes on from the time `t0 + dt`; every run of the loop
that returns has executed them; and when `t0 + dt` reaches `t1` this is the
only sub-step. -/
theorem zero_velocity_loop {σ : Type} (fl : DoubleArith) (ops : AdvectOps σ)
    (scheme : MotionScheme) (scale mStartTime mEndTime : ℚ)
    (hzero : ∀ s t, ops.maxSpeed s t = 0) (ht : mStartTime < mEndTime) (s : σ) :
    Rounded.stepSize fl scale 0 mEndTime mStartTime
      = clamp (fl.div (MAX_VEXT * scale) Rounded.EPS) 0 (fl.sub mEndTime mStartTime) ∧
    (Rounded.stepSize fl scale 0 mEndTime mStartTime < Rounded.EPS →
      ∀ fuel, Rounded.subStepLoop fl ops scheme scale mEndTime (fuel + 1)
          (loopInit s mStartTime)
        = some
            { s := s, time := mStartTime
              dt := Rounded.stepSize fl scale 0 mEndTime mStartTime
              steps := [], events := [] }) ∧
    (Rounded.EPS ≤ Rounded.stepSize fl scale 0 mEndTime mStartTime →
      (∀ fuel, Rounded.subStepLoop fl ops scheme scale mEndTime (fuel + 1)
          (loopInit s mStartTime)
        = Rounded.subStepLoop fl ops scheme scale mEndTime fuel
            { s :=
                if scheme = MotionScheme.SEMI_IMPLICIT then
                  ops.track
                    (if scheme = MotionScheme.EXPLICIT then
                      ops.advectVertexes
                        (ops.advectSpringls s mStartTime
                          (Rounded.stepSize fl scale 0 mEndTime mStartTime))
                        mStartTime (Rounded.stepSize fl scale 0 mEndTime mStartTime)
                    else
                      ops.advectSpringls s mStartTime
                        (Rounded.stepSize fl scale 0 mEndTime mStartTime))
                    mStartTime
                else if scheme = MotionScheme.EXPLICIT then
                  ops.advectVertexes
                    (ops.advectSpringls s mStartTime
                      (Rounded.stepSize fl scale 0 mEndTime mStartTime))
                    mStartTime (Rounded.stepSize fl scale 0 mEndTime mStartTime)
                else
                  ops.advectSpringls s mStartTime
                    (Rounded.stepSize fl scale 0 mEndTime mStartTime)
              time := fl.add mStartTime (Rounded.stepSize fl scale 0 mEndTime mStartTime)
              dt := Rounded.stepSize fl scale 0 mEndTime mStartTime
              steps := [⟨mStartTime, 0, Rounded.stepSize fl scale 0 mEndTime mStartTime⟩]
              events :=
                [AdvectEvent.advectSpringls mStartTime
                    (Rounded.stepSize fl scale 0 mEndTime mStartTime)]
                  ++ (if scheme = MotionScheme.EXPLICIT then
                        [AdvectEvent.advectVertexes mStartTime
                          (Rounded.stepSize fl scale 0 mEndTime mStartTime)] else [])
                  ++ (if scheme = MotionScheme.SEMI_IMPLICIT then
                        [AdvectEvent.track mStartTime] else []) }) ∧
      (∀ (fuel : Nat) (r : LoopState σ),
        Rounded.subStepLoop fl ops scheme scale mEndTime fuel (loopInit s mStartTime) = some r →
        (⟨mStartTime, 0, Rounded.stepSize fl scale 0 mEndTime mStartTime⟩ : SubStep) ∈ r.steps ∧
        AdvectEvent.advectSpringls mStartTime
            (Rounded.stepSize fl scale 0 mEndTime mStartTime) ∈ r.events ∧
        (scheme = MotionScheme.EXPLICIT →
          AdvectEvent.advectVertexes mStartTime
            (Rounded.stepSize fl scale 0 mEndTime mStartTime) ∈ r.events) ∧
        (scheme = MotionScheme.SEMI_IMPLICIT → AdvectEvent.track mStartTime ∈ r.events)) ∧
      (mEndTime ≤ fl.add mStartTime (Rounded.stepSize fl scale 0 mEndTime mStartTime) →
        ∀ fuel, (Rounded.subStepLoop fl ops scheme scale mEndTime (fuel + 1)
            (loopInit s mStartTime)).map (fun r => (r.steps, r.events))
          = some
              ([⟨mStartTime, 0, Rounded.stepSize fl scale 0 mEndTime mStartTime⟩],
                [AdvectEvent.advectSpringls mStartTime
                    (Rounded.stepSize fl scale 0 mEndTime mStartTime)]
                  ++ (if scheme = MotionScheme.EXPLICIT then
                        [AdvectEvent.advectVertexes mStartTime
                          (Rounded.stepSize fl scale 0 mEndTime mStartTime)] else [])
                  ++ (if scheme = MotionScheme.SEMI_IMPLICIT then
                        [AdvectEvent.track mStartTime] else [])))) := by
  have hm : max DBL_1E_30 (max Rounded.EPS 0) = Rounded.EPS := by
    rw [rounded_max, max_eq_right rounded_EPS_pos.le]
  have hstep : ∀ fuel, Rounded.EPS ≤ Rounded.stepSize fl scale 0 mEndTime mStartTime →
      Rounded.subStepLoop fl ops scheme scale mEndTime (fuel + 1) (loopInit s mStartTime)
        = Rounded.subStepLoop fl ops scheme scale mEndTime fuel
            { s :=
                if scheme = MotionScheme.SEMI_IMPLICIT then
                  ops.track
                    (if scheme = MotionScheme.EXPLICIT then
                      ops.advectVertexes
                        (ops.advectSpringls s mStartTime
                          (Rounded.stepSize fl scale 0 mEndTime mStartTime))
                        mStartTime (Rounded.stepSize fl scale 0 mEndTime mStartTime)
                    else
                      ops.advectSpringls s mStartTime
                        (Rounded.stepSize fl scale 0 mEndTime mStartTime))
                    mStartTime
                else if scheme = MotionScheme.EXPLICIT then
                  ops.advectVertexes
                    (ops.advectSpringls s mStartTime
                      (Rounded.stepSize fl scale 0 mEndTime mStartTime))
                    mStartTime (Rounded.stepSize fl scale 0 mEndTime mStartTime)
                else
                  ops.advectSpringls s mStartTime
                    (Rounded.stepSize fl scale 0 mEndTime mStartTime)
              time := fl.add mStartTime (Rounded.stepSize fl scale 0 mEndTime mStartTime)
              dt := Rounded.stepSize fl scale 0 mEndTime mStartTime
              steps := [⟨mStartTime, 0, Rounded.stepSize fl scale 0 mEndTime mStartTime⟩]
              events :=
                [AdvectEvent.advectSpringls mStartTime
                    (Rounded.stepSize fl scale 0 mEndTime mStartTime)]
                  ++ (if scheme = MotionScheme.EXPLICIT then
                        [AdvectEvent.advectVertexes mStartTime
                          (Rounded.stepSize fl scale 0 mEndTime mStartTime)] else [])
                  ++ (if scheme = MotionScheme.SEMI_IMPLICIT then
                        [AdvectEvent.track mStartTime] else []) } := by
    intro fuel hge
    conv_lhs => unfold Rounded.subStepLoop
    dsimp only [loopInit]
    rw [if_pos ht, hzero, if_neg (not_lt.mpr hge)]
    congr 2
  refine ⟨by unfold Rounded.stepSize; rw [hm], fun hlt fuel => ?_, fun hge =>
    ⟨fun fuel => hstep fuel hge, fun fuel r hr => ?_, fun hend fuel => ?_⟩⟩
  · unfold Rounded.subStepLoop
    dsimp only [loopInit]
    rw [if_pos ht, hzero, if_pos hlt]
  · cases fuel with
    | zero =>
      unfold Rounded.subStepLoop at hr
      rw [if_pos (show (loopInit s mStartTime).time < mEndTime from ht)] at hr
      exact absurd hr (by simp)
    | succ fuel =>
      rw [hstep fuel hge] at hr
      have hs := rounded_steps_mono fl ops scheme scale mEndTime fuel _ r hr
      have he := rounded_events_mono fl ops scheme scale mEndTime fuel _ r hr
      refine ⟨hs _ (by simp), he _ (by simp), fun hE => he _ (by simp [hE]),
        fun hS => he _ (by simp [hS])⟩
  · rw [hstep fuel hge, rounded_done _ _ _ _ _ _ _ (by dsimp only; exact not_lt.mpr hend)]
    rfl

theorem zero_velocity_loop_witness :
    (Rounded.subStepLoop sampleDouble stillOps MotionScheme.SEMI_IMPLICIT 1 DBL_1E_30 (0 + 1)
        (loopInit 0 0)
      = some { s := 0, time := 0, dt := DBL_1E_30, steps := [], events := [] }) ∧
    ((Rounded.subStepLoop sampleDouble stillOps MotionScheme.SEMI_IMPLICIT 1 1 (1 + 1)
        (loopInit 0 0)).map (fun r => (r.steps, r.events))
      = some ([⟨0, 0, 1⟩], [AdvectEvent.advectSpringls 0 1, AdvectEvent.track 0])) := by
  have hpos : (0 : ℚ) < DBL_1E_30 := by unfold DBL_1E_30; norm_num
  have h0 : Rounded.stepSize sampleDouble 1 0 DBL_1E_30 0 = DBL_1E_30 := by
    rw [sample_zero_step,
      sampleDouble_sub_exact _ _ (by unfold DBL_1E_30 DBL_0_9; norm_num)
      (by unfold DBL_0_2; norm_num)]
    unfold HALF_BY_EPS DBL_1E_30
    norm_num
  have h1 : Rounded.stepSize sampleDouble 1 0 1 0 = 1 := by
    rw [sample_zero_step, sampleDouble_sub_exact _ _ (by unfold DBL_0_9; norm_num)
      (by unfold DBL_0_2; norm_num)]
    unfold HALF_BY_EPS
    norm_num
  have a1 : sampleDouble.add 0 1 = 1 := by
    rw [sampleDouble_add_exact _ _ (by norm_num) (by unfold DBL_0_3; norm_num)
      (by unfold DBL_0_2; norm_num), zero_add]
  constructor
  · have h := (zero_velocity_loop sampleDouble stillOps MotionScheme.SEMI_IMPLICIT 1 0 DBL_1E_30
      (fun _ _ => rfl) hpos 0).2.1
      (by rw [h0]; unfold DBL_1E_30 Rounded.EPS; norm_num) 0
    rw [h0] at h
    exact h
  · have h := ((zero_velocity_loop sampleDouble stillOps MotionScheme.SEMI_IMPLICIT 1 0 1
      (fun _ _ => rfl) (by norm_num) 0).2.2
      (by rw [h1]; unfold Rounded.EPS; norm_num)).2.2
      (by rw [h1, a1]) 1
    rw [h1] at h
    exact h

end imagesci
